import Mathlib

/-!
# b2DynamicTree: a shallow embedding of `Box2D/Collision/b2DynamicTree.cpp`

The dynamic-tree back end (`B2_USE_DYNAMIC_TREE`) is embedded as pure functions on an
explicit tree state.  `float32` is read as exact arithmetic in an arbitrary linearly
ordered commutative ring `α` (so every theorem holds for `ℚ` and for `ℤ`), `int32`
indices are `Int` with `b2_nullNode = -1`, and the node pool `m_nodes` is a list whose
length is `m_nodeCapacity`.  A `b2Assert` that fails, a read or write outside the pool,
and a loop that runs out of fuel all yield `none`.
-/

set_option autoImplicit false
set_option linter.unusedSectionVars false

namespace b2

/-! ## The AABB kernel -/

/-- Modelled from the spec: the 2D vector `b2Vec2` of `b2Math.h`, which is not under `src/`. -/
structure b2Vec2 (α : Type) where
  x : α
  y : α
deriving DecidableEq, Repr

/-- Modelled from the spec: the box `b2AABB` of `b2Collision.h` (glossary: a pair of corner
points `(lower, upper)`), which is not under `src/`. -/
structure b2AABB (α : Type) where
  lowerBound : b2Vec2 α
  upperBound : b2Vec2 α
deriving DecidableEq, Repr

/-- The sentinel index `b2_nullNode`. -/
def b2_nullNode : Int := -1

section Kernel

variable {α : Type} [LinearOrderedCommRing α]

/-- Modelled from the spec: `b2AABB::GetPerimeter`, glossary `2·((hi.x−lo.x)+(hi.y−lo.y))`. -/
def b2AABB.GetPerimeter (a : b2AABB α) : α :=
  2 * ((a.upperBound.x - a.lowerBound.x) + (a.upperBound.y - a.lowerBound.y))

/-- Modelled from the spec: `b2AABB::Combine(a, b)`, the componentwise union of two boxes. -/
def b2AABB.Combine (a b : b2AABB α) : b2AABB α :=
  { lowerBound := ⟨min a.lowerBound.x b.lowerBound.x, min a.lowerBound.y b.lowerBound.y⟩
    upperBound := ⟨max a.upperBound.x b.upperBound.x, max a.upperBound.y b.upperBound.y⟩ }

/-- Modelled from the spec: `b2AABB::Contains(b)`, `lower ≤ b.lower` and `b.upper ≤ upper`
componentwise. -/
def b2AABB.Contains (a b : b2AABB α) : Prop :=
  a.lowerBound.x ≤ b.lowerBound.x ∧ a.lowerBound.y ≤ b.lowerBound.y ∧
    b.upperBound.x ≤ a.upperBound.x ∧ b.upperBound.y ≤ a.upperBound.y

instance (a b : b2AABB α) : Decidable (a.Contains b) := by
  unfold b2AABB.Contains; infer_instance

/-- The box `aabb` grown by `r` on every side (`lowerBound - r`, `upperBound + r`), as
`CreateProxy` and `MoveProxy` compute it with `r = (b2_aabbExtension, b2_aabbExtension)`. -/
def b2AABB.Fatten (ext : α) (aabb : b2AABB α) : b2AABB α :=
  { lowerBound := ⟨aabb.lowerBound.x - ext, aabb.lowerBound.y - ext⟩
    upperBound := ⟨aabb.upperBound.x + ext, aabb.upperBound.y + ext⟩ }

end Kernel

/-! ## Nodes and the tree state -/

/-- A node of the pool, `b2TreeNode`.  The C union `parent`/`next` is the single field
`parent`; `userData` is an opaque pointer value. -/
structure b2TreeNode (α : Type) where
  aabb : b2AABB α
  userData : Nat
  parent : Int
  child1 : Int
  child2 : Int
  height : Int
deriving DecidableEq, Repr

/-- Modelled from the spec: `b2TreeNode::IsLeaf` of `b2DynamicTree.h` (not under `src/`),
which tests `child1 == b2_nullNode`. -/
def b2TreeNode.IsLeaf {α : Type} (n : b2TreeNode α) : Bool := n.child1 == b2_nullNode

/-- The state of a `b2DynamicTree`.  `m_nodeCapacity` is the length of `m_nodes`. -/
structure b2DynamicTree (α : Type) where
  m_root : Int
  m_nodes : List (b2TreeNode α)
  m_nodeCount : Int
  m_freeList : Int
  m_path : Int
  m_insertionCount : Int
deriving DecidableEq, Repr

section Model

variable {α : Type} [LinearOrderedCommRing α]

/-- A node whose bytes are all zero (`memset(m_nodes, 0, ...)`). -/
def zeroNode : b2TreeNode α :=
  { aabb := ⟨⟨0, 0⟩, ⟨0, 0⟩⟩, userData := 0, parent := 0, child1 := 0, child2 := 0, height := 0 }

instance : Inhabited (b2TreeNode α) := ⟨zeroNode⟩

namespace b2DynamicTree

/-- The number of slots of the pool, `m_nodeCapacity`. -/
def m_nodeCapacity (t : b2DynamicTree α) : Int := t.m_nodes.length

/-- The index `i` designates a slot of the pool: `0 <= i && i < m_nodeCapacity`. -/
def InRange (t : b2DynamicTree α) (i : Int) : Prop := 0 ≤ i ∧ i < t.m_nodeCapacity

instance (t : b2DynamicTree α) (i : Int) : Decidable (t.InRange i) := by
  unfold InRange; infer_instance

/-- The node `m_nodes[i]`; a zero node outside the pool (every use is guarded). -/
def nd (t : b2DynamicTree α) (i : Int) : b2TreeNode α :=
  if 0 ≤ i then t.m_nodes.getD i.toNat default else default

/-- The write `m_nodes[i] = f(m_nodes[i])`; no effect outside the pool (every use is guarded). -/
def upd (t : b2DynamicTree α) (i : Int) (f : b2TreeNode α → b2TreeNode α) : b2DynamicTree α :=
  if 0 ≤ i then { t with m_nodes := t.m_nodes.set i.toNat (f (t.nd i)) } else t

/-- The write `m_nodes[i].parent = p` (also `m_nodes[i].next = p`). -/
def setParent (t : b2DynamicTree α) (i p : Int) : b2DynamicTree α :=
  t.upd i fun n => { n with parent := p }

/-- The write `m_nodes[i].child1 = c`. -/
def setChild1 (t : b2DynamicTree α) (i c : Int) : b2DynamicTree α :=
  t.upd i fun n => { n with child1 := c }

/-- The write `m_nodes[i].child2 = c`. -/
def setChild2 (t : b2DynamicTree α) (i c : Int) : b2DynamicTree α :=
  t.upd i fun n => { n with child2 := c }

/-- The write `m_nodes[i].height = h`. -/
def setHeight (t : b2DynamicTree α) (i h : Int) : b2DynamicTree α :=
  t.upd i fun n => { n with height := h }

/-- The write `m_nodes[i].aabb = b`. -/
def setAABB (t : b2DynamicTree α) (i : Int) (b : b2AABB α) : b2DynamicTree α :=
  t.upd i fun n => { n with aabb := b }

/-- The write `m_nodes[i].userData = u`. -/
def setUserData (t : b2DynamicTree α) (i : Int) (u : Nat) : b2DynamicTree α :=
  t.upd i fun n => { n with userData := u }

/-- The slots `lo, lo+1, ..., hi-1` threaded as a free chain: `next = i + 1`, the last one
`next = b2_nullNode`, every `height = -1`.  The other bytes of a fresh slot are read as zero. -/
def freeChain (lo hi : Nat) : List (b2TreeNode α) :=
  (List.range' lo (hi - lo)).map fun i =>
    { (zeroNode : b2TreeNode α) with
      parent := if i + 1 = hi then b2_nullNode else (i : Int) + 1, height := -1 }

/-- The constructor `b2DynamicTree::b2DynamicTree()`. -/
def new : b2DynamicTree α :=
  { m_root := b2_nullNode
    m_nodes := freeChain 0 16
    m_nodeCount := 0
    m_freeList := 0
    m_path := 0
    m_insertionCount := 0 }

/-- The first half of `AllocateNode`: when the free list is empty the pool doubles, the old
`m_nodeCount` nodes are copied and the new tail is threaded as the free list. -/
def grow (t : b2DynamicTree α) : Option (b2DynamicTree α) :=
  if t.m_freeList = b2_nullNode then
    if t.m_nodeCount ≠ t.m_nodeCapacity then none
    else if t.m_nodeCapacity = 0 then none
    else some { t with
      m_nodes := t.m_nodes.take t.m_nodeCount.toNat ++
        freeChain t.m_nodeCount.toNat (2 * t.m_nodeCapacity).toNat
      m_freeList := t.m_nodeCount }
  else some t

/-- The function `b2DynamicTree::AllocateNode`: the new state and the node id. -/
def AllocateNode (t : b2DynamicTree α) : Option (b2DynamicTree α × Int) :=
  match t.grow with
  | none => none
  | some t =>
    let nodeId := t.m_freeList
    if ¬ t.InRange nodeId then none
    else
      let t := { t with m_freeList := (t.nd nodeId).parent }
      let t := t.upd nodeId fun n =>
        { n with parent := b2_nullNode, child1 := b2_nullNode, child2 := b2_nullNode, height := 0 }
      some ({ t with m_nodeCount := t.m_nodeCount + 1 }, nodeId)

/-- The function `b2DynamicTree::FreeNode`. -/
def FreeNode (t : b2DynamicTree α) (nodeId : Int) : Option (b2DynamicTree α) :=
  if ¬ t.InRange nodeId then none
  else if ¬ 0 < t.m_nodeCount then none
  else
    let t := t.setParent nodeId t.m_freeList
    let t := t.setHeight nodeId (-1)
    some { t with m_freeList := nodeId, m_nodeCount := t.m_nodeCount - 1 }

/-- Recompute `m_nodes[index].height` from the two children, `1 + b2Max(h1, h2)`. -/
def refreshHeight (t : b2DynamicTree α) (index : Int) : b2DynamicTree α :=
  t.setHeight index
    (1 + max (t.nd (t.nd index).child1).height (t.nd (t.nd index).child2).height)

/-- Recompute `m_nodes[index].aabb` from the two children, `Combine(aabb1, aabb2)`. -/
def refreshAABB (t : b2DynamicTree α) (index : Int) : b2DynamicTree α :=
  t.setAABB index
    (b2AABB.Combine (t.nd (t.nd index).child1).aabb (t.nd (t.nd index).child2).aabb)

/-- The branch "Rotate C up" of `Balance`, after the range assertions: `iA` is the node,
`iB`, `iC` its children and `iF`, `iG` the children of `iC`. -/
def rotateUp2 (t : b2DynamicTree α) (iA iB iC iF iG : Int) : Option (b2DynamicTree α) :=
  -- Swap A and C
  let t := t.setChild1 iC iA
  let t := t.setParent iC (t.nd iA).parent
  let t := t.setParent iA iC
  -- A's old parent should point to C
  let cp := (t.nd iC).parent
  let r : Option (b2DynamicTree α) :=
    if cp ≠ b2_nullNode then
      if ¬ t.InRange cp then none
      else if (t.nd cp).child1 = iA then some (t.setChild1 cp iC)
      else if (t.nd cp).child2 ≠ iA then none
      else some (t.setChild2 cp iC)
    else some { t with m_root := iC }
  match r with
  | none => none
  | some t =>
    -- Rotate
    if (t.nd iF).height > (t.nd iG).height then
      let t := t.setChild2 iC iF
      let t := t.setChild2 iA iG
      let t := t.setParent iG iA
      let t := t.setAABB iA (b2AABB.Combine (t.nd iB).aabb (t.nd iG).aabb)
      let t := t.setAABB iC (b2AABB.Combine (t.nd iA).aabb (t.nd iF).aabb)
      let t := t.setHeight iA (1 + max (t.nd iB).height (t.nd iG).height)
      let t := t.setHeight iC (1 + max (t.nd iA).height (t.nd iF).height)
      some t
    else
      let t := t.setChild2 iC iG
      let t := t.setChild2 iA iF
      let t := t.setParent iF iA
      let t := t.setAABB iA (b2AABB.Combine (t.nd iB).aabb (t.nd iF).aabb)
      let t := t.setAABB iC (b2AABB.Combine (t.nd iA).aabb (t.nd iG).aabb)
      let t := t.setHeight iA (1 + max (t.nd iB).height (t.nd iF).height)
      let t := t.setHeight iC (1 + max (t.nd iA).height (t.nd iG).height)
      some t

/-- The branch "Rotate B up" of `Balance`, after the range assertions: `iA` is the node,
`iB`, `iC` its children and `iD`, `iE` the children of `iB`. -/
def rotateUp1 (t : b2DynamicTree α) (iA iB iC iD iE : Int) : Option (b2DynamicTree α) :=
  -- Swap A and B
  let t := t.setChild1 iB iA
  let t := t.setParent iB (t.nd iA).parent
  let t := t.setParent iA iB
  -- A's old parent should point to B
  let bp := (t.nd iB).parent
  let r : Option (b2DynamicTree α) :=
    if bp ≠ b2_nullNode then
      if ¬ t.InRange bp then none
      else if (t.nd bp).child1 = iA then some (t.setChild1 bp iB)
      else if (t.nd bp).child2 ≠ iA then none
      else some (t.setChild2 bp iB)
    else some { t with m_root := iB }
  match r with
  | none => none
  | some t =>
    -- Rotate
    if (t.nd iD).height > (t.nd iE).height then
      let t := t.setChild2 iB iD
      let t := t.setChild1 iA iE
      let t := t.setParent iE iA
      let t := t.setAABB iA (b2AABB.Combine (t.nd iC).aabb (t.nd iE).aabb)
      let t := t.setAABB iB (b2AABB.Combine (t.nd iA).aabb (t.nd iD).aabb)
      let t := t.setHeight iA (1 + max (t.nd iC).height (t.nd iE).height)
      let t := t.setHeight iB (1 + max (t.nd iA).height (t.nd iD).height)
      some t
    else
      let t := t.setChild2 iB iE
      let t := t.setChild1 iA iD
      let t := t.setParent iD iA
      let t := t.setAABB iA (b2AABB.Combine (t.nd iC).aabb (t.nd iD).aabb)
      let t := t.setAABB iB (b2AABB.Combine (t.nd iA).aabb (t.nd iE).aabb)
      let t := t.setHeight iA (1 + max (t.nd iC).height (t.nd iD).height)
      let t := t.setHeight iB (1 + max (t.nd iA).height (t.nd iE).height)
      some t

/-- The function `b2DynamicTree::Balance`: the new state and the returned index. -/
def Balance (t : b2DynamicTree α) (iA : Int) : Option (b2DynamicTree α × Int) :=
  if iA = b2_nullNode then none
  else if ¬ t.InRange iA then none
  else if (t.nd iA).IsLeaf ∨ (t.nd iA).height < 2 then some (t, iA)
  else
    let iB := (t.nd iA).child1
    let iC := (t.nd iA).child2
    if ¬ t.InRange iB then none
    else if ¬ t.InRange iC then none
    else
      let balance := (t.nd iC).height - (t.nd iB).height
      -- Rotate C up
      if balance > 1 then
        let iF := (t.nd iC).child1
        let iG := (t.nd iC).child2
        if ¬ t.InRange iF then none
        else if ¬ t.InRange iG then none
        else (t.rotateUp2 iA iB iC iF iG).map fun t => (t, iC)
      -- Rotate B up
      else if balance < -1 then
        let iD := (t.nd iB).child1
        let iE := (t.nd iB).child2
        if ¬ t.InRange iD then none
        else if ¬ t.InRange iE then none
        else (t.rotateUp1 iA iB iC iD iE).map fun t => (t, iB)
      else some (t, iA)

/-- The loop `while (index != b2_nullNode)` that walks to the root, running one `step`
(the loop body: the new state and the next index) per ancestor. -/
def ancestorLoop (step : b2DynamicTree α → Int → Option (b2DynamicTree α × Int)) :
    Nat → b2DynamicTree α → Int → Option (b2DynamicTree α)
  | 0, _, _ => none
  | fuel + 1, t, index =>
    if index = b2_nullNode then some t
    else
      match step t index with
      | none => none
      | some (t, index) => ancestorLoop step fuel t index

/-- The costs computed at an internal node `index` by the sibling loop of `InsertLeaf`:
`cost` of a new parent here, `cost1` and `cost2` of descending into `child1`, `child2`. -/
def siblingCosts (t : b2DynamicTree α) (leafAABB : b2AABB α) (index : Int) : α × α × α :=
  let child1 := (t.nd index).child1
  let child2 := (t.nd index).child2
  let area := (t.nd index).aabb.GetPerimeter
  let combinedAABB := b2AABB.Combine (t.nd index).aabb leafAABB
  let combinedArea := combinedAABB.GetPerimeter
  -- Cost of creating a new parent for this node and the new leaf
  let cost := 2 * combinedArea
  -- Minimum cost of pushing the leaf further down the tree
  let inheritanceCost := 2 * (combinedArea - area)
  -- Cost of descending into child1
  let cost1 :=
    if (t.nd child1).IsLeaf then
      (b2AABB.Combine leafAABB (t.nd child1).aabb).GetPerimeter + inheritanceCost
    else
      ((b2AABB.Combine leafAABB (t.nd child1).aabb).GetPerimeter -
        (t.nd child1).aabb.GetPerimeter) + inheritanceCost
  -- Cost of descending into child2
  let cost2 :=
    if (t.nd child2).IsLeaf then
      (b2AABB.Combine leafAABB (t.nd child2).aabb).GetPerimeter + inheritanceCost
    else
      (b2AABB.Combine leafAABB (t.nd child2).aabb).GetPerimeter -
        (t.nd child2).aabb.GetPerimeter + inheritanceCost
  (cost, cost1, cost2)

/-- One pass of the sibling loop of `InsertLeaf` at `index`: `Sum.inl index` when the loop
ends here (a leaf, or the `break`), `Sum.inr child` when it descends into `child`. -/
def siblingStep (t : b2DynamicTree α) (leafAABB : b2AABB α) (index : Int) :
    Option (Int ⊕ Int) :=
  if ¬ t.InRange index then none
  else if (t.nd index).IsLeaf then some (Sum.inl index)
  else
    let child1 := (t.nd index).child1
    let child2 := (t.nd index).child2
    if ¬ t.InRange child1 then none
    else if ¬ t.InRange child2 then none
    else
      let c := t.siblingCosts leafAABB index
      -- Descend according to the minimum cost.
      if c.1 < c.2.1 ∧ c.1 < c.2.2 then some (Sum.inl index)
      -- Descend
      else if c.2.1 < c.2.2 then some (Sum.inr child1)
      else some (Sum.inr child2)

/-- The sibling loop of `InsertLeaf`, from `index` down: the chosen sibling. -/
def findSibling (t : b2DynamicTree α) (leafAABB : b2AABB α) : Nat → Int → Option Int
  | 0, _ => none
  | fuel + 1, index =>
    match t.siblingStep leafAABB index with
    | none => none
    | some (Sum.inl sibling) => some sibling
    | some (Sum.inr child) => findSibling t leafAABB fuel child

/-- The body of the loop "Walk back up the tree fixing heights and AABBs" of `InsertLeaf`. -/
def insertStep (t : b2DynamicTree α) (index : Int) : Option (b2DynamicTree α × Int) :=
  match t.Balance index with
  | none => none
  | some (t, index) =>
    let child1 := (t.nd index).child1
    let child2 := (t.nd index).child2
    if child1 = b2_nullNode then none
    else if child2 = b2_nullNode then none
    else if ¬ t.InRange child1 then none
    else if ¬ t.InRange child2 then none
    else
      let t := t.refreshHeight index
      let t := t.refreshAABB index
      some (t, (t.nd index).parent)

/-- The block "Create a new parent" of `InsertLeaf`, after `AllocateNode` returned
`newParent`: the new node gets `oldParent`, the combined box and the height of the sibling
plus one, takes the place of `sibling` below `oldParent` (or becomes the root) and gets
`sibling` and `leaf` as children. -/
def insertParent (t : b2DynamicTree α) (leaf sibling oldParent newParent : Int)
    (leafAABB : b2AABB α) : Option (b2DynamicTree α) :=
  let t := t.setParent newParent oldParent
  let t := t.setUserData newParent 0
  let t := t.setAABB newParent (b2AABB.Combine leafAABB (t.nd sibling).aabb)
  let t := t.setHeight newParent ((t.nd sibling).height + 1)
  if oldParent ≠ b2_nullNode then
    -- The sibling was not the root.
    if ¬ t.InRange oldParent then none
    else
      let t :=
        if (t.nd oldParent).child1 = sibling then t.setChild1 oldParent newParent
        else t.setChild2 oldParent newParent
      let t := t.setChild1 newParent sibling
      let t := t.setChild2 newParent leaf
      let t := t.setParent sibling newParent
      let t := t.setParent leaf newParent
      some t
  else
    -- The sibling was the root.
    let t := t.setChild1 newParent sibling
    let t := t.setChild2 newParent leaf
    let t := t.setParent sibling newParent
    let t := t.setParent leaf newParent
    some { t with m_root := newParent }

/-- The part of `InsertLeaf` that runs when the tree is not empty: find the sibling,
allocate and link the new parent, walk back up the tree fixing heights and AABBs. -/
def insertBelowRoot (t : b2DynamicTree α) (leaf : Int) : Option (b2DynamicTree α) :=
  -- Find the best sibling for this node
  let leafAABB := (t.nd leaf).aabb
  match t.findSibling leafAABB (t.m_nodes.length + 1) t.m_root with
  | none => none
  | some sibling =>
    -- Create a new parent.
    let oldParent := (t.nd sibling).parent
    match t.AllocateNode with
    | none => none
    | some (t, newParent) =>
      match t.insertParent leaf sibling oldParent newParent leafAABB with
      | none => none
      | some t =>
        -- Walk back up the tree fixing heights and AABBs
        ancestorLoop insertStep (t.m_nodes.length + 1) t (t.nd leaf).parent

/-- The function `b2DynamicTree::InsertLeaf`. -/
def InsertLeaf (t : b2DynamicTree α) (leaf : Int) : Option (b2DynamicTree α) :=
  let t := { t with m_insertionCount := t.m_insertionCount + 1 }
  if ¬ t.InRange leaf then none
  else if t.m_root = b2_nullNode then
    let t := { t with m_root := leaf }
    some (t.setParent t.m_root b2_nullNode)
  else t.insertBelowRoot leaf

/-- The body of the loop "Adjust ancestor bounds" of `RemoveLeaf`. -/
def removeStep (t : b2DynamicTree α) (index : Int) : Option (b2DynamicTree α × Int) :=
  match t.Balance index with
  | none => none
  | some (t, index) =>
    let child1 := (t.nd index).child1
    let child2 := (t.nd index).child2
    if ¬ t.InRange child1 then none
    else if ¬ t.InRange child2 then none
    else
      let t := t.refreshAABB index
      let t := t.refreshHeight index
      some (t, (t.nd index).parent)

/-- The branch `grandParent != b2_nullNode` of `RemoveLeaf`: destroy `parent`, connect
`sibling` to `grandParent` and adjust the ancestor bounds. -/
def removeBelow (t : b2DynamicTree α) (parent grandParent sibling : Int) :
    Option (b2DynamicTree α) :=
  if ¬ t.InRange grandParent then none
  else if ¬ t.InRange sibling then none
  else
    -- Destroy parent and connect sibling to grandParent.
    let t :=
      if (t.nd grandParent).child1 = parent then t.setChild1 grandParent sibling
      else t.setChild2 grandParent sibling
    let t := t.setParent sibling grandParent
    match t.FreeNode parent with
    | none => none
    | some t =>
      -- Adjust ancestor bounds.
      ancestorLoop removeStep (t.m_nodes.length + 1) t grandParent

/-- The branch `grandParent == b2_nullNode` of `RemoveLeaf`: `sibling` becomes the root and
`parent` is freed. -/
def removeAtRoot (t : b2DynamicTree α) (parent sibling : Int) : Option (b2DynamicTree α) :=
  if ¬ t.InRange sibling then none
  else
    let t := { t with m_root := sibling }
    let t := t.setParent sibling b2_nullNode
    t.FreeNode parent

/-- The function `b2DynamicTree::RemoveLeaf`. -/
def RemoveLeaf (t : b2DynamicTree α) (leaf : Int) : Option (b2DynamicTree α) :=
  if leaf = t.m_root then some { t with m_root := b2_nullNode }
  else if ¬ t.InRange leaf then none
  else
    let parent := (t.nd leaf).parent
    if ¬ t.InRange parent then none
    else
      let grandParent := (t.nd parent).parent
      let sibling := if (t.nd parent).child1 = leaf then (t.nd parent).child2
        else (t.nd parent).child1
      if grandParent ≠ b2_nullNode then t.removeBelow parent grandParent sibling
      else t.removeAtRoot parent sibling

/-- The function `b2DynamicTree::CreateProxy`, with `ext = b2_aabbExtension`: the new state
and the proxy id. -/
def CreateProxy (ext : α) (t : b2DynamicTree α) (aabb : b2AABB α) (userData : Nat) :
    Option (b2DynamicTree α × Int) :=
  match t.AllocateNode with
  | none => none
  | some (t, proxyId) =>
    -- Fatten the aabb.
    let t := t.setAABB proxyId (b2AABB.Fatten ext aabb)
    let t := t.setUserData proxyId userData
    let t := t.setHeight proxyId 0
    (t.InsertLeaf proxyId).map fun t => (t, proxyId)

/-- The function `b2DynamicTree::DestroyProxy`. -/
def DestroyProxy (t : b2DynamicTree α) (proxyId : Int) : Option (b2DynamicTree α) :=
  if ¬ t.InRange proxyId then none
  else if ¬ (t.nd proxyId).IsLeaf then none
  else
    match t.RemoveLeaf proxyId with
    | none => none
    | some t => t.FreeNode proxyId

/-- The box `b` that `MoveProxy` stores: `aabb` fattened by `ext = b2_aabbExtension`, then
extended by `d = mult * displacement` on the side of its sign, `mult = b2_aabbMultiplier`. -/
def predictAABB (ext mult : α) (aabb : b2AABB α) (displacement : b2Vec2 α) : b2AABB α :=
  -- Extend AABB.
  let b := b2AABB.Fatten ext aabb
  -- Predict AABB displacement.
  let d : b2Vec2 α := ⟨mult * displacement.x, mult * displacement.y⟩
  let b : b2AABB α :=
    if d.x < 0 then { b with lowerBound := ⟨b.lowerBound.x + d.x, b.lowerBound.y⟩ }
    else { b with upperBound := ⟨b.upperBound.x + d.x, b.upperBound.y⟩ }
  let b : b2AABB α :=
    if d.y < 0 then { b with lowerBound := ⟨b.lowerBound.x, b.lowerBound.y + d.y⟩ }
    else { b with upperBound := ⟨b.upperBound.x, b.upperBound.y + d.y⟩ }
  b

/-- The function `b2DynamicTree::MoveProxy`: the new state and the returned flag. -/
def MoveProxy (ext mult : α) (t : b2DynamicTree α) (proxyId : Int) (aabb : b2AABB α)
    (displacement : b2Vec2 α) : Option (b2DynamicTree α × Bool) :=
  if ¬ t.InRange proxyId then none
  else if ¬ (t.nd proxyId).IsLeaf then none
  else if (t.nd proxyId).aabb.Contains aabb then some (t, false)
  else
    match t.RemoveLeaf proxyId with
    | none => none
    | some t =>
      let t := t.setAABB proxyId (predictAABB ext mult aabb displacement)
      (t.InsertLeaf proxyId).map fun t => (t, true)

/-- The body of the last loop of `Shuffle`: refresh `aabb` and `height` of `i`, go to the
parent. -/
def shuffleStep (t : b2DynamicTree α) (i : Int) : Option (b2DynamicTree α × Int) :=
  if ¬ t.InRange i then none
  else if ¬ t.InRange (t.nd i).child1 then none
  else if ¬ t.InRange (t.nd i).child2 then none
  else
    let t := t.refreshAABB i
    let t := t.refreshHeight i
    some (t, (t.nd i).parent)

/-- The three grouping metrics `m1`, `m2`, `m3` of `Shuffle` for the grandchild boxes. -/
def shuffleMetrics (b11 b12 b21 b22 : b2AABB α) : α × α × α :=
  ((b2AABB.Combine b11 b12).GetPerimeter + (b2AABB.Combine b21 b22).GetPerimeter,
   (b2AABB.Combine b11 b22).GetPerimeter + (b2AABB.Combine b12 b21).GetPerimeter,
   (b2AABB.Combine b11 b21).GetPerimeter + (b2AABB.Combine b12 b22).GetPerimeter)

/-- The swap "(node11, node22), (node21, node12)" of `Shuffle`: `i22` becomes `child2` of
`i1` and `i12` becomes `child2` of `i2`; both nodes are refreshed. -/
def shuffleSwap2 (t : b2DynamicTree α) (i1 i2 i11 i12 i21 i22 : Int) : b2DynamicTree α :=
  let t := t.setChild2 i1 i22
  let t := t.setParent i22 i1
  let t := t.setAABB i1 (b2AABB.Combine (t.nd i11).aabb (t.nd i22).aabb)
  let t := t.setHeight i1 (1 + max (t.nd i11).height (t.nd i22).height)
  let t := t.setChild2 i2 i12
  let t := t.setParent i12 i2
  let t := t.setAABB i2 (b2AABB.Combine (t.nd i21).aabb (t.nd i12).aabb)
  let t := t.setHeight i2 (1 + max (t.nd i21).height (t.nd i12).height)
  t

/-- The swap "(node11, node21), (node12, node22)" of `Shuffle`: `i21` becomes `child2` of
`i1` and `i12` becomes `child1` of `i2`; both nodes are refreshed. -/
def shuffleSwap3 (t : b2DynamicTree α) (i1 i2 i11 i12 i21 i22 : Int) : b2DynamicTree α :=
  let t := t.setChild2 i1 i21
  let t := t.setParent i21 i1
  let t := t.setAABB i1 (b2AABB.Combine (t.nd i11).aabb (t.nd i21).aabb)
  let t := t.setHeight i1 (1 + max (t.nd i11).height (t.nd i21).height)
  let t := t.setChild1 i2 i12
  let t := t.setParent i12 i2
  let t := t.setAABB i2 (b2AABB.Combine (t.nd i12).aabb (t.nd i22).aabb)
  let t := t.setHeight i2 (1 + max (t.nd i12).height (t.nd i22).height)
  t

/-- The end of `Shuffle` after a swap: refresh `index` from its children `i1`, `i2`, then
walk to the root refreshing every ancestor. -/
def shuffleFinish (t : b2DynamicTree α) (index i1 i2 : Int) : Option (b2DynamicTree α) :=
  let t := t.setAABB index (b2AABB.Combine (t.nd i1).aabb (t.nd i2).aabb)
  let t := t.setHeight index (1 + max (t.nd i1).height (t.nd i2).height)
  ancestorLoop shuffleStep (t.m_nodes.length + 1) t (t.nd index).parent

/-- The function `b2DynamicTree::Shuffle`. -/
def Shuffle (t : b2DynamicTree α) (index : Int) : Option (b2DynamicTree α) :=
  if index = b2_nullNode then some t
  else if ¬ t.InRange index then none
  else if (t.nd index).height < 2 then some t
  else
    let i1 := (t.nd index).child1
    let i2 := (t.nd index).child2
    if ¬ t.InRange i1 then none
    else if ¬ t.InRange i2 then none
    else if (t.nd i1).height < 1 ∨ (t.nd i2).height < 1 then some t
    else
      let i11 := (t.nd i1).child1
      let i12 := (t.nd i1).child2
      let i21 := (t.nd i2).child1
      let i22 := (t.nd i2).child2
      if ¬ (t.InRange i11 ∧ t.InRange i12 ∧ t.InRange i21 ∧ t.InRange i22) then none
      else
        -- Metrics
        let m := shuffleMetrics (t.nd i11).aabb (t.nd i12).aabb (t.nd i21).aabb (t.nd i22).aabb
        if m.1 ≤ m.2.1 ∧ m.1 ≤ m.2.2 then some t
        else if m.2.1 ≤ m.2.2 then
          -- (node11, node22), (node21, node12)
          (t.shuffleSwap2 i1 i2 i11 i12 i21 i22).shuffleFinish index i1 i2
        else
          -- (node11, node21), (node12, node22)
          (t.shuffleSwap3 i1 i2 i11 i12 i21 i22).shuffleFinish index i1 i2

/-- The step `++m_path; if (m_path == m_nodeCapacity) m_path = 0;` of `Rebalance`. -/
def advancePath (t : b2DynamicTree α) : b2DynamicTree α :=
  if t.m_path + 1 = t.m_nodeCapacity then { t with m_path := 0 }
  else { t with m_path := t.m_path + 1 }

/-- The inner loop `while (m_nodes[m_path].height == -1)` of `Rebalance`: the state when the
loop ends and the number of times its body ran. -/
def skipFree : Nat → b2DynamicTree α → Option (b2DynamicTree α × Nat)
  | 0, _ => none
  | fuel + 1, t =>
    if ¬ t.InRange t.m_path then none
    else if (t.nd t.m_path).height = -1 then
      (skipFree fuel t.advancePath).map fun r => (r.1, r.2 + 1)
    else some (t, 0)

/-- The body of the loop `for (i = 0; i < iterations; ++i)` of `Rebalance`; `fuel` bounds
the inner loop. -/
def rebalanceStep (fuel : Nat) (t : b2DynamicTree α) : Option (b2DynamicTree α) :=
  match skipFree fuel t with
  | none => none
  | some (t, _) =>
    match t.Shuffle t.m_path with
    | none => none
    | some t => some t.advancePath

/-- The loop `for (i = 0; i < iterations; ++i)` of `Rebalance`, `n` passes. -/
def rebalanceLoop (fuel : Nat) : Nat → b2DynamicTree α → Option (b2DynamicTree α)
  | 0, t => some t
  | n + 1, t =>
    match rebalanceStep fuel t with
    | none => none
    | some t => rebalanceLoop fuel n t

/-- The function `b2DynamicTree::Rebalance`; each inner loop may run its test
`m_nodeCapacity` times. -/
def Rebalance (t : b2DynamicTree α) (iterations : Int) : Option (b2DynamicTree α) :=
  if t.m_root = b2_nullNode then some t
  else rebalanceLoop t.m_nodes.length iterations.toNat t

/-- The function `b2DynamicTree::GetHeight`. -/
def GetHeight (t : b2DynamicTree α) : Option Int :=
  if t.m_root = b2_nullNode then some 0
  else if ¬ t.InRange t.m_root then none
  else some (t.nd t.m_root).height

/-- The function `b2DynamicTree::GetTotalArea(index)`; `fuel` bounds the recursion depth. -/
def GetTotalArea (t : b2DynamicTree α) : Nat → Int → Option α
  | 0, _ => none
  | fuel + 1, index =>
    if index = b2_nullNode then some 0
    else if ¬ t.InRange index then none
    else
      match GetTotalArea t fuel (t.nd index).child1, GetTotalArea t fuel (t.nd index).child2 with
      | some area1, some area2 => some ((t.nd index).aabb.GetPerimeter + area1 + area2)
      | _, _ => none

/-- The function `b2DynamicTree::ComputeHeight(nodeId)`; `fuel` bounds the recursion depth. -/
def ComputeHeightAt (t : b2DynamicTree α) : Nat → Int → Option Int
  | 0, _ => none
  | fuel + 1, nodeId =>
    if ¬ t.InRange nodeId then none
    else if (t.nd nodeId).IsLeaf then some 0
    else
      match ComputeHeightAt t fuel (t.nd nodeId).child1,
        ComputeHeightAt t fuel (t.nd nodeId).child2 with
      | some height1, some height2 => some (1 + max height1 height2)
      | _, _ => none

/-- The function `b2DynamicTree::ComputeHeight()`. -/
def ComputeHeight (t : b2DynamicTree α) (fuel : Nat) : Option Int :=
  t.ComputeHeightAt fuel t.m_root

/-- The function `b2DynamicTree::ValidateStructure(index)`: `some ()` when it returns with
no assertion failing; `fuel` bounds the recursion depth. -/
def ValidateStructure (t : b2DynamicTree α) : Nat → Int → Option Unit
  | 0, _ => none
  | fuel + 1, index =>
    if index = b2_nullNode then some ()
    else if ¬ t.InRange index then none
    else if index = t.m_root ∧ (t.nd index).parent ≠ b2_nullNode then none
    else
      let child1 := (t.nd index).child1
      let child2 := (t.nd index).child2
      if (t.nd index).IsLeaf then
        if child1 = b2_nullNode ∧ child2 = b2_nullNode ∧ (t.nd index).height = 0 then some ()
        else none
      else if ¬ (t.InRange child1 ∧ t.InRange child2) then none
      else if (t.nd child1).parent ≠ index then none
      else if (t.nd child2).parent ≠ index then none
      else
        match ValidateStructure t fuel child1 with
        | none => none
        | some _ => ValidateStructure t fuel child2

/-- The function `b2DynamicTree::ValidateMetrics(index)`: `some ()` when it returns with
no assertion failing; `fuel` bounds the recursion depth. -/
def ValidateMetrics (t : b2DynamicTree α) : Nat → Int → Option Unit
  | 0, _ => none
  | fuel + 1, index =>
    if index = b2_nullNode then some ()
    else if ¬ t.InRange index then none
    else
      let child1 := (t.nd index).child1
      let child2 := (t.nd index).child2
      if (t.nd index).IsLeaf then
        if child1 = b2_nullNode ∧ child2 = b2_nullNode ∧ (t.nd index).height = 0 then some ()
        else none
      else if ¬ (t.InRange child1 ∧ t.InRange child2) then none
      else if (t.nd index).height ≠ 1 + max (t.nd child1).height (t.nd child2).height then none
      else if b2AABB.Combine (t.nd child1).aabb (t.nd child2).aabb ≠ (t.nd index).aabb then none
      else
        match ValidateMetrics t fuel child1 with
        | none => none
        | some _ => ValidateMetrics t fuel child2

/-- The loop of `Validate` that walks the free list from `freeIndex`: the number of nodes
visited (`freeCount`). -/
def countFree (t : b2DynamicTree α) : Nat → Int → Option Int
  | 0, _ => none
  | fuel + 1, freeIndex =>
    if freeIndex = b2_nullNode then some 0
    else if ¬ t.InRange freeIndex then none
    else (countFree t fuel (t.nd freeIndex).parent).map fun c => c + 1

/-- The function `b2DynamicTree::Validate`: `some ()` when it returns with no assertion
failing; `fuel` bounds every loop and recursion. -/
def Validate (t : b2DynamicTree α) (fuel : Nat) : Option Unit :=
  match t.ValidateStructure fuel t.m_root, t.ValidateMetrics fuel t.m_root,
    t.countFree fuel t.m_freeList, t.GetHeight, t.ComputeHeight fuel with
  | some _, some _, some freeCount, some h, some h2 =>
    if h = h2 ∧ t.m_nodeCount + freeCount = t.m_nodeCapacity then some () else none
  | _, _, _, _, _ => none

/-- The function `b2DynamicTree::GetMaxBalance(index)`; `fuel` bounds the recursion depth. -/
def GetMaxBalanceAt (t : b2DynamicTree α) : Nat → Int → Option Int
  | 0, _ => none
  | fuel + 1, index =>
    if index = b2_nullNode then some 0
    else if ¬ t.InRange index then none
    else if (t.nd index).IsLeaf then some 0
    else
      let child1 := (t.nd index).child1
      let child2 := (t.nd index).child2
      if ¬ (t.InRange child1 ∧ t.InRange child2) then none
      else
        let balance := |(t.nd child2).height - (t.nd child1).height|
        match GetMaxBalanceAt t fuel child1, GetMaxBalanceAt t fuel child2 with
        | some balance1, some balance2 => some (max balance (max balance1 balance2))
        | _, _ => none

/-- The function `b2DynamicTree::GetMaxBalance()`. -/
def GetMaxBalance (t : b2DynamicTree α) (fuel : Nat) : Option Int :=
  t.GetMaxBalanceAt fuel t.m_root

end b2DynamicTree

/-! ## Abstract shapes and the invariants I1–I8 -/

/-- The shape of a subtree of the pool: a leaf with its index, stored box and user data, or
an internal node with its index and its two child subtrees (`child1`, `child2`). -/
inductive Shape (α : Type) where
  | leaf (i : Int) (aabb : b2AABB α) (userData : Nat)
  | node (i : Int) (l r : Shape α)
deriving DecidableEq, Repr

namespace Shape

/-- The index of the root of the subtree. -/
def idx : Shape α → Int
  | leaf i _ _ => i
  | node i _ _ => i

/-- Every node index of the subtree, root first. -/
def ids : Shape α → List Int
  | leaf i _ _ => [i]
  | node i l r => i :: (l.ids ++ r.ids)

/-- The leaves of the subtree from left to right: index, stored box, user data. -/
def leaves : Shape α → List (Int × b2AABB α × Nat)
  | leaf i b u => [(i, b, u)]
  | node _ l r => l.leaves ++ r.leaves

/-- The leaf indices (proxy ids) of the subtree from left to right. -/
def leafIds (s : Shape α) : List Int := s.leaves.map Prod.fst

/-- The height of the subtree: 0 for a leaf, `1 + max` of the children otherwise. -/
def height : Shape α → Int
  | leaf _ _ _ => 0
  | node _ l r => 1 + max l.height r.height

/-- The union of the leaf boxes of the subtree, combined along the tree. -/
def box : Shape α → b2AABB α
  | leaf _ b _ => b
  | node _ l r => b2AABB.Combine l.box r.box

/-- The sum of the perimeters of the boxes of all nodes of the subtree. -/
def area : Shape α → α
  | leaf _ b _ => b.GetPerimeter
  | node _ l r => (b2AABB.Combine l.box r.box).GetPerimeter + l.area + r.area

/-- Invariant I6 on a shape: at every internal node the child heights differ by at most 1. -/
def Balanced : Shape α → Prop
  | leaf _ _ _ => True
  | node _ l r => |r.height - l.height| ≤ 1 ∧ l.Balanced ∧ r.Balanced

instance Balanced.decidable : (s : Shape α) → Decidable s.Balanced
  | leaf _ _ _ => (inferInstance : Decidable True)
  | node _ l r =>
    have := Balanced.decidable l
    have := Balanced.decidable r
    (inferInstance : Decidable (|r.height - l.height| ≤ 1 ∧ l.Balanced ∧ r.Balanced))

/-- The number of nested internal nodes above the deepest leaf. -/
def depth : Shape α → Nat
  | leaf _ _ _ => 0
  | node _ l r => 1 + max l.depth r.depth

end Shape

/-- The shape after the branch "Rotate C up" of `Balance` at the node `iA` with children `l`
and `node iC f g`: `iC` becomes the root with `iA` as `child1`; the taller of `f`, `g` stays
under `iC`, the other one becomes `child2` of `iA`. -/
def Shape.rotateUp2 (iA : Int) (l : Shape α) (iC : Int) (f g : Shape α) : Shape α :=
  if f.height > g.height then Shape.node iC (Shape.node iA l g) f
  else Shape.node iC (Shape.node iA l f) g

/-- The shape after the branch "Rotate B up" of `Balance` at the node `iA` with children
`node iB d e` and `r`: `iB` becomes the root with `iA` as `child1`; the taller of `d`, `e`
stays under `iB`, the other one becomes `child1` of `iA`. -/
def Shape.rotateUp1 (iA : Int) (iB : Int) (d e : Shape α) (r : Shape α) : Shape α :=
  if d.height > e.height then Shape.node iB (Shape.node iA e r) d
  else Shape.node iB (Shape.node iA d r) e

/-- A one-hole context: the path from the root of a tree down to a hole, each frame with
the index of the ancestor and the sibling subtree left beside the path. -/
inductive Ctx (α : Type) where
  | top
  | left (c : Ctx α) (i : Int) (r : Shape α)
  | right (c : Ctx α) (i : Int) (l : Shape α)
deriving DecidableEq, Repr

namespace Ctx

/-- The tree obtained by filling the hole of the context with `s`. -/
def plug : Ctx α → Shape α → Shape α
  | top, s => s
  | left c i r, s => c.plug (Shape.node i s r)
  | right c i l, s => c.plug (Shape.node i l s)

/-- The index of the node just above the hole, `b2_nullNode` for the empty context. -/
def parentIdx : Ctx α → Int
  | top => b2_nullNode
  | left _ i _ => i
  | right _ i _ => i

/-- Every node index of the context: the ancestors and the nodes of the sibling subtrees. -/
def ids : Ctx α → List Int
  | top => []
  | left c i r => i :: (r.ids ++ c.ids)
  | right c i l => i :: (l.ids ++ c.ids)

/-- The ancestors on the path, nearest first. -/
def ancestors : Ctx α → List Int
  | top => []
  | left c i _ => i :: c.ancestors
  | right c i _ => i :: c.ancestors

/-- The leaves of the sibling subtrees of the context. -/
def leaves : Ctx α → List (Int × b2AABB α × Nat)
  | top => []
  | left c _ r => r.leaves ++ c.leaves
  | right c _ l => l.leaves ++ c.leaves

end Ctx

/-- The number of ancestors on the path of the context. -/
def Ctx.depth : Ctx α → Nat
  | Ctx.top => 0
  | Ctx.left c _ _ => c.depth + 1
  | Ctx.right c _ _ => c.depth + 1

namespace b2DynamicTree

/-- The pool stores the subtree `s` under the parent index `p`: every node is in range with
the parent and child links of the shape (I1, I2 when `p` is null), a leaf has both children
null and height 0 (I5), an internal node stores the height `1 + max` and the box `Combine`
of its children (I3, I4). -/
def Rep (t : b2DynamicTree α) : Shape α → Int → Prop
  | Shape.leaf i b u, p =>
    t.InRange i ∧ (t.nd i).parent = p ∧ (t.nd i).child1 = b2_nullNode ∧
      (t.nd i).child2 = b2_nullNode ∧ (t.nd i).height = 0 ∧ (t.nd i).aabb = b ∧
      (t.nd i).userData = u
  | Shape.node i l r, p =>
    t.InRange i ∧ (t.nd i).parent = p ∧ (t.nd i).child1 = l.idx ∧ (t.nd i).child2 = r.idx ∧
      (t.nd i).height = 1 + max l.height r.height ∧
      (t.nd i).aabb = b2AABB.Combine l.box r.box ∧ Rep t l i ∧ Rep t r i

instance Rep.decidable (t : b2DynamicTree α) : (s : Shape α) → (p : Int) → Decidable (t.Rep s p)
  | Shape.leaf i b u, p =>
    (inferInstance : Decidable (t.InRange i ∧ (t.nd i).parent = p ∧
      (t.nd i).child1 = b2_nullNode ∧ (t.nd i).child2 = b2_nullNode ∧ (t.nd i).height = 0 ∧
      (t.nd i).aabb = b ∧ (t.nd i).userData = u))
  | Shape.node i l r, p =>
    have := Rep.decidable t l i
    have := Rep.decidable t r i
    (inferInstance : Decidable (t.InRange i ∧ (t.nd i).parent = p ∧ (t.nd i).child1 = l.idx ∧
      (t.nd i).child2 = r.idx ∧ (t.nd i).height = 1 + max l.height r.height ∧
      (t.nd i).aabb = b2AABB.Combine l.box r.box ∧ Rep t l i ∧ Rep t r i))

/-- The pool stores the links of the context `c` around a hole filled by the node `h`: every
ancestor is in range, has the hole (or the ancestor below) and the sibling subtree as its two
children, and the topmost node is `m_root` with a null parent.  The sibling subtrees satisfy
`Rep`; the heights and boxes stored in the ancestors themselves are not constrained. -/
def RepCtx (t : b2DynamicTree α) : Ctx α → Int → Prop
  | Ctx.top, h => t.m_root = h
  | Ctx.left c i r, h =>
    t.InRange i ∧ (t.nd i).child1 = h ∧ (t.nd i).child2 = r.idx ∧
      (t.nd i).parent = c.parentIdx ∧ Rep t r i ∧ RepCtx t c i
  | Ctx.right c i l, h =>
    t.InRange i ∧ (t.nd i).child1 = l.idx ∧ (t.nd i).child2 = h ∧
      (t.nd i).parent = c.parentIdx ∧ Rep t l i ∧ RepCtx t c i

/-- The node `iA` has the two stored subtrees `l` and `r` as children and the parent index
`p`: its child links are those of the shape, both subtrees satisfy `Rep` (I1–I5 below `iA`),
no index occurs twice, and the parent, when not null, is a node outside the subtree with
`iA` as `child1` or `child2` (I1 at `iA`).  The height and box stored in `iA` itself are
not constrained. -/
structure ValidBelow (t : b2DynamicTree α) (iA : Int) (l r : Shape α) (p : Int) : Prop where
  inRange : t.InRange iA
  child1 : (t.nd iA).child1 = l.idx
  child2 : (t.nd iA).child2 = r.idx
  parent : (t.nd iA).parent = p
  repL : t.Rep l iA
  repR : t.Rep r iA
  nodup : (iA :: (l.ids ++ r.ids)).Nodup
  link : p = b2_nullNode ∨ (t.InRange p ∧ p ∉ iA :: (l.ids ++ r.ids) ∧
    ((t.nd p).child1 = iA ∨ (t.nd p).child2 = iA))

/-- The node `i` with its stored subtrees `l`, `r` sits in the hole of the stored context `c`:
the state of the pool when an ancestor walk arrives at `i`.  The subtrees below `i` and beside
the path are correct, the heights and boxes of `i` and of its ancestors may be stale. -/
structure Focus (t : b2DynamicTree α) (c : Ctx α) (i : Int) (l r : Shape α) : Prop where
  below : t.ValidBelow i l r c.parentIdx
  ctx : t.RepCtx c i
  nodup : (i :: (l.ids ++ r.ids) ++ c.ids).Nodup

/-- The state the ancestor walk reaches after one pass at a focused node. -/
structure StepPost (t : b2DynamicTree α) (c : Ctx α) (i : Int) (l r : Shape α)
    (t2 : b2DynamicTree α) (s2 : Shape α) : Prop where
  rep : t2.Rep s2 c.parentIdx
  ctx : t2.RepCtx c s2.idx
  ids : s2.ids.Perm (i :: (l.ids ++ r.ids))
  leaves : s2.leaves.Perm (l.leaves ++ r.leaves)
  length : t2.m_nodes.length = t.m_nodes.length
  freeList : t2.m_freeList = t.m_freeList
  nodeCount : t2.m_nodeCount = t.m_nodeCount
  path : t2.m_path = t.m_path
  insertionCount : t2.m_insertionCount = t.m_insertionCount
  frame : ∀ j, j ∉ i :: (l.ids ++ r.ids) ++ c.ids → t2.nd j = t.nd j

/-- The state after a complete ancestor walk that started at a focused node. -/
structure LoopPost (t : b2DynamicTree α) (nodes : List Int) (lv : List (Int × b2AABB α × Nat))
    (t2 : b2DynamicTree α) (s2 : Shape α) : Prop where
  root : t2.m_root = s2.idx
  rep : t2.Rep s2 b2_nullNode
  ids : s2.ids.Perm nodes
  leaves : s2.leaves.Perm lv
  length : t2.m_nodes.length = t.m_nodes.length
  freeList : t2.m_freeList = t.m_freeList
  nodeCount : t2.m_nodeCount = t.m_nodeCount
  path : t2.m_path = t.m_path
  insertionCount : t2.m_insertionCount = t.m_insertionCount
  frame : ∀ j, j ∉ nodes → t2.nd j = t.nd j

/-- The chain that starts at `i` and follows `next` visits exactly the indices `fl`, in this
order, and ends at `b2_nullNode`; every visited slot is in range and has height `-1`. -/
def FreeChain (t : b2DynamicTree α) : Int → List Int → Prop
  | i, [] => i = b2_nullNode
  | i, j :: fl => i = j ∧ t.InRange j ∧ (t.nd j).height = -1 ∧ FreeChain t (t.nd j).parent fl

/-- The chain that starts at `i` and follows `next` visits exactly the indices `fl`, in this
order, every one in range, and ends at `b2_nullNode` (nothing is said about heights). -/
def NextChain (t : b2DynamicTree α) : Int → List Int → Prop
  | i, [] => i = b2_nullNode
  | i, j :: fl => i = j ∧ t.InRange j ∧ NextChain t (t.nd j).parent fl

/-- The node indices of an optional shape (none: the empty tree). -/
def idsOf (o : Option (Shape α)) : List Int :=
  match o with
  | none => []
  | some s => s.ids

/-- The leaves of an optional shape (none: the empty tree). -/
def leavesOf (o : Option (Shape α)) : List (Int × b2AABB α × Nat) :=
  match o with
  | none => []
  | some s => s.leaves

/-- The tree below `m_root` is the shape `o`: the root is null for the empty tree, otherwise
the pool stores the shape under a null parent. -/
def RootRep (t : b2DynamicTree α) (o : Option (Shape α)) : Prop :=
  match o with
  | none => t.m_root = b2_nullNode
  | some s => t.m_root = s.idx ∧ t.Rep s b2_nullNode

/-- The pool is split into the allocated indices `A` and the free list `fl` (I7, I8): the free
chain from `m_freeList` visits `fl`, no index occurs twice, every slot is in one of the two
lists, and `m_nodeCount` counts `A`. -/
structure Arena (t : b2DynamicTree α) (A fl : List Int) : Prop where
  chain : t.FreeChain t.m_freeList fl
  nodup : (A ++ fl).Nodup
  inRange : ∀ i ∈ A, t.InRange i
  cover : ∀ i, t.InRange i → i ∈ A ∨ i ∈ fl
  count : t.m_nodeCount = A.length
  total : (A.length : Int) + fl.length = t.m_nodeCapacity

/-- The full invariant of a tree state between public calls: the tree below the root has
shape `o`, its nodes are exactly the allocated ones, `fl` is the free list, the cursor
`m_path` is in range and the pool has at least the 16 slots of the constructor. -/
structure Inv (t : b2DynamicTree α) (o : Option (Shape α)) (fl : List Int) : Prop where
  root : t.RootRep o
  arena : t.Arena (idsOf o) fl
  path : t.InRange t.m_path
  capacity : 16 ≤ t.m_nodes.length

/-- The states reachable from the constructor by `CreateProxy`, `DestroyProxy`, `MoveProxy`
and `Rebalance` calls that return, together with the live proxies (created and not
destroyed), each with the AABB most recently passed for it to `CreateProxy` or `MoveProxy`;
`DestroyProxy` and `MoveProxy` are only called on live ids.  The constants are
`ext = b2_aabbExtension` and `mult = b2_aabbMultiplier`. -/
inductive Reach (ext mult : α) : b2DynamicTree α → List (Int × b2AABB α) → Prop
  | init : Reach ext mult new []
  | create {t t1 : b2DynamicTree α} {live : List (Int × b2AABB α)} {id : Int}
      (aabb : b2AABB α) (userData : Nat) : Reach ext mult t live →
      CreateProxy ext t aabb userData = some (t1, id) → Reach ext mult t1 ((id, aabb) :: live)
  | destroy {t t1 : b2DynamicTree α} {live : List (Int × b2AABB α)} (id : Int) :
      Reach ext mult t live → id ∈ live.map Prod.fst → DestroyProxy t id = some t1 →
      Reach ext mult t1 (live.filter fun x => decide (x.1 ≠ id))
  | move {t t1 : b2DynamicTree α} {live : List (Int × b2AABB α)} {moved : Bool} (id : Int)
      (aabb : b2AABB α) (displacement : b2Vec2 α) : Reach ext mult t live →
      id ∈ live.map Prod.fst →
      MoveProxy ext mult t id aabb displacement = some (t1, moved) →
      Reach ext mult t1 ((id, aabb) :: live.filter fun x => decide (x.1 ≠ id))
  | rebalance {t t1 : b2DynamicTree α} {live : List (Int × b2AABB α)} (iterations : Int) :
      Reach ext mult t live → Rebalance t iterations = some t1 → Reach ext mult t1 live

/-- The state and the subtree after `Shuffle` at the root of the subtree `sub` that sits in
the context `c` of a stored tree: the subtree keeps its root, height, box, nodes and leaves,
nothing outside it is written, and among its nodes only the two children of its root may
hold a new height or box; the perimeter sum does not grow and drops by `m1 - min m2 m3` when
the grandchildren are regrouped. -/
structure ShufflePost (t : b2DynamicTree α) (c : Ctx α) (sub : Shape α)
    (t2 : b2DynamicTree α) (sub2 : Shape α) : Prop where
  rep : t2.Rep (c.plug sub2) b2_nullNode
  idx : sub2.idx = sub.idx
  height : sub2.height = sub.height
  box : sub2.box = sub.box
  ids : sub2.ids.Perm sub.ids
  leaves : sub2.leaves.Perm sub.leaves
  length : t2.m_nodes.length = t.m_nodes.length
  root : t2.m_root = t.m_root
  freeList : t2.m_freeList = t.m_freeList
  nodeCount : t2.m_nodeCount = t.m_nodeCount
  path : t2.m_path = t.m_path
  insertionCount : t2.m_insertionCount = t.m_insertionCount
  frame : ∀ j, j ∉ sub.ids → t2.nd j = t.nd j
  stored : ∀ j, j ≠ (t.nd sub.idx).child1 → j ≠ (t.nd sub.idx).child2 →
    (t2.nd j).height = (t.nd j).height ∧ (t2.nd j).aabb = (t.nd j).aabb
  area_le : sub2.area ≤ sub.area
  area_swap : ∀ (i i1 i2 : Int) (s11 s12 s21 s22 : Shape α),
    sub = Shape.node i (Shape.node i1 s11 s12) (Shape.node i2 s21 s22) →
    ¬ ((shuffleMetrics s11.box s12.box s21.box s22.box).1 ≤
          (shuffleMetrics s11.box s12.box s21.box s22.box).2.1 ∧
        (shuffleMetrics s11.box s12.box s21.box s22.box).1 ≤
          (shuffleMetrics s11.box s12.box s21.box s22.box).2.2) →
    sub2.area + ((shuffleMetrics s11.box s12.box s21.box s22.box).1 -
      min (shuffleMetrics s11.box s12.box s21.box s22.box).2.1
        (shuffleMetrics s11.box s12.box s21.box s22.box).2.2) = sub.area

/-! ## Concrete states used as witnesses -/

/-- The box with both corners at the origin. -/
def zbox : b2AABB ℤ := ⟨⟨0, 0⟩, ⟨0, 0⟩⟩

/-- A pool of seven nodes: the root 0 has the leaf 1 as `child1` and the node 2 of height 2
as `child2`, so the child heights differ by 2. -/
def unbalancedTree : b2DynamicTree ℤ :=
  { m_root := 0
    m_nodes := [⟨zbox, 0, -1, 1, 2, 3⟩, ⟨zbox, 0, 0, -1, -1, 0⟩, ⟨zbox, 0, 0, 3, 4, 2⟩,
      ⟨zbox, 0, 2, 5, 6, 1⟩, ⟨zbox, 0, 2, -1, -1, 0⟩, ⟨zbox, 0, 3, -1, -1, 0⟩,
      ⟨zbox, 0, 3, -1, -1, 0⟩]
    m_nodeCount := 7
    m_freeList := -1
    m_path := 0
    m_insertionCount := 4 }

/-- The shape of `child1` of the root of `unbalancedTree`. -/
def unbalancedLeft : Shape ℤ := Shape.leaf 1 zbox 0

/-- The shape of `child2` of the root of `unbalancedTree`. -/
def unbalancedRight : Shape ℤ :=
  Shape.node 2 (Shape.node 3 (Shape.leaf 5 zbox 0) (Shape.leaf 6 zbox 0)) (Shape.leaf 4 zbox 0)

/-- The unit box `[0,0]-[1,1]`. -/
def unitBox : b2AABB ℤ := ⟨⟨0, 0⟩, ⟨1, 1⟩⟩

/-- A pool of three nodes: the root 2 has the leaves 0 and 1 as children, all three with the
box `[0,0]-[1,1]`; a leaf with the same box has equal costs `cost1 = cost2` at the root. -/
def tieTree : b2DynamicTree ℤ :=
  { m_root := 2
    m_nodes := [⟨unitBox, 0, 2, -1, -1, 0⟩, ⟨unitBox, 0, 2, -1, -1, 0⟩, ⟨unitBox, 0, -1, 0, 1, 1⟩]
    m_nodeCount := 3
    m_freeList := -1
    m_path := 0
    m_insertionCount := 2 }

/-- A pool of two nodes: the root 0 is a leaf and the slot 1 is the only node of the free
list, but its height is 5 and not `-1`. -/
def staleFreeTree : b2DynamicTree ℤ :=
  { m_root := 0
    m_nodes := [⟨zbox, 0, -1, -1, -1, 0⟩, ⟨zbox, 0, -1, 0, 0, 5⟩]
    m_nodeCount := 1
    m_freeList := 1
    m_path := 0
    m_insertionCount := 1 }

end b2DynamicTree

/-! ## The brute-force back end (`B2_USE_BRUTE_FORCE`) -/

/-- Modelled from the spec: the record `b2Proxy` of `b2DynamicTree.h` (not under `src/`), with
the fields `aabb`, `userData` and `id` that the brute-force back end reads and writes. -/
structure b2Proxy (α : Type) where
  aabb : b2AABB α
  userData : Nat
  id : Int
deriving DecidableEq, Repr

/-- The state of `b2DynamicTree` under `B2_USE_BRUTE_FORCE`.  `m_proxyCapacity` is the length
of `m_proxyMap`; `m_proxies` has the same number of slots. -/
structure b2BruteForce (α : Type) where
  m_proxyCount : Int
  m_proxyMap : List Int
  m_proxies : List (b2Proxy α)
  m_freeId : Int
deriving DecidableEq, Repr

namespace b2BruteForce

instance : Inhabited (b2Proxy α) := ⟨⟨⟨⟨0, 0⟩, ⟨0, 0⟩⟩, 0, 0⟩⟩

/-- The number of slots of both arrays, `m_proxyCapacity`. -/
def m_proxyCapacity (t : b2BruteForce α) : Int := t.m_proxyMap.length

/-- The index `i` designates a slot: `0 <= i && i < m_proxyCapacity`. -/
def InRange (t : b2BruteForce α) (i : Int) : Prop := 0 ≤ i ∧ i < t.m_proxyCapacity

instance (t : b2BruteForce α) (i : Int) : Decidable (t.InRange i) := by
  unfold InRange; infer_instance

/-- The entry `m_proxyMap[i]` (every use is guarded by `InRange`). -/
def map (t : b2BruteForce α) (i : Int) : Int := t.m_proxyMap.getD i.toNat 0

/-- The entry `m_proxies[i]` (every use is guarded by `InRange`). -/
def proxy (t : b2BruteForce α) (i : Int) : b2Proxy α := t.m_proxies.getD i.toNat default

/-- The write `m_proxyMap[i] = v` (every use is guarded by `InRange`). -/
def setMap (t : b2BruteForce α) (i v : Int) : b2BruteForce α :=
  { t with m_proxyMap := t.m_proxyMap.set i.toNat v }

/-- The write `m_proxies[i] = p` (every use is guarded by `InRange`). -/
def setProxy (t : b2BruteForce α) (i : Int) (p : b2Proxy α) : b2BruteForce α :=
  { t with m_proxies := t.m_proxies.set i.toNat p }

/-- The entries `lo, ..., hi-1` of `m_proxyMap` threaded as a free list: `i + 1`, the last
one `b2_nullNode`. -/
def freeIds (lo hi : Nat) : List Int :=
  (List.range' lo (hi - lo)).map fun i => if i + 1 = hi then b2_nullNode else (i : Int) + 1

/-- The constructor under `B2_USE_BRUTE_FORCE`; the bytes of `m_proxies` are read as zero. -/
def new : b2BruteForce α :=
  { m_proxyCount := 0
    m_proxyMap := freeIds 0 128
    m_proxies := List.replicate 128 default
    m_freeId := 0 }

/-- The block of `CreateProxy` that doubles both arrays when `m_proxyCount` equals
`m_proxyCapacity` and threads the new ids as the free list. -/
def grow (t : b2BruteForce α) : b2BruteForce α :=
  if t.m_proxyCount = t.m_proxyCapacity then
    { t with
      m_proxyMap := t.m_proxyMap.take t.m_proxyCount.toNat ++
        freeIds t.m_proxyCount.toNat (2 * t.m_proxyCapacity).toNat
      m_proxies := t.m_proxies.take t.m_proxyCount.toNat ++
        List.replicate (2 * t.m_proxyCapacity - t.m_proxyCount).toNat default
      m_freeId := t.m_proxyCount }
  else t

/-- The function `b2DynamicTree::CreateProxy` under `B2_USE_BRUTE_FORCE`: the new state and
the id. -/
def CreateProxy (t : b2BruteForce α) (aabb : b2AABB α) (userData : Nat) :
    Option (b2BruteForce α × Int) :=
  let t := t.grow
  if ¬ t.InRange t.m_freeId then none
  else
    let id := t.m_freeId
    let t := { t with m_freeId := t.map id }
    let index := t.m_proxyCount
    if ¬ t.InRange index then none
    else
      let t := t.setProxy index ⟨aabb, userData, id⟩
      let t := t.setMap id index
      some ({ t with m_proxyCount := t.m_proxyCount + 1 }, id)

/-- The loop of `Validate` that walks the free list from `id`, counting from `freeCount`:
the final count, `none` when `b2Assert(freeCount <= m_proxyCapacity)` fails or an id is out
of range. -/
def countFreeIds (t : b2BruteForce α) : Nat → Int → Int → Option Int
  | 0, _, _ => none
  | fuel + 1, id, freeCount =>
    if id = b2_nullNode then some freeCount
    else if ¬ freeCount + 1 ≤ t.m_proxyCapacity then none
    else if ¬ t.InRange id then none
    else countFreeIds t fuel (t.map id) (freeCount + 1)

/-- The loop `for (i = 0; i < m_proxyCount; ++i)` of `Validate`, from `i` on:
`m_proxyMap[m_proxies[i].id] == i` for every `i`. -/
def checkMap (t : b2BruteForce α) : Nat → Int → Bool
  | 0, _ => true
  | n + 1, i =>
    t.InRange i ∧ t.InRange (t.proxy i).id ∧ t.map (t.proxy i).id = i ∧ checkMap t n (i + 1)

/-- The function `b2DynamicTree::Validate` under `B2_USE_BRUTE_FORCE`: `some ()` when it
returns with no assertion failing.  The free-list loop stops by its own assertion after at
most `m_proxyCapacity + 1` passes. -/
def Validate (t : b2BruteForce α) : Option Unit :=
  if ¬ (t.m_proxyCount > 0 ∨ t.m_freeId = b2_nullNode) then none
  else if ¬ (t.m_freeId = b2_nullNode ∨ t.m_freeId < t.m_proxyCapacity) then none
  else
    match t.countFreeIds (t.m_proxyMap.length + 2) t.m_freeId 0 with
    | none => none
    | some freeCount =>
      if freeCount + t.m_proxyCount ≠ t.m_proxyCapacity then none
      else if ¬ t.m_proxyCount ≤ t.m_proxyCapacity then none
      else if t.checkMap t.m_proxyCount.toNat 0 then some () else none

/-- The statements of `DestroyProxy` under `B2_USE_BRUTE_FORCE` before its final call of
`Validate()`. -/
def destroyCore (t : b2BruteForce α) (proxyId : Int) : Option (b2BruteForce α) :=
  if ¬ (0 < t.m_proxyCount ∧ t.InRange proxyId) then none
  else
    let index := t.map proxyId
    -- Add to free list
    let t := t.setMap proxyId t.m_freeId
    let t := { t with m_freeId := proxyId }
    -- Keep proxy array contiguous
    let r : Option (b2BruteForce α) :=
      if index < t.m_proxyCount - 1 then
        if ¬ (t.InRange index ∧ t.InRange (t.m_proxyCount - 1)) then none
        else
          let t := t.setProxy index (t.proxy (t.m_proxyCount - 1))
          let id := (t.proxy index).id
          if ¬ t.InRange id then none
          else some (t.setMap id index)
      else some t
    r.map fun t => { t with m_proxyCount := t.m_proxyCount - 1 }

/-- The function `b2DynamicTree::DestroyProxy` under `B2_USE_BRUTE_FORCE`. -/
def DestroyProxy (t : b2BruteForce α) (proxyId : Int) : Option (b2BruteForce α) :=
  match t.destroyCore proxyId with
  | none => none
  | some t =>
    match t.Validate with
    | none => none
    | some _ => some t

end b2BruteForce

namespace b2DynamicTree

/-- The state `t2` with tree `s2` after an operation that restructures the stored tree `s`
of the state `t` without creating or destroying nodes (`Shuffle`, `Rebalance`): same root
index, height, box, nodes and leaves, a perimeter sum that did not grow, and no write outside
the tree.  Nothing is said about `m_path`. -/
structure TreePost (t : b2DynamicTree α) (s : Shape α) (t2 : b2DynamicTree α) (s2 : Shape α) :
    Prop where
  root : t2.m_root = s2.idx
  rep : t2.Rep s2 b2_nullNode
  rootIdx : s2.idx = s.idx
  height : s2.height = s.height
  box : s2.box = s.box
  area_le : s2.area ≤ s.area
  ids : s2.ids.Perm s.ids
  leaves : s2.leaves.Perm s.leaves
  length : t2.m_nodes.length = t.m_nodes.length
  freeList : t2.m_freeList = t.m_freeList
  nodeCount : t2.m_nodeCount = t.m_nodeCount
  insertionCount : t2.m_insertionCount = t.m_insertionCount
  frame : ∀ j, j ∉ s.ids → t2.nd j = t.nd j

/-- A sequence of `CreateProxy` calls with the given boxes (user data 0), starting from the
state `t`: the final state and the returned proxy ids, latest first. -/
def createAll (ext : α) : List (b2AABB α) → b2DynamicTree α →
    Option (b2DynamicTree α × List Int)
  | [], t => some (t, [])
  | b :: bs, t =>
    match CreateProxy ext t b 0 with
    | none => none
    | some (t1, id) => (createAll ext bs t1).map fun r => (r.1, r.2 ++ [id])

/-- The box `[x, y] - [x + 1, y + 1]` in units of one tenth, so that the margin
`b2_aabbExtension = 0.1` is the integer 1. -/
def boxAt (x y : Int) : b2AABB ℤ := ⟨⟨10 * x, 10 * y⟩, ⟨10 * x + 10, 10 * y + 10⟩⟩

/-- The state after `CreateProxy([0,0]-[1,1])` and `CreateProxy([10,10]-[11,11])` on a fresh
tree, in tenths (margin 1): the leaves 0 and 1 below the root 2. -/
def twoProxies : b2DynamicTree ℤ :=
  ((createAll 1 [boxAt 0 0, boxAt 10 10] new).map Prod.fst).getD new

/-- Eight unit boxes in sorted x order, `[i,0] - [i+1,1]` for `i = 0..7`, in tenths. -/
def sortedBoxes : List (b2AABB ℤ) := (List.range 8).map fun i => boxAt i 0

/-- Seven unit boxes: two clusters filled alternately, then one box far away. -/
def skewedBoxes : List (b2AABB ℤ) :=
  [boxAt 0 0, boxAt 10 0, boxAt 1 0, boxAt 11 0, boxAt 2 0, boxAt 12 0, boxAt 1000 1000]

/-- Four boxes (in tenths) for which the insertion order pairs the leaves badly: three unit
boxes at (0,0), (10,0), (0,10) and a wide box `[4,0] - [7,1]`. -/
def regroupBoxes : List (b2AABB ℤ) :=
  [⟨⟨0, 0⟩, ⟨10, 10⟩⟩, ⟨⟨100, 0⟩, ⟨110, 10⟩⟩, ⟨⟨0, 100⟩, ⟨10, 110⟩⟩, ⟨⟨40, 0⟩, ⟨70, 10⟩⟩]

/-- The state after `CreateProxy` of the four `regroupBoxes` on a fresh tree (margin 1): the
root 4 has the children 2 (leaves 3, 1) and 6 (leaves 0, 5), and `Shuffle(4)` regroups the
leaves. -/
def fourProxies : b2DynamicTree ℤ := ((createAll 1 regroupBoxes new).map Prod.fst).getD new

/-- The tree that `fourProxies` stores below its root 4, with the fattened boxes. -/
def fourShape : Shape ℤ :=
  Shape.node 4
    (Shape.node 2 (Shape.leaf 3 ⟨⟨-1, 99⟩, ⟨11, 111⟩⟩ 0) (Shape.leaf 1 ⟨⟨99, -1⟩, ⟨111, 11⟩⟩ 0))
    (Shape.node 6 (Shape.leaf 0 ⟨⟨-1, -1⟩, ⟨11, 11⟩⟩ 0) (Shape.leaf 5 ⟨⟨39, -1⟩, ⟨71, 11⟩⟩ 0))

/-- The box `[9,9]-[10,10]`. -/
def farBox : b2AABB ℤ := ⟨⟨9, 9⟩, ⟨10, 10⟩⟩

/-- A pool of eleven slots on which `Validate()` passes.  The tree on the slots 0..6 has the
root 0 and the internal nodes 1 (leaves 3, 4) and 2 (leaves 5, 6).  The free list is 8, 9, 10,
7; the free slots 7, 8 and 10 do not have `height = -1` but hold the fields of earlier nodes:
slot 7 has height 2 and the children 1 and 8, slot 8 has height 1 and the children 9 and 10,
slot 10 has height 0 and the box `[9,9]-[10,10]`.  The cursor `m_path` is 7. -/
def staleShuffleTree : b2DynamicTree ℤ :=
  { m_root := 0
    m_nodes := [⟨⟨⟨0, 0⟩, ⟨10, 10⟩⟩, 0, -1, 1, 2, 2⟩, ⟨⟨⟨0, 0⟩, ⟨2, 2⟩⟩, 0, 0, 3, 4, 1⟩,
      ⟨⟨⟨0, 0⟩, ⟨10, 10⟩⟩, 0, 0, 5, 6, 1⟩, ⟨⟨⟨1, 1⟩, ⟨2, 2⟩⟩, 0, 1, -1, -1, 0⟩,
      ⟨unitBox, 0, 1, -1, -1, 0⟩, ⟨unitBox, 0, 2, -1, -1, 0⟩, ⟨farBox, 0, 2, -1, -1, 0⟩,
      ⟨zbox, 0, -1, 1, 8, 2⟩, ⟨zbox, 0, 9, 9, 10, 1⟩, ⟨unitBox, 0, 10, -1, -1, -1⟩,
      ⟨farBox, 0, 7, -1, -1, 0⟩]
    m_nodeCount := 7
    m_freeList := 8
    m_path := 7
    m_insertionCount := 4 }

/-- The tree that `staleShuffleTree` stores below its root: the leaves 3, 4, 5, 6. -/
def staleShuffleShape : Shape ℤ :=
  Shape.node 0
    (Shape.node 1 (Shape.leaf 3 ⟨⟨1, 1⟩, ⟨2, 2⟩⟩ 0) (Shape.leaf 4 unitBox 0))
    (Shape.node 2 (Shape.leaf 5 unitBox 0) (Shape.leaf 6 farBox 0))

/-- The state that `Shuffle(7)` returns on `staleShuffleTree`: the slot 10 is now `child2` of
the node 1 (box `[1,1]-[10,10]`), and the leaf 4 hangs below the free slot 8. -/
def staleShuffled : b2DynamicTree ℤ :=
  { m_root := 0
    m_nodes := [⟨⟨⟨0, 0⟩, ⟨10, 10⟩⟩, 0, -1, 1, 2, 2⟩, ⟨⟨⟨1, 1⟩, ⟨10, 10⟩⟩, 0, 0, 3, 10, 1⟩,
      ⟨⟨⟨0, 0⟩, ⟨10, 10⟩⟩, 0, 0, 5, 6, 1⟩, ⟨⟨⟨1, 1⟩, ⟨2, 2⟩⟩, 0, 1, -1, -1, 0⟩,
      ⟨unitBox, 0, 8, -1, -1, 0⟩, ⟨unitBox, 0, 2, -1, -1, 0⟩, ⟨farBox, 0, 2, -1, -1, 0⟩,
      ⟨⟨⟨0, 0⟩, ⟨10, 10⟩⟩, 0, -1, 1, 8, 2⟩, ⟨unitBox, 0, 9, 9, 4, 1⟩,
      ⟨unitBox, 0, 10, -1, -1, -1⟩, ⟨farBox, 0, 1, -1, -1, 0⟩]
    m_nodeCount := 7
    m_freeList := 8
    m_path := 7
    m_insertionCount := 4 }

/-- The tree that `staleShuffled` stores below its root: the leaves 3, 10, 5, 6. -/
def staleShuffledShape : Shape ℤ :=
  Shape.node 0
    (Shape.node 1 (Shape.leaf 3 ⟨⟨1, 1⟩, ⟨2, 2⟩⟩ 0) (Shape.leaf 10 farBox 0))
    (Shape.node 2 (Shape.leaf 5 unitBox 0) (Shape.leaf 6 farBox 0))

/-! ## Reading the pool after a write -/

theorem length_upd (t : b2DynamicTree α) (i : Int) (f : b2TreeNode α → b2TreeNode α) :
    (t.upd i f).m_nodes.length = t.m_nodes.length := by
  unfold upd; split <;> simp

theorem nd_upd (t : b2DynamicTree α) (i j : Int) (f : b2TreeNode α → b2TreeNode α) :
    (t.upd i f).nd j = if j = i ∧ t.InRange i then f (t.nd i) else t.nd j := by
  unfold upd
  by_cases hi : 0 ≤ i
  · simp only [hi, if_true]
    by_cases hj : 0 ≤ j
    · by_cases hji : j = i
      · subst hji
        by_cases hr : t.InRange j
        · have hlt : j.toNat < t.m_nodes.length := by
            have := hr.2; unfold m_nodeCapacity at this; omega
          simp [nd, hj, hr, List.getD_eq_getElem?_getD, List.getElem?_set, hlt]
        · have hge : t.m_nodes.length ≤ j.toNat := by
            unfold InRange m_nodeCapacity at hr; omega
          have hnl : ¬ j < (t.m_nodes.length : Int) := by omega
          have hnone : t.m_nodes[j.toNat]? = none := List.getElem?_eq_none hge
          simp [nd, hj, hr, List.getD_eq_getElem?_getD, List.getElem?_set, hnl, hnone]
      · have hne : i.toNat ≠ j.toNat := by omega
        simp [nd, hj, hji, List.getD_eq_getElem?_getD, List.getElem?_set, hne]
    · have hji : j ≠ i := by omega
      simp [nd, hj, hji]
  · have hr : ¬ t.InRange i := fun h => hi h.1
    simp [hi, hr]

theorem upd_root (t : b2DynamicTree α) (i : Int) (f : b2TreeNode α → b2TreeNode α) :
    (t.upd i f).m_root = t.m_root := by unfold upd; split <;> rfl

theorem upd_freeList (t : b2DynamicTree α) (i : Int) (f : b2TreeNode α → b2TreeNode α) :
    (t.upd i f).m_freeList = t.m_freeList := by unfold upd; split <;> rfl

theorem upd_nodeCount (t : b2DynamicTree α) (i : Int) (f : b2TreeNode α → b2TreeNode α) :
    (t.upd i f).m_nodeCount = t.m_nodeCount := by unfold upd; split <;> rfl

theorem upd_path (t : b2DynamicTree α) (i : Int) (f : b2TreeNode α → b2TreeNode α) :
    (t.upd i f).m_path = t.m_path := by unfold upd; split <;> rfl

theorem upd_insertionCount (t : b2DynamicTree α) (i : Int) (f : b2TreeNode α → b2TreeNode α) :
    (t.upd i f).m_insertionCount = t.m_insertionCount := by unfold upd; split <;> rfl

theorem upd_capacity (t : b2DynamicTree α) (i : Int) (f : b2TreeNode α → b2TreeNode α) :
    (t.upd i f).m_nodeCapacity = t.m_nodeCapacity := by
  unfold m_nodeCapacity; rw [length_upd]

theorem upd_inRange (t : b2DynamicTree α) (i j : Int) (f : b2TreeNode α → b2TreeNode α) :
    (t.upd i f).InRange j ↔ t.InRange j := by
  unfold InRange; rw [upd_capacity]

@[simp] theorem setParent_length (t : b2DynamicTree α) (i : Int) (p : Int) :
    (t.setParent i p).m_nodes.length = t.m_nodes.length := length_upd _ _ _

@[simp] theorem setParent_capacity (t : b2DynamicTree α) (i : Int) (p : Int) :
    (t.setParent i p).m_nodeCapacity = t.m_nodeCapacity := upd_capacity _ _ _

@[simp] theorem setParent_inRange (t : b2DynamicTree α) (i j : Int) (p : Int) :
    (t.setParent i p).InRange j ↔ t.InRange j := upd_inRange _ _ _ _

@[simp] theorem setParent_root (t : b2DynamicTree α) (i : Int) (p : Int) :
    (t.setParent i p).m_root = t.m_root := upd_root _ _ _

@[simp] theorem setParent_freeList (t : b2DynamicTree α) (i : Int) (p : Int) :
    (t.setParent i p).m_freeList = t.m_freeList := upd_freeList _ _ _

@[simp] theorem setParent_nodeCount (t : b2DynamicTree α) (i : Int) (p : Int) :
    (t.setParent i p).m_nodeCount = t.m_nodeCount := upd_nodeCount _ _ _

@[simp] theorem setParent_path (t : b2DynamicTree α) (i : Int) (p : Int) :
    (t.setParent i p).m_path = t.m_path := upd_path _ _ _

@[simp] theorem setParent_insertionCount (t : b2DynamicTree α) (i : Int) (p : Int) :
    (t.setParent i p).m_insertionCount = t.m_insertionCount := upd_insertionCount _ _ _

@[simp] theorem setParent_aabb (t : b2DynamicTree α) (i j : Int) (p : Int) :
    ((t.setParent i p).nd j).aabb = (t.nd j).aabb := by
  unfold setParent; rw [nd_upd]; split
  · next h => rw [h.1]
  · rfl

@[simp] theorem setParent_userData (t : b2DynamicTree α) (i j : Int) (p : Int) :
    ((t.setParent i p).nd j).userData = (t.nd j).userData := by
  unfold setParent; rw [nd_upd]; split
  · next h => rw [h.1]
  · rfl

theorem setParent_parent (t : b2DynamicTree α) (i j : Int) (p : Int) :
    ((t.setParent i p).nd j).parent = if j = i ∧ t.InRange i then p else (t.nd j).parent := by
  unfold setParent; rw [nd_upd]; split <;> rfl

@[simp] theorem setParent_parent_self (t : b2DynamicTree α) (i : Int) (p : Int) (hr : t.InRange i) :
    ((t.setParent i p).nd i).parent = p := by
  rw [setParent_parent]; simp [hr]

@[simp] theorem setParent_parent_ne (t : b2DynamicTree α) (i j : Int) (p : Int) (hr : j ≠ i) :
    ((t.setParent i p).nd j).parent = (t.nd j).parent := by
  rw [setParent_parent]; simp [hr]

@[simp] theorem setParent_child1 (t : b2DynamicTree α) (i j : Int) (p : Int) :
    ((t.setParent i p).nd j).child1 = (t.nd j).child1 := by
  unfold setParent; rw [nd_upd]; split
  · next h => rw [h.1]
  · rfl

@[simp] theorem setParent_child2 (t : b2DynamicTree α) (i j : Int) (p : Int) :
    ((t.setParent i p).nd j).child2 = (t.nd j).child2 := by
  unfold setParent; rw [nd_upd]; split
  · next h => rw [h.1]
  · rfl

@[simp] theorem setParent_height (t : b2DynamicTree α) (i j : Int) (p : Int) :
    ((t.setParent i p).nd j).height = (t.nd j).height := by
  unfold setParent; rw [nd_upd]; split
  · next h => rw [h.1]
  · rfl

@[simp] theorem setChild1_length (t : b2DynamicTree α) (i : Int) (c : Int) :
    (t.setChild1 i c).m_nodes.length = t.m_nodes.length := length_upd _ _ _

@[simp] theorem setChild1_capacity (t : b2DynamicTree α) (i : Int) (c : Int) :
    (t.setChild1 i c).m_nodeCapacity = t.m_nodeCapacity := upd_capacity _ _ _

@[simp] theorem setChild1_inRange (t : b2DynamicTree α) (i j : Int) (c : Int) :
    (t.setChild1 i c).InRange j ↔ t.InRange j := upd_inRange _ _ _ _

@[simp] theorem setChild1_root (t : b2DynamicTree α) (i : Int) (c : Int) :
    (t.setChild1 i c).m_root = t.m_root := upd_root _ _ _

@[simp] theorem setChild1_freeList (t : b2DynamicTree α) (i : Int) (c : Int) :
    (t.setChild1 i c).m_freeList = t.m_freeList := upd_freeList _ _ _

@[simp] theorem setChild1_nodeCount (t : b2DynamicTree α) (i : Int) (c : Int) :
    (t.setChild1 i c).m_nodeCount = t.m_nodeCount := upd_nodeCount _ _ _

@[simp] theorem setChild1_path (t : b2DynamicTree α) (i : Int) (c : Int) :
    (t.setChild1 i c).m_path = t.m_path := upd_path _ _ _

@[simp] theorem setChild1_insertionCount (t : b2DynamicTree α) (i : Int) (c : Int) :
    (t.setChild1 i c).m_insertionCount = t.m_insertionCount := upd_insertionCount _ _ _

@[simp] theorem setChild1_aabb (t : b2DynamicTree α) (i j : Int) (c : Int) :
    ((t.setChild1 i c).nd j).aabb = (t.nd j).aabb := by
  unfold setChild1; rw [nd_upd]; split
  · next h => rw [h.1]
  · rfl

@[simp] theorem setChild1_userData (t : b2DynamicTree α) (i j : Int) (c : Int) :
    ((t.setChild1 i c).nd j).userData = (t.nd j).userData := by
  unfold setChild1; rw [nd_upd]; split
  · next h => rw [h.1]
  · rfl

@[simp] theorem setChild1_parent (t : b2DynamicTree α) (i j : Int) (c : Int) :
    ((t.setChild1 i c).nd j).parent = (t.nd j).parent := by
  unfold setChild1; rw [nd_upd]; split
  · next h => rw [h.1]
  · rfl

theorem setChild1_child1 (t : b2DynamicTree α) (i j : Int) (c : Int) :
    ((t.setChild1 i c).nd j).child1 = if j = i ∧ t.InRange i then c else (t.nd j).child1 := by
  unfold setChild1; rw [nd_upd]; split <;> rfl

@[simp] theorem setChild1_child1_self (t : b2DynamicTree α) (i : Int) (c : Int) (hr : t.InRange i) :
    ((t.setChild1 i c).nd i).child1 = c := by
  rw [setChild1_child1]; simp [hr]

@[simp] theorem setChild1_child1_ne (t : b2DynamicTree α) (i j : Int) (c : Int) (hr : j ≠ i) :
    ((t.setChild1 i c).nd j).child1 = (t.nd j).child1 := by
  rw [setChild1_child1]; simp [hr]

@[simp] theorem setChild1_child2 (t : b2DynamicTree α) (i j : Int) (c : Int) :
    ((t.setChild1 i c).nd j).child2 = (t.nd j).child2 := by
  unfold setChild1; rw [nd_upd]; split
  · next h => rw [h.1]
  · rfl

@[simp] theorem setChild1_height (t : b2DynamicTree α) (i j : Int) (c : Int) :
    ((t.setChild1 i c).nd j).height = (t.nd j).height := by
  unfold setChild1; rw [nd_upd]; split
  · next h => rw [h.1]
  · rfl

@[simp] theorem setChild2_length (t : b2DynamicTree α) (i : Int) (c : Int) :
    (t.setChild2 i c).m_nodes.length = t.m_nodes.length := length_upd _ _ _

@[simp] theorem setChild2_capacity (t : b2DynamicTree α) (i : Int) (c : Int) :
    (t.setChild2 i c).m_nodeCapacity = t.m_nodeCapacity := upd_capacity _ _ _

@[simp] theorem setChild2_inRange (t : b2DynamicTree α) (i j : Int) (c : Int) :
    (t.setChild2 i c).InRange j ↔ t.InRange j := upd_inRange _ _ _ _

@[simp] theorem setChild2_root (t : b2DynamicTree α) (i : Int) (c : Int) :
    (t.setChild2 i c).m_root = t.m_root := upd_root _ _ _

@[simp] theorem setChild2_freeList (t : b2DynamicTree α) (i : Int) (c : Int) :
    (t.setChild2 i c).m_freeList = t.m_freeList := upd_freeList _ _ _

@[simp] theorem setChild2_nodeCount (t : b2DynamicTree α) (i : Int) (c : Int) :
    (t.setChild2 i c).m_nodeCount = t.m_nodeCount := upd_nodeCount _ _ _

@[simp] theorem setChild2_path (t : b2DynamicTree α) (i : Int) (c : Int) :
    (t.setChild2 i c).m_path = t.m_path := upd_path _ _ _

@[simp] theorem setChild2_insertionCount (t : b2DynamicTree α) (i : Int) (c : Int) :
    (t.setChild2 i c).m_insertionCount = t.m_insertionCount := upd_insertionCount _ _ _

@[simp] theorem setChild2_aabb (t : b2DynamicTree α) (i j : Int) (c : Int) :
    ((t.setChild2 i c).nd j).aabb = (t.nd j).aabb := by
  unfold setChild2; rw [nd_upd]; split
  · next h => rw [h.1]
  · rfl

@[simp] theorem setChild2_userData (t : b2DynamicTree α) (i j : Int) (c : Int) :
    ((t.setChild2 i c).nd j).userData = (t.nd j).userData := by
  unfold setChild2; rw [nd_upd]; split
  · next h => rw [h.1]
  · rfl

@[simp] theorem setChild2_parent (t : b2DynamicTree α) (i j : Int) (c : Int) :
    ((t.setChild2 i c).nd j).parent = (t.nd j).parent := by
  unfold setChild2; rw [nd_upd]; split
  · next h => rw [h.1]
  · rfl

@[simp] theorem setChild2_child1 (t : b2DynamicTree α) (i j : Int) (c : Int) :
    ((t.setChild2 i c).nd j).child1 = (t.nd j).child1 := by
  unfold setChild2; rw [nd_upd]; split
  · next h => rw [h.1]
  · rfl

theorem setChild2_child2 (t : b2DynamicTree α) (i j : Int) (c : Int) :
    ((t.setChild2 i c).nd j).child2 = if j = i ∧ t.InRange i then c else (t.nd j).child2 := by
  unfold setChild2; rw [nd_upd]; split <;> rfl

@[simp] theorem setChild2_child2_self (t : b2DynamicTree α) (i : Int) (c : Int) (hr : t.InRange i) :
    ((t.setChild2 i c).nd i).child2 = c := by
  rw [setChild2_child2]; simp [hr]

@[simp] theorem setChild2_child2_ne (t : b2DynamicTree α) (i j : Int) (c : Int) (hr : j ≠ i) :
    ((t.setChild2 i c).nd j).child2 = (t.nd j).child2 := by
  rw [setChild2_child2]; simp [hr]

@[simp] theorem setChild2_height (t : b2DynamicTree α) (i j : Int) (c : Int) :
    ((t.setChild2 i c).nd j).height = (t.nd j).height := by
  unfold setChild2; rw [nd_upd]; split
  · next h => rw [h.1]
  · rfl

@[simp] theorem setHeight_length (t : b2DynamicTree α) (i : Int) (h : Int) :
    (t.setHeight i h).m_nodes.length = t.m_nodes.length := length_upd _ _ _

@[simp] theorem setHeight_capacity (t : b2DynamicTree α) (i : Int) (h : Int) :
    (t.setHeight i h).m_nodeCapacity = t.m_nodeCapacity := upd_capacity _ _ _

@[simp] theorem setHeight_inRange (t : b2DynamicTree α) (i j : Int) (h : Int) :
    (t.setHeight i h).InRange j ↔ t.InRange j := upd_inRange _ _ _ _

@[simp] theorem setHeight_root (t : b2DynamicTree α) (i : Int) (h : Int) :
    (t.setHeight i h).m_root = t.m_root := upd_root _ _ _

@[simp] theorem setHeight_freeList (t : b2DynamicTree α) (i : Int) (h : Int) :
    (t.setHeight i h).m_freeList = t.m_freeList := upd_freeList _ _ _

@[simp] theorem setHeight_nodeCount (t : b2DynamicTree α) (i : Int) (h : Int) :
    (t.setHeight i h).m_nodeCount = t.m_nodeCount := upd_nodeCount _ _ _

@[simp] theorem setHeight_path (t : b2DynamicTree α) (i : Int) (h : Int) :
    (t.setHeight i h).m_path = t.m_path := upd_path _ _ _

@[simp] theorem setHeight_insertionCount (t : b2DynamicTree α) (i : Int) (h : Int) :
    (t.setHeight i h).m_insertionCount = t.m_insertionCount := upd_insertionCount _ _ _

@[simp] theorem setHeight_aabb (t : b2DynamicTree α) (i j : Int) (h : Int) :
    ((t.setHeight i h).nd j).aabb = (t.nd j).aabb := by
  unfold setHeight; rw [nd_upd]; split
  · next h => rw [h.1]
  · rfl

@[simp] theorem setHeight_userData (t : b2DynamicTree α) (i j : Int) (h : Int) :
    ((t.setHeight i h).nd j).userData = (t.nd j).userData := by
  unfold setHeight; rw [nd_upd]; split
  · next h => rw [h.1]
  · rfl

@[simp] theorem setHeight_parent (t : b2DynamicTree α) (i j : Int) (h : Int) :
    ((t.setHeight i h).nd j).parent = (t.nd j).parent := by
  unfold setHeight; rw [nd_upd]; split
  · next h => rw [h.1]
  · rfl

@[simp] theorem setHeight_child1 (t : b2DynamicTree α) (i j : Int) (h : Int) :
    ((t.setHeight i h).nd j).child1 = (t.nd j).child1 := by
  unfold setHeight; rw [nd_upd]; split
  · next h => rw [h.1]
  · rfl

@[simp] theorem setHeight_child2 (t : b2DynamicTree α) (i j : Int) (h : Int) :
    ((t.setHeight i h).nd j).child2 = (t.nd j).child2 := by
  unfold setHeight; rw [nd_upd]; split
  · next h => rw [h.1]
  · rfl

theorem setHeight_height (t : b2DynamicTree α) (i j : Int) (h : Int) :
    ((t.setHeight i h).nd j).height = if j = i ∧ t.InRange i then h else (t.nd j).height := by
  unfold setHeight; rw [nd_upd]; split <;> rfl

@[simp] theorem setHeight_height_self (t : b2DynamicTree α) (i : Int) (h : Int) (hr : t.InRange i) :
    ((t.setHeight i h).nd i).height = h := by
  rw [setHeight_height]; simp [hr]

@[simp] theorem setHeight_height_ne (t : b2DynamicTree α) (i j : Int) (h : Int) (hr : j ≠ i) :
    ((t.setHeight i h).nd j).height = (t.nd j).height := by
  rw [setHeight_height]; simp [hr]

@[simp] theorem setAABB_length (t : b2DynamicTree α) (i : Int) (b : b2AABB α) :
    (t.setAABB i b).m_nodes.length = t.m_nodes.length := length_upd _ _ _

@[simp] theorem setAABB_capacity (t : b2DynamicTree α) (i : Int) (b : b2AABB α) :
    (t.setAABB i b).m_nodeCapacity = t.m_nodeCapacity := upd_capacity _ _ _

@[simp] theorem setAABB_inRange (t : b2DynamicTree α) (i j : Int) (b : b2AABB α) :
    (t.setAABB i b).InRange j ↔ t.InRange j := upd_inRange _ _ _ _

@[simp] theorem setAABB_root (t : b2DynamicTree α) (i : Int) (b : b2AABB α) :
    (t.setAABB i b).m_root = t.m_root := upd_root _ _ _

@[simp] theorem setAABB_freeList (t : b2DynamicTree α) (i : Int) (b : b2AABB α) :
    (t.setAABB i b).m_freeList = t.m_freeList := upd_freeList _ _ _

@[simp] theorem setAABB_nodeCount (t : b2DynamicTree α) (i : Int) (b : b2AABB α) :
    (t.setAABB i b).m_nodeCount = t.m_nodeCount := upd_nodeCount _ _ _

@[simp] theorem setAABB_path (t : b2DynamicTree α) (i : Int) (b : b2AABB α) :
    (t.setAABB i b).m_path = t.m_path := upd_path _ _ _

@[simp] theorem setAABB_insertionCount (t : b2DynamicTree α) (i : Int) (b : b2AABB α) :
    (t.setAABB i b).m_insertionCount = t.m_insertionCount := upd_insertionCount _ _ _

theorem setAABB_aabb (t : b2DynamicTree α) (i j : Int) (b : b2AABB α) :
    ((t.setAABB i b).nd j).aabb = if j = i ∧ t.InRange i then b else (t.nd j).aabb := by
  unfold setAABB; rw [nd_upd]; split <;> rfl

@[simp] theorem setAABB_aabb_self (t : b2DynamicTree α) (i : Int) (b : b2AABB α) (hr : t.InRange i) :
    ((t.setAABB i b).nd i).aabb = b := by
  rw [setAABB_aabb]; simp [hr]

@[simp] theorem setAABB_aabb_ne (t : b2DynamicTree α) (i j : Int) (b : b2AABB α) (hr : j ≠ i) :
    ((t.setAABB i b).nd j).aabb = (t.nd j).aabb := by
  rw [setAABB_aabb]; simp [hr]

@[simp] theorem setAABB_userData (t : b2DynamicTree α) (i j : Int) (b : b2AABB α) :
    ((t.setAABB i b).nd j).userData = (t.nd j).userData := by
  unfold setAABB; rw [nd_upd]; split
  · next h => rw [h.1]
  · rfl

@[simp] theorem setAABB_parent (t : b2DynamicTree α) (i j : Int) (b : b2AABB α) :
    ((t.setAABB i b).nd j).parent = (t.nd j).parent := by
  unfold setAABB; rw [nd_upd]; split
  · next h => rw [h.1]
  · rfl

@[simp] theorem setAABB_child1 (t : b2DynamicTree α) (i j : Int) (b : b2AABB α) :
    ((t.setAABB i b).nd j).child1 = (t.nd j).child1 := by
  unfold setAABB; rw [nd_upd]; split
  · next h => rw [h.1]
  · rfl

@[simp] theorem setAABB_child2 (t : b2DynamicTree α) (i j : Int) (b : b2AABB α) :
    ((t.setAABB i b).nd j).child2 = (t.nd j).child2 := by
  unfold setAABB; rw [nd_upd]; split
  · next h => rw [h.1]
  · rfl

@[simp] theorem setAABB_height (t : b2DynamicTree α) (i j : Int) (b : b2AABB α) :
    ((t.setAABB i b).nd j).height = (t.nd j).height := by
  unfold setAABB; rw [nd_upd]; split
  · next h => rw [h.1]
  · rfl

@[simp] theorem setUserData_length (t : b2DynamicTree α) (i : Int) (u : Nat) :
    (t.setUserData i u).m_nodes.length = t.m_nodes.length := length_upd _ _ _

@[simp] theorem setUserData_capacity (t : b2DynamicTree α) (i : Int) (u : Nat) :
    (t.setUserData i u).m_nodeCapacity = t.m_nodeCapacity := upd_capacity _ _ _

@[simp] theorem setUserData_inRange (t : b2DynamicTree α) (i j : Int) (u : Nat) :
    (t.setUserData i u).InRange j ↔ t.InRange j := upd_inRange _ _ _ _

@[simp] theorem setUserData_root (t : b2DynamicTree α) (i : Int) (u : Nat) :
    (t.setUserData i u).m_root = t.m_root := upd_root _ _ _

@[simp] theorem setUserData_freeList (t : b2DynamicTree α) (i : Int) (u : Nat) :
    (t.setUserData i u).m_freeList = t.m_freeList := upd_freeList _ _ _

@[simp] theorem setUserData_nodeCount (t : b2DynamicTree α) (i : Int) (u : Nat) :
    (t.setUserData i u).m_nodeCount = t.m_nodeCount := upd_nodeCount _ _ _

@[simp] theorem setUserData_path (t : b2DynamicTree α) (i : Int) (u : Nat) :
    (t.setUserData i u).m_path = t.m_path := upd_path _ _ _

@[simp] theorem setUserData_insertionCount (t : b2DynamicTree α) (i : Int) (u : Nat) :
    (t.setUserData i u).m_insertionCount = t.m_insertionCount := upd_insertionCount _ _ _

@[simp] theorem setUserData_aabb (t : b2DynamicTree α) (i j : Int) (u : Nat) :
    ((t.setUserData i u).nd j).aabb = (t.nd j).aabb := by
  unfold setUserData; rw [nd_upd]; split
  · next h => rw [h.1]
  · rfl

theorem setUserData_userData (t : b2DynamicTree α) (i j : Int) (u : Nat) :
    ((t.setUserData i u).nd j).userData = if j = i ∧ t.InRange i then u else (t.nd j).userData := by
  unfold setUserData; rw [nd_upd]; split <;> rfl

@[simp] theorem setUserData_userData_self (t : b2DynamicTree α) (i : Int) (u : Nat) (hr : t.InRange i) :
    ((t.setUserData i u).nd i).userData = u := by
  rw [setUserData_userData]; simp [hr]

@[simp] theorem setUserData_userData_ne (t : b2DynamicTree α) (i j : Int) (u : Nat) (hr : j ≠ i) :
    ((t.setUserData i u).nd j).userData = (t.nd j).userData := by
  rw [setUserData_userData]; simp [hr]

@[simp] theorem setUserData_parent (t : b2DynamicTree α) (i j : Int) (u : Nat) :
    ((t.setUserData i u).nd j).parent = (t.nd j).parent := by
  unfold setUserData; rw [nd_upd]; split
  · next h => rw [h.1]
  · rfl

@[simp] theorem setUserData_child1 (t : b2DynamicTree α) (i j : Int) (u : Nat) :
    ((t.setUserData i u).nd j).child1 = (t.nd j).child1 := by
  unfold setUserData; rw [nd_upd]; split
  · next h => rw [h.1]
  · rfl

@[simp] theorem setUserData_child2 (t : b2DynamicTree α) (i j : Int) (u : Nat) :
    ((t.setUserData i u).nd j).child2 = (t.nd j).child2 := by
  unfold setUserData; rw [nd_upd]; split
  · next h => rw [h.1]
  · rfl

@[simp] theorem setUserData_height (t : b2DynamicTree α) (i j : Int) (u : Nat) :
    ((t.setUserData i u).nd j).height = (t.nd j).height := by
  unfold setUserData; rw [nd_upd]; split
  · next h => rw [h.1]
  · rfl

theorem setParent_nd_ne (t : b2DynamicTree α) (i j p : Int) (h : j ≠ i) :
    (t.setParent i p).nd j = t.nd j := by
  unfold setParent; rw [nd_upd]; simp [h]

theorem setChild1_nd_ne (t : b2DynamicTree α) (i j c : Int) (h : j ≠ i) :
    (t.setChild1 i c).nd j = t.nd j := by
  unfold setChild1; rw [nd_upd]; simp [h]

theorem setChild2_nd_ne (t : b2DynamicTree α) (i j c : Int) (h : j ≠ i) :
    (t.setChild2 i c).nd j = t.nd j := by
  unfold setChild2; rw [nd_upd]; simp [h]

theorem setHeight_nd_ne (t : b2DynamicTree α) (i j h : Int) (hne : j ≠ i) :
    (t.setHeight i h).nd j = t.nd j := by
  unfold setHeight; rw [nd_upd]; simp [hne]

theorem setAABB_nd_ne (t : b2DynamicTree α) (i j : Int) (b : b2AABB α) (h : j ≠ i) :
    (t.setAABB i b).nd j = t.nd j := by
  unfold setAABB; rw [nd_upd]; simp [h]

theorem setUserData_nd_ne (t : b2DynamicTree α) (i j : Int) (u : Nat) (h : j ≠ i) :
    (t.setUserData i u).nd j = t.nd j := by
  unfold setUserData; rw [nd_upd]; simp [h]

@[simp] theorem nd_mk (t : b2DynamicTree α) (r c f p ic : Int) (j : Int) :
    (b2DynamicTree.mk r t.m_nodes c f p ic).nd j = t.nd j := rfl

@[simp] theorem inRange_mk (t : b2DynamicTree α) (r c f p ic : Int) (j : Int) :
    (b2DynamicTree.mk r t.m_nodes c f p ic).InRange j ↔ t.InRange j := Iff.rfl

@[simp] theorem capacity_mk (t : b2DynamicTree α) (r c f p ic : Int) :
    (b2DynamicTree.mk r t.m_nodes c f p ic).m_nodeCapacity = t.m_nodeCapacity := rfl

theorem node_ext {a b : b2TreeNode α} (h1 : a.aabb = b.aabb) (h2 : a.userData = b.userData)
    (h3 : a.parent = b.parent) (h4 : a.child1 = b.child1) (h5 : a.child2 = b.child2)
    (h6 : a.height = b.height) : a = b := by
  cases a; cases b; simp_all

theorem inRange_ne_null {t : b2DynamicTree α} {i : Int} (h : t.InRange i) :
    i ≠ b2_nullNode := by
  intro e; rw [e] at h; exact absurd h.1 (by decide)

theorem inRange_of_length {t t1 : b2DynamicTree α} (h : t1.m_nodes.length = t.m_nodes.length)
    (i : Int) : t1.InRange i ↔ t.InRange i := by
  unfold InRange m_nodeCapacity; rw [h]

end b2DynamicTree

/-! ## Shapes -/

theorem Shape.height_nonneg (s : Shape α) : 0 ≤ s.height := by
  cases s with
  | leaf i b u => simp [Shape.height]
  | node i l r =>
    have hl := Shape.height_nonneg l
    simp only [Shape.height]
    have : l.height ≤ max l.height r.height := le_max_left _ _
    omega

theorem Shape.idx_mem_ids (s : Shape α) : s.idx ∈ s.ids := by
  cases s <;> simp [Shape.idx, Shape.ids]

theorem Shape.ids_ne_nil (s : Shape α) : s.ids ≠ [] := by
  cases s <;> simp [Shape.ids]

theorem Shape.leafIds_subset (s : Shape α) : ∀ j ∈ s.leafIds, j ∈ s.ids := by
  induction s with
  | leaf i b u => intro j hj; simpa [Shape.leafIds, Shape.leaves, Shape.ids] using hj
  | node i l r ihl ihr =>
    intro j hj
    simp only [Shape.leafIds, Shape.leaves, List.map_append, List.mem_append] at hj
    simp only [Shape.ids, List.mem_cons, List.mem_append]
    rcases hj with h | h
    · exact Or.inr (Or.inl (ihl j h))
    · exact Or.inr (Or.inr (ihr j h))

theorem Shape.ids_length (s : Shape α) : (s.ids.length : Int) = 2 * s.leaves.length - 1 := by
  induction s with
  | leaf i b u => simp [Shape.ids, Shape.leaves]
  | node i l r ihl ihr =>
    simp only [Shape.ids, Shape.leaves, List.length_cons, List.length_append]
    push_cast
    omega

theorem Shape.leaves_length_pos (s : Shape α) : 0 < s.leaves.length := by
  induction s with
  | leaf i b u => simp [Shape.leaves]
  | node i l r ihl ihr => simp only [Shape.leaves, List.length_append]; omega

theorem Ctx.plug_ids_perm (c : Ctx α) (s : Shape α) :
    (c.plug s).ids.Perm (s.ids ++ c.ids) := by
  induction c generalizing s with
  | top => simp [Ctx.plug, Ctx.ids]
  | left c i r ih =>
    refine (ih _).trans ?_
    simp only [Shape.ids, Ctx.ids]
    refine List.Perm.trans ?_ (List.perm_middle).symm
    simp only [List.cons_append, List.append_assoc]
    exact List.Perm.refl _
  | right c i l ih =>
    refine (ih _).trans ?_
    simp only [Shape.ids, Ctx.ids]
    refine List.Perm.trans ?_ (List.perm_middle).symm
    simp only [List.cons_append, List.append_assoc]
    refine List.Perm.cons _ ?_
    rw [← List.append_assoc, ← List.append_assoc]
    exact List.Perm.append_right _ List.perm_append_comm

theorem Ctx.plug_leaves_perm (c : Ctx α) (s : Shape α) :
    (c.plug s).leaves.Perm (s.leaves ++ c.leaves) := by
  induction c generalizing s with
  | top => simp [Ctx.plug, Ctx.leaves]
  | left c i r ih =>
    refine (ih _).trans ?_
    simp only [Shape.leaves, Ctx.leaves, List.append_assoc]
    exact List.Perm.refl _
  | right c i l ih =>
    refine (ih _).trans ?_
    simp only [Shape.leaves, Ctx.leaves]
    rw [← List.append_assoc]
    exact List.Perm.append_right _ List.perm_append_comm

theorem Ctx.plug_idx (c : Ctx α) (s s1 : Shape α) (h : s1.idx = s.idx) :
    (c.plug s1).idx = (c.plug s).idx := by
  induction c generalizing s s1 with
  | top => simpa [Ctx.plug] using h
  | left c i r ih => exact ih _ _ rfl
  | right c i l ih => exact ih _ _ rfl

namespace b2DynamicTree

/-! ## The representation predicate -/

theorem Rep.ids_inRange {t : b2DynamicTree α} {s : Shape α} {p : Int} (h : t.Rep s p) :
    ∀ j ∈ s.ids, t.InRange j := by
  induction s generalizing p with
  | leaf i b u =>
    intro j hj
    simp only [Shape.ids, List.mem_singleton] at hj
    subst hj; exact h.1
  | node i l r ihl ihr =>
    intro j hj
    simp only [Shape.ids, List.mem_cons, List.mem_append] at hj
    obtain ⟨h1, _, _, _, _, _, hl, hr⟩ := h
    rcases hj with rfl | hj | hj
    · exact h1
    · exact ihl hl j hj
    · exact ihr hr j hj

theorem Rep.idx_inRange {t : b2DynamicTree α} {s : Shape α} {p : Int} (h : t.Rep s p) :
    t.InRange s.idx := h.ids_inRange _ s.idx_mem_ids

theorem Rep.parent_eq {t : b2DynamicTree α} {s : Shape α} {p : Int} (h : t.Rep s p) :
    (t.nd s.idx).parent = p := by
  cases s with
  | leaf i b u => exact h.2.1
  | node i l r => exact h.2.1

theorem Rep.height_eq {t : b2DynamicTree α} {s : Shape α} {p : Int} (h : t.Rep s p) :
    (t.nd s.idx).height = s.height := by
  cases s with
  | leaf i b u => exact h.2.2.2.2.1
  | node i l r => exact h.2.2.2.2.1

theorem Rep.aabb_eq {t : b2DynamicTree α} {s : Shape α} {p : Int} (h : t.Rep s p) :
    (t.nd s.idx).aabb = s.box := by
  cases s with
  | leaf i b u => exact h.2.2.2.2.2.1
  | node i l r => exact h.2.2.2.2.2.1

theorem Rep.rep_congr {t t1 : b2DynamicTree α} {s : Shape α} {p : Int}
    (hlen : t1.m_nodes.length = t.m_nodes.length)
    (hnd : ∀ j ∈ s.ids, t1.nd j = t.nd j) (h : t.Rep s p) : t1.Rep s p := by
  induction s generalizing p with
  | leaf i b u =>
    have e := hnd i (by simp [Shape.ids])
    obtain ⟨h1, h2⟩ := h
    refine ⟨(inRange_of_length hlen i).2 h1, ?_⟩
    rw [e]; exact h2
  | node i l r ihl ihr =>
    have e := hnd i (by simp [Shape.ids])
    obtain ⟨h1, h2, h3, h4, h5, h6, hl, hr⟩ := h
    refine ⟨(inRange_of_length hlen i).2 h1, ?_, ?_, ?_, ?_, ?_, ?_, ?_⟩
    · rw [e]; exact h2
    · rw [e]; exact h3
    · rw [e]; exact h4
    · rw [e]; exact h5
    · rw [e]; exact h6
    · exact ihl (fun j hj => hnd j (by simp [Shape.ids, hj])) hl
    · exact ihr (fun j hj => hnd j (by simp [Shape.ids, hj])) hr

/-- Re-parenting the root of a stored subtree: only the parent field of its root changes. -/
theorem Rep.reparent {t t1 : b2DynamicTree α} {s : Shape α} {p q : Int}
    (hlen : t1.m_nodes.length = t.m_nodes.length)
    (hroot : t1.nd s.idx = { t.nd s.idx with parent := q })
    (hnd : ∀ j ∈ s.ids, j ≠ s.idx → t1.nd j = t.nd j)
    (hnodup : s.ids.Nodup) (h : t.Rep s p) : t1.Rep s q := by
  cases s with
  | leaf i b u =>
    obtain ⟨h1, h2, h3, h4, h5, h6, h7⟩ := h
    simp only [Shape.idx] at hroot
    refine ⟨(inRange_of_length hlen i).2 h1, ?_, ?_, ?_, ?_, ?_, ?_⟩ <;> rw [hroot] <;> assumption
  | node i l r =>
    obtain ⟨h1, h2, h3, h4, h5, h6, hl, hr⟩ := h
    simp only [Shape.idx] at hroot hnd
    simp only [Shape.ids, List.nodup_cons, List.mem_append, not_or] at hnodup
    refine ⟨(inRange_of_length hlen i).2 h1, ?_, ?_, ?_, ?_, ?_, ?_, ?_⟩
    · rw [hroot]
    · rw [hroot]; exact h3
    · rw [hroot]; exact h4
    · rw [hroot]; exact h5
    · rw [hroot]; exact h6
    · refine Rep.rep_congr hlen (fun j hj => hnd j (by simp [Shape.ids, hj]) ?_) hl
      rintro rfl; exact hnodup.1.1 hj
    · refine Rep.rep_congr hlen (fun j hj => hnd j (by simp [Shape.ids, hj]) ?_) hr
      rintro rfl; exact hnodup.1.2 hj

theorem RepCtx.ctx_congr {t t1 : b2DynamicTree α} {c : Ctx α} {h : Int}
    (hlen : t1.m_nodes.length = t.m_nodes.length) (hroot : t1.m_root = t.m_root)
    (hnd : ∀ j ∈ c.ids, t1.nd j = t.nd j) (hc : t.RepCtx c h) : t1.RepCtx c h := by
  induction c generalizing h with
  | top => simp only [RepCtx] at hc ⊢; rw [hroot]; exact hc
  | left c i r ih =>
    have e := hnd i (by simp [Ctx.ids])
    obtain ⟨h1, h2, h3, h4, hr, hc⟩ := hc
    refine ⟨(inRange_of_length hlen i).2 h1, ?_, ?_, ?_, ?_, ?_⟩
    · rw [e]; exact h2
    · rw [e]; exact h3
    · rw [e]; exact h4
    · exact Rep.rep_congr hlen (fun j hj => hnd j (by simp [Ctx.ids, hj])) hr
    · exact ih (fun j hj => hnd j (by simp [Ctx.ids, hj])) hc
  | right c i l ih =>
    have e := hnd i (by simp [Ctx.ids])
    obtain ⟨h1, h2, h3, h4, hr, hc⟩ := hc
    refine ⟨(inRange_of_length hlen i).2 h1, ?_, ?_, ?_, ?_, ?_⟩
    · rw [e]; exact h2
    · rw [e]; exact h3
    · rw [e]; exact h4
    · exact Rep.rep_congr hlen (fun j hj => hnd j (by simp [Ctx.ids, hj])) hr
    · exact ih (fun j hj => hnd j (by simp [Ctx.ids, hj])) hc

theorem RepCtx.ctx_inRange {t : b2DynamicTree α} {c : Ctx α} {h : Int} (hc : t.RepCtx c h) :
    ∀ j ∈ c.ids, t.InRange j := by
  induction c generalizing h with
  | top => intro j hj; simp [Ctx.ids] at hj
  | left c i r ih =>
    obtain ⟨h1, _, _, _, hr, hc⟩ := hc
    intro j hj
    simp only [Ctx.ids, List.mem_cons, List.mem_append] at hj
    rcases hj with rfl | hj | hj
    · exact h1
    · exact hr.ids_inRange j hj
    · exact ih hc j hj
  | right c i l ih =>
    obtain ⟨h1, _, _, _, hr, hc⟩ := hc
    intro j hj
    simp only [Ctx.ids, List.mem_cons, List.mem_append] at hj
    rcases hj with rfl | hj | hj
    · exact h1
    · exact hr.ids_inRange j hj
    · exact ih hc j hj

theorem rotateUp2_raw (t : b2DynamicTree α) (iA iB iC iF iG p : Int)
    (hA : t.InRange iA) (hC : t.InRange iC) (hF : t.InRange iF) (hG : t.InRange iG)
    (hAC : iA ≠ iC) (hAF : iA ≠ iF) (hAG : iA ≠ iG) (hCF : iC ≠ iF) (hCG : iC ≠ iG)
    (hFG : iF ≠ iG) (hBF : iB ≠ iF) (hBG : iB ≠ iG)
    (hp : (t.nd iA).parent = p)
    (hpar : p = b2_nullNode ∨ (t.InRange p ∧ p ≠ iA ∧ p ≠ iC ∧ p ≠ iF ∧ p ≠ iG ∧ p ≠ iB ∧
      ((t.nd p).child1 = iA ∨ (t.nd p).child2 = iA)))
    (iX iY : Int)
    (hXY : if (t.nd iF).height > (t.nd iG).height then iX = iG ∧ iY = iF
      else iX = iF ∧ iY = iG) :
    ∃ t1, t.rotateUp2 iA iB iC iF iG = some t1 ∧
      t1.m_nodes.length = t.m_nodes.length ∧ t1.m_freeList = t.m_freeList ∧
      t1.m_nodeCount = t.m_nodeCount ∧ t1.m_path = t.m_path ∧
      t1.m_insertionCount = t.m_insertionCount ∧
      t1.nd iA = ⟨b2AABB.Combine (t.nd iB).aabb (t.nd iX).aabb, (t.nd iA).userData, iC,
        (t.nd iA).child1, iX, 1 + max (t.nd iB).height (t.nd iX).height⟩ ∧
      t1.nd iC = ⟨b2AABB.Combine (b2AABB.Combine (t.nd iB).aabb (t.nd iX).aabb) (t.nd iY).aabb,
        (t.nd iC).userData, p, iA, iY,
        1 + max (1 + max (t.nd iB).height (t.nd iX).height) (t.nd iY).height⟩ ∧
      t1.nd iX = { t.nd iX with parent := iA } ∧
      (p = b2_nullNode → t1.m_root = iC) ∧
      (p ≠ b2_nullNode → t1.m_root = t.m_root ∧
        t1.nd p = if (t.nd p).child1 = iA then { t.nd p with child1 := iC }
          else { t.nd p with child2 := iC }) ∧
      (∀ j, j ≠ iA → j ≠ iC → j ≠ iX → j ≠ p → t1.nd j = t.nd j) := by
  have hCA := hAC.symm
  have hFA := hAF.symm
  have hGA := hAG.symm
  have hFC := hCF.symm
  have hGC := hCG.symm
  have hGF := hFG.symm
  unfold rotateUp2
  rcases hpar with hpn | ⟨hpr, hpA, hpC, hpF, hpG, hpB, hpc⟩
  · -- A was the root
    by_cases hh : (t.nd iF).height > (t.nd iG).height
    · rw [if_pos hh] at hXY
      obtain ⟨rfl, rfl⟩ := hXY
      simp [hA, hC, hF, hG, hAC, hAF, hAG, hCF, hCG, hFG, hCA, hFA, hGA, hFC, hGC, hGF, hp, hpn,
        setParent_parent, hh]
      refine ⟨node_ext ?_ ?_ ?_ ?_ ?_ ?_, node_ext ?_ ?_ ?_ ?_ ?_ ?_, node_ext ?_ ?_ ?_ ?_ ?_ ?_,
        ?_⟩
      all_goals first
        | (intro j h1 h2 h3 h4
           simp [setParent_nd_ne, setChild1_nd_ne, setChild2_nd_ne, setHeight_nd_ne,
             setAABB_nd_ne, h1, h2, h3])
        | simp [hA, hC, hF, hG, hAC, hAF, hAG, hCF, hCG, hFG, hCA, hFA, hGA, hFC, hGC, hGF,
            setParent_parent, setChild1_child1, setChild2_child2, setHeight_height,
            setAABB_aabb]
    · rw [if_neg hh] at hXY
      obtain ⟨rfl, rfl⟩ := hXY
      simp [hA, hC, hF, hG, hAC, hAF, hAG, hCF, hCG, hFG, hCA, hFA, hGA, hFC, hGC, hGF, hp, hpn,
        setParent_parent, hh]
      refine ⟨node_ext ?_ ?_ ?_ ?_ ?_ ?_, node_ext ?_ ?_ ?_ ?_ ?_ ?_, node_ext ?_ ?_ ?_ ?_ ?_ ?_,
        ?_⟩
      all_goals first
        | (intro j h1 h2 h3 h4
           simp [setParent_nd_ne, setChild1_nd_ne, setChild2_nd_ne, setHeight_nd_ne,
             setAABB_nd_ne, h1, h2, h3])
        | simp [hA, hC, hF, hG, hAC, hAF, hAG, hCF, hCG, hFG, hCA, hFA, hGA, hFC, hGC, hGF,
            setParent_parent, setChild1_child1, setChild2_child2, setHeight_height,
            setAABB_aabb]
  · have hpnn : p ≠ b2_nullNode := inRange_ne_null hpr
    by_cases hc1 : (t.nd p).child1 = iA
    · have hc2 : True := trivial
      by_cases hh : (t.nd iF).height > (t.nd iG).height
      · rw [if_pos hh] at hXY
        obtain ⟨rfl, rfl⟩ := hXY
        simp [hA, hC, hF, hG, hAC, hAF, hAG, hCF, hCG, hFG, hCA, hFA, hGA, hFC, hGC, hGF, hp,
          hpnn, hpr, hpA, hpC, hpF, hpG, hc1, hc2, setParent_parent, hh]
        refine ⟨node_ext ?_ ?_ ?_ ?_ ?_ ?_, node_ext ?_ ?_ ?_ ?_ ?_ ?_,
          node_ext ?_ ?_ ?_ ?_ ?_ ?_, node_ext ?_ ?_ ?_ ?_ ?_ ?_, ?_⟩
        all_goals first
          | (intro j h1 h2 h3 h4
             simp [setParent_nd_ne, setChild1_nd_ne, setChild2_nd_ne, setHeight_nd_ne,
               setAABB_nd_ne, h1, h2, h3, h4])
          | simp [hA, hC, hF, hG, hAC, hAF, hAG, hCF, hCG, hFG, hCA, hFA, hGA, hFC, hGC, hGF,
              hpr, hpA, hpC, hpF, hpG, hpA.symm, hpC.symm, hpF.symm, hpG.symm,
              setParent_parent, setChild1_child1, setChild2_child2, setHeight_height,
              setAABB_aabb]
      · rw [if_neg hh] at hXY
        obtain ⟨rfl, rfl⟩ := hXY
        simp [hA, hC, hF, hG, hAC, hAF, hAG, hCF, hCG, hFG, hCA, hFA, hGA, hFC, hGC, hGF, hp,
          hpnn, hpr, hpA, hpC, hpF, hpG, hc1, hc2, setParent_parent, hh]
        refine ⟨node_ext ?_ ?_ ?_ ?_ ?_ ?_, node_ext ?_ ?_ ?_ ?_ ?_ ?_,
          node_ext ?_ ?_ ?_ ?_ ?_ ?_, node_ext ?_ ?_ ?_ ?_ ?_ ?_, ?_⟩
        all_goals first
          | (intro j h1 h2 h3 h4
             simp [setParent_nd_ne, setChild1_nd_ne, setChild2_nd_ne, setHeight_nd_ne,
               setAABB_nd_ne, h1, h2, h3, h4])
          | simp [hA, hC, hF, hG, hAC, hAF, hAG, hCF, hCG, hFG, hCA, hFA, hGA, hFC, hGC, hGF,
              hpr, hpA, hpC, hpF, hpG, hpA.symm, hpC.symm, hpF.symm, hpG.symm,
              setParent_parent, setChild1_child1, setChild2_child2, setHeight_height,
              setAABB_aabb]
    · have hc2 : (t.nd p).child2 = iA := hpc.resolve_left hc1
      by_cases hh : (t.nd iF).height > (t.nd iG).height
      · rw [if_pos hh] at hXY
        obtain ⟨rfl, rfl⟩ := hXY
        simp [hA, hC, hF, hG, hAC, hAF, hAG, hCF, hCG, hFG, hCA, hFA, hGA, hFC, hGC, hGF, hp,
          hpnn, hpr, hpA, hpC, hpF, hpG, hc1, hc2, setParent_parent, hh]
        refine ⟨node_ext ?_ ?_ ?_ ?_ ?_ ?_, node_ext ?_ ?_ ?_ ?_ ?_ ?_,
          node_ext ?_ ?_ ?_ ?_ ?_ ?_, node_ext ?_ ?_ ?_ ?_ ?_ ?_, ?_⟩
        all_goals first
          | (intro j h1 h2 h3 h4
             simp [setParent_nd_ne, setChild1_nd_ne, setChild2_nd_ne, setHeight_nd_ne,
               setAABB_nd_ne, h1, h2, h3, h4])
          | simp [hA, hC, hF, hG, hAC, hAF, hAG, hCF, hCG, hFG, hCA, hFA, hGA, hFC, hGC, hGF,
              hpr, hpA, hpC, hpF, hpG, hpA.symm, hpC.symm, hpF.symm, hpG.symm,
              setParent_parent, setChild1_child1, setChild2_child2, setHeight_height,
              setAABB_aabb]
      · rw [if_neg hh] at hXY
        obtain ⟨rfl, rfl⟩ := hXY
        simp [hA, hC, hF, hG, hAC, hAF, hAG, hCF, hCG, hFG, hCA, hFA, hGA, hFC, hGC, hGF, hp,
          hpnn, hpr, hpA, hpC, hpF, hpG, hc1, hc2, setParent_parent, hh]
        refine ⟨node_ext ?_ ?_ ?_ ?_ ?_ ?_, node_ext ?_ ?_ ?_ ?_ ?_ ?_,
          node_ext ?_ ?_ ?_ ?_ ?_ ?_, node_ext ?_ ?_ ?_ ?_ ?_ ?_, ?_⟩
        all_goals first
          | (intro j h1 h2 h3 h4
             simp [setParent_nd_ne, setChild1_nd_ne, setChild2_nd_ne, setHeight_nd_ne,
               setAABB_nd_ne, h1, h2, h3, h4])
          | simp [hA, hC, hF, hG, hAC, hAF, hAG, hCF, hCG, hFG, hCA, hFA, hGA, hFC, hGC, hGF,
              hpr, hpA, hpC, hpF, hpG, hpA.symm, hpC.symm, hpF.symm, hpG.symm,
              setParent_parent, setChild1_child1, setChild2_child2, setHeight_height,
              setAABB_aabb]

theorem rotateUp1_raw (t : b2DynamicTree α) (iA iB iC iD iE p : Int)
    (hA : t.InRange iA) (hC : t.InRange iB) (hF : t.InRange iD) (hG : t.InRange iE)
    (hAC : iA ≠ iB) (hAF : iA ≠ iD) (hAG : iA ≠ iE) (hCF : iB ≠ iD) (hCG : iB ≠ iE)
    (hFG : iD ≠ iE) (hBF : iC ≠ iD) (hBG : iC ≠ iE)
    (hp : (t.nd iA).parent = p)
    (hpar : p = b2_nullNode ∨ (t.InRange p ∧ p ≠ iA ∧ p ≠ iB ∧ p ≠ iD ∧ p ≠ iE ∧ p ≠ iC ∧
      ((t.nd p).child1 = iA ∨ (t.nd p).child2 = iA)))
    (iX iY : Int)
    (hXY : if (t.nd iD).height > (t.nd iE).height then iX = iE ∧ iY = iD
      else iX = iD ∧ iY = iE) :
    ∃ t1, t.rotateUp1 iA iB iC iD iE = some t1 ∧
      t1.m_nodes.length = t.m_nodes.length ∧ t1.m_freeList = t.m_freeList ∧
      t1.m_nodeCount = t.m_nodeCount ∧ t1.m_path = t.m_path ∧
      t1.m_insertionCount = t.m_insertionCount ∧
      t1.nd iA = ⟨b2AABB.Combine (t.nd iC).aabb (t.nd iX).aabb, (t.nd iA).userData, iB,
        iX, (t.nd iA).child2, 1 + max (t.nd iC).height (t.nd iX).height⟩ ∧
      t1.nd iB = ⟨b2AABB.Combine (b2AABB.Combine (t.nd iC).aabb (t.nd iX).aabb) (t.nd iY).aabb,
        (t.nd iB).userData, p, iA, iY,
        1 + max (1 + max (t.nd iC).height (t.nd iX).height) (t.nd iY).height⟩ ∧
      t1.nd iX = { t.nd iX with parent := iA } ∧
      (p = b2_nullNode → t1.m_root = iB) ∧
      (p ≠ b2_nullNode → t1.m_root = t.m_root ∧
        t1.nd p = if (t.nd p).child1 = iA then { t.nd p with child1 := iB }
          else { t.nd p with child2 := iB }) ∧
      (∀ j, j ≠ iA → j ≠ iB → j ≠ iX → j ≠ p → t1.nd j = t.nd j) := by
  have hCA := hAC.symm
  have hFA := hAF.symm
  have hGA := hAG.symm
  have hFC := hCF.symm
  have hGC := hCG.symm
  have hGF := hFG.symm
  unfold rotateUp1
  rcases hpar with hpn | ⟨hpr, hpA, hpC, hpF, hpG, hpB, hpc⟩
  · -- A was the root
    by_cases hh : (t.nd iD).height > (t.nd iE).height
    · rw [if_pos hh] at hXY
      obtain ⟨rfl, rfl⟩ := hXY
      simp [hA, hC, hF, hG, hAC, hAF, hAG, hCF, hCG, hFG, hCA, hFA, hGA, hFC, hGC, hGF, hp, hpn,
        setParent_parent, hh]
      refine ⟨node_ext ?_ ?_ ?_ ?_ ?_ ?_, node_ext ?_ ?_ ?_ ?_ ?_ ?_, node_ext ?_ ?_ ?_ ?_ ?_ ?_,
        ?_⟩
      all_goals first
        | (intro j h1 h2 h3 h4
           simp [setParent_nd_ne, setChild1_nd_ne, setChild2_nd_ne, setHeight_nd_ne,
             setAABB_nd_ne, h1, h2, h3])
        | simp [hA, hC, hF, hG, hAC, hAF, hAG, hCF, hCG, hFG, hCA, hFA, hGA, hFC, hGC, hGF,
            setParent_parent, setChild1_child1, setChild2_child2, setHeight_height,
            setAABB_aabb]
    · rw [if_neg hh] at hXY
      obtain ⟨rfl, rfl⟩ := hXY
      simp [hA, hC, hF, hG, hAC, hAF, hAG, hCF, hCG, hFG, hCA, hFA, hGA, hFC, hGC, hGF, hp, hpn,
        setParent_parent, hh]
      refine ⟨node_ext ?_ ?_ ?_ ?_ ?_ ?_, node_ext ?_ ?_ ?_ ?_ ?_ ?_, node_ext ?_ ?_ ?_ ?_ ?_ ?_,
        ?_⟩
      all_goals first
        | (intro j h1 h2 h3 h4
           simp [setParent_nd_ne, setChild1_nd_ne, setChild2_nd_ne, setHeight_nd_ne,
             setAABB_nd_ne, h1, h2, h3])
        | simp [hA, hC, hF, hG, hAC, hAF, hAG, hCF, hCG, hFG, hCA, hFA, hGA, hFC, hGC, hGF,
            setParent_parent, setChild1_child1, setChild2_child2, setHeight_height,
            setAABB_aabb]
  · have hpnn : p ≠ b2_nullNode := inRange_ne_null hpr
    by_cases hc1 : (t.nd p).child1 = iA
    · have hc2 : True := trivial
      by_cases hh : (t.nd iD).height > (t.nd iE).height
      · rw [if_pos hh] at hXY
        obtain ⟨rfl, rfl⟩ := hXY
        simp [hA, hC, hF, hG, hAC, hAF, hAG, hCF, hCG, hFG, hCA, hFA, hGA, hFC, hGC, hGF, hp,
          hpnn, hpr, hpA, hpC, hpF, hpG, hc1, hc2, setParent_parent, hh]
        refine ⟨node_ext ?_ ?_ ?_ ?_ ?_ ?_, node_ext ?_ ?_ ?_ ?_ ?_ ?_,
          node_ext ?_ ?_ ?_ ?_ ?_ ?_, node_ext ?_ ?_ ?_ ?_ ?_ ?_, ?_⟩
        all_goals first
          | (intro j h1 h2 h3 h4
             simp [setParent_nd_ne, setChild1_nd_ne, setChild2_nd_ne, setHeight_nd_ne,
               setAABB_nd_ne, h1, h2, h3, h4])
          | simp [hA, hC, hF, hG, hAC, hAF, hAG, hCF, hCG, hFG, hCA, hFA, hGA, hFC, hGC, hGF,
              hpr, hpA, hpC, hpF, hpG, hpA.symm, hpC.symm, hpF.symm, hpG.symm,
              setParent_parent, setChild1_child1, setChild2_child2, setHeight_height,
              setAABB_aabb]
      · rw [if_neg hh] at hXY
        obtain ⟨rfl, rfl⟩ := hXY
        simp [hA, hC, hF, hG, hAC, hAF, hAG, hCF, hCG, hFG, hCA, hFA, hGA, hFC, hGC, hGF, hp,
          hpnn, hpr, hpA, hpC, hpF, hpG, hc1, hc2, setParent_parent, hh]
        refine ⟨node_ext ?_ ?_ ?_ ?_ ?_ ?_, node_ext ?_ ?_ ?_ ?_ ?_ ?_,
          node_ext ?_ ?_ ?_ ?_ ?_ ?_, node_ext ?_ ?_ ?_ ?_ ?_ ?_, ?_⟩
        all_goals first
          | (intro j h1 h2 h3 h4
             simp [setParent_nd_ne, setChild1_nd_ne, setChild2_nd_ne, setHeight_nd_ne,
               setAABB_nd_ne, h1, h2, h3, h4])
          | simp [hA, hC, hF, hG, hAC, hAF, hAG, hCF, hCG, hFG, hCA, hFA, hGA, hFC, hGC, hGF,
              hpr, hpA, hpC, hpF, hpG, hpA.symm, hpC.symm, hpF.symm, hpG.symm,
              setParent_parent, setChild1_child1, setChild2_child2, setHeight_height,
              setAABB_aabb]
    · have hc2 : (t.nd p).child2 = iA := hpc.resolve_left hc1
      by_cases hh : (t.nd iD).height > (t.nd iE).height
      · rw [if_pos hh] at hXY
        obtain ⟨rfl, rfl⟩ := hXY
        simp [hA, hC, hF, hG, hAC, hAF, hAG, hCF, hCG, hFG, hCA, hFA, hGA, hFC, hGC, hGF, hp,
          hpnn, hpr, hpA, hpC, hpF, hpG, hc1, hc2, setParent_parent, hh]
        refine ⟨node_ext ?_ ?_ ?_ ?_ ?_ ?_, node_ext ?_ ?_ ?_ ?_ ?_ ?_,
          node_ext ?_ ?_ ?_ ?_ ?_ ?_, node_ext ?_ ?_ ?_ ?_ ?_ ?_, ?_⟩
        all_goals first
          | (intro j h1 h2 h3 h4
             simp [setParent_nd_ne, setChild1_nd_ne, setChild2_nd_ne, setHeight_nd_ne,
               setAABB_nd_ne, h1, h2, h3, h4])
          | simp [hA, hC, hF, hG, hAC, hAF, hAG, hCF, hCG, hFG, hCA, hFA, hGA, hFC, hGC, hGF,
              hpr, hpA, hpC, hpF, hpG, hpA.symm, hpC.symm, hpF.symm, hpG.symm,
              setParent_parent, setChild1_child1, setChild2_child2, setHeight_height,
              setAABB_aabb]
      · rw [if_neg hh] at hXY
        obtain ⟨rfl, rfl⟩ := hXY
        simp [hA, hC, hF, hG, hAC, hAF, hAG, hCF, hCG, hFG, hCA, hFA, hGA, hFC, hGC, hGF, hp,
          hpnn, hpr, hpA, hpC, hpF, hpG, hc1, hc2, setParent_parent, hh]
        refine ⟨node_ext ?_ ?_ ?_ ?_ ?_ ?_, node_ext ?_ ?_ ?_ ?_ ?_ ?_,
          node_ext ?_ ?_ ?_ ?_ ?_ ?_, node_ext ?_ ?_ ?_ ?_ ?_ ?_, ?_⟩
        all_goals first
          | (intro j h1 h2 h3 h4
             simp [setParent_nd_ne, setChild1_nd_ne, setChild2_nd_ne, setHeight_nd_ne,
               setAABB_nd_ne, h1, h2, h3, h4])
          | simp [hA, hC, hF, hG, hAC, hAF, hAG, hCF, hCG, hFG, hCA, hFA, hGA, hFC, hGC, hGF,
              hpr, hpA, hpC, hpF, hpG, hpA.symm, hpC.symm, hpF.symm, hpG.symm,
              setParent_parent, setChild1_child1, setChild2_child2, setHeight_height,
              setAABB_aabb]

theorem Combine_comm (a b : b2AABB α) : b2AABB.Combine a b = b2AABB.Combine b a := by
  simp [b2AABB.Combine, min_comm, max_comm]

theorem Combine_assoc (a b c : b2AABB α) :
    b2AABB.Combine (b2AABB.Combine a b) c = b2AABB.Combine a (b2AABB.Combine b c) := by
  simp [b2AABB.Combine, min_assoc, max_assoc]

theorem rotateUp2_rep {t : b2DynamicTree α} {iA iC p : Int} {l f g : Shape α}
    (h : t.ValidBelow iA l (Shape.node iC f g) p) :
    ∃ t1, t.rotateUp2 iA l.idx iC f.idx g.idx = some t1 ∧
      t1.Rep (Shape.rotateUp2 iA l iC f g) p ∧
      t1.m_nodes.length = t.m_nodes.length ∧ t1.m_freeList = t.m_freeList ∧
      t1.m_nodeCount = t.m_nodeCount ∧ t1.m_path = t.m_path ∧
      t1.m_insertionCount = t.m_insertionCount ∧
      (p = b2_nullNode → t1.m_root = iC) ∧
      (p ≠ b2_nullNode → t1.m_root = t.m_root ∧
        t1.nd p = if (t.nd p).child1 = iA then { t.nd p with child1 := iC }
          else { t.nd p with child2 := iC }) ∧
      (∀ j, j ∉ iA :: (l.ids ++ (Shape.node iC f g).ids) → j ≠ p → t1.nd j = t.nd j) := by
  obtain ⟨hA, hc1, hc2, hp, hl, hr, hnd, hlink⟩ := h
  obtain ⟨hC, hCp, hCc1, hCc2, hCh, hCb, hf, hg⟩ := hr
  have hF := hf.idx_inRange
  have hG := hg.idx_inRange
  simp only [Shape.ids, List.nodup_cons, List.mem_cons, List.mem_append, List.nodup_append,
    not_or] at hnd
  obtain ⟨⟨hAl, hAC, hAf, hAg⟩, hlnd, ⟨⟨hCf, hCg⟩, hfnd, hgnd, hfg⟩, hdisj⟩ := hnd
  have hfm := f.idx_mem_ids
  have hgm := g.idx_mem_ids
  have hlm := l.idx_mem_ids
  have hallr : ∀ j ∈ iA :: (l.ids ++ (Shape.node iC f g).ids), t.InRange j := by
    intro j hj
    simp only [Shape.ids, List.mem_cons, List.mem_append] at hj
    rcases hj with rfl | hj | rfl | hj | hj
    · exact hA
    · exact hl.ids_inRange j hj
    · exact hC
    · exact hf.ids_inRange j hj
    · exact hg.ids_inRange j hj
  have hpnot : ∀ j ∈ iA :: (l.ids ++ (Shape.node iC f g).ids), j ≠ p := by
    intro j hj e
    rcases hlink with hn | ⟨_, hpn, _⟩
    · exact inRange_ne_null (hallr j hj) (e.trans hn)
    · exact hpn (e ▸ hj)
  have hmem : ∀ {j : Int} (s : List Int), j ∈ s → s = l.ids ∨ s = f.ids ∨ s = g.ids →
      j ∈ iA :: (l.ids ++ (Shape.node iC f g).ids) := by
    intro j s hj hs
    simp only [Shape.ids, List.mem_cons, List.mem_append]
    rcases hs with rfl | rfl | rfl
    · exact Or.inr (Or.inl hj)
    · exact Or.inr (Or.inr (Or.inr (Or.inl hj)))
    · exact Or.inr (Or.inr (Or.inr (Or.inr hj)))
  have hAmem : iA ∈ iA :: (l.ids ++ (Shape.node iC f g).ids) := by simp
  have hCmem : iC ∈ iA :: (l.ids ++ (Shape.node iC f g).ids) := by simp [Shape.ids]
  have hlC : ∀ j ∈ l.ids, j ≠ iC := fun j hj e =>
    List.disjoint_left.1 hdisj hj (by simp [e])
  have hlf : ∀ j ∈ l.ids, j ∉ f.ids := fun j hj e =>
    List.disjoint_left.1 hdisj hj (by simp [e])
  have hlg : ∀ j ∈ l.ids, j ∉ g.ids := fun j hj e =>
    List.disjoint_left.1 hdisj hj (by simp [e])
  have hlink2 : p = b2_nullNode ∨ (t.InRange p ∧ p ≠ iA ∧ p ≠ iC ∧ p ≠ f.idx ∧ p ≠ g.idx ∧
      p ≠ l.idx ∧ ((t.nd p).child1 = iA ∨ (t.nd p).child2 = iA)) := by
    rcases hlink with hn | ⟨hpr, _, hpc⟩
    · exact Or.inl hn
    · exact Or.inr ⟨hpr, (hpnot _ hAmem).symm, (hpnot _ hCmem).symm,
        (hpnot _ (hmem _ hfm (Or.inr (Or.inl rfl)))).symm,
        (hpnot _ (hmem _ hgm (Or.inr (Or.inr rfl)))).symm,
        (hpnot _ (hmem _ hlm (Or.inl rfl))).symm, hpc⟩
  have hAf2 : iA ≠ f.idx := fun e => hAf (e ▸ hfm)
  have hAg2 : iA ≠ g.idx := fun e => hAg (e ▸ hgm)
  have hCf2 : iC ≠ f.idx := fun e => hCf (e ▸ hfm)
  have hCg2 : iC ≠ g.idx := fun e => hCg (e ▸ hgm)
  have hfg2 : f.idx ≠ g.idx := fun e => List.disjoint_left.1 hfg hfm (e ▸ hgm)
  have hlf2 : l.idx ≠ f.idx := fun e => hlf _ hlm (e ▸ hfm)
  have hlg2 : l.idx ≠ g.idx := fun e => hlg _ hlm (e ▸ hgm)
  have hFh := hf.height_eq
  have hGh := hg.height_eq
  have hLh := hl.height_eq
  have hFb := hf.aabb_eq
  have hGb := hg.aabb_eq
  have hLb := hl.aabb_eq
  by_cases hh : f.height > g.height
  · obtain ⟨t1, hrun, hlen, hfl, hnc, hpa, hic, hnA, hnC, hnX, hroot, hpar, hframe⟩ :=
      rotateUp2_raw t iA l.idx iC f.idx g.idx p hA hC hF hG hAC hAf2 hAg2 hCf2 hCg2 hfg2
        hlf2 hlg2 hp hlink2 g.idx f.idx (by rw [hFh, hGh, if_pos hh]; exact ⟨rfl, rfl⟩)
    have hl1 : t1.Rep l iA := Rep.rep_congr hlen (fun j hj => hframe j
      (fun e => hAl (e ▸ hj)) (hlC j hj) (fun e => hlg j hj (e ▸ hgm))
      (hpnot j (hmem _ hj (Or.inl rfl)))) hl
    have hg1 : t1.Rep g iA := Rep.reparent hlen hnX (fun j hj hne => hframe j
      (fun e => hAg (e ▸ hj)) (fun e => hCg (e ▸ hj)) hne
      (hpnot j (hmem _ hj (Or.inr (Or.inr rfl))))) hgnd hg
    have hf1 : t1.Rep f iC := Rep.rep_congr hlen (fun j hj => hframe j
      (fun e => hAf (e ▸ hj)) (fun e => hCf (e ▸ hj))
      (fun e => List.disjoint_left.1 hfg hj (e ▸ hgm))
      (hpnot j (hmem _ hj (Or.inr (Or.inl rfl))))) hf
    refine ⟨t1, hrun, ?_, hlen, hfl, hnc, hpa, hic, hroot, hpar, ?_⟩
    · rw [Shape.rotateUp2, if_pos hh]
      refine ⟨(inRange_of_length hlen _).2 hC, ?_, ?_, ?_, ?_, ?_,
        ⟨(inRange_of_length hlen _).2 hA, ?_, ?_, ?_, ?_, ?_, hl1, hg1⟩, hf1⟩
      · rw [hnC]
      · rw [hnC]; rfl
      · rw [hnC]
      · rw [hnC, hLh, hGh, hFh]; rfl
      · rw [hnC, hLb, hGb, hFb]; rfl
      · rw [hnA]
      · rw [hnA]; exact hc1
      · rw [hnA]
      · rw [hnA, hLh, hGh]
      · rw [hnA, hLb, hGb]
    · intro j hj hjp
      simp only [Shape.ids, List.mem_cons, List.mem_append, not_or] at hj
      exact hframe j hj.1 hj.2.2.1 (fun e => hj.2.2.2.2 (e ▸ hgm)) hjp
  · obtain ⟨t1, hrun, hlen, hfl, hnc, hpa, hic, hnA, hnC, hnX, hroot, hpar, hframe⟩ :=
      rotateUp2_raw t iA l.idx iC f.idx g.idx p hA hC hF hG hAC hAf2 hAg2 hCf2 hCg2 hfg2
        hlf2 hlg2 hp hlink2 f.idx g.idx (by rw [hFh, hGh, if_neg hh]; exact ⟨rfl, rfl⟩)
    have hl1 : t1.Rep l iA := Rep.rep_congr hlen (fun j hj => hframe j
      (fun e => hAl (e ▸ hj)) (hlC j hj) (fun e => hlf j hj (e ▸ hfm))
      (hpnot j (hmem _ hj (Or.inl rfl)))) hl
    have hf1 : t1.Rep f iA := Rep.reparent hlen hnX (fun j hj hne => hframe j
      (fun e => hAf (e ▸ hj)) (fun e => hCf (e ▸ hj)) hne
      (hpnot j (hmem _ hj (Or.inr (Or.inl rfl))))) hfnd hf
    have hg1 : t1.Rep g iC := Rep.rep_congr hlen (fun j hj => hframe j
      (fun e => hAg (e ▸ hj)) (fun e => hCg (e ▸ hj))
      (fun e => List.disjoint_left.1 hfg hfm (e ▸ hj))
      (hpnot j (hmem _ hj (Or.inr (Or.inr rfl))))) hg
    refine ⟨t1, hrun, ?_, hlen, hfl, hnc, hpa, hic, hroot, hpar, ?_⟩
    · rw [Shape.rotateUp2, if_neg hh]
      refine ⟨(inRange_of_length hlen _).2 hC, ?_, ?_, ?_, ?_, ?_,
        ⟨(inRange_of_length hlen _).2 hA, ?_, ?_, ?_, ?_, ?_, hl1, hf1⟩, hg1⟩
      · rw [hnC]
      · rw [hnC]; rfl
      · rw [hnC]
      · rw [hnC, hLh, hGh, hFh]; rfl
      · rw [hnC, hLb, hGb, hFb]; rfl
      · rw [hnA]
      · rw [hnA]; exact hc1
      · rw [hnA]
      · rw [hnA, hLh, hFh]
      · rw [hnA, hLb, hFb]
    · intro j hj hjp
      simp only [Shape.ids, List.mem_cons, List.mem_append, not_or] at hj
      exact hframe j hj.1 hj.2.2.1 (fun e => hj.2.2.2.1 (e ▸ hfm)) hjp

theorem rotateUp1_rep {t : b2DynamicTree α} {iA iB p : Int} {d e r : Shape α}
    (h : t.ValidBelow iA (Shape.node iB d e) r p) :
    ∃ t1, t.rotateUp1 iA iB r.idx d.idx e.idx = some t1 ∧
      t1.Rep (Shape.rotateUp1 iA iB d e r) p ∧
      t1.m_nodes.length = t.m_nodes.length ∧ t1.m_freeList = t.m_freeList ∧
      t1.m_nodeCount = t.m_nodeCount ∧ t1.m_path = t.m_path ∧
      t1.m_insertionCount = t.m_insertionCount ∧
      (p = b2_nullNode → t1.m_root = iB) ∧
      (p ≠ b2_nullNode → t1.m_root = t.m_root ∧
        t1.nd p = if (t.nd p).child1 = iA then { t.nd p with child1 := iB }
          else { t.nd p with child2 := iB }) ∧
      (∀ j, j ∉ iA :: ((Shape.node iB d e).ids ++ r.ids) → j ≠ p → t1.nd j = t.nd j) := by
  obtain ⟨hA, hc1, hc2, hp, hl, hr, hnd, hlink⟩ := h
  obtain ⟨hB, hBp, hBc1, hBc2, hBh, hBb, hd, he⟩ := hl
  have hD := hd.idx_inRange
  have hE := he.idx_inRange
  simp only [Shape.ids, List.nodup_cons, List.mem_cons, List.mem_append, List.nodup_append,
    not_or, List.cons_append] at hnd
  obtain ⟨⟨hAB, ⟨hAd, hAe⟩, hAr⟩, ⟨⟨hBd, hBe⟩, hBr⟩, ⟨hdnd, hend, hde⟩, hrnd, hdisj⟩ := hnd
  have hdm := d.idx_mem_ids
  have hem := e.idx_mem_ids
  have hrm := r.idx_mem_ids
  have hallr : ∀ j ∈ iA :: ((Shape.node iB d e).ids ++ r.ids), t.InRange j := by
    intro j hj
    simp only [Shape.ids, List.mem_cons, List.mem_append, List.cons_append] at hj
    rcases hj with rfl | rfl | (hj | hj) | hj
    · exact hA
    · exact hB
    · exact hd.ids_inRange j hj
    · exact he.ids_inRange j hj
    · exact hr.ids_inRange j hj
  have hpnot : ∀ j ∈ iA :: ((Shape.node iB d e).ids ++ r.ids), j ≠ p := by
    intro j hj e
    rcases hlink with hn | ⟨_, hpn, _⟩
    · exact inRange_ne_null (hallr j hj) (e.trans hn)
    · exact hpn (e ▸ hj)
  have hmem : ∀ {j : Int} (s : List Int), j ∈ s → s = r.ids ∨ s = d.ids ∨ s = e.ids →
      j ∈ iA :: ((Shape.node iB d e).ids ++ r.ids) := by
    intro j s hj hs
    simp only [Shape.ids, List.mem_cons, List.mem_append, List.cons_append]
    rcases hs with rfl | rfl | rfl
    · exact Or.inr (Or.inr (Or.inr hj))
    · exact Or.inr (Or.inr (Or.inl (Or.inl hj)))
    · exact Or.inr (Or.inr (Or.inl (Or.inr hj)))
  have hAmem : iA ∈ iA :: ((Shape.node iB d e).ids ++ r.ids) := by simp
  have hBmem : iB ∈ iA :: ((Shape.node iB d e).ids ++ r.ids) := by simp [Shape.ids]
  have hdr : ∀ j ∈ d.ids, j ∉ r.ids := fun j hj =>
    List.disjoint_left.1 hdisj (by simp [hj])
  have her : ∀ j ∈ e.ids, j ∉ r.ids := fun j hj =>
    List.disjoint_left.1 hdisj (by simp [hj])
  have hlink2 : p = b2_nullNode ∨ (t.InRange p ∧ p ≠ iA ∧ p ≠ iB ∧ p ≠ d.idx ∧ p ≠ e.idx ∧
      p ≠ r.idx ∧ ((t.nd p).child1 = iA ∨ (t.nd p).child2 = iA)) := by
    rcases hlink with hn | ⟨hpr, _, hpc⟩
    · exact Or.inl hn
    · exact Or.inr ⟨hpr, (hpnot _ hAmem).symm, (hpnot _ hBmem).symm,
        (hpnot _ (hmem _ hdm (Or.inr (Or.inl rfl)))).symm,
        (hpnot _ (hmem _ hem (Or.inr (Or.inr rfl)))).symm,
        (hpnot _ (hmem _ hrm (Or.inl rfl))).symm, hpc⟩
  have hAd2 : iA ≠ d.idx := fun e => hAd (e ▸ hdm)
  have hAe2 : iA ≠ e.idx := fun e => hAe (e ▸ hem)
  have hBd2 : iB ≠ d.idx := fun e => hBd (e ▸ hdm)
  have hBe2 : iB ≠ e.idx := fun e => hBe (e ▸ hem)
  have hde2 : d.idx ≠ e.idx := fun e => List.disjoint_left.1 hde hdm (e ▸ hem)
  have hrd2 : r.idx ≠ d.idx := fun e => hdr _ hdm (e ▸ hrm)
  have hre2 : r.idx ≠ e.idx := fun e => her _ hem (e ▸ hrm)
  have hDh := hd.height_eq
  have hEh := he.height_eq
  have hRh := hr.height_eq
  have hDb := hd.aabb_eq
  have hEb := he.aabb_eq
  have hRb := hr.aabb_eq
  by_cases hh : d.height > e.height
  · obtain ⟨t1, hrun, hlen, hfl, hnc, hpa, hic, hnA, hnB, hnX, hroot, hpar, hframe⟩ :=
      rotateUp1_raw t iA iB r.idx d.idx e.idx p hA hB hD hE hAB hAd2 hAe2 hBd2 hBe2 hde2
        hrd2 hre2 hp hlink2 e.idx d.idx (by rw [hDh, hEh, if_pos hh]; exact ⟨rfl, rfl⟩)
    have hr1 : t1.Rep r iA := Rep.rep_congr hlen (fun j hj => hframe j
      (fun e => hAr (e ▸ hj)) (fun e => hBr (e ▸ hj)) (fun e => her _ hem (e ▸ hj))
      (hpnot j (hmem _ hj (Or.inl rfl)))) hr
    have he1 : t1.Rep e iA := Rep.reparent hlen hnX (fun j hj hne => hframe j
      (fun e => hAe (e ▸ hj)) (fun e => hBe (e ▸ hj)) hne
      (hpnot j (hmem _ hj (Or.inr (Or.inr rfl))))) hend he
    have hd1 : t1.Rep d iB := Rep.rep_congr hlen (fun j hj => hframe j
      (fun e => hAd (e ▸ hj)) (fun e => hBd (e ▸ hj))
      (fun e => List.disjoint_left.1 hde hj (e ▸ hem))
      (hpnot j (hmem _ hj (Or.inr (Or.inl rfl))))) hd
    refine ⟨t1, hrun, ?_, hlen, hfl, hnc, hpa, hic, hroot, hpar, ?_⟩
    · rw [Shape.rotateUp1, if_pos hh]
      refine ⟨(inRange_of_length hlen _).2 hB, ?_, ?_, ?_, ?_, ?_,
        ⟨(inRange_of_length hlen _).2 hA, ?_, ?_, ?_, ?_, ?_, he1, hr1⟩, hd1⟩
      · rw [hnB]
      · rw [hnB]; rfl
      · rw [hnB]
      · rw [hnB, hRh, hEh, hDh]; simp only [Shape.height, max_comm]
      · rw [hnB, hRb, hEb, hDb]; simp only [Shape.box, Combine_comm r.box]
      · rw [hnA]
      · rw [hnA]
      · rw [hnA]; exact hc2
      · rw [hnA, hRh, hEh, max_comm]
      · rw [hnA, hRb, hEb, Combine_comm]
    · intro j hj hjp
      simp only [Shape.ids, List.mem_cons, List.mem_append, not_or, List.cons_append] at hj
      exact hframe j hj.1 hj.2.1 (fun e => hj.2.2.1.2 (e ▸ hem)) hjp
  · obtain ⟨t1, hrun, hlen, hfl, hnc, hpa, hic, hnA, hnB, hnX, hroot, hpar, hframe⟩ :=
      rotateUp1_raw t iA iB r.idx d.idx e.idx p hA hB hD hE hAB hAd2 hAe2 hBd2 hBe2 hde2
        hrd2 hre2 hp hlink2 d.idx e.idx (by rw [hDh, hEh, if_neg hh]; exact ⟨rfl, rfl⟩)
    have hr1 : t1.Rep r iA := Rep.rep_congr hlen (fun j hj => hframe j
      (fun e => hAr (e ▸ hj)) (fun e => hBr (e ▸ hj)) (fun e => hdr _ hdm (e ▸ hj))
      (hpnot j (hmem _ hj (Or.inl rfl)))) hr
    have hd1 : t1.Rep d iA := Rep.reparent hlen hnX (fun j hj hne => hframe j
      (fun e => hAd (e ▸ hj)) (fun e => hBd (e ▸ hj)) hne
      (hpnot j (hmem _ hj (Or.inr (Or.inl rfl))))) hdnd hd
    have he1 : t1.Rep e iB := Rep.rep_congr hlen (fun j hj => hframe j
      (fun e => hAe (e ▸ hj)) (fun e => hBe (e ▸ hj))
      (fun e => List.disjoint_left.1 hde hdm (e ▸ hj))
      (hpnot j (hmem _ hj (Or.inr (Or.inr rfl))))) he
    refine ⟨t1, hrun, ?_, hlen, hfl, hnc, hpa, hic, hroot, hpar, ?_⟩
    · rw [Shape.rotateUp1, if_neg hh]
      refine ⟨(inRange_of_length hlen _).2 hB, ?_, ?_, ?_, ?_, ?_,
        ⟨(inRange_of_length hlen _).2 hA, ?_, ?_, ?_, ?_, ?_, hd1, hr1⟩, he1⟩
      · rw [hnB]
      · rw [hnB]; rfl
      · rw [hnB]
      · rw [hnB, hRh, hEh, hDh]; simp only [Shape.height, max_comm]
      · rw [hnB, hRb, hEb, hDb]; simp only [Shape.box, Combine_comm r.box]
      · rw [hnA]
      · rw [hnA]
      · rw [hnA]; exact hc2
      · rw [hnA, hRh, hDh, max_comm]
      · rw [hnA, hRb, hDb, Combine_comm]
    · intro j hj hjp
      simp only [Shape.ids, List.mem_cons, List.mem_append, not_or, List.cons_append] at hj
      exact hframe j hj.1 hj.2.1 (fun e => hj.2.2.1.1 (e ▸ hdm)) hjp

@[simp] theorem idx_node (i : Int) (l r : Shape α) : (Shape.node i l r).idx = i := rfl

@[simp] theorem idx_leaf (i : Int) (b : b2AABB α) (u : Nat) : (Shape.leaf i b u).idx = i := rfl

theorem node_eta_child1 (n : b2TreeNode α) : { n with child1 := n.child1 } = n := by
  cases n; rfl

theorem node_eta_child2 (n : b2TreeNode α) : { n with child2 := n.child2 } = n := by
  cases n; rfl

theorem ValidBelow.not_leaf {t : b2DynamicTree α} {iA p : Int} {l r : Shape α}
    (h : t.ValidBelow iA l r p) : (t.nd iA).IsLeaf = false := by
  have := inRange_ne_null h.repL.idx_inRange
  simp [b2TreeNode.IsLeaf, h.child1, this]

/-- The outcome of `Balance` when it returns its argument. -/
theorem Balance_same {t : b2DynamicTree α} {iA p : Int} {l r : Shape α}
    (h : t.ValidBelow iA l r p)
    (hb : (t.nd iA).height < 2 ∨ (¬ r.height - l.height > 1 ∧ ¬ r.height - l.height < -1)) :
    t.Balance iA = some (t, iA) := by
  have hn := inRange_ne_null h.inRange
  have hleaf := h.not_leaf
  unfold Balance
  rw [if_neg hn, if_neg (not_not.2 h.inRange)]
  rcases hb with hb | ⟨hb1, hb2⟩
  · rw [if_pos (Or.inr hb)]
  · by_cases hlt : (t.nd iA).height < 2
    · rw [if_pos (Or.inr hlt)]
    · have hnl : ¬ ((t.nd iA).IsLeaf = true ∨ (t.nd iA).height < 2) := by
        simp [hleaf, hlt]
      rw [if_neg hnl]
      simp only [h.child1, h.child2, h.repL.idx_inRange, h.repR.idx_inRange, not_true_eq_false,
        if_false, h.repL.height_eq, h.repR.height_eq, if_neg hb1, if_neg hb2]

/-- The outcome of `Balance` in the branch "Rotate C up". -/
theorem Balance_up2 {t : b2DynamicTree α} {iA iC p : Int} {l f g : Shape α}
    (h : t.ValidBelow iA l (Shape.node iC f g) p) (hA : ¬ (t.nd iA).height < 2)
    (hb : (Shape.node iC f g).height - l.height > 1) :
    t.Balance iA = (t.rotateUp2 iA l.idx iC f.idx g.idx).map fun t1 => (t1, iC) := by
  have hn := inRange_ne_null h.inRange
  have hleaf := h.not_leaf
  have hnl : ¬ ((t.nd iA).IsLeaf = true ∨ (t.nd iA).height < 2) := by simp [hleaf, hA]
  have hr := h.repR
  obtain ⟨hC, hCp, hCc1, hCc2, hCh, hCb, hf, hg⟩ := hr
  have hCH : (t.nd iC).height = (Shape.node iC f g).height := h.repR.height_eq
  unfold Balance
  rw [if_neg hn, if_neg (not_not.2 h.inRange), if_neg hnl]
  simp only [h.child1, h.child2, h.repL.idx_inRange, h.repR.idx_inRange, not_true_eq_false,
    if_false, h.repL.height_eq, h.repR.height_eq, if_pos hb, idx_node, hCc1, hCc2, hC, hCH,
    hf.idx_inRange, hg.idx_inRange]

/-- The outcome of `Balance` in the branch "Rotate B up". -/
theorem Balance_up1 {t : b2DynamicTree α} {iA iB p : Int} {d e r : Shape α}
    (h : t.ValidBelow iA (Shape.node iB d e) r p) (hA : ¬ (t.nd iA).height < 2)
    (hb : r.height - (Shape.node iB d e).height < -1) :
    t.Balance iA = (t.rotateUp1 iA iB r.idx d.idx e.idx).map fun t1 => (t1, iB) := by
  have hn := inRange_ne_null h.inRange
  have hleaf := h.not_leaf
  have hnl : ¬ ((t.nd iA).IsLeaf = true ∨ (t.nd iA).height < 2) := by simp [hleaf, hA]
  have hb1 : ¬ r.height - (Shape.node iB d e).height > 1 := by omega
  have hl := h.repL
  obtain ⟨hB, hBp, hBc1, hBc2, hBh, hBb, hd, he⟩ := hl
  have hBH : (t.nd iB).height = (Shape.node iB d e).height := h.repL.height_eq
  unfold Balance
  rw [if_neg hn, if_neg (not_not.2 h.inRange), if_neg hnl]
  simp only [h.child1, h.child2, h.repL.idx_inRange, h.repR.idx_inRange, not_true_eq_false,
    if_false, h.repL.height_eq, h.repR.height_eq, if_neg hb1, if_pos hb, idx_node, hBc1, hBc2, hB, hBH,
    hd.idx_inRange, he.idx_inRange]

theorem rotateUp2_idx (iA iC : Int) (l f g : Shape α) :
    (Shape.rotateUp2 iA l iC f g).idx = iC := by
  unfold Shape.rotateUp2; split <;> rfl

theorem rotateUp1_idx (iA iB : Int) (d e r : Shape α) :
    (Shape.rotateUp1 iA iB d e r).idx = iB := by
  unfold Shape.rotateUp1; split <;> rfl

theorem rotateUp2_leaves (iA iC : Int) (l f g : Shape α) :
    (Shape.rotateUp2 iA l iC f g).leaves.Perm (l.leaves ++ (Shape.node iC f g).leaves) := by
  unfold Shape.rotateUp2; split <;>
  · refine List.perm_iff_count.2 fun a => ?_
    simp only [Shape.leaves, List.count_append]
    omega

theorem rotateUp1_leaves (iA iB : Int) (d e r : Shape α) :
    (Shape.rotateUp1 iA iB d e r).leaves.Perm ((Shape.node iB d e).leaves ++ r.leaves) := by
  unfold Shape.rotateUp1; split <;>
  · refine List.perm_iff_count.2 fun a => ?_
    simp only [Shape.leaves, List.count_append]
    omega

theorem rotateUp2_ids (iA iC : Int) (l f g : Shape α) :
    (Shape.rotateUp2 iA l iC f g).ids.Perm (iA :: (l.ids ++ (Shape.node iC f g).ids)) := by
  unfold Shape.rotateUp2; split <;>
  · refine List.perm_iff_count.2 fun a => ?_
    simp only [Shape.ids, List.count_append, List.count_cons]
    omega

theorem rotateUp1_ids (iA iB : Int) (d e r : Shape α) :
    (Shape.rotateUp1 iA iB d e r).ids.Perm (iA :: ((Shape.node iB d e).ids ++ r.ids)) := by
  unfold Shape.rotateUp1; split <;>
  · refine List.perm_iff_count.2 fun a => ?_
    simp only [Shape.ids, List.count_append, List.count_cons]
    omega

theorem rotateUp2_balanced (iA iC : Int) (l f g : Shape α) (hl : l.Balanced)
    (hr : (Shape.node iC f g).Balanced) (hb : (Shape.node iC f g).height - l.height = 2) :
    (Shape.rotateUp2 iA l iC f g).Balanced := by
  have h0 := l.height_nonneg
  simp only [Shape.Balanced, Shape.height, abs_le] at hr hb
  obtain ⟨hfg, hfB, hgB⟩ := hr
  unfold Shape.rotateUp2; split
  · rename_i hh
    simp only [Shape.Balanced, Shape.height, abs_le]
    refine ⟨?_, ⟨?_, hl, hgB⟩, hfB⟩ <;> omega
  · rename_i hh
    simp only [Shape.Balanced, Shape.height, abs_le]
    refine ⟨?_, ⟨?_, hl, hfB⟩, hgB⟩ <;> omega

theorem rotateUp1_balanced (iA iB : Int) (d e r : Shape α) (hr : r.Balanced)
    (hl : (Shape.node iB d e).Balanced) (hb : r.height - (Shape.node iB d e).height = -2) :
    (Shape.rotateUp1 iA iB d e r).Balanced := by
  have h0 := r.height_nonneg
  simp only [Shape.Balanced, Shape.height, abs_le] at hl hb
  obtain ⟨hde, hdB, heB⟩ := hl
  unfold Shape.rotateUp1; split
  · rename_i hh
    simp only [Shape.Balanced, Shape.height, abs_le]
    refine ⟨?_, ⟨?_, heB, hr⟩, hdB⟩ <;> omega
  · rename_i hh
    simp only [Shape.Balanced, Shape.height, abs_le]
    refine ⟨?_, ⟨?_, hdB, hr⟩, heB⟩ <;> omega

/-! ## C16: a rotation of `Balance` restores the balance -/

/-- C16. Let the node `iA` have the stored subtrees `l` (child1) and `r` (child2) below it
(I1–I5 below `iA`, `ValidBelow`), both satisfying I6, a stored height of at least 2 and child
heights that differ by exactly 2.  Then `Balance(iA)` returns the index of the taller child;
that node takes over the parent link of `iA` (it becomes `m_root` when the parent is null,
otherwise the child slot of the parent that held `iA` now holds it), and the subtree `s1`
stored at the returned index has the same leaves (index, box and user data) and the same
nodes, satisfies I1, I3, I4, I5 (`Rep`) and satisfies I6 at every node (`Balanced`). -/
theorem Balance_restores_balance {t : b2DynamicTree α} {iA p : Int} {l r : Shape α}
    (h : t.ValidBelow iA l r p) (hl : l.Balanced) (hr : r.Balanced)
    (hA : 2 ≤ (t.nd iA).height) (hb : |r.height - l.height| = 2) :
    ∃ t1 s1, t.Balance iA = some (t1, s1.idx) ∧
      s1.idx = (if l.height < r.height then r.idx else l.idx) ∧
      (p = b2_nullNode → t1.m_root = s1.idx) ∧
      (p ≠ b2_nullNode → t1.m_root = t.m_root ∧
        t1.nd p = if (t.nd p).child1 = iA then { t.nd p with child1 := s1.idx }
          else { t.nd p with child2 := s1.idx }) ∧
      t1.Rep s1 p ∧ s1.Balanced ∧ s1.leaves.Perm (l.leaves ++ r.leaves) ∧
      s1.ids.Perm (iA :: (l.ids ++ r.ids)) := by
  have hA2 : ¬ (t.nd iA).height < 2 := by omega
  have hl0 := l.height_nonneg
  have hr0 := r.height_nonneg
  rcases (abs_eq (by norm_num : (0 : Int) ≤ 2)).1 hb with hb2 | hb2
  · -- child2 is the taller one
    cases r with
    | leaf i b u => simp only [Shape.height] at hb2; omega
    | node iC f g =>
      obtain ⟨t1, hrun, hrep, _, _, _, _, _, hroot, hpar, _⟩ := rotateUp2_rep h
      have hlt : l.height < (Shape.node iC f g).height := by omega
      refine ⟨t1, Shape.rotateUp2 iA l iC f g, ?_, ?_, ?_, ?_, hrep,
        rotateUp2_balanced iA iC l f g hl hr hb2, rotateUp2_leaves iA iC l f g,
        rotateUp2_ids iA iC l f g⟩
      · rw [Balance_up2 h hA2 (by omega), hrun, rotateUp2_idx]; rfl
      · rw [rotateUp2_idx, if_pos hlt]; rfl
      · rw [rotateUp2_idx]; exact hroot
      · rw [rotateUp2_idx]; exact hpar
  · -- child1 is the taller one
    cases l with
    | leaf i b u => simp only [Shape.height] at hb2; omega
    | node iB d e =>
      obtain ⟨t1, hrun, hrep, _, _, _, _, _, hroot, hpar, _⟩ := rotateUp1_rep h
      have hlt : ¬ (Shape.node iB d e).height < r.height := by omega
      refine ⟨t1, Shape.rotateUp1 iA iB d e r, ?_, ?_, ?_, ?_, hrep,
        rotateUp1_balanced iA iB d e r hr hl hb2, rotateUp1_leaves iA iB d e r,
        rotateUp1_ids iA iB d e r⟩
      · rw [Balance_up1 h hA2 (by omega), hrun, rotateUp1_idx]; rfl
      · rw [rotateUp1_idx, if_neg hlt]; rfl
      · rw [rotateUp1_idx]; exact hroot
      · rw [rotateUp1_idx]; exact hpar

theorem Balance_restores_balance_witness :
    unbalancedTree.ValidBelow 0 unbalancedLeft unbalancedRight (-1) ∧
      unbalancedLeft.Balanced ∧ unbalancedRight.Balanced ∧
      2 ≤ (unbalancedTree.nd 0).height ∧
      |unbalancedRight.height - unbalancedLeft.height| = 2 ∧
      ∃ t1 s1, unbalancedTree.Balance 0 = some (t1, s1.idx) ∧
        s1.idx = (if unbalancedLeft.height < unbalancedRight.height then unbalancedRight.idx
          else unbalancedLeft.idx) ∧
        ((-1 : Int) = b2_nullNode → t1.m_root = s1.idx) ∧
        ((-1 : Int) ≠ b2_nullNode → t1.m_root = unbalancedTree.m_root ∧
          t1.nd (-1) = if (unbalancedTree.nd (-1)).child1 = 0 then
              { unbalancedTree.nd (-1) with child1 := s1.idx }
            else { unbalancedTree.nd (-1) with child2 := s1.idx }) ∧
        t1.Rep s1 (-1) ∧ s1.Balanced ∧
        s1.leaves.Perm (unbalancedLeft.leaves ++ unbalancedRight.leaves) ∧
        s1.ids.Perm (0 :: (unbalancedLeft.ids ++ unbalancedRight.ids)) :=
  have h : unbalancedTree.ValidBelow 0 unbalancedLeft unbalancedRight (-1) :=
    ⟨by decide, by decide, by decide, by decide, by decide, by decide, by decide, by decide⟩
  ⟨h, by decide, by decide, by decide, by decide,
    Balance_restores_balance h (by decide) (by decide) (by decide) (by decide)⟩

/-! ## Allocation from a non-empty free list, insertion beside a single leaf -/

theorem AllocateNode_free (t : b2DynamicTree α) (f : Int) (hfree : t.m_freeList = f)
    (hf : t.InRange f) :
    ∃ t1, t.AllocateNode = some (t1, f) ∧ t1.m_nodes.length = t.m_nodes.length ∧
      t1.m_root = t.m_root ∧ t1.m_freeList = (t.nd f).parent ∧
      t1.m_nodeCount = t.m_nodeCount + 1 ∧ t1.m_path = t.m_path ∧
      t1.m_insertionCount = t.m_insertionCount ∧
      (∀ j, j ≠ f → t1.nd j = t.nd j) ∧
      t1.nd f = { t.nd f with parent := b2_nullNode, child1 := b2_nullNode,
                              child2 := b2_nullNode, height := 0 } := by
  have hfn : t.m_freeList ≠ b2_nullNode := by
    intro h; rw [hfree] at h; rw [h] at hf; exact absurd hf.1 (by decide)
  subst hfree
  simp only [AllocateNode, grow, if_neg hfn, hf, not_true_eq_false, if_false]
  refine ⟨_, rfl, ?_, ?_, ?_, ?_, ?_, ?_, ?_, ?_⟩
  · exact length_upd _ _ _
  · exact upd_root _ _ _
  · exact upd_freeList _ _ _
  · simp [upd_nodeCount]
  · exact upd_path _ _ _
  · exact upd_insertionCount _ _ _
  · intro j hj
    show (b2DynamicTree.upd _ _ _).nd j = _
    rw [nd_upd]; simp [hj]
  · show (b2DynamicTree.upd _ _ _).nd _ = _
    rw [nd_upd]; simp [hf]

theorem nd_congr {t t1 : b2DynamicTree α} (h : t1.m_nodes = t.m_nodes) (j : Int) :
    t1.nd j = t.nd j := by unfold nd; rw [h]

theorem inRange_congr {t t1 : b2DynamicTree α} (h : t1.m_nodes = t.m_nodes) (j : Int) :
    t1.InRange j ↔ t.InRange j := by unfold InRange m_nodeCapacity; rw [h]

theorem InsertLeaf_nonempty (t : b2DynamicTree α) (leaf : Int) (hl : t.InRange leaf)
    (hroot : t.m_root ≠ b2_nullNode) :
    t.InsertLeaf leaf =
      ({ t with m_insertionCount := t.m_insertionCount + 1 } : b2DynamicTree α).insertBelowRoot
        leaf := by
  unfold InsertLeaf
  simp only [inRange_mk, hl, not_true_eq_false, if_false, if_neg hroot]

theorem InsertLeaf_empty (t : b2DynamicTree α) (leaf : Int) (hl : t.InRange leaf)
    (hroot : t.m_root = b2_nullNode) :
    t.InsertLeaf leaf =
      some (({ t with m_insertionCount := t.m_insertionCount + 1, m_root := leaf } :
        b2DynamicTree α).setParent leaf b2_nullNode) := by
  unfold InsertLeaf
  simp only [inRange_mk, hl, not_true_eq_false, if_false, hroot, if_true]

theorem insertParent_root (t : b2DynamicTree α) (leaf sibling newParent : Int)
    (b : b2AABB α) (hs : t.InRange sibling) (hl : t.InRange leaf) (hn : t.InRange newParent)
    (hns : newParent ≠ sibling) (hnl : newParent ≠ leaf) (hls : leaf ≠ sibling) :
    ∃ t1, t.insertParent leaf sibling b2_nullNode newParent b = some t1 ∧
      t1.m_root = newParent ∧ t1.m_nodes.length = t.m_nodes.length ∧
      t1.m_freeList = t.m_freeList ∧ t1.m_nodeCount = t.m_nodeCount ∧ t1.m_path = t.m_path ∧
      t1.m_insertionCount = t.m_insertionCount ∧
      t1.nd newParent = ⟨b2AABB.Combine b (t.nd sibling).aabb, 0, b2_nullNode, sibling, leaf,
        (t.nd sibling).height + 1⟩ ∧
      t1.nd sibling = { t.nd sibling with parent := newParent } ∧
      t1.nd leaf = { t.nd leaf with parent := newParent } ∧
      (∀ j, j ≠ newParent → j ≠ sibling → j ≠ leaf → t1.nd j = t.nd j) := by
  simp only [insertParent, ne_eq, not_true_eq_false, if_false]
  refine ⟨_, rfl, rfl, ?_, ?_, ?_, ?_, ?_, node_ext ?_ ?_ ?_ ?_ ?_ ?_,
    node_ext ?_ ?_ ?_ ?_ ?_ ?_, node_ext ?_ ?_ ?_ ?_ ?_ ?_, ?_⟩
  all_goals first
    | (intro j h1 h2 h3
       simp [setParent_nd_ne, setChild1_nd_ne, setChild2_nd_ne, setHeight_nd_ne,
         setAABB_nd_ne, setUserData_nd_ne, h1, h2, h3])
    | simp [hs, hl, hn, hns, hnl, hls, hns.symm, hnl.symm, hls.symm,
        setParent_parent, setChild1_child1, setChild2_child2, setHeight_height,
        setAABB_aabb, setUserData_userData]

theorem insert_second (t : b2DynamicTree α) (r leaf f : Int)
    (hroot : t.m_root = r) (hr : t.InRange r) (hrl : (t.nd r).child1 = b2_nullNode)
    (hrh : (t.nd r).height = 0)
    (hl : t.InRange leaf) (hlh : (t.nd leaf).height = 0)
    (hfree : t.m_freeList = f) (hf : t.InRange f)
    (hfr : f ≠ r) (hfl : f ≠ leaf) (hlr : leaf ≠ r) (hrp : (t.nd r).parent = b2_nullNode) :
    ∃ t1, t.InsertLeaf leaf = some t1 ∧ t1.m_root = f ∧
      t1.m_nodes.length = t.m_nodes.length ∧
      t1.nd f = ⟨b2AABB.Combine (t.nd r).aabb (t.nd leaf).aabb, 0, b2_nullNode, r, leaf, 1⟩ ∧
      t1.nd r = { t.nd r with parent := f } ∧
      t1.nd leaf = { t.nd leaf with parent := f } := by
  have hrn : r ≠ b2_nullNode := inRange_ne_null hr
  have hfn : f ≠ b2_nullNode := inRange_ne_null hf
  have hln : leaf ≠ b2_nullNode := inRange_ne_null hl
  have hleafT : (t.nd r).IsLeaf = true := by simp [b2TreeNode.IsLeaf, hrl]
  -- the state after `++m_insertionCount`
  obtain ⟨ti, hti⟩ : ∃ ti : b2DynamicTree α,
      ti = { t with m_insertionCount := t.m_insertionCount + 1 } := ⟨_, rfl⟩
  have hnodes : ti.m_nodes = t.m_nodes := by rw [hti]
  have hndi : ∀ j, ti.nd j = t.nd j := nd_congr hnodes
  have hiri : ∀ j, ti.InRange j ↔ t.InRange j := inRange_congr hnodes
  have hrooti : ti.m_root = r := by rw [hti]; exact hroot
  have hfreei : ti.m_freeList = f := by rw [hti]; exact hfree
  obtain ⟨t0, halloc, hlen0, hroot0, hfl0, hnc0, hpa0, hic0, hfr0, hnf0⟩ :=
    AllocateNode_free ti f hfreei ((hiri f).2 hf)
  have hsib : ti.findSibling (ti.nd leaf).aabb (ti.m_nodes.length + 1) ti.m_root = some r := by
    rw [hrooti]
    simp [findSibling, siblingStep, hiri, hndi, hr, hleafT]
  have hlen0' : t0.m_nodes.length = t.m_nodes.length := by rw [hlen0, hnodes]
  have hr0 : t0.InRange r := (inRange_of_length hlen0' r).2 hr
  have hl0 : t0.InRange leaf := (inRange_of_length hlen0' leaf).2 hl
  have hf0 : t0.InRange f := (inRange_of_length hlen0' f).2 hf
  obtain ⟨t1, hlink, hroot1, hlen1, _, _, _, _, hnf1, hnr1, hnl1, hfr1⟩ :=
    insertParent_root t0 leaf r f (ti.nd leaf).aabb hr0 hl0 hf0 hfr hfl hlr
  have hr1 : t1.InRange r := (inRange_of_length hlen1 r).2 hr0
  have hl1 : t1.InRange leaf := (inRange_of_length hlen1 leaf).2 hl0
  have hf1 : t1.InRange f := (inRange_of_length hlen1 f).2 hf0
  have h0r : t0.nd r = t.nd r := by rw [hfr0 r hfr.symm, hndi]
  have h0l : t0.nd leaf = t.nd leaf := by rw [hfr0 leaf hfl.symm, hndi]
  -- the walk: one pass at the new parent, `Balance` returns at once
  have hbal : t1.Balance f = some (t1, f) := by
    unfold Balance
    rw [if_neg hfn, if_neg (not_not.2 hf1)]
    have : (t1.nd f).height < 2 := by rw [hnf1, h0r, hrh]; norm_num
    rw [if_pos (Or.inr this)]
  have hstep : insertStep t1 f = some ((t1.refreshHeight f).refreshAABB f, b2_nullNode) := by
    unfold insertStep
    rw [hbal]
    simp only [hnf1, if_neg hrn, if_neg hln, hr1, hl1, not_true_eq_false, if_false]
    congr 2
    simp [refreshAABB, refreshHeight, setHeight_parent, setAABB_parent, hnf1]
  obtain ⟨k, hk⟩ : ∃ k, t1.m_nodes.length = k + 1 := by
    have := hr1.1; have := hr1.2; unfold m_nodeCapacity at *
    exact ⟨t1.m_nodes.length - 1, by omega⟩
  have hwalk : ancestorLoop insertStep (t1.m_nodes.length + 1) t1 (t1.nd leaf).parent =
      some ((t1.refreshHeight f).refreshAABB f) := by
    rw [hnl1, hk]
    simp [ancestorLoop, hfn, hstep]
  refine ⟨(t1.refreshHeight f).refreshAABB f, ?_, ?_, ?_, ?_, ?_, ?_⟩
  · rw [InsertLeaf_nonempty t leaf hl (hroot ▸ hrn), ← hti]
    unfold insertBelowRoot
    simp only [hsib, halloc, hndi r, hrp]
    rw [hlink]
    exact hwalk
  · simp [refreshAABB, refreshHeight, hroot1]
  · simp [refreshAABB, refreshHeight, hlen1, hlen0']
  · refine node_ext ?_ ?_ ?_ ?_ ?_ ?_ <;>
      simp [refreshAABB, refreshHeight, setHeight_height, setAABB_aabb, hnf1, hnr1, hnl1,
        h0r, h0l, hf1, hrh, hlh, hfr.symm, hfl.symm]
  · refine node_ext ?_ ?_ ?_ ?_ ?_ ?_ <;>
      simp [refreshAABB, refreshHeight, setHeight_height, setAABB_aabb, hnr1, h0r, hfr.symm]
  · refine node_ext ?_ ?_ ?_ ?_ ?_ ?_ <;>
      simp [refreshAABB, refreshHeight, setHeight_height, setAABB_aabb, hnl1, h0l, hfl.symm]

theorem create_first (ext : α) (a : b2AABB α) (u : Nat) :
    ∃ t1, CreateProxy ext (new : b2DynamicTree α) a u = some (t1, 0) ∧
      t1.m_root = 0 ∧ t1.m_freeList = 1 ∧ t1.m_nodes.length = 16 ∧
      t1.nd 0 = ⟨b2AABB.Fatten ext a, u, -1, -1, -1, 0⟩ ∧
      t1.nd 1 = ⟨⟨⟨0, 0⟩, ⟨0, 0⟩⟩, 0, 2, 0, 0, -1⟩ ∧
      t1.nd 2 = ⟨⟨⟨0, 0⟩, ⟨0, 0⟩⟩, 0, 3, 0, 0, -1⟩ :=
  ⟨_, rfl, rfl, rfl, rfl, rfl, rfl, rfl⟩

/-! ## C12: the first two proxies of a fresh tree -/

/-- C12. On a freshly constructed tree, for all boxes `a`, `b` (and every margin `ext`):
`CreateProxy(a)` returns `id1`, the root is `id1`, `GetHeight() = 0` and the leaf stores `a`
fattened; a further `CreateProxy(b)` returns `id2`, the root is then a node that was free
before the call (newly allocated), is internal with a null parent, `child1 = id1` and
`child2 = id2`, both leaves have it as parent, `GetHeight() = 1`, and the root box is
`Combine(fat(a), fat(b))`.  The last conjunct is the numeric example of the spec over `ℚ`. -/
theorem CreateProxy_two_leaves (ext : α) (a b : b2AABB α) (u1 u2 : Nat) :
    (∃ t1 id1 t2 id2,
      CreateProxy ext (new : b2DynamicTree α) a u1 = some (t1, id1) ∧
      t1.m_root = id1 ∧ t1.GetHeight = some 0 ∧
      (t1.nd id1).aabb = b2AABB.Fatten ext a ∧
      CreateProxy ext t1 b u2 = some (t2, id2) ∧
      id2 ≠ id1 ∧ t2.m_root ≠ id1 ∧ t2.m_root ≠ id2 ∧
      (t1.nd t2.m_root).height = -1 ∧
      (t2.nd t2.m_root).IsLeaf = false ∧
      (t2.nd t2.m_root).parent = b2_nullNode ∧
      (t2.nd t2.m_root).child1 = id1 ∧ (t2.nd t2.m_root).child2 = id2 ∧
      (t2.nd id1).IsLeaf = true ∧ (t2.nd id2).IsLeaf = true ∧
      (t2.nd id1).parent = t2.m_root ∧ (t2.nd id2).parent = t2.m_root ∧
      t2.GetHeight = some 1 ∧
      (t2.nd t2.m_root).aabb = b2AABB.Combine (b2AABB.Fatten ext a) (b2AABB.Fatten ext b)) ∧
    b2AABB.Combine (b2AABB.Fatten (1 / 10 : ℚ) ⟨⟨0, 0⟩, ⟨1, 1⟩⟩)
        (b2AABB.Fatten (1 / 10 : ℚ) ⟨⟨10, 10⟩, ⟨11, 11⟩⟩) =
      ⟨⟨-1 / 10, -1 / 10⟩, ⟨111 / 10, 111 / 10⟩⟩ := by
  refine ⟨?_, ?_⟩
  · obtain ⟨t1, hc1, hroot1, hfree1, hlen1, hn0, hn1, hn2⟩ := create_first ext a u1
    have hr : ∀ j : Int, 0 ≤ j → j < 16 → t1.InRange j := by
      intro j h0 h16
      refine ⟨h0, ?_⟩
      unfold m_nodeCapacity; rw [hlen1]; exact_mod_cast h16
    have hr0 := hr 0 (by norm_num) (by norm_num)
    have hr1 := hr 1 (by norm_num) (by norm_num)
    have hr2 := hr 2 (by norm_num) (by norm_num)
    -- the second call: allocation of the leaf
    obtain ⟨ta, hal, hlena, hroota, hfla, _, _, _, hfra, hna⟩ :=
      AllocateNode_free t1 1 hfree1 hr1
    -- the leaf is initialised
    obtain ⟨tb, htb⟩ : ∃ tb : b2DynamicTree α,
        tb = ((ta.setAABB 1 (b2AABB.Fatten ext b)).setUserData 1 u2).setHeight 1 0 := ⟨_, rfl⟩
    have hlenb : tb.m_nodes.length = t1.m_nodes.length := by rw [htb]; simp [hlena]
    have hra : ta.InRange 1 := (inRange_of_length hlena 1).2 hr1
    have hb1 : tb.nd 1 = ⟨b2AABB.Fatten ext b, u2, -1, -1, -1, 0⟩ := by
      rw [htb]
      refine node_ext ?_ ?_ ?_ ?_ ?_ ?_ <;>
        simp [setAABB_aabb, setUserData_userData, setHeight_height, hra, hna, b2_nullNode]
    have hbne : ∀ j, j ≠ 1 → tb.nd j = t1.nd j := by
      intro j hj
      rw [htb, setHeight_nd_ne _ _ _ _ hj, setUserData_nd_ne _ _ _ _ hj,
        setAABB_nd_ne _ _ _ _ hj, hfra j hj]
    have hb0 : tb.nd 0 = t1.nd 0 := hbne 0 (by norm_num)
    have hb2 : tb.nd 2 = t1.nd 2 := hbne 2 (by norm_num)
    obtain ⟨t2, hins, hroot2, hlen2, hf2, hr2', hl2⟩ :=
      insert_second tb 0 1 2 (by rw [htb]; simp [hroota, hroot1])
        ((inRange_of_length hlenb 0).2 hr0) (by rw [hb0, hn0]; rfl) (by rw [hb0, hn0])
        ((inRange_of_length hlenb 1).2 hr1) (by rw [hb1])
        (by rw [htb]; simp [hfla, hn1]) ((inRange_of_length hlenb 2).2 hr2)
        (by norm_num) (by norm_num) (by norm_num) (by rw [hb0, hn0]; rfl)
    have hcreate : CreateProxy ext t1 b u2 = some (t2, 1) := by
      unfold CreateProxy
      simp only [hal, ← htb, hins, Option.map_some']
    have hr22 : t2.InRange 2 := (inRange_of_length (hlen2.trans hlenb) 2).2 hr2
    refine ⟨t1, 0, t2, 1, hc1, hroot1, ?_, ?_, hcreate, by norm_num, ?_, ?_, ?_, ?_, ?_, ?_, ?_,
      ?_, ?_, ?_, ?_, ?_, ?_⟩
    · simp [GetHeight, hroot1, hr0, hn0, b2_nullNode]
    · rw [hn0]
    · rw [hroot2]; norm_num
    · rw [hroot2]; norm_num
    · rw [hroot2, hn2]
    · rw [hroot2, hf2]; simp [b2TreeNode.IsLeaf, b2_nullNode]
    · rw [hroot2, hf2]
    · rw [hroot2, hf2]
    · rw [hroot2, hf2]
    · rw [hr2', hb0, hn0]; rfl
    · rw [hl2, hb1]; rfl
    · rw [hr2', hroot2]
    · rw [hl2, hroot2]
    · simp [GetHeight, hroot2, hr22, hf2, b2_nullNode]
    · rw [hroot2, hf2, hb0, hn0, hb1]
  · norm_num [b2AABB.Combine, b2AABB.Fatten]

/-! ## C13: `ComputeHeight()` on the empty tree -/

/-- C13 (the code at the failing input). On the freshly constructed, empty tree `GetHeight()`
returns 0, but `ComputeHeight()` calls `ComputeHeight(m_root)` with `m_root = b2_nullNode`,
whose first statement `b2Assert(0 <= nodeId && nodeId < m_nodeCapacity)` fails: the call
never returns a value, whatever the fuel. -/
theorem ComputeHeight_empty_tree_fails (fuel : Nat) :
    (new : b2DynamicTree α).GetHeight = some 0 ∧
      (new : b2DynamicTree α).ComputeHeight fuel = none ∧
      (new : b2DynamicTree α).Validate fuel = none := by
  have h : (new : b2DynamicTree α).ComputeHeight fuel = none := by
    cases fuel with
    | zero => rfl
    | succ n => rfl
  refine ⟨rfl, h, ?_⟩
  unfold Validate
  rw [h]
  split <;> simp_all

/-! ## C15: the sibling descent of `InsertLeaf` -/

/-- C15 (counterexample). In `tieTree` the root 2 is internal with `child1 = 0` and
`child2 = 1`; for a leaf with the box `[0,0]-[1,1]` the costs are `cost = 8` and
`cost1 = cost2 = 4`, the stop condition is false, and the descent continues into `child2`,
not into `child1`.  The tie is reached from the constructor: after two `CreateProxy` calls
with the box `[0,0]-[1,1]` (margin 0) the root 2 has the children 0 and 1, and a third call
returns the leaf 3 and pairs it with proxy 1 under the new node 4, while proxy 0 stays below
the root. -/
theorem siblingStep_tie_goes_to_child2 :
    (tieTree.nd 2).IsLeaf = false ∧ (tieTree.nd 2).child1 = 0 ∧ (tieTree.nd 2).child2 = 1 ∧
      tieTree.siblingCosts unitBox 2 = (8, 4, 4) ∧
      tieTree.siblingStep unitBox 2 = some (Sum.inr 1) ∧
      tieTree.findSibling unitBox 4 2 = some 1 ∧
      ((CreateProxy 0 (new : b2DynamicTree ℤ) unitBox 0).bind fun r1 =>
        (CreateProxy 0 r1.1 unitBox 0).bind fun r2 =>
        (CreateProxy 0 r2.1 unitBox 0).map fun r3 =>
          [r2.1.m_root, (r2.1.nd 2).child1, (r2.1.nd 2).child2, r3.2, r3.1.m_root,
            (r3.1.nd 0).parent, (r3.1.nd 1).parent, (r3.1.nd 3).parent]) =
        some [2, 0, 1, 3, 2, 2, 4, 4] := by
  decide

/-- C15 (amended). At an internal node `index` where the stop condition
`cost < cost1 ∧ cost < cost2` is false, one pass of the sibling loop continues into `child1`
when `cost1 < cost2` and into `child2` otherwise; in particular it continues into the child
of smaller cost when the costs differ, and into `child2` when `cost1 = cost2`. -/
theorem siblingStep_descends (t : b2DynamicTree α) (leafAABB : b2AABB α) (index : Int)
    (hi : t.InRange index) (hleaf : (t.nd index).IsLeaf = false)
    (h1 : t.InRange (t.nd index).child1) (h2 : t.InRange (t.nd index).child2)
    (hstop : ¬ ((t.siblingCosts leafAABB index).1 < (t.siblingCosts leafAABB index).2.1 ∧
      (t.siblingCosts leafAABB index).1 < (t.siblingCosts leafAABB index).2.2)) :
    ((t.siblingCosts leafAABB index).2.1 < (t.siblingCosts leafAABB index).2.2 →
        t.siblingStep leafAABB index = some (Sum.inr (t.nd index).child1)) ∧
      ((t.siblingCosts leafAABB index).2.2 < (t.siblingCosts leafAABB index).2.1 →
        t.siblingStep leafAABB index = some (Sum.inr (t.nd index).child2)) ∧
      ((t.siblingCosts leafAABB index).2.1 = (t.siblingCosts leafAABB index).2.2 →
        t.siblingStep leafAABB index = some (Sum.inr (t.nd index).child2)) := by
  unfold siblingStep
  simp only [hi, hleaf, h1, h2, not_true_eq_false, if_false, Bool.false_eq_true, if_neg hstop]
  refine ⟨fun h => ?_, fun h => ?_, fun h => ?_⟩
  · rw [if_pos h]
  · rw [if_neg (not_lt.2 (le_of_lt h))]
  · rw [if_neg (not_lt.2 (le_of_eq h.symm))]

theorem siblingStep_descends_witness :
    tieTree.InRange 2 ∧ (tieTree.nd 2).IsLeaf = false ∧
      tieTree.InRange (tieTree.nd 2).child1 ∧ tieTree.InRange (tieTree.nd 2).child2 ∧
      ¬ ((tieTree.siblingCosts unitBox 2).1 < (tieTree.siblingCosts unitBox 2).2.1 ∧
        (tieTree.siblingCosts unitBox 2).1 < (tieTree.siblingCosts unitBox 2).2.2) ∧
      (((tieTree.siblingCosts unitBox 2).2.1 < (tieTree.siblingCosts unitBox 2).2.2 →
          tieTree.siblingStep unitBox 2 = some (Sum.inr (tieTree.nd 2).child1)) ∧
        ((tieTree.siblingCosts unitBox 2).2.2 < (tieTree.siblingCosts unitBox 2).2.1 →
          tieTree.siblingStep unitBox 2 = some (Sum.inr (tieTree.nd 2).child2)) ∧
        ((tieTree.siblingCosts unitBox 2).2.1 = (tieTree.siblingCosts unitBox 2).2.2 →
          tieTree.siblingStep unitBox 2 = some (Sum.inr (tieTree.nd 2).child2))) :=
  ⟨by decide, by decide, by decide, by decide, by decide,
    siblingStep_descends tieTree unitBox 2 (by decide) (by decide) (by decide) (by decide)
      (by decide)⟩

/-! ## C14: what `Validate` checks -/

theorem NextChain.unique {t : b2DynamicTree α} {i : Int} {l1 l2 : List Int}
    (h1 : t.NextChain i l1) (h2 : t.NextChain i l2) : l1 = l2 := by
  induction l1 generalizing i l2 with
  | nil =>
    cases l2 with
    | nil => rfl
    | cons j l2 =>
      simp only [NextChain] at h1 h2
      exact absurd h1 (inRange_ne_null (h2.1 ▸ h2.2.1))
  | cons a l1 ih =>
    cases l2 with
    | nil =>
      simp only [NextChain] at h1 h2
      exact absurd h2 (inRange_ne_null (h1.1 ▸ h1.2.1))
    | cons j l2 =>
      simp only [NextChain] at h1 h2
      obtain ⟨e1, _, c1⟩ := h1
      obtain ⟨e2, _, c2⟩ := h2
      have : a = j := e1.symm.trans e2
      subst this
      rw [ih c1 c2]

theorem NextChain.suffix {t : b2DynamicTree α} {i : Int} {pre l : List Int}
    (h : t.NextChain i (pre ++ l)) : ∃ j, t.NextChain j l := by
  induction pre generalizing i with
  | nil => exact ⟨i, h⟩
  | cons a pre ih =>
    simp only [List.cons_append, NextChain] at h
    exact ih h.2.2

theorem NextChain.chain_nodup {t : b2DynamicTree α} {i : Int} {l : List Int}
    (h : t.NextChain i l) : l.Nodup := by
  induction l generalizing i with
  | nil => exact List.nodup_nil
  | cons a l ih =>
    simp only [NextChain] at h
    obtain ⟨_, _, hc⟩ := h
    refine List.nodup_cons.2 ⟨?_, ih hc⟩
    intro hmem
    obtain ⟨pre, post, hsplit⟩ := List.append_of_mem hmem
    rw [hsplit] at hc
    obtain ⟨j, hj⟩ := NextChain.suffix hc
    have hj2 := hj
    simp only [NextChain] at hj2
    have hpost : t.NextChain (t.nd a).parent post := hj2.2.2
    have := NextChain.unique hc hpost
    have hlen := congrArg List.length this
    simp only [List.length_append, List.length_cons] at hlen
    omega

theorem NextChain.chain_inRange {t : b2DynamicTree α} {i : Int} {l : List Int}
    (h : t.NextChain i l) : ∀ j ∈ l, t.InRange j := by
  induction l generalizing i with
  | nil => intro j hj; simp at hj
  | cons a l ih =>
    simp only [NextChain] at h
    intro j hj
    rcases List.mem_cons.1 hj with rfl | hj
    · exact h.2.1
    · exact ih h.2.2 j hj

theorem countFree_chain {t : b2DynamicTree α} {fuel : Nat} {i c : Int}
    (h : t.countFree fuel i = some c) : ∃ fl, t.NextChain i fl ∧ (fl.length : Int) = c := by
  induction fuel generalizing i c with
  | zero => simp [countFree] at h
  | succ n ih =>
    unfold countFree at h
    by_cases hi : i = b2_nullNode
    · rw [if_pos hi] at h
      exact ⟨[], hi, by simpa using Option.some.inj h⟩
    · rw [if_neg hi] at h
      by_cases hr : t.InRange i
      · rw [if_neg (not_not.2 hr)] at h
        cases hc : t.countFree n (t.nd i).parent with
        | none => rw [hc] at h; simp at h
        | some c1 =>
          rw [hc] at h
          obtain ⟨fl, hfl, hlen⟩ := ih hc
          refine ⟨i :: fl, ⟨rfl, hr, hfl⟩, ?_⟩
          simp only [Option.map_some'] at h
          have := Option.some.inj h
          simp only [List.length_cons]; push_cast; omega
      · rw [if_pos hr] at h; simp at h

theorem validate_rep {t : b2DynamicTree α} {fuel : Nat} {i p : Int}
    (hs : t.ValidateStructure fuel i = some ()) (hm : t.ValidateMetrics fuel i = some ())
    (hi : i ≠ b2_nullNode) (hp : (t.nd i).parent = p) :
    ∃ s : Shape α, s.idx = i ∧ t.Rep s p := by
  induction fuel generalizing i p with
  | zero => simp [ValidateStructure] at hs
  | succ n ih =>
    unfold ValidateStructure at hs
    unfold ValidateMetrics at hm
    rw [if_neg hi] at hs hm
    by_cases hr : t.InRange i
    · rw [if_neg (not_not.2 hr)] at hs hm
      by_cases hroot : i = t.m_root ∧ (t.nd i).parent ≠ b2_nullNode
      · rw [if_pos hroot] at hs; simp at hs
      · rw [if_neg hroot] at hs
        by_cases hleaf : (t.nd i).IsLeaf = true
        · simp only [hleaf, if_true] at hs
          by_cases hl : (t.nd i).child1 = b2_nullNode ∧ (t.nd i).child2 = b2_nullNode ∧
              (t.nd i).height = 0
          · exact ⟨Shape.leaf i (t.nd i).aabb (t.nd i).userData, rfl, hr, hp, hl.1, hl.2.1,
              hl.2.2, rfl, rfl⟩
          · rw [if_neg hl] at hs; simp at hs
        · simp only [hleaf, Bool.false_eq_true, if_false] at hs hm
          by_cases hc : t.InRange (t.nd i).child1 ∧ t.InRange (t.nd i).child2
          · rw [if_neg (not_not.2 hc)] at hs hm
            by_cases hp1 : (t.nd (t.nd i).child1).parent = i
            · rw [if_neg (not_not.2 hp1)] at hs
              by_cases hp2 : (t.nd (t.nd i).child2).parent = i
              · rw [if_neg (not_not.2 hp2)] at hs
                by_cases hh : (t.nd i).height =
                    1 + max (t.nd (t.nd i).child1).height (t.nd (t.nd i).child2).height
                · rw [if_neg (not_not.2 hh)] at hm
                  by_cases hb : b2AABB.Combine (t.nd (t.nd i).child1).aabb
                      (t.nd (t.nd i).child2).aabb = (t.nd i).aabb
                  · rw [if_neg (not_not.2 hb)] at hm
                    cases hs1 : t.ValidateStructure n (t.nd i).child1 with
                    | none => rw [hs1] at hs; simp at hs
                    | some u1 =>
                      rw [hs1] at hs
                      cases hm1 : t.ValidateMetrics n (t.nd i).child1 with
                      | none => rw [hm1] at hm; simp at hm
                      | some u2 =>
                        rw [hm1] at hm
                        obtain ⟨l, hli, hl⟩ := ih hs1 hm1 (inRange_ne_null hc.1) hp1
                        obtain ⟨r, hri, hrr⟩ := ih hs hm (inRange_ne_null hc.2) hp2
                        refine ⟨Shape.node i l r, rfl, hr, hp, hli.symm, hri.symm, ?_, ?_, hl, hrr⟩
                        · rw [hh, ← hl.height_eq, ← hrr.height_eq, hli, hri]
                        · rw [← hb, ← hl.aabb_eq, ← hrr.aabb_eq, hli, hri]
                  · rw [if_pos hb] at hm; simp at hm
                · rw [if_pos hh] at hm; simp at hm
              · rw [if_pos hp2] at hs; simp at hs
            · rw [if_pos hp1] at hs; simp at hs
          · rw [if_pos hc] at hs; simp at hs
    · rw [if_pos hr] at hs; simp at hs

theorem validate_root_parent {t : b2DynamicTree α} {fuel : Nat}
    (hs : t.ValidateStructure fuel t.m_root = some ()) (hi : t.m_root ≠ b2_nullNode) :
    (t.nd t.m_root).parent = b2_nullNode := by
  cases fuel with
  | zero => simp [ValidateStructure] at hs
  | succ n =>
    unfold ValidateStructure at hs
    rw [if_neg hi] at hs
    by_cases hr : t.InRange t.m_root
    · rw [if_neg (not_not.2 hr)] at hs
      by_contra hp
      rw [if_pos ⟨rfl, hp⟩] at hs
      simp at hs
    · rw [if_pos hr] at hs; simp at hs

theorem computeHeight_root_ne_null {t : b2DynamicTree α} {fuel : Nat} {h : Int}
    (hc : t.ComputeHeight fuel = some h) : t.m_root ≠ b2_nullNode := by
  unfold ComputeHeight at hc
  cases fuel with
  | zero => simp [ComputeHeightAt] at hc
  | succ n =>
    unfold ComputeHeightAt at hc
    by_cases hr : t.InRange t.m_root
    · exact inRange_ne_null hr
    · rw [if_pos hr] at hc; simp at hc

/-- C14 (counterexample). `Validate()` returns with no assertion failing on `unbalancedTree`,
whose root has children of heights 0 and 2 (`GetMaxBalance() = 2`, so I6 fails), and on
`staleFreeTree`, whose free list holds a node of height 5 (not `-1`). -/
theorem Validate_misses_balance_and_free_heights :
    unbalancedTree.Validate 10 = some () ∧ unbalancedTree.GetMaxBalance 10 = some 2 ∧
      staleFreeTree.Validate 10 = some () ∧ staleFreeTree.m_freeList = 1 ∧
      (staleFreeTree.nd 1).height = 5 := by
  decide

/-- C14 (amended). If `Validate()` runs to completion with no assertion failing, then the
nodes reachable from `m_root` form a tree that satisfies I1–I5 (`Rep`: parent and child
links, leaves with null children and height 0, stored heights and boxes of internal nodes),
the chain from `m_freeList` ends at null after visiting pairwise distinct indices in range,
its length plus `m_nodeCount` is `m_nodeCapacity` (I7, I8), and `GetHeight()` equals
`ComputeHeight()`.  Nothing is established about I6 or the heights of free nodes. -/
theorem Validate_sound (t : b2DynamicTree α) (fuel : Nat) (h : t.Validate fuel = some ()) :
    (∃ s : Shape α, t.m_root = s.idx ∧ t.Rep s b2_nullNode) ∧
      (∃ fl : List Int, t.NextChain t.m_freeList fl ∧ fl.Nodup ∧ (∀ j ∈ fl, t.InRange j) ∧
        t.m_nodeCount + fl.length = t.m_nodeCapacity) ∧
      (∃ hgt, t.GetHeight = some hgt ∧ t.ComputeHeight fuel = some hgt) := by
  unfold Validate at h
  cases hs : t.ValidateStructure fuel t.m_root with
  | none => rw [hs] at h; simp at h
  | some u1 =>
    cases hm : t.ValidateMetrics fuel t.m_root with
    | none => rw [hs, hm] at h; simp at h
    | some u2 =>
      cases hc : t.countFree fuel t.m_freeList with
      | none => rw [hs, hm, hc] at h; simp at h
      | some c =>
        cases hg : t.GetHeight with
        | none => rw [hs, hm, hc, hg] at h; simp at h
        | some g =>
          cases hk : t.ComputeHeight fuel with
          | none => rw [hs, hm, hc, hg, hk] at h; simp at h
          | some k =>
            rw [hs, hm, hc, hg, hk] at h
            simp only at h
            by_cases hcond : g = k ∧ t.m_nodeCount + c = t.m_nodeCapacity
            · have hroot := computeHeight_root_ne_null hk
              obtain ⟨s, hsi, hrep⟩ := validate_rep hs hm hroot (validate_root_parent hs hroot)
              obtain ⟨fl, hfl, hlen⟩ := countFree_chain hc
              refine ⟨⟨s, hsi.symm, hrep⟩, ⟨fl, hfl, hfl.chain_nodup, hfl.chain_inRange, ?_⟩,
                ⟨g, rfl, by rw [hcond.1]⟩⟩
              rw [hlen]; exact hcond.2
            · rw [if_neg hcond] at h; simp at h

theorem Validate_sound_witness :
    unbalancedTree.Validate 10 = some () ∧
      ((∃ s : Shape ℤ, unbalancedTree.m_root = s.idx ∧ unbalancedTree.Rep s b2_nullNode) ∧
        (∃ fl : List Int, unbalancedTree.NextChain unbalancedTree.m_freeList fl ∧ fl.Nodup ∧
          (∀ j ∈ fl, unbalancedTree.InRange j) ∧
          unbalancedTree.m_nodeCount + fl.length = unbalancedTree.m_nodeCapacity) ∧
        (∃ hgt, unbalancedTree.GetHeight = some hgt ∧
          unbalancedTree.ComputeHeight 10 = some hgt)) :=
  ⟨by decide, Validate_sound unbalancedTree 10 (by decide)⟩

/-! ## C21: the height bound that follows from I6 -/

theorem balanced_leaves_lower_bound (s : Shape α) (hb : s.Balanced) :
    ∀ k : Nat, ((2 * k : Int) ≤ s.height → 2 ^ k ≤ s.leaves.length) ∧
      ((2 * k + 1 : Int) ≤ s.height → 2 ^ (k + 1) ≤ s.leaves.length) := by
  induction s with
  | leaf i b u =>
    intro k
    simp only [Shape.height, Shape.leaves, List.length_singleton]
    refine ⟨fun h => ?_, fun h => ?_⟩
    · have : k = 0 := by omega
      subst this; simp
    · omega
  | node i l r ihl ihr =>
    simp only [Shape.Balanced, abs_le] at hb
    obtain ⟨hd, hbl, hbr⟩ := hb
    have hl := ihl hbl
    have hr := ihr hbr
    have hlp := l.leaves_length_pos
    have hrp := r.leaves_length_pos
    intro k
    simp only [Shape.height, Shape.leaves, List.length_append]
    refine ⟨fun h => ?_, fun h => ?_⟩
    · cases k with
      | zero => simp; omega
      | succ k =>
        rcases le_total l.height r.height with hle | hle
        · have h2 : (2 * (k : Int) + 1) ≤ r.height := by
            rw [max_eq_right hle] at h; push_cast at h; omega
          have := (hr k).2 h2
          omega
        · have h2 : (2 * (k : Int) + 1) ≤ l.height := by
            rw [max_eq_left hle] at h; push_cast at h; omega
          have := (hl k).2 h2
          omega
    · have hmax : (2 * k : Int) ≤ max l.height r.height := by omega
      cases k with
      | zero => simp; omega
      | succ k =>
        have h1 : (2 * (k : Int) + 1) ≤ l.height := by
          push_cast at hmax
          rcases le_total l.height r.height with hle | hle
          · rw [max_eq_right hle] at hmax; omega
          · rw [max_eq_left hle] at hmax; omega
        have h2 : (2 * (k : Int) + 1) ≤ r.height := by
          push_cast at hmax
          rcases le_total l.height r.height with hle | hle
          · rw [max_eq_right hle] at hmax; omega
          · rw [max_eq_left hle] at hmax; omega
        have a := (hl k).2 h1
        have b := (hr k).2 h2
        have : 2 ^ (k + 1 + 1) = 2 ^ (k + 1) + 2 ^ (k + 1) := by ring
        omega

/-- C21. Let a tree state store the shape `s` below `m_root` with a null parent (`Rep`:
I1–I5, every internal node with two children, stored heights `1 + max`, leaves of height 0),
let `s` be balanced (I6: sibling heights differ by at most 1), and let `n` be its number of
leaves (`n ≥ 1` holds for every shape).  Then `GetHeight()` returns a value
`h ≤ 2·⌈log2(n+1)⌉`. -/
theorem GetHeight_le_two_clog (t : b2DynamicTree α) (s : Shape α)
    (hroot : t.m_root = s.idx) (hrep : t.Rep s b2_nullNode) (hbal : s.Balanced) :
    1 ≤ s.leaves.length ∧
      ∃ h : Int, t.GetHeight = some h ∧ h ≤ 2 * (Nat.clog 2 (s.leaves.length + 1) : Int) := by
  have hin := hrep.idx_inRange
  have hne := inRange_ne_null hin
  refine ⟨s.leaves_length_pos, s.height, ?_, ?_⟩
  · unfold GetHeight
    rw [hroot, if_neg hne, if_neg (not_not.2 hin), hrep.height_eq]
  · by_contra hcon
    have hgt : (2 * (Nat.clog 2 (s.leaves.length + 1)) + 1 : Int) ≤ s.height := by omega
    have h1 := (balanced_leaves_lower_bound s hbal (Nat.clog 2 (s.leaves.length + 1))).2 hgt
    have h2 : s.leaves.length + 1 ≤ 2 ^ Nat.clog 2 (s.leaves.length + 1) :=
      Nat.le_pow_clog (by norm_num) _
    have h3 : 2 ^ (Nat.clog 2 (s.leaves.length + 1) + 1) =
        2 * 2 ^ Nat.clog 2 (s.leaves.length + 1) := by ring
    omega

theorem GetHeight_le_two_clog_witness :
    tieTree.m_root = (Shape.node 2 (Shape.leaf 0 unitBox 0) (Shape.leaf 1 unitBox 0)).idx ∧
      tieTree.Rep (Shape.node 2 (Shape.leaf 0 unitBox 0) (Shape.leaf 1 unitBox 0))
        b2_nullNode ∧
      (Shape.node 2 (Shape.leaf 0 unitBox 0) (Shape.leaf 1 unitBox 0)).Balanced ∧
      (1 ≤ (Shape.node 2 (Shape.leaf 0 unitBox 0) (Shape.leaf 1 unitBox 0)).leaves.length ∧
        ∃ h : Int, tieTree.GetHeight = some h ∧ h ≤ 2 * (Nat.clog 2
          ((Shape.node 2 (Shape.leaf 0 unitBox 0) (Shape.leaf 1 unitBox 0)).leaves.length + 1)
            : Int)) :=
  ⟨by decide, by decide, by decide,
    GetHeight_le_two_clog tieTree _ (by decide) (by decide) (by decide)⟩

/-! ## C22: `Validate()` at the end of the brute-force `DestroyProxy` -/

set_option maxRecDepth 100000 in
/-- C22 (the code at the failing input). In the brute-force back end, create one proxy on a
fresh tree (id 0) and destroy it.  The statements of `DestroyProxy` before `Validate()` leave
`m_proxyCount = 0` and `m_freeId = 0`, so the first assertion of `Validate()`,
`m_proxyCount > 0 || m_freeId == b2_nullNode`, fails and `DestroyProxy` does not return.
With a second proxy still alive the same call passes every assertion. -/
theorem bruteForce_destroy_last_proxy_fails :
    ((b2BruteForce.new : b2BruteForce ℤ).CreateProxy unitBox 0).map Prod.snd = some 0 ∧
      (((b2BruteForce.new : b2BruteForce ℤ).CreateProxy unitBox 0).bind fun r =>
        (r.1.destroyCore 0).map fun t =>
          (t.m_proxyCount, t.m_freeId, t.m_proxyCapacity,
            decide (t.m_proxyCount > 0 ∨ t.m_freeId = b2_nullNode), t.Validate)) =
        some (0, 0, 128, false, none) ∧
      (((b2BruteForce.new : b2BruteForce ℤ).CreateProxy unitBox 0).bind fun r =>
        r.1.DestroyProxy 0) = none ∧
      (((b2BruteForce.new : b2BruteForce ℤ).CreateProxy unitBox 0).bind fun r1 =>
        (r1.1.CreateProxy unitBox 0).bind fun r2 =>
          (r2.1.DestroyProxy 0).map fun t => (t.m_proxyCount, t.m_freeId, t.Validate)) =
        some (1, 0, some ()) := by
  decide

/-! ## `Balance` on a node with valid subtrees -/

theorem ValidBelow.of_rep {t : b2DynamicTree α} {i p : Int} {l r : Shape α}
    (h : t.Rep (Shape.node i l r) p) (hnd : (Shape.node i l r).ids.Nodup)
    (hlink : p = b2_nullNode ∨ (t.InRange p ∧ p ∉ (Shape.node i l r).ids ∧
      ((t.nd p).child1 = i ∨ (t.nd p).child2 = i))) :
    t.ValidBelow i l r p := by
  obtain ⟨h1, h2, h3, h4, _, _, hl, hr⟩ := h
  exact ⟨h1, h3, h4, h2, hl, hr, hnd, hlink⟩

/-- The general outcome of `Balance` at a node whose two subtrees are stored correctly:
it returns, the returned node again has two correctly stored subtrees with the same parent,
the nodes and leaves are the same, the parent link follows, nothing else is written. -/
theorem Balance_spec {t : b2DynamicTree α} {iA p : Int} {l r : Shape α}
    (h : t.ValidBelow iA l r p) :
    ∃ t1 i1 l1 r1, t.Balance iA = some (t1, i1) ∧ t1.ValidBelow i1 l1 r1 p ∧
      (i1 :: (l1.ids ++ r1.ids)).Perm (iA :: (l.ids ++ r.ids)) ∧
      (l1.leaves ++ r1.leaves).Perm (l.leaves ++ r.leaves) ∧
      t1.m_nodes.length = t.m_nodes.length ∧ t1.m_freeList = t.m_freeList ∧
      t1.m_nodeCount = t.m_nodeCount ∧ t1.m_path = t.m_path ∧
      t1.m_insertionCount = t.m_insertionCount ∧
      (p = b2_nullNode → t.m_root = iA → t1.m_root = i1) ∧
      (p ≠ b2_nullNode → t1.m_root = t.m_root ∧
        t1.nd p = if (t.nd p).child1 = iA then { t.nd p with child1 := i1 }
          else { t.nd p with child2 := i1 }) ∧
      (∀ j, j ∉ iA :: (l.ids ++ r.ids) → j ≠ p → t1.nd j = t.nd j) := by
  have hsame : (t.nd iA).height < 2 ∨
      (¬ r.height - l.height > 1 ∧ ¬ r.height - l.height < -1) →
      ∃ t1 i1 l1 r1, t.Balance iA = some (t1, i1) ∧ t1.ValidBelow i1 l1 r1 p ∧
      (i1 :: (l1.ids ++ r1.ids)).Perm (iA :: (l.ids ++ r.ids)) ∧
      (l1.leaves ++ r1.leaves).Perm (l.leaves ++ r.leaves) ∧
      t1.m_nodes.length = t.m_nodes.length ∧ t1.m_freeList = t.m_freeList ∧
      t1.m_nodeCount = t.m_nodeCount ∧ t1.m_path = t.m_path ∧
      t1.m_insertionCount = t.m_insertionCount ∧
      (p = b2_nullNode → t.m_root = iA → t1.m_root = i1) ∧
      (p ≠ b2_nullNode → t1.m_root = t.m_root ∧
        t1.nd p = if (t.nd p).child1 = iA then { t.nd p with child1 := i1 }
          else { t.nd p with child2 := i1 }) ∧
      (∀ j, j ∉ iA :: (l.ids ++ r.ids) → j ≠ p → t1.nd j = t.nd j) := by
    intro hb
    refine ⟨t, iA, l, r, Balance_same h hb, h, List.Perm.refl _, List.Perm.refl _, rfl, rfl, rfl,
      rfl, rfl, fun _ hr => hr, fun hp => ⟨rfl, ?_⟩, fun _ _ _ => rfl⟩
    rcases h.link with hn | ⟨_, _, hc⟩
    · exact absurd hn hp
    · by_cases hc1 : (t.nd p).child1 = iA
      · rw [if_pos hc1, ← hc1, node_eta_child1]
      · have hc2 := hc.resolve_left hc1
        rw [if_neg hc1, ← hc2, node_eta_child2]
  by_cases hlt : (t.nd iA).height < 2
  · exact hsame (Or.inl hlt)
  by_cases hb1 : r.height - l.height > 1
  · -- Rotate C up
    have hl0 := l.height_nonneg
    cases r with
    | leaf i b u => simp only [Shape.height] at hb1; omega
    | node iC f g =>
      obtain ⟨t1, hrun, hrep, hlen, hfl, hnc, hpa, hic, hroot, hpar, hframe⟩ := rotateUp2_rep h
      have hperm := rotateUp2_ids iA iC l f g
      have hlv := rotateUp2_leaves iA iC l f g
      have hnd1 : (Shape.rotateUp2 iA l iC f g).ids.Nodup := (List.Perm.nodup_iff hperm).2 h.nodup
      have hlink1 : p = b2_nullNode ∨ (t1.InRange p ∧ p ∉ (Shape.rotateUp2 iA l iC f g).ids ∧
          ((t1.nd p).child1 = iC ∨ (t1.nd p).child2 = iC)) := by
        rcases h.link with hn | ⟨hpr, hpn, hpc⟩
        · exact Or.inl hn
        · refine Or.inr ⟨(inRange_of_length hlen p).2 hpr, fun hm => hpn (hperm.mem_iff.1 hm), ?_⟩
          rw [(hpar (inRange_ne_null hpr)).2]
          by_cases hc1 : (t.nd p).child1 = iA
          · rw [if_pos hc1]; exact Or.inl rfl
          · rw [if_neg hc1]; exact Or.inr rfl
      rw [Balance_up2 h hlt hb1, hrun]
      by_cases hh : f.height > g.height
      · simp only [Shape.rotateUp2, if_pos hh] at hrep hperm hlv hnd1 hlink1
        exact ⟨t1, iC, _, _, rfl, ValidBelow.of_rep hrep hnd1 hlink1, hperm, hlv, hlen, hfl,
          hnc, hpa, hic, fun hp _ => hroot hp, hpar, hframe⟩
      · simp only [Shape.rotateUp2, if_neg hh] at hrep hperm hlv hnd1 hlink1
        exact ⟨t1, iC, _, _, rfl, ValidBelow.of_rep hrep hnd1 hlink1, hperm, hlv, hlen, hfl,
          hnc, hpa, hic, fun hp _ => hroot hp, hpar, hframe⟩
  by_cases hb2 : r.height - l.height < -1
  · -- Rotate B up
    have hr0 := r.height_nonneg
    cases l with
    | leaf i b u => simp only [Shape.height] at hb2; omega
    | node iB d e =>
      obtain ⟨t1, hrun, hrep, hlen, hfl, hnc, hpa, hic, hroot, hpar, hframe⟩ := rotateUp1_rep h
      have hperm := rotateUp1_ids iA iB d e r
      have hlv := rotateUp1_leaves iA iB d e r
      have hnd1 : (Shape.rotateUp1 iA iB d e r).ids.Nodup := (List.Perm.nodup_iff hperm).2 h.nodup
      have hlink1 : p = b2_nullNode ∨ (t1.InRange p ∧ p ∉ (Shape.rotateUp1 iA iB d e r).ids ∧
          ((t1.nd p).child1 = iB ∨ (t1.nd p).child2 = iB)) := by
        rcases h.link with hn | ⟨hpr, hpn, hpc⟩
        · exact Or.inl hn
        · refine Or.inr ⟨(inRange_of_length hlen p).2 hpr, fun hm => hpn (hperm.mem_iff.1 hm), ?_⟩
          rw [(hpar (inRange_ne_null hpr)).2]
          by_cases hc1 : (t.nd p).child1 = iA
          · rw [if_pos hc1]; exact Or.inl rfl
          · rw [if_neg hc1]; exact Or.inr rfl
      rw [Balance_up1 h hlt hb2, hrun]
      by_cases hh : d.height > e.height
      · simp only [Shape.rotateUp1, if_pos hh] at hrep hperm hlv hnd1 hlink1
        exact ⟨t1, iB, _, _, rfl, ValidBelow.of_rep hrep hnd1 hlink1, hperm, hlv, hlen, hfl,
          hnc, hpa, hic, fun hp _ => hroot hp, hpar, hframe⟩
      · simp only [Shape.rotateUp1, if_neg hh] at hrep hperm hlv hnd1 hlink1
        exact ⟨t1, iB, _, _, rfl, ValidBelow.of_rep hrep hnd1 hlink1, hperm, hlv, hlen, hfl,
          hnc, hpa, hic, fun hp _ => hroot hp, hpar, hframe⟩
  · exact hsame (Or.inr ⟨hb1, hb2⟩)

/-! ## One pass of an ancestor walk -/

theorem RepCtx.link {t : b2DynamicTree α} {c : Ctx α} {i : Int} (hc : t.RepCtx c i)
    (ids : List Int) (hnd : (ids ++ c.ids).Nodup) :
    c.parentIdx = b2_nullNode ∨ (t.InRange c.parentIdx ∧ c.parentIdx ∉ ids ∧
      ((t.nd c.parentIdx).child1 = i ∨ (t.nd c.parentIdx).child2 = i)) := by
  cases c with
  | top => exact Or.inl rfl
  | left c j r =>
    obtain ⟨h1, h2, _⟩ := hc
    refine Or.inr ⟨h1, fun hm => ?_, Or.inl h2⟩
    exact (List.nodup_append.1 hnd).2.2 hm (by simp [Ctx.ids, Ctx.parentIdx])
  | right c j l =>
    obtain ⟨h1, _, h2, _⟩ := hc
    refine Or.inr ⟨h1, fun hm => ?_, Or.inr h2⟩
    exact (List.nodup_append.1 hnd).2.2 hm (by simp [Ctx.ids, Ctx.parentIdx])

theorem Focus.intro {t : b2DynamicTree α} {c : Ctx α} {i : Int} {l r : Shape α}
    (h1 : t.InRange i) (h2 : (t.nd i).child1 = l.idx) (h3 : (t.nd i).child2 = r.idx)
    (h4 : (t.nd i).parent = c.parentIdx) (hl : t.Rep l i) (hr : t.Rep r i)
    (hc : t.RepCtx c i) (hnd : (i :: (l.ids ++ r.ids) ++ c.ids).Nodup) : t.Focus c i l r :=
  ⟨⟨h1, h2, h3, h4, hl, hr, (List.nodup_append.1 hnd).1, hc.link _ hnd⟩, hc, hnd⟩

theorem RepCtx.relink {t t1 : b2DynamicTree α} {c : Ctx α} {i i1 : Int}
    (hc : t.RepCtx c i) (hlen : t1.m_nodes.length = t.m_nodes.length)
    (hcnd : c.ids.Nodup) (hi : i ∉ c.ids)
    (hroot : c.parentIdx = b2_nullNode → t.m_root = i → t1.m_root = i1)
    (hpar : c.parentIdx ≠ b2_nullNode → t1.m_root = t.m_root ∧
      t1.nd c.parentIdx = if (t.nd c.parentIdx).child1 = i then
          { t.nd c.parentIdx with child1 := i1 }
        else { t.nd c.parentIdx with child2 := i1 })
    (hframe : ∀ j ∈ c.ids, j ≠ c.parentIdx → t1.nd j = t.nd j) : t1.RepCtx c i1 := by
  cases c with
  | top => exact hroot rfl hc
  | left c j r =>
    obtain ⟨h1, h2, h3, h4, hr, hcc⟩ := hc
    simp only [Ctx.ids, List.nodup_cons, List.mem_append, not_or, List.nodup_append] at hcnd
    obtain ⟨⟨hjr, hjc⟩, hrnd, hcnd', hdisj⟩ := hcnd
    obtain ⟨hroot1, hnp⟩ := hpar (inRange_ne_null h1)
    simp only [Ctx.parentIdx] at hnp hframe
    rw [if_pos h2] at hnp
    refine ⟨(inRange_of_length hlen j).2 h1, ?_, ?_, ?_, ?_, ?_⟩
    · rw [hnp]
    · rw [hnp]; exact h3
    · rw [hnp]; exact h4
    · exact Rep.rep_congr hlen (fun k hk => hframe k (by simp [Ctx.ids, hk])
        (fun e => hjr (e ▸ hk))) hr
    · exact RepCtx.ctx_congr hlen hroot1 (fun k hk => hframe k (by simp [Ctx.ids, hk])
        (fun e => hjc (e ▸ hk))) hcc
  | right c j l =>
    obtain ⟨h1, h2, h3, h4, hr, hcc⟩ := hc
    simp only [Ctx.ids, List.nodup_cons, List.mem_append, not_or, List.nodup_append] at hcnd
    obtain ⟨⟨hjr, hjc⟩, hrnd, hcnd', hdisj⟩ := hcnd
    obtain ⟨hroot1, hnp⟩ := hpar (inRange_ne_null h1)
    simp only [Ctx.parentIdx] at hnp hframe
    have hne : ¬ (t.nd j).child1 = i := by
      rw [h2]; intro e
      exact hi (by simp [Ctx.ids, ← e, l.idx_mem_ids])
    rw [if_neg hne] at hnp
    refine ⟨(inRange_of_length hlen j).2 h1, ?_, ?_, ?_, ?_, ?_⟩
    · rw [hnp]; exact h2
    · rw [hnp]
    · rw [hnp]; exact h4
    · exact Rep.rep_congr hlen (fun k hk => hframe k (by simp [Ctx.ids, hk])
        (fun e => hjr (e ▸ hk))) hr
    · exact RepCtx.ctx_congr hlen hroot1 (fun k hk => hframe k (by simp [Ctx.ids, hk])
        (fun e => hjc (e ▸ hk))) hcc

theorem nd_null (t : b2DynamicTree α) : t.nd b2_nullNode = default := by
  simp [nd, b2_nullNode]

theorem Ctx.parentIdx_mem {c : Ctx α} (h : c.parentIdx ≠ b2_nullNode) : c.parentIdx ∈ c.ids := by
  cases c with
  | top => exact absurd rfl h
  | left c j r => simp [Ctx.ids, Ctx.parentIdx]
  | right c j l => simp [Ctx.ids, Ctx.parentIdx]

theorem step_core {t : b2DynamicTree α} {c : Ctx α} {i : Int} {l r : Shape α}
    (h : t.Focus c i l r) :
    ∃ t1 i1 l1 r1, t.Balance i = some (t1, i1) ∧ t1.InRange i1 ∧
      (t1.nd i1).child1 = l1.idx ∧ (t1.nd i1).child2 = r1.idx ∧
      t1.InRange l1.idx ∧ t1.InRange r1.idx ∧ (t1.nd i1).parent = c.parentIdx ∧
      ∀ t2 : b2DynamicTree α, t2.m_nodes.length = t1.m_nodes.length →
        t2.m_root = t1.m_root → t2.m_freeList = t1.m_freeList →
        t2.m_nodeCount = t1.m_nodeCount → t2.m_path = t1.m_path →
        t2.m_insertionCount = t1.m_insertionCount →
        (∀ j, j ≠ i1 → t2.nd j = t1.nd j) →
        t2.nd i1 = { t1.nd i1 with
          aabb := b2AABB.Combine (t1.nd l1.idx).aabb (t1.nd r1.idx).aabb
          height := 1 + max (t1.nd l1.idx).height (t1.nd r1.idx).height } →
        StepPost t c i l r t2 (Shape.node i1 l1 r1) := by
  obtain ⟨hb, hctx, hnd⟩ := h
  obtain ⟨t1, i1, l1, r1, hrun, hv1, hperm, hlv, hlen, hfl, hnc, hpa, hic, hroot, hpar, hframe⟩ :=
    Balance_spec hb
  have hsub := (List.nodup_append.1 hnd).1
  have hcnd := (List.nodup_append.1 hnd).2.1
  have hdisj := (List.nodup_append.1 hnd).2.2
  have hi1mem : i1 ∈ i :: (l.ids ++ r.ids) := hperm.mem_iff.1 (List.mem_cons_self _ _)
  have hic' : i ∉ c.ids := fun hm => hdisj (List.mem_cons_self _ _) hm
  have hi1c : i1 ∉ c.ids := fun hm => hdisj hi1mem hm
  have hctx1 : t1.RepCtx c i1 := by
    refine RepCtx.relink hctx hlen hcnd hic' hroot hpar (fun j hj hjp => hframe j ?_ hjp)
    exact fun hm => hdisj hm hj
  refine ⟨t1, i1, l1, r1, hrun, hv1.inRange, hv1.child1, hv1.child2, hv1.repL.idx_inRange,
    hv1.repR.idx_inRange, hv1.parent, ?_⟩
  intro t2 hlen2 hroot2 hfl2 hnc2 hpa2 hic2 hne2 hself2
  have hnd1 := hv1.nodup
  simp only [List.nodup_cons, List.mem_append, not_or] at hnd1
  have hl2 : t2.Rep l1 i1 := Rep.rep_congr hlen2
    (fun j hj => hne2 j (fun e => hnd1.1.1 (e ▸ hj))) hv1.repL
  have hr2 : t2.Rep r1 i1 := Rep.rep_congr hlen2
    (fun j hj => hne2 j (fun e => hnd1.1.2 (e ▸ hj))) hv1.repR
  refine ⟨⟨(inRange_of_length hlen2 _).2 hv1.inRange, ?_, ?_, ?_, ?_, ?_, hl2, hr2⟩, ?_, hperm,
    hlv, hlen2.trans hlen, hfl2.trans hfl, hnc2.trans hnc, hpa2.trans hpa, hic2.trans hic, ?_⟩
  · rw [hself2]; exact hv1.parent
  · rw [hself2]; exact hv1.child1
  · rw [hself2]; exact hv1.child2
  · rw [hself2, hv1.repL.height_eq, hv1.repR.height_eq]
  · rw [hself2, hv1.repL.aabb_eq, hv1.repR.aabb_eq]
  · exact RepCtx.ctx_congr hlen2 hroot2 (fun j hj => hne2 j (fun e => hi1c (e ▸ hj))) hctx1
  · intro j hj
    simp only [List.mem_append, not_or] at hj
    have hj1 : j ≠ i1 := fun e => hj.1 (e ▸ hi1mem)
    rw [hne2 j hj1]
    by_cases hjn : j = b2_nullNode
    · rw [hjn, nd_null, nd_null]
    · refine hframe j hj.1 (fun e => ?_)
      have : c.parentIdx ≠ b2_nullNode := e ▸ hjn
      exact hj.2 (e ▸ Ctx.parentIdx_mem this)

theorem refreshHA_nd (t : b2DynamicTree α) (i : Int) (hi : t.InRange i) :
    ((t.refreshHeight i).refreshAABB i).nd i = { t.nd i with
      aabb := b2AABB.Combine (t.nd (t.nd i).child1).aabb (t.nd (t.nd i).child2).aabb
      height := 1 + max (t.nd (t.nd i).child1).height (t.nd (t.nd i).child2).height } := by
  refine node_ext ?_ ?_ ?_ ?_ ?_ ?_ <;>
    simp [refreshAABB, refreshHeight, setHeight_height, setAABB_aabb, hi]

theorem refreshAH_nd (t : b2DynamicTree α) (i : Int) (hi : t.InRange i) :
    ((t.refreshAABB i).refreshHeight i).nd i = { t.nd i with
      aabb := b2AABB.Combine (t.nd (t.nd i).child1).aabb (t.nd (t.nd i).child2).aabb
      height := 1 + max (t.nd (t.nd i).child1).height (t.nd (t.nd i).child2).height } := by
  refine node_ext ?_ ?_ ?_ ?_ ?_ ?_ <;>
    simp [refreshAABB, refreshHeight, setHeight_height, setAABB_aabb, hi]

theorem refreshHA_ne (t : b2DynamicTree α) (i j : Int) (h : j ≠ i) :
    ((t.refreshHeight i).refreshAABB i).nd j = t.nd j := by
  simp [refreshAABB, refreshHeight, setHeight_nd_ne, setAABB_nd_ne, h]

theorem refreshAH_ne (t : b2DynamicTree α) (i j : Int) (h : j ≠ i) :
    ((t.refreshAABB i).refreshHeight i).nd j = t.nd j := by
  simp [refreshAABB, refreshHeight, setHeight_nd_ne, setAABB_nd_ne, h]

theorem insertStep_spec {t : b2DynamicTree α} {c : Ctx α} {i : Int} {l r : Shape α}
    (h : t.Focus c i l r) :
    ∃ t2 s2, insertStep t i = some (t2, c.parentIdx) ∧ StepPost t c i l r t2 s2 := by
  obtain ⟨t1, i1, l1, r1, hrun, hi1, hc1, hc2, hl1, hr1, hp1, hpost⟩ := step_core h
  refine ⟨(t1.refreshHeight i1).refreshAABB i1, Shape.node i1 l1 r1, ?_, ?_⟩
  · unfold insertStep
    rw [hrun]
    simp only [hc1, hc2, if_neg (inRange_ne_null hl1), if_neg (inRange_ne_null hr1), hl1, hr1,
      not_true_eq_false, if_false]
    rw [refreshHA_nd t1 i1 hi1, hp1]
  · refine hpost _ ?_ ?_ ?_ ?_ ?_ ?_ (fun j hj => refreshHA_ne t1 i1 j hj) ?_
    · simp [refreshAABB, refreshHeight]
    · simp [refreshAABB, refreshHeight]
    · simp [refreshAABB, refreshHeight]
    · simp [refreshAABB, refreshHeight]
    · simp [refreshAABB, refreshHeight]
    · simp [refreshAABB, refreshHeight]
    · rw [refreshHA_nd t1 i1 hi1, hc1, hc2]

theorem removeStep_spec {t : b2DynamicTree α} {c : Ctx α} {i : Int} {l r : Shape α}
    (h : t.Focus c i l r) :
    ∃ t2 s2, removeStep t i = some (t2, c.parentIdx) ∧ StepPost t c i l r t2 s2 := by
  obtain ⟨t1, i1, l1, r1, hrun, hi1, hc1, hc2, hl1, hr1, hp1, hpost⟩ := step_core h
  refine ⟨(t1.refreshAABB i1).refreshHeight i1, Shape.node i1 l1 r1, ?_, ?_⟩
  · unfold removeStep
    rw [hrun]
    simp only [hc1, hc2, hl1, hr1, not_true_eq_false, if_false]
    rw [refreshAH_nd t1 i1 hi1, hp1]
  · refine hpost _ ?_ ?_ ?_ ?_ ?_ ?_ (fun j hj => refreshAH_ne t1 i1 j hj) ?_
    · simp [refreshAABB, refreshHeight]
    · simp [refreshAABB, refreshHeight]
    · simp [refreshAABB, refreshHeight]
    · simp [refreshAABB, refreshHeight]
    · simp [refreshAABB, refreshHeight]
    · simp [refreshAABB, refreshHeight]
    · rw [refreshAH_nd t1 i1 hi1, hc1, hc2]

theorem ancestorLoop_null (step : b2DynamicTree α → Int → Option (b2DynamicTree α × Int))
    (fuel : Nat) (t : b2DynamicTree α) :
    ancestorLoop step (fuel + 1) t b2_nullNode = some t := by
  simp [ancestorLoop]

theorem ancestorLoop_step (step : b2DynamicTree α → Int → Option (b2DynamicTree α × Int))
    (fuel : Nat) (t t1 : b2DynamicTree α) (i j : Int) (hi : i ≠ b2_nullNode)
    (h : step t i = some (t1, j)) :
    ancestorLoop step (fuel + 1) t i = ancestorLoop step fuel t1 j := by
  simp [ancestorLoop, hi, h]

theorem ancestorLoop_spec (step : b2DynamicTree α → Int → Option (b2DynamicTree α × Int))
    (hstep : ∀ (t : b2DynamicTree α) (c : Ctx α) (i : Int) (l r : Shape α), t.Focus c i l r →
      ∃ t2 s2, step t i = some (t2, c.parentIdx) ∧ StepPost t c i l r t2 s2)
    (c : Ctx α) : ∀ (t : b2DynamicTree α) (i : Int) (l r : Shape α) (fuel : Nat),
      t.Focus c i l r → c.depth + 2 ≤ fuel →
      ∃ t2 s2, ancestorLoop step fuel t i = some t2 ∧
        LoopPost t (i :: (l.ids ++ r.ids) ++ c.ids) (l.leaves ++ r.leaves ++ c.leaves) t2 s2 := by
  induction c with
  | top =>
    intro t i l r fuel hf hfuel
    obtain ⟨t2, s2, hrun, hpost⟩ := hstep t _ i l r hf
    obtain ⟨f, rfl⟩ : ∃ f, fuel = f + 1 + 1 := ⟨fuel - 2, by simp only [Ctx.depth] at hfuel; omega⟩
    refine ⟨t2, s2, ?_, ?_⟩
    · rw [ancestorLoop_step step _ t t2 i _ (inRange_ne_null hf.below.inRange) hrun]
      exact ancestorLoop_null step f t2
    · refine ⟨hpost.ctx, hpost.rep, ?_, ?_, hpost.length, hpost.freeList, hpost.nodeCount,
        hpost.path, hpost.insertionCount, hpost.frame⟩
      · simpa [Ctx.ids] using hpost.ids
      · simpa [Ctx.leaves] using hpost.leaves
  | left c j r1 ih =>
    intro t i l r fuel hf hfuel
    obtain ⟨t2, s2, hrun, hpost⟩ := hstep t _ i l r hf
    obtain ⟨f, rfl⟩ : ∃ f, fuel = f + 1 := ⟨fuel - 1, by omega⟩
    obtain ⟨h1, h2, h3, h4, hr, hcc⟩ := hpost.ctx
    have hids := hpost.ids
    have hperm : (j :: (s2.ids ++ r1.ids) ++ c.ids).Perm
        (i :: (l.ids ++ r.ids) ++ (Ctx.left c j r1).ids) := by
      refine List.perm_iff_count.2 fun a => ?_
      have := hids.count_eq a
      simp only [Ctx.ids, List.count_append, List.count_cons, List.cons_append] at this ⊢
      omega
    have hf2 : t2.Focus c j s2 r1 :=
      Focus.intro h1 h2 h3 h4 hpost.rep hr hcc ((List.Perm.nodup_iff hperm).2 hf.nodup)
    obtain ⟨t3, s3, hrun3, hpost3⟩ := ih t2 j s2 r1 f hf2 (by simp only [Ctx.depth] at hfuel; omega)
    refine ⟨t3, s3, ?_, ?_⟩
    · rw [ancestorLoop_step step _ t t2 i _ (inRange_ne_null hf.below.inRange) hrun]
      exact hrun3
    · refine ⟨hpost3.root, hpost3.rep, hpost3.ids.trans hperm, ?_,
        hpost3.length.trans hpost.length, hpost3.freeList.trans hpost.freeList,
        hpost3.nodeCount.trans hpost.nodeCount, hpost3.path.trans hpost.path,
        hpost3.insertionCount.trans hpost.insertionCount, ?_⟩
      · refine hpost3.leaves.trans (List.perm_iff_count.2 fun a => ?_)
        have := hpost.leaves.count_eq a
        simp only [Ctx.leaves, List.count_append] at this ⊢
        omega
      · intro k hk
        rw [hpost3.frame k (fun hm => hk (hperm.mem_iff.1 hm)), hpost.frame k hk]
  | right c j l1 ih =>
    intro t i l r fuel hf hfuel
    obtain ⟨t2, s2, hrun, hpost⟩ := hstep t _ i l r hf
    obtain ⟨f, rfl⟩ : ∃ f, fuel = f + 1 := ⟨fuel - 1, by omega⟩
    obtain ⟨h1, h2, h3, h4, hr, hcc⟩ := hpost.ctx
    have hids := hpost.ids
    have hperm : (j :: (l1.ids ++ s2.ids) ++ c.ids).Perm
        (i :: (l.ids ++ r.ids) ++ (Ctx.right c j l1).ids) := by
      refine List.perm_iff_count.2 fun a => ?_
      have := hids.count_eq a
      simp only [Ctx.ids, List.count_append, List.count_cons, List.cons_append] at this ⊢
      omega
    have hf2 : t2.Focus c j l1 s2 :=
      Focus.intro h1 h2 h3 h4 hr hpost.rep hcc ((List.Perm.nodup_iff hperm).2 hf.nodup)
    obtain ⟨t3, s3, hrun3, hpost3⟩ := ih t2 j l1 s2 f hf2 (by simp only [Ctx.depth] at hfuel; omega)
    refine ⟨t3, s3, ?_, ?_⟩
    · rw [ancestorLoop_step step _ t t2 i _ (inRange_ne_null hf.below.inRange) hrun]
      exact hrun3
    · refine ⟨hpost3.root, hpost3.rep, hpost3.ids.trans hperm, ?_,
        hpost3.length.trans hpost.length, hpost3.freeList.trans hpost.freeList,
        hpost3.nodeCount.trans hpost.nodeCount, hpost3.path.trans hpost.path,
        hpost3.insertionCount.trans hpost.insertionCount, ?_⟩
      · refine hpost3.leaves.trans (List.perm_iff_count.2 fun a => ?_)
        have := hpost.leaves.count_eq a
        simp only [Ctx.leaves, List.count_append] at this ⊢
        omega
      · intro k hk
        rw [hpost3.frame k (fun hm => hk (hperm.mem_iff.1 hm)), hpost.frame k hk]

/-! ## Subtrees in context -/

theorem Rep.plug_split {t : b2DynamicTree α} (c : Ctx α) : ∀ (s : Shape α),
    t.Rep (c.plug s) b2_nullNode → t.m_root = (c.plug s).idx →
    t.Rep s c.parentIdx ∧ t.RepCtx c s.idx := by
  induction c with
  | top => intro s h hr; exact ⟨h, hr⟩
  | left c j r ih =>
    intro s h hr
    obtain ⟨⟨h1, h2, h3, h4, _, _, hs, hrr⟩, hc⟩ := ih _ h hr
    exact ⟨hs, h1, h3, h4, h2, hrr, hc⟩
  | right c j l ih =>
    intro s h hr
    obtain ⟨⟨h1, h2, h3, h4, _, _, hl, hs⟩, hc⟩ := ih _ h hr
    exact ⟨hs, h1, h3, h4, h2, hl, hc⟩

theorem Rep.plug_replace {t t1 : b2DynamicTree α} (hlen : t1.m_nodes.length = t.m_nodes.length)
    (c : Ctx α) : ∀ (s s1 : Shape α), (∀ p, t.Rep s p → t1.Rep s1 p) →
    s1.idx = s.idx → s1.height = s.height → s1.box = s.box →
    (∀ j ∈ c.ids, t1.nd j = t.nd j) →
    ∀ p0, t.Rep (c.plug s) p0 → t1.Rep (c.plug s1) p0 := by
  induction c with
  | top => intro s s1 h _ _ _ _ p0 hp; exact h p0 hp
  | left c j r ih =>
    intro s s1 h hi hh hb hf p0 hp
    refine ih (Shape.node j s r) (Shape.node j s1 r) ?_ rfl ?_ ?_
      (fun k hk => hf k (by simp [Ctx.ids, hk])) p0 hp
    · intro p hrep
      obtain ⟨h1, h2, h3, h4, h5, h6, hs, hr⟩ := hrep
      have e := hf j (by simp [Ctx.ids])
      refine ⟨(inRange_of_length hlen j).2 h1, ?_, ?_, ?_, ?_, ?_, h j hs,
        Rep.rep_congr hlen (fun k hk => hf k (by simp [Ctx.ids, hk])) hr⟩
      · rw [e]; exact h2
      · rw [e, hi]; exact h3
      · rw [e]; exact h4
      · rw [e, hh]; exact h5
      · rw [e, hb]; exact h6
    · simp only [Shape.height, hh]
    · simp only [Shape.box, hb]
  | right c j l ih =>
    intro s s1 h hi hh hb hf p0 hp
    refine ih (Shape.node j l s) (Shape.node j l s1) ?_ rfl ?_ ?_
      (fun k hk => hf k (by simp [Ctx.ids, hk])) p0 hp
    · intro p hrep
      obtain ⟨h1, h2, h3, h4, h5, h6, hl, hs⟩ := hrep
      have e := hf j (by simp [Ctx.ids])
      refine ⟨(inRange_of_length hlen j).2 h1, ?_, ?_, ?_, ?_, ?_,
        Rep.rep_congr hlen (fun k hk => hf k (by simp [Ctx.ids, hk])) hl, h j hs⟩
      · rw [e]; exact h2
      · rw [e]; exact h3
      · rw [e, hi]; exact h4
      · rw [e, hh]; exact h5
      · rw [e, hb]; exact h6
    · simp only [Shape.height, hh]
    · simp only [Shape.box, hb]

theorem Rep.isLeaf_leaf {t : b2DynamicTree α} {i p : Int} {b : b2AABB α} {u : Nat}
    (h : t.Rep (Shape.leaf i b u) p) : (t.nd i).IsLeaf = true := by
  simp [b2TreeNode.IsLeaf, h.2.2.1]

theorem Rep.isLeaf_node {t : b2DynamicTree α} {i p : Int} {l r : Shape α}
    (h : t.Rep (Shape.node i l r) p) : (t.nd i).IsLeaf = false := by
  have := inRange_ne_null h.2.2.2.2.2.2.1.idx_inRange
  simp [b2TreeNode.IsLeaf, h.2.2.1, this]

/-- The sibling loop of `InsertLeaf` started at the root of a stored subtree ends at a node
of that subtree. -/
theorem findSibling_spec {t : b2DynamicTree α} (b : b2AABB α) (s : Shape α) :
    ∀ (c : Ctx α) (p : Int) (fuel : Nat), t.Rep s p → s.depth + 1 ≤ fuel →
    ∃ (c1 : Ctx α) (sub : Shape α), t.findSibling b fuel s.idx = some sub.idx ∧
      c1.plug sub = c.plug s ∧ c1.depth + sub.depth ≤ c.depth + s.depth := by
  induction s with
  | leaf i bx u =>
    intro c p fuel h hfuel
    obtain ⟨f, rfl⟩ : ∃ f, fuel = f + 1 := ⟨fuel - 1, by omega⟩
    refine ⟨c, Shape.leaf i bx u, ?_, rfl, le_refl _⟩
    simp [findSibling, siblingStep, h.1, h.isLeaf_leaf]
  | node i l r ihl ihr =>
    intro c p fuel h hfuel
    obtain ⟨f, rfl⟩ : ∃ f, fuel = f + 1 := ⟨fuel - 1, by omega⟩
    have hleaf := h.isLeaf_node
    obtain ⟨h1, h2, h3, h4, h5, h6, hl, hr⟩ := h
    have hli := hl.idx_inRange
    have hri := hr.idx_inRange
    simp only [Shape.depth] at hfuel
    by_cases hstop : (t.siblingCosts b i).1 < (t.siblingCosts b i).2.1 ∧
        (t.siblingCosts b i).1 < (t.siblingCosts b i).2.2
    · refine ⟨c, Shape.node i l r, ?_, rfl, le_refl _⟩
      simp [findSibling, siblingStep, h1, hleaf, h3, h4, hli, hri, hstop]
    · by_cases hlt : (t.siblingCosts b i).2.1 < (t.siblingCosts b i).2.2
      · obtain ⟨c1, sub, hrun, hplug, hdep⟩ := ihl (Ctx.left c i r) i f hl (by omega)
        refine ⟨c1, sub, ?_, hplug, ?_⟩
        · simp only [findSibling, siblingStep, h1, hleaf, h3, h4, hli, hri, hstop, hlt,
            not_true_eq_false, if_false, if_true, Bool.false_eq_true, idx_node]
          exact hrun
        · simp only [Ctx.depth, Shape.depth] at hdep ⊢; omega
      · obtain ⟨c1, sub, hrun, hplug, hdep⟩ := ihr (Ctx.right c i l) i f hr (by omega)
        refine ⟨c1, sub, ?_, hplug, ?_⟩
        · simp only [findSibling, siblingStep, h1, hleaf, h3, h4, hli, hri, hstop, hlt,
            not_true_eq_false, if_false, if_true, Bool.false_eq_true, idx_node]
          exact hrun
        · simp only [Ctx.depth, Shape.depth] at hdep ⊢; omega

/-! ## Counting nodes, fuel -/

theorem length_le_of_nodup_inRange {t : b2DynamicTree α} {l : List Int} (hnd : l.Nodup)
    (hr : ∀ j ∈ l, t.InRange j) : l.length ≤ t.m_nodes.length := by
  have hsub : l.toFinset ⊆ Finset.Ico (0 : Int) t.m_nodes.length := by
    intro j hj
    have := hr j (List.mem_toFinset.1 hj)
    exact Finset.mem_Ico.2 ⟨this.1, this.2⟩
  have hcard := Finset.card_le_card hsub
  rw [List.toFinset_card_of_nodup hnd, Int.card_Ico] at hcard
  simpa using hcard

theorem depth_lt_ids_length (s : Shape α) : s.depth + 1 ≤ s.ids.length := by
  induction s with
  | leaf i b u => simp [Shape.depth, Shape.ids]
  | node i l r ihl ihr =>
    simp only [Shape.depth, Shape.ids, List.length_cons, List.length_append]
    have : max l.depth r.depth ≤ l.depth + r.depth := max_le (by omega) (by omega)
    omega

theorem ctx_depth_le_ids_length (c : Ctx α) : c.depth ≤ c.ids.length := by
  induction c with
  | top => simp [Ctx.depth]
  | left c i r ih => simp only [Ctx.depth, Ctx.ids, List.length_cons, List.length_append]; omega
  | right c i l ih => simp only [Ctx.depth, Ctx.ids, List.length_cons, List.length_append]; omega

theorem Focus.inRange_all {t : b2DynamicTree α} {c : Ctx α} {i : Int} {l r : Shape α}
    (h : t.Focus c i l r) : ∀ j ∈ i :: (l.ids ++ r.ids) ++ c.ids, t.InRange j := by
  intro j hj
  simp only [List.mem_append, List.mem_cons] at hj
  rcases hj with (rfl | hj | hj) | hj
  · exact h.below.inRange
  · exact h.below.repL.ids_inRange j hj
  · exact h.below.repR.ids_inRange j hj
  · exact h.ctx.ctx_inRange j hj

theorem Focus.walk_fuel {t : b2DynamicTree α} {c : Ctx α} {i : Int} {l r : Shape α}
    (h : t.Focus c i l r) : c.depth + 2 ≤ t.m_nodes.length + 1 := by
  have h1 := length_le_of_nodup_inRange h.nodup h.inRange_all
  have h2 := ctx_depth_le_ids_length c
  simp only [List.length_append, List.length_cons] at h1
  omega

theorem Rep.descent_fuel {t : b2DynamicTree α} {s : Shape α} {p : Int} (h : t.Rep s p)
    (hnd : s.ids.Nodup) : s.depth + 1 ≤ t.m_nodes.length + 1 := by
  have h1 := length_le_of_nodup_inRange hnd h.ids_inRange
  have h2 := depth_lt_ids_length s
  omega

/-! ## The free list -/

theorem FreeChain.chain_congr {t t1 : b2DynamicTree α} {i : Int} {fl : List Int}
    (hr : ∀ j, t.InRange j → t1.InRange j) (hnd : ∀ j ∈ fl, t1.nd j = t.nd j)
    (h : t.FreeChain i fl) : t1.FreeChain i fl := by
  induction fl generalizing i with
  | nil => exact h
  | cons a fl ih =>
    obtain ⟨h1, h2, h3, h4⟩ := h
    have e := hnd a (List.mem_cons_self _ _)
    refine ⟨h1, hr a h2, ?_, ?_⟩
    · rw [e]; exact h3
    · rw [e]; exact ih (fun j hj => hnd j (List.mem_cons_of_mem _ hj)) h4

theorem FreeChain.free_inRange {t : b2DynamicTree α} {i : Int} {fl : List Int}
    (h : t.FreeChain i fl) : ∀ j ∈ fl, t.InRange j ∧ (t.nd j).height = -1 := by
  induction fl generalizing i with
  | nil => intro j hj; simp at hj
  | cons a fl ih =>
    obtain ⟨_, h2, h3, h4⟩ := h
    intro j hj
    rcases List.mem_cons.1 hj with rfl | hj
    · exact ⟨h2, h3⟩
    · exact ih h4 j hj

theorem freeChain_length (lo hi : Nat) : (freeChain lo hi : List (b2TreeNode α)).length = hi - lo := by
  simp [freeChain]

theorem nd_append_left {t : b2DynamicTree α} {pre post : List (b2TreeNode α)}
    (h : t.m_nodes = pre ++ post) (k : Nat) (hk : k < pre.length) :
    t.nd (k : Int) = pre.getD k default := by
  simp only [nd, Int.natCast_nonneg, if_true, Int.toNat_ofNat, h, List.getD_eq_getElem?_getD]
  rw [List.getElem?_append_left hk]

theorem nd_freeChain {t : b2DynamicTree α} {pre : List (b2TreeNode α)} {hi : Nat}
    (h : t.m_nodes = pre ++ freeChain pre.length hi) (k : Nat) (hk1 : pre.length ≤ k)
    (hk2 : k < hi) :
    t.nd (k : Int) = { (zeroNode : b2TreeNode α) with
      parent := if k + 1 = hi then b2_nullNode else (k : Int) + 1, height := -1 } := by
  simp only [nd, Int.natCast_nonneg, if_true, Int.toNat_ofNat, h, List.getD_eq_getElem?_getD]
  rw [List.getElem?_append_right hk1]
  have hlt : k - pre.length < hi - pre.length := by omega
  simp only [freeChain, List.getElem?_map, List.getElem?_range' _ _ hlt, Option.map_some',
    Option.getD_some]
  have e : pre.length + 1 * (k - pre.length) = k := by omega
  rw [e]

theorem freeChain_chain {t : b2DynamicTree α} {pre : List (b2TreeNode α)} {hi : Nat}
    (h : t.m_nodes = pre ++ freeChain pre.length hi) (hhi : pre.length ≤ hi) :
    ∀ (m k : Nat), k + m = hi → pre.length ≤ k →
      t.FreeChain (if k = hi then b2_nullNode else (k : Int))
        ((List.range' k m).map fun x : Nat => (x : Int)) := by
  have hlen : t.m_nodes.length = hi := by
    rw [h, List.length_append, freeChain_length]; omega
  intro m
  induction m with
  | zero =>
    intro k hk _
    have : k = hi := by omega
    simp [FreeChain, this]
  | succ m ih =>
    intro k hk hpk
    have hlt : k < hi := by omega
    have hne : k ≠ hi := by omega
    rw [if_neg hne]
    simp only [List.range'_succ, List.map_cons]
    refine ⟨rfl, ⟨Int.natCast_nonneg k, ?_⟩, ?_, ?_⟩
    · unfold m_nodeCapacity; rw [hlen]; exact_mod_cast hlt
    · rw [nd_freeChain h k hpk hlt]
    · rw [nd_freeChain h k hpk hlt]
      have := ih (k + 1) (by omega) (by omega)
      simp only at this ⊢
      by_cases hk1 : k + 1 = hi
      · rw [if_pos hk1] at this ⊢; exact this
      · rw [if_neg hk1] at this ⊢
        exact_mod_cast this

theorem Arena.arena_congr {t t1 : b2DynamicTree α} {A A1 fl : List Int} (h : t.Arena A fl)
    (hlen : t1.m_nodes.length = t.m_nodes.length) (hfl : t1.m_freeList = t.m_freeList)
    (hnc : t1.m_nodeCount = t.m_nodeCount) (hperm : A1.Perm A)
    (hnd : ∀ j ∈ fl, t1.nd j = t.nd j) : t1.Arena A1 fl := by
  have hr : ∀ j, t1.InRange j ↔ t.InRange j := inRange_of_length hlen
  refine ⟨?_, ?_, ?_, ?_, ?_, ?_⟩
  · rw [hfl]; exact h.chain.chain_congr (fun j hj => (hr j).2 hj) hnd
  · exact (List.Perm.nodup_iff (hperm.append_right fl)).2 h.nodup
  · intro i hi; exact (hr i).2 (h.inRange i (hperm.mem_iff.1 hi))
  · intro i hi
    rcases h.cover i ((hr i).1 hi) with hA | hF
    · exact Or.inl (hperm.mem_iff.2 hA)
    · exact Or.inr hF
  · rw [hnc, h.count, hperm.length_eq]
  · unfold m_nodeCapacity; rw [hlen, hperm.length_eq]; exact h.total

/-- The outcome of `AllocateNode` on a well-formed pool, whether or not it grows. -/
theorem AllocateNode_arena {t : b2DynamicTree α} {A fl : List Int} (h : t.Arena A fl)
    (hpos : 0 < t.m_nodes.length) :
    ∃ t1 id fl1, t.AllocateNode = some (t1, id) ∧ t1.Arena (id :: A) fl1 ∧ id ∉ A ∧
      (∀ j, t.InRange j → j ≠ id → t1.nd j = t.nd j) ∧
      (∀ j, t.InRange j → t1.InRange j) ∧
      (t1.nd id).parent = b2_nullNode ∧ (t1.nd id).child1 = b2_nullNode ∧
      (t1.nd id).child2 = b2_nullNode ∧ (t1.nd id).height = 0 ∧
      t1.m_root = t.m_root ∧ t1.m_path = t.m_path ∧
      t1.m_insertionCount = t.m_insertionCount ∧
      (t1.m_nodes.length = t.m_nodes.length ∨ t1.m_nodes.length = 2 * t.m_nodes.length) ∧
      (fl ≠ [] → t1.m_nodes.length = t.m_nodes.length) := by
  cases fl with
  | cons f fl =>
    obtain ⟨hf1, hf2, hf3, hf4⟩ := h.chain
    obtain ⟨t1, hrun, hlen, hroot, hfl1, hnc, hpa, hic, hfr, hself⟩ :=
      AllocateNode_free t f hf1 hf2
    have hnd := h.nodup
    have hfA : f ∉ A := fun hm =>
      (List.nodup_append.1 hnd).2.2 hm (List.mem_cons_self _ _)
    have hffl : f ∉ fl := (List.nodup_cons.1 (List.nodup_append.1 hnd).2.1).1
    have hr : ∀ j, t1.InRange j ↔ t.InRange j := inRange_of_length hlen
    refine ⟨t1, f, fl, hrun, ⟨?_, ?_, ?_, ?_, ?_, ?_⟩, hfA, fun j _ hj => hfr j hj,
      fun j hj => (hr j).2 hj, ?_, ?_, ?_, ?_, hroot, hpa, hic, Or.inl hlen, fun _ => hlen⟩
    · rw [hfl1]
      exact hf4.chain_congr (fun j hj => (hr j).2 hj)
        (fun j hj => hfr j (fun e => hffl (e ▸ hj)))
    · refine (List.Perm.nodup_iff ?_).2 hnd
      refine List.perm_iff_count.2 fun a => ?_
      simp only [List.count_append, List.count_cons, List.cons_append]
      omega
    · intro i hi
      rcases List.mem_cons.1 hi with rfl | hi
      · exact (hr _).2 hf2
      · exact (hr i).2 (h.inRange i hi)
    · intro i hi
      rcases h.cover i ((hr i).1 hi) with hA | hF
      · exact Or.inl (List.mem_cons_of_mem _ hA)
      · rcases List.mem_cons.1 hF with rfl | hF
        · exact Or.inl (List.mem_cons_self _ _)
        · exact Or.inr hF
    · rw [hnc, h.count]; simp
    · have := h.total
      unfold m_nodeCapacity at this ⊢
      rw [hlen]
      simp only [List.length_cons] at this ⊢
      push_cast at this ⊢
      omega
    · rw [hself]
    · rw [hself]
    · rw [hself]
    · rw [hself]
  | nil =>
    have hfree : t.m_freeList = b2_nullNode := h.chain
    have htot := h.total
    have hcount := h.count
    simp only [List.length_nil, Nat.cast_zero, add_zero] at htot
    have hcap : t.m_nodeCount = t.m_nodeCapacity := by rw [hcount, htot]
    have hcapne : t.m_nodeCapacity ≠ 0 := by unfold m_nodeCapacity; omega
    -- the grown pool
    obtain ⟨n, hn⟩ : ∃ n, n = t.m_nodes.length := ⟨_, rfl⟩
    have hcn : t.m_nodeCount.toNat = n := by
      rw [hcap]; unfold m_nodeCapacity; rw [← hn]; simp
    have h2n : (2 * t.m_nodeCapacity).toNat = 2 * n := by
      unfold m_nodeCapacity; rw [← hn]; omega
    have hgrow : t.grow = some { t with
        m_nodes := t.m_nodes ++ freeChain t.m_nodes.length (2 * n), m_freeList := (n : Int) } := by
      unfold grow
      rw [if_pos hfree, if_neg (not_not.2 hcap), if_neg hcapne, hcn, h2n, hn,
        List.take_length]
      congr 2
    obtain ⟨tg, htg⟩ : ∃ tg : b2DynamicTree α, tg = { t with
        m_nodes := t.m_nodes ++ freeChain t.m_nodes.length (2 * n), m_freeList := (n : Int) } :=
      ⟨_, rfl⟩
    have hgn : tg.m_nodes = t.m_nodes ++ freeChain t.m_nodes.length (2 * n) := by rw [htg]
    have hglen : tg.m_nodes.length = 2 * n := by
      rw [hgn, List.length_append, freeChain_length]; omega
    have hgr : ∀ j : Int, tg.InRange j ↔ (0 ≤ j ∧ j < 2 * (n : Int)) := by
      intro j; unfold InRange m_nodeCapacity; rw [hglen]; push_cast; rfl
    have htr : ∀ j : Int, t.InRange j ↔ (0 ≤ j ∧ j < (n : Int)) := by
      intro j; unfold InRange m_nodeCapacity; rw [← hn]
    have hgold : ∀ j, t.InRange j → tg.nd j = t.nd j := by
      intro j hj
      obtain ⟨k, rfl⟩ : ∃ k : Nat, j = k := ⟨j.toNat, by have := hj.1; omega⟩
      have hk : k < t.m_nodes.length := by have := ((htr _).1 hj).2; omega
      rw [nd_append_left hgn k hk]
      simp [nd, List.getD_eq_getElem?_getD]
    obtain ⟨m, hm⟩ : ∃ m, n = m + 1 := ⟨n - 1, by omega⟩
    have hchain := freeChain_chain hgn (by omega) n n (by omega) (by omega)
    rw [if_neg (by omega)] at hchain
    rw [show List.range' n n = n :: List.range' (n + 1) m by
      conv_lhs => rw [hm]
      rw [List.range'_succ, ← hm]] at hchain
    obtain ⟨_, hnr, hnh, hrest⟩ := hchain
    have hgg : tg.grow = some tg := by
      unfold grow
      have : tg.m_freeList ≠ b2_nullNode := by
        rw [htg]; show (n : Int) ≠ b2_nullNode
        unfold b2_nullNode; omega
      rw [if_neg this]
    have heq : t.AllocateNode = tg.AllocateNode := by
      unfold AllocateNode
      rw [hgrow, ← htg, hgg]
    obtain ⟨t1, hrun, hlen, hroot, hfl1, hnc, hpa, hic, hfr, hself⟩ :=
      AllocateNode_free tg (n : Int) (by rw [htg]) hnr
    have hr1 : ∀ j, t1.InRange j ↔ tg.InRange j := inRange_of_length hlen
    have hAlt : ∀ j ∈ A, 0 ≤ j ∧ j < (n : Int) := fun j hj => (htr j).1 (h.inRange j hj)
    have hnA : (n : Int) ∉ A := fun hm' => by have := (hAlt _ hm').2; omega
    have hmemrest : ∀ j : Int, j ∈ (List.range' (n + 1) m).map (fun x : Nat => (x : Int)) ↔
        ((n : Int) + 1 ≤ j ∧ j < 2 * (n : Int)) := by
      intro j
      simp only [List.mem_map, List.mem_range'_1]
      constructor
      · rintro ⟨k, ⟨hk1, hk2⟩, rfl⟩
        omega
      · intro hj
        exact ⟨j.toNat, ⟨by omega, by omega⟩, by omega⟩
    have hAnd : A.Nodup := by simpa using h.nodup
    refine ⟨t1, (n : Int), (List.range' (n + 1) m).map (fun x : Nat => (x : Int)), ?_,
      ⟨?_, ?_, ?_, ?_, ?_, ?_⟩, hnA, ?_, ?_, ?_, ?_, ?_, ?_, ?_, ?_, ?_, ?_, ?_⟩
    · rw [heq]; exact hrun
    · rw [hfl1]
      refine hrest.chain_congr (fun j hj => (hr1 j).2 hj) (fun j hj => hfr j ?_)
      have := ((hmemrest j).1 hj).1
      omega
    · refine List.nodup_cons.2 ⟨?_, List.nodup_append.2 ⟨hAnd, ?_, ?_⟩⟩
      · intro hm'
        rcases List.mem_append.1 hm' with hm' | hm'
        · exact hnA hm'
        · have := ((hmemrest _).1 hm').1; omega
      · exact (List.nodup_range' _ _).map (fun a b hab => by exact_mod_cast hab)
      · intro j hj1 hj2
        have := (hAlt j hj1).2
        have := ((hmemrest j).1 hj2).1
        omega
    · intro i hi
      rw [hr1, hgr]
      rcases List.mem_cons.1 hi with rfl | hi
      · omega
      · have := hAlt i hi; omega
    · intro i hi
      rw [hr1, hgr] at hi
      by_cases h1 : i < n
      · rcases h.cover i ((htr i).2 ⟨hi.1, h1⟩) with hA | hF
        · exact Or.inl (List.mem_cons_of_mem _ hA)
        · simp at hF
      · by_cases h2 : i = n
        · exact Or.inl (h2 ▸ List.mem_cons_self _ _)
        · exact Or.inr ((hmemrest i).2 ⟨by omega, hi.2⟩)
    · rw [hnc, htg]; simp [hcount]
    · unfold m_nodeCapacity at htot ⊢
      rw [hlen, hglen]
      simp only [List.length_cons, List.length_map, List.length_range']
      push_cast
      omega
    · intro j hj hne
      rw [hfr j hne, hgold j hj]
    · intro j hj
      rw [hr1, hgr]
      have := (htr j).1 hj
      omega
    · rw [hself]
    · rw [hself]
    · rw [hself]
    · rw [hself]
    · rw [hroot, htg]
    · rw [hpa, htg]
    · rw [hic, htg]
    · right; rw [hlen, hglen, hn]
    · intro hne; exact absurd rfl hne

theorem FreeNode_arena {t : b2DynamicTree α} {A fl : List Int} (h : t.Arena A fl) (id : Int)
    (hid : id ∈ A) :
    ∃ t1, t.FreeNode id = some t1 ∧ t1.Arena (A.erase id) (id :: fl) ∧
      (∀ j, j ≠ id → t1.nd j = t.nd j) ∧ t1.m_nodes.length = t.m_nodes.length ∧
      t1.m_root = t.m_root ∧ t1.m_path = t.m_path ∧
      t1.m_insertionCount = t.m_insertionCount := by
  have hr := h.inRange id hid
  have hpos : 0 < t.m_nodeCount := by
    rw [h.count]
    have := List.length_pos_of_mem hid
    exact_mod_cast this
  have hnd := h.nodup
  have hidfl : id ∉ fl := fun hm => (List.nodup_append.1 hnd).2.2 hid hm
  have hperm : (id :: A.erase id).Perm A := (List.perm_cons_erase hid).symm
  simp only [FreeNode, hr, hpos, not_true_eq_false, if_false]
  refine ⟨_, rfl, ⟨?_, ?_, ?_, ?_, ?_, ?_⟩, ?_, ?_, ?_, ?_, ?_⟩
  · refine ⟨rfl, by simpa using hr, ?_, ?_⟩
    · simp [setHeight_height, hr]
    · simp only [nd_mk, setHeight_parent, setParent_parent_self _ _ _ hr]
      refine h.chain.chain_congr (fun j hj => by simpa using hj) (fun j hj => ?_)
      have hne : j ≠ id := fun e => hidfl (e ▸ hj)
      simp [setHeight_nd_ne, setParent_nd_ne, hne]
  · refine (List.Perm.nodup_iff ?_).2 hnd
    refine List.perm_iff_count.2 fun a => ?_
    have := hperm.count_eq a
    simp only [List.count_append, List.count_cons] at this ⊢
    omega
  · intro i hi
    have := h.inRange i (List.mem_of_mem_erase hi)
    simpa using this
  · intro i hi
    have hi' : t.InRange i := by simpa using hi
    by_cases hii : i = id
    · exact Or.inr (hii ▸ List.mem_cons_self _ _)
    · rcases h.cover i hi' with hA | hF
      · exact Or.inl ((List.mem_erase_of_ne hii).2 hA)
      · exact Or.inr (List.mem_cons_of_mem _ hF)
  · simp only [setHeight_nodeCount, setParent_nodeCount, h.count, List.length_erase_of_mem hid]
    have := List.length_pos_of_mem hid
    omega
  · have := h.total
    simp only [capacity_mk, setHeight_capacity, setParent_capacity, List.length_cons,
      List.length_erase_of_mem hid]
    have := List.length_pos_of_mem hid
    push_cast
    omega
  · intro j hj
    simp [setHeight_nd_ne, setParent_nd_ne, hj]
  · simp
  · simp
  · simp
  · simp

/-! ## Insertion of a leaf -/

theorem insertParent_below (t : b2DynamicTree α) (leaf sibling oldParent newParent : Int)
    (b : b2AABB α) (hs : t.InRange sibling) (hl : t.InRange leaf) (hn : t.InRange newParent)
    (ho : t.InRange oldParent)
    (hns : newParent ≠ sibling) (hnl : newParent ≠ leaf) (hno : newParent ≠ oldParent)
    (hls : leaf ≠ sibling) (hlo : leaf ≠ oldParent) (hso : sibling ≠ oldParent) :
    ∃ t1, t.insertParent leaf sibling oldParent newParent b = some t1 ∧
      t1.m_root = t.m_root ∧ t1.m_nodes.length = t.m_nodes.length ∧
      t1.m_freeList = t.m_freeList ∧ t1.m_nodeCount = t.m_nodeCount ∧ t1.m_path = t.m_path ∧
      t1.m_insertionCount = t.m_insertionCount ∧
      t1.nd newParent = ⟨b2AABB.Combine b (t.nd sibling).aabb, 0, oldParent, sibling, leaf,
        (t.nd sibling).height + 1⟩ ∧
      t1.nd sibling = { t.nd sibling with parent := newParent } ∧
      t1.nd leaf = { t.nd leaf with parent := newParent } ∧
      (t1.nd oldParent = if (t.nd oldParent).child1 = sibling then
          { t.nd oldParent with child1 := newParent }
        else { t.nd oldParent with child2 := newParent }) ∧
      (∀ j, j ≠ newParent → j ≠ sibling → j ≠ leaf → j ≠ oldParent → t1.nd j = t.nd j) := by
  have hon := inRange_ne_null ho
  by_cases hc : (t.nd oldParent).child1 = sibling
  · simp only [insertParent, ne_eq, hon, not_false_eq_true, if_true, setHeight_inRange,
      setAABB_inRange, setUserData_inRange, setParent_inRange, ho, not_true_eq_false, if_false,
      setHeight_child1, setAABB_child1, setUserData_child1, setParent_child1, hc]
    refine ⟨_, rfl, ?_, ?_, ?_, ?_, ?_, ?_, node_ext ?_ ?_ ?_ ?_ ?_ ?_,
      node_ext ?_ ?_ ?_ ?_ ?_ ?_, node_ext ?_ ?_ ?_ ?_ ?_ ?_, node_ext ?_ ?_ ?_ ?_ ?_ ?_, ?_⟩
    all_goals first
      | (intro j h1 h2 h3 h4
         simp [setParent_nd_ne, setChild1_nd_ne, setChild2_nd_ne, setHeight_nd_ne,
           setAABB_nd_ne, setUserData_nd_ne, h1, h2, h3, h4])
      | simp [hs, hl, hn, ho, hns, hnl, hls, hno, hlo, hso, hns.symm, hnl.symm, hls.symm,
          hno.symm, hlo.symm, hso.symm,
          setParent_parent, setChild1_child1, setChild2_child2, setHeight_height,
          setAABB_aabb, setUserData_userData]
  · simp only [insertParent, ne_eq, hon, not_false_eq_true, if_true, setHeight_inRange,
      setAABB_inRange, setUserData_inRange, setParent_inRange, ho, not_true_eq_false, if_false,
      setHeight_child1, setAABB_child1, setUserData_child1, setParent_child1, hc]
    refine ⟨_, rfl, ?_, ?_, ?_, ?_, ?_, ?_, node_ext ?_ ?_ ?_ ?_ ?_ ?_,
      node_ext ?_ ?_ ?_ ?_ ?_ ?_, node_ext ?_ ?_ ?_ ?_ ?_ ?_, node_ext ?_ ?_ ?_ ?_ ?_ ?_, ?_⟩
    all_goals first
      | (intro j h1 h2 h3 h4
         simp [setParent_nd_ne, setChild1_nd_ne, setChild2_nd_ne, setHeight_nd_ne,
           setAABB_nd_ne, setUserData_nd_ne, h1, h2, h3, h4])
      | simp [hs, hl, hn, ho, hns, hnl, hls, hno, hlo, hso, hns.symm, hnl.symm, hls.symm,
          hno.symm, hlo.symm, hso.symm,
          setParent_parent, setChild1_child1, setChild2_child2, setHeight_height,
          setAABB_aabb, setUserData_userData]

theorem insertParent_raw {t : b2DynamicTree α} {c : Ctx α} {sub : Shape α} {leaf np : Int}
    (b : b2AABB α) (hsub : t.Rep sub c.parentIdx) (hctx : t.RepCtx c sub.idx)
    (hl : t.InRange leaf) (hn : t.InRange np)
    (hnd : (np :: leaf :: (sub.ids ++ c.ids)).Nodup) :
    ∃ t1, t.insertParent leaf sub.idx c.parentIdx np b = some t1 ∧
      t1.m_nodes.length = t.m_nodes.length ∧
      t1.m_freeList = t.m_freeList ∧ t1.m_nodeCount = t.m_nodeCount ∧ t1.m_path = t.m_path ∧
      t1.m_insertionCount = t.m_insertionCount ∧
      t1.nd np = ⟨b2AABB.Combine b (t.nd sub.idx).aabb, 0, c.parentIdx, sub.idx, leaf,
        (t.nd sub.idx).height + 1⟩ ∧
      t1.nd sub.idx = { t.nd sub.idx with parent := np } ∧
      t1.nd leaf = { t.nd leaf with parent := np } ∧
      (c.parentIdx = b2_nullNode → t1.m_root = np) ∧
      (c.parentIdx ≠ b2_nullNode → t1.m_root = t.m_root ∧
        t1.nd c.parentIdx = if (t.nd c.parentIdx).child1 = sub.idx then
            { t.nd c.parentIdx with child1 := np }
          else { t.nd c.parentIdx with child2 := np }) ∧
      (∀ j, j ≠ np → j ≠ sub.idx → j ≠ leaf → j ≠ c.parentIdx → t1.nd j = t.nd j) := by
  have hs := hsub.idx_inRange
  have hsm := sub.idx_mem_ids
  simp only [List.nodup_cons, List.mem_cons, List.mem_append, not_or] at hnd
  obtain ⟨⟨hnl, hns, hnc⟩, ⟨hls, hlc⟩, hrest⟩ := hnd
  have hns' : np ≠ sub.idx := fun e => hns (e ▸ hsm)
  have hls' : leaf ≠ sub.idx := fun e => hls (e ▸ hsm)
  by_cases hp : c.parentIdx = b2_nullNode
  · obtain ⟨t1, hrun, h1, h2, h3, h4, h5, h6, h7, h8, h9, h10⟩ :=
      insertParent_root t leaf sub.idx np b hs hl hn hns' hnl hls'
    refine ⟨t1, ?_, h2, h3, h4, h5, h6, ?_, h8, h9, fun _ => h1, fun h => absurd hp h,
      fun j a b c _ => h10 j a b c⟩
    · rw [hp]; exact hrun
    · rw [hp]; exact h7
  · have hpm := Ctx.parentIdx_mem hp
    have ho : t.InRange c.parentIdx := hctx.ctx_inRange _ hpm
    have hno : np ≠ c.parentIdx := fun e => hnc (e ▸ hpm)
    have hlo : leaf ≠ c.parentIdx := fun e => hlc (e ▸ hpm)
    have hso : sub.idx ≠ c.parentIdx := fun e =>
      (List.nodup_append.1 hrest).2.2 hsm (e ▸ hpm)
    obtain ⟨t1, hrun, h1, h2, h3, h4, h5, h6, h7, h8, h9, h10, h11⟩ :=
      insertParent_below t leaf sub.idx c.parentIdx np b hs hl hn ho hns' hnl hno hls' hlo hso
    exact ⟨t1, hrun, h2, h3, h4, h5, h6, h7, h8, h9, fun h => absurd h hp,
      fun _ => ⟨h1, h10⟩, h11⟩

theorem insertParent_focus {t : b2DynamicTree α} {c : Ctx α} {sub : Shape α} {leaf np : Int}
    (b : b2AABB α) (hsub : t.Rep sub c.parentIdx) (hctx : t.RepCtx c sub.idx)
    (hl : t.InRange leaf) (hl1 : (t.nd leaf).child1 = b2_nullNode)
    (hl2 : (t.nd leaf).child2 = b2_nullNode) (hlh : (t.nd leaf).height = 0)
    (hn : t.InRange np) (hnd : (np :: leaf :: (sub.ids ++ c.ids)).Nodup) :
    ∃ t1, t.insertParent leaf sub.idx c.parentIdx np b = some t1 ∧
      t1.Focus c np sub (Shape.leaf leaf (t.nd leaf).aabb (t.nd leaf).userData) ∧
      (t1.nd leaf).parent = np ∧
      t1.m_nodes.length = t.m_nodes.length ∧
      t1.m_freeList = t.m_freeList ∧ t1.m_nodeCount = t.m_nodeCount ∧ t1.m_path = t.m_path ∧
      t1.m_insertionCount = t.m_insertionCount ∧
      (∀ j, j ∉ np :: leaf :: (sub.ids ++ c.ids) → t1.nd j = t.nd j) := by
  obtain ⟨t1, hrun, hlen, hfl, hnc, hpa, hic, hnp, hsib, hlf, hroot, hpar, hframe⟩ :=
    insertParent_raw b hsub hctx hl hn hnd
  have hsm := sub.idx_mem_ids
  have hnd0 := hnd
  simp only [List.nodup_cons, List.mem_cons, List.mem_append, not_or] at hnd
  obtain ⟨⟨hnl, hns, hncx⟩, ⟨hls, hlc⟩, hrest⟩ := hnd
  have hsnd := (List.nodup_append.1 hrest).1
  have hcnd := (List.nodup_append.1 hrest).2.1
  have hdisj := (List.nodup_append.1 hrest).2.2
  have hpne : ∀ j, j ∈ sub.ids → j ≠ c.parentIdx := by
    intro j hj e
    by_cases hp : c.parentIdx = b2_nullNode
    · exact inRange_ne_null (hsub.ids_inRange j hj) (e.trans hp)
    · exact hdisj hj (e ▸ Ctx.parentIdx_mem hp)
  refine ⟨t1, hrun, ?_, by rw [hlf], hlen, hfl, hnc, hpa, hic, ?_⟩
  · refine Focus.intro ((inRange_of_length hlen _).2 hn) (by rw [hnp]) (by rw [hnp]; rfl)
      (by rw [hnp]) ?_ ?_ ?_ ?_
    · refine Rep.reparent hlen hsib (fun j hj hjs => hframe j ?_ hjs ?_ (hpne j hj)) hsnd hsub
      · exact fun e => hns (e ▸ hj)
      · exact fun e => hls (e ▸ hj)
    · exact ⟨(inRange_of_length hlen _).2 hl, by rw [hlf], by rw [hlf]; exact hl1,
        by rw [hlf]; exact hl2, by rw [hlf]; exact hlh, by rw [hlf], by rw [hlf]⟩
    · refine RepCtx.relink hctx hlen hcnd (fun hm => hdisj hsm hm) (fun hp _ => hroot hp) hpar ?_
      intro j hj hjp
      refine hframe j (fun e => hncx (e ▸ hj)) (fun e => hdisj hsm (e ▸ hj))
        (fun e => hlc (e ▸ hj)) hjp
    · refine (List.Perm.nodup_iff ?_).2 hnd0
      refine List.perm_iff_count.2 fun a => ?_
      simp only [Shape.ids, List.count_append, List.count_cons, List.cons_append,
        List.count_nil]
      omega
  · intro j hj
    simp only [List.mem_cons, List.mem_append, not_or] at hj
    obtain ⟨h1, h2, h3, h4⟩ := hj
    by_cases hjp : j = c.parentIdx
    · by_cases hp : c.parentIdx = b2_nullNode
      · rw [hjp, hp, nd_null, nd_null]
      · exact absurd (hjp ▸ Ctx.parentIdx_mem hp) h4
    · exact hframe j h1 (fun e => h3 (e ▸ hsm)) h2 hjp

theorem Rep.rep_mono {t t1 : b2DynamicTree α} {s : Shape α} {p : Int}
    (hr : ∀ j, t.InRange j → t1.InRange j)
    (hnd : ∀ j ∈ s.ids, t1.nd j = t.nd j) (h : t.Rep s p) : t1.Rep s p := by
  induction s generalizing p with
  | leaf i b u =>
    have e := hnd i (by simp [Shape.ids])
    obtain ⟨h1, h2⟩ := h
    refine ⟨hr i h1, ?_⟩
    rw [e]; exact h2
  | node i l r ihl ihr =>
    have e := hnd i (by simp [Shape.ids])
    obtain ⟨h1, h2, h3, h4, h5, h6, hl, hr1⟩ := h
    refine ⟨hr i h1, ?_, ?_, ?_, ?_, ?_, ?_, ?_⟩
    · rw [e]; exact h2
    · rw [e]; exact h3
    · rw [e]; exact h4
    · rw [e]; exact h5
    · rw [e]; exact h6
    · exact ihl (fun j hj => hnd j (by simp [Shape.ids, hj])) hl
    · exact ihr (fun j hj => hnd j (by simp [Shape.ids, hj])) hr1

theorem RepCtx.ctx_mono {t t1 : b2DynamicTree α} {c : Ctx α} {h : Int}
    (hr : ∀ j, t.InRange j → t1.InRange j) (hroot : t1.m_root = t.m_root)
    (hnd : ∀ j ∈ c.ids, t1.nd j = t.nd j) (hc : t.RepCtx c h) : t1.RepCtx c h := by
  induction c generalizing h with
  | top => simp only [RepCtx] at hc ⊢; rw [hroot]; exact hc
  | left c i r ih =>
    have e := hnd i (by simp [Ctx.ids])
    obtain ⟨h1, h2, h3, h4, hr1, hc⟩ := hc
    refine ⟨hr i h1, ?_, ?_, ?_, ?_, ?_⟩
    · rw [e]; exact h2
    · rw [e]; exact h3
    · rw [e]; exact h4
    · exact Rep.rep_mono hr (fun j hj => hnd j (by simp [Ctx.ids, hj])) hr1
    · exact ih (fun j hj => hnd j (by simp [Ctx.ids, hj])) hc
  | right c i l ih =>
    have e := hnd i (by simp [Ctx.ids])
    obtain ⟨h1, h2, h3, h4, hr1, hc⟩ := hc
    refine ⟨hr i h1, ?_, ?_, ?_, ?_, ?_⟩
    · rw [e]; exact h2
    · rw [e]; exact h3
    · rw [e]; exact h4
    · exact Rep.rep_mono hr (fun j hj => hnd j (by simp [Ctx.ids, hj])) hr1
    · exact ih (fun j hj => hnd j (by simp [Ctx.ids, hj])) hc

theorem insertBelowRoot_eq (t t0 t1 : b2DynamicTree α) (leaf sibling np : Int)
    (hfind : t.findSibling (t.nd leaf).aabb (t.m_nodes.length + 1) t.m_root = some sibling)
    (halloc : t.AllocateNode = some (t0, np))
    (hpar : t0.insertParent leaf sibling (t.nd sibling).parent np (t.nd leaf).aabb = some t1) :
    t.insertBelowRoot leaf =
      ancestorLoop insertStep (t1.m_nodes.length + 1) t1 (t1.nd leaf).parent := by
  unfold insertBelowRoot
  simp only [hfind, halloc, hpar]

/-- The non-empty branch of `InsertLeaf` on a stored tree `s` and an allocated leaf outside
it: the call returns, the new tree holds the old leaves and the new one. -/
theorem insertBelowRoot_spec {t : b2DynamicTree α} {s : Shape α} {fl : List Int} {leaf : Int}
    (hroot : t.m_root = s.idx) (hrep : t.Rep s b2_nullNode)
    (harena : t.Arena (leaf :: s.ids) fl)
    (hl1 : (t.nd leaf).child1 = b2_nullNode) (hl2 : (t.nd leaf).child2 = b2_nullNode)
    (hlh : (t.nd leaf).height = 0) :
    ∃ t2 s2 fl1, t.insertBelowRoot leaf = some t2 ∧ t2.m_root = s2.idx ∧
      t2.Rep s2 b2_nullNode ∧ t2.Arena s2.ids fl1 ∧
      s2.leaves.Perm ((leaf, (t.nd leaf).aabb, (t.nd leaf).userData) :: s.leaves) ∧
      t2.m_path = t.m_path ∧ t2.m_insertionCount = t.m_insertionCount ∧
      (t2.m_nodes.length = t.m_nodes.length ∨ t2.m_nodes.length = 2 * t.m_nodes.length) ∧
      (fl ≠ [] → t2.m_nodes.length = t.m_nodes.length) ∧
      (∀ j, t.InRange j → t2.InRange j) := by
  have hlr : t.InRange leaf := harena.inRange leaf (List.mem_cons_self _ _)
  have hAnd := (List.nodup_append.1 harena.nodup).1
  have hsnd : s.ids.Nodup := (List.nodup_cons.1 hAnd).2
  have hls : leaf ∉ s.ids := (List.nodup_cons.1 hAnd).1
  obtain ⟨c1, sub, hfind, hplug, -⟩ :=
    findSibling_spec (t.nd leaf).aabb s Ctx.top b2_nullNode (t.m_nodes.length + 1) hrep
      (hrep.descent_fuel hsnd)
  simp only [Ctx.plug] at hplug
  have hrep' : t.Rep (c1.plug sub) b2_nullNode := by rw [hplug]; exact hrep
  obtain ⟨hsub, hctx⟩ := Rep.plug_split c1 sub hrep' (by rw [hplug]; exact hroot)
  have hperm : s.ids.Perm (sub.ids ++ c1.ids) := hplug ▸ Ctx.plug_ids_perm c1 sub
  have hlperm : s.leaves.Perm (sub.leaves ++ c1.leaves) := hplug ▸ Ctx.plug_leaves_perm c1 sub
  have hpos : 0 < t.m_nodes.length := by
    have := hlr.2; unfold m_nodeCapacity at this; have := hlr.1; omega
  obtain ⟨t0, np, fl1, halloc, harena0, hnpA, hfr0, hir0, -, -, -, -, hroot0, hpa0, hic0,
    hlen0, hlenfl0⟩ := AllocateNode_arena harena hpos
  have hnpl : np ≠ leaf := fun e => hnpA (e ▸ List.mem_cons_self _ _)
  have hnps : np ∉ s.ids := fun hm => hnpA (List.mem_cons_of_mem _ hm)
  have hsame : ∀ j ∈ leaf :: s.ids, t0.nd j = t.nd j := fun j hj =>
    hfr0 j (harena.inRange j hj) (fun e => hnpA (e ▸ hj))
  have hleaf0 := hsame leaf (List.mem_cons_self _ _)
  have hsub0 : t0.Rep sub c1.parentIdx := Rep.rep_mono hir0
    (fun j hj => hsame j (List.mem_cons_of_mem _ (hperm.mem_iff.2 (List.mem_append_left _ hj))))
    hsub
  have hctx0 : t0.RepCtx c1 sub.idx := RepCtx.ctx_mono hir0 hroot0
    (fun j hj => hsame j (List.mem_cons_of_mem _ (hperm.mem_iff.2 (List.mem_append_right _ hj))))
    hctx
  have hA0 := (List.nodup_append.1 harena0.nodup).1
  have hnd0 : (np :: leaf :: (sub.ids ++ c1.ids)).Nodup := by
    refine (List.Perm.nodup_iff ?_).2 hA0
    exact List.Perm.cons _ (List.Perm.cons _ hperm.symm)
  obtain ⟨t1, hrun1, hfocus, hlpar, hlen1, hfl1, hnc1, hpa1, hic1, hframe1⟩ :=
    insertParent_focus (t.nd leaf).aabb hsub0 hctx0 (hir0 leaf hlr) (by rw [hleaf0]; exact hl1)
      (by rw [hleaf0]; exact hl2) (by rw [hleaf0]; exact hlh)
      (harena0.inRange np (List.mem_cons_self _ _)) hnd0
  obtain ⟨t2, s2, hrun2, hpost⟩ := ancestorLoop_spec insertStep
    (fun t c i l r h => insertStep_spec h) c1 t1 np sub _ (t1.m_nodes.length + 1) hfocus
    hfocus.walk_fuel
  have hP : (np :: (sub.ids ++ (Shape.leaf leaf (t0.nd leaf).aabb
      (t0.nd leaf).userData).ids) ++ c1.ids).Perm (np :: leaf :: s.ids) := by
    refine List.perm_iff_count.2 fun a => ?_
    have := hperm.count_eq a
    simp only [Shape.ids, List.count_append, List.count_cons, List.cons_append,
      List.count_nil] at this ⊢
    omega
  have hP1 : (np :: leaf :: (sub.ids ++ c1.ids)).Perm (np :: leaf :: s.ids) :=
    List.Perm.cons _ (List.Perm.cons _ hperm.symm)
  have hids2 : s2.ids.Perm (np :: leaf :: s.ids) := hpost.ids.trans hP
  refine ⟨t2, s2, fl1, ?_, hpost.root, hpost.rep, ?_, ?_, ?_, ?_, ?_, ?_, ?_⟩
  · rw [insertBelowRoot_eq t t0 t1 leaf sub.idx np (by rw [hroot]; exact hfind) halloc
      (by rw [hsub.parent_eq]; exact hrun1), hlpar]
    exact hrun2
  · refine Arena.arena_congr harena0 (hpost.length.trans hlen1) (hpost.freeList.trans hfl1)
      (hpost.nodeCount.trans hnc1) hids2 (fun j hj => ?_)
    have hjA : j ∉ np :: leaf :: s.ids := fun hm =>
      (List.nodup_append.1 harena0.nodup).2.2 hm hj
    rw [hpost.frame j (fun hm => hjA (hP.mem_iff.1 hm)),
      hframe1 j (fun hm => hjA (hP1.mem_iff.1 hm))]
  · refine hpost.leaves.trans (List.perm_iff_count.2 fun a => ?_)
    have := hlperm.count_eq a
    rw [hleaf0]
    simp only [Shape.leaves, List.count_append, List.count_cons, List.count_nil] at this ⊢
    omega
  · rw [hpost.path, hpa1, hpa0]
  · rw [hpost.insertionCount, hic1, hic0]
  · rw [hpost.length, hlen1]; exact hlen0
  · intro h; rw [hpost.length, hlen1]; exact hlenfl0 h
  · intro j hj
    exact (inRange_of_length (hpost.length.trans hlen1) j).2 (hir0 j hj)

/-- `InsertLeaf` on a stored tree `o` (possibly empty) and an allocated leaf node outside
it: the call returns and the new tree holds the old leaves and the new one. -/
theorem InsertLeaf_spec {t : b2DynamicTree α} {o : Option (Shape α)} {fl : List Int}
    {leaf : Int} (hroot : t.RootRep o) (harena : t.Arena (leaf :: idsOf o) fl)
    (hl1 : (t.nd leaf).child1 = b2_nullNode) (hl2 : (t.nd leaf).child2 = b2_nullNode)
    (hlh : (t.nd leaf).height = 0) :
    ∃ t2 s2 fl1, t.InsertLeaf leaf = some t2 ∧ t2.RootRep (some s2) ∧ t2.Arena s2.ids fl1 ∧
      s2.leaves.Perm ((leaf, (t.nd leaf).aabb, (t.nd leaf).userData) :: leavesOf o) ∧
      t2.m_path = t.m_path ∧ t2.m_insertionCount = t.m_insertionCount + 1 ∧
      (t2.m_nodes.length = t.m_nodes.length ∨ t2.m_nodes.length = 2 * t.m_nodes.length) ∧
      (fl ≠ [] ∨ o = none → t2.m_nodes.length = t.m_nodes.length) ∧
      (∀ j, t.InRange j → t2.InRange j) := by
  have hlr : t.InRange leaf := harena.inRange leaf (List.mem_cons_self _ _)
  cases o with
  | none =>
    have hr : t.m_root = b2_nullNode := hroot
    rw [InsertLeaf_empty t leaf hlr hr]
    refine ⟨_, Shape.leaf leaf (t.nd leaf).aabb (t.nd leaf).userData, fl, rfl, ⟨?_, ?_⟩, ?_,
      List.Perm.refl _, ?_, ?_, Or.inl ?_, fun _ => ?_, fun j hj => ?_⟩
    · simp [Shape.idx]
    · refine ⟨by simpa using hlr, ?_, ?_, ?_, ?_, ?_, ?_⟩ <;>
        simp [setParent_parent, hlr, hl1, hl2, hlh]
    · refine Arena.arena_congr harena (by simp) (by simp) (by simp) (List.Perm.refl _) ?_
      intro j hj
      have hne : j ≠ leaf := fun e =>
        (List.nodup_append.1 harena.nodup).2.2 (List.mem_cons_self _ _) (e ▸ hj)
      simp [setParent_nd_ne, hne]
    · simp
    · simp
    · simp
    · simp
    · simpa using hj
  | some s =>
    obtain ⟨hr, hrep⟩ := hroot
    have hrn : t.m_root ≠ b2_nullNode := by
      rw [hr]; exact inRange_ne_null hrep.idx_inRange
    rw [InsertLeaf_nonempty t leaf hlr hrn]
    obtain ⟨t2, s2, fl1, hrun, h1, h2, h3, h4, h5, h6, h7, h8, h9⟩ :=
      insertBelowRoot_spec
        (t := ({ t with m_insertionCount := t.m_insertionCount + 1 } : b2DynamicTree α))
        (s := s) hr
        (Rep.rep_congr (t := t) rfl (fun _ _ => rfl) hrep)
        (Arena.arena_congr harena rfl rfl rfl (List.Perm.refl _) (fun _ _ => rfl)) hl1 hl2 hlh
    exact ⟨t2, s2, fl1, hrun, ⟨h1, h2⟩, h3, h4, h5, h6, h7, fun h => h8 (h.resolve_right
      (by simp)), h9⟩

/-- `CreateProxy` on a state whose tree is `o`: the call returns a fresh index, the new tree
holds the old leaves and the new one with the fattened box and the user data. -/
theorem CreateProxy_spec (ext : α) {t : b2DynamicTree α} {o : Option (Shape α)} {fl : List Int}
    (hroot : t.RootRep o) (harena : t.Arena (idsOf o) fl) (hcap : 2 ≤ t.m_nodes.length)
    (aabb : b2AABB α) (u : Nat) :
    ∃ t2 id s2 fl1, CreateProxy ext t aabb u = some (t2, id) ∧ t2.RootRep (some s2) ∧
      t2.Arena s2.ids fl1 ∧
      s2.leaves.Perm ((id, b2AABB.Fatten ext aabb, u) :: leavesOf o) ∧ id ∉ idsOf o ∧
      t2.m_path = t.m_path ∧ t2.m_insertionCount = t.m_insertionCount + 1 ∧
      (t2.m_nodes.length = t.m_nodes.length ∨ t2.m_nodes.length = 2 * t.m_nodes.length) ∧
      (∀ j, t.InRange j → t2.InRange j) := by
  obtain ⟨t0, id, fl0, halloc, harena0, hidA, hfr0, hir0, -, hc1, hc2, -, hroot0, hpa0, hic0,
    hlen0, -⟩ := AllocateNode_arena harena (by omega)
  have hid0 : t0.InRange id := harena0.inRange id (List.mem_cons_self _ _)
  have hidfl : id ∉ fl0 := fun hm =>
    (List.nodup_append.1 harena0.nodup).2.2 (List.mem_cons_self _ _) hm
  have hlen' : (((t0.setAABB id (b2AABB.Fatten ext aabb)).setUserData id u).setHeight id
      0).m_nodes.length = t0.m_nodes.length := by simp
  have hroot' : (((t0.setAABB id (b2AABB.Fatten ext aabb)).setUserData id u).setHeight id
      0).RootRep o := by
    cases o with
    | none =>
      show _ = b2_nullNode
      simp only [setHeight_root, setUserData_root, setAABB_root, hroot0]
      exact hroot
    | some s =>
      obtain ⟨hr, hrep⟩ := hroot
      refine ⟨by simp only [setHeight_root, setUserData_root, setAABB_root, hroot0, hr], ?_⟩
      refine Rep.rep_mono (fun j hj => by simpa using hir0 j hj) (fun j hj => ?_) hrep
      have hne : j ≠ id := fun e => hidA (e ▸ hj)
      simp only [setHeight_nd_ne _ _ _ _ hne, setUserData_nd_ne _ _ _ _ hne,
        setAABB_nd_ne _ _ _ _ hne]
      exact hfr0 j (hrep.ids_inRange j hj) hne
  have harena' : (((t0.setAABB id (b2AABB.Fatten ext aabb)).setUserData id u).setHeight id
      0).Arena (id :: idsOf o) fl0 := by
    refine Arena.arena_congr harena0 hlen' (by simp) (by simp) (List.Perm.refl _) ?_
    intro j hj
    have hne : j ≠ id := fun e => hidfl (e ▸ hj)
    simp only [setHeight_nd_ne _ _ _ _ hne, setUserData_nd_ne _ _ _ _ hne,
      setAABB_nd_ne _ _ _ _ hne]
  obtain ⟨t2, s2, fl1, hrun, h1, h2, h3, h4, h5, h6, h8, h9⟩ :=
    InsertLeaf_spec hroot' harena' (by simp [hc1]) (by simp [hc2])
      (by simp [setHeight_height, hid0])
  refine ⟨t2, id, s2, fl1, ?_, h1, h2, ?_, hidA, ?_, ?_, ?_, ?_⟩
  · unfold CreateProxy
    simp only [halloc, hrun, Option.map_some']
  · refine h3.trans (List.Perm.of_eq ?_)
    simp [setAABB_aabb, setUserData_userData, hid0]
  · rw [h4]; simp [hpa0]
  · rw [h5]; simp [hic0]
  · rw [hlen'] at h6 h8
    rcases hlen0 with h0 | h0
    · rcases h6 with h6 | h6
      · exact Or.inl (h6.trans h0)
      · exact Or.inr (by rw [h6, h0])
    · refine Or.inr ((h8 (Or.inl ?_)).trans h0)
      intro hnil
      have e1 := harena.total
      have e2 := harena0.total
      rw [hnil] at e2
      simp only [m_nodeCapacity, h0, List.length_cons, List.length_nil] at e1 e2
      push_cast at e1 e2
      have := Int.natCast_nonneg fl.length
      omega
  · intro j hj
    exact h9 j (by simpa using hir0 j hj)

/-! ## Removal of a leaf -/

theorem leaf_in_context (s : Shape α) : ∀ (c0 : Ctx α) (x : Int × b2AABB α × Nat),
    x ∈ s.leaves → ∃ c : Ctx α, c.plug (Shape.leaf x.1 x.2.1 x.2.2) = c0.plug s := by
  induction s with
  | leaf i b u =>
    intro c0 x hx
    simp only [Shape.leaves, List.mem_singleton] at hx
    subst hx
    exact ⟨c0, rfl⟩
  | node i l r ihl ihr =>
    intro c0 x hx
    simp only [Shape.leaves, List.mem_append] at hx
    rcases hx with hx | hx
    · obtain ⟨c, hc⟩ := ihl (Ctx.left c0 i r) x hx
      exact ⟨c, hc⟩
    · obtain ⟨c, hc⟩ := ihr (Ctx.right c0 i l) x hx
      exact ⟨c, hc⟩

/-- An ancestor walk that starts at the parent of a stored subtree `sub` in its stored
context `c` ends with a stored tree that holds the same nodes and leaves. -/
theorem ancestorLoop_ctx (step : b2DynamicTree α → Int → Option (b2DynamicTree α × Int))
    (hstep : ∀ (t : b2DynamicTree α) (c : Ctx α) (i : Int) (l r : Shape α), t.Focus c i l r →
      ∃ t2 s2, step t i = some (t2, c.parentIdx) ∧ StepPost t c i l r t2 s2)
    {t : b2DynamicTree α} {c : Ctx α} {sub : Shape α}
    (hsub : t.Rep sub c.parentIdx) (hctx : t.RepCtx c sub.idx)
    (hnd : (sub.ids ++ c.ids).Nodup) :
    ∃ t2 s2, ancestorLoop step (t.m_nodes.length + 1) t c.parentIdx = some t2 ∧
      LoopPost t (sub.ids ++ c.ids) (sub.leaves ++ c.leaves) t2 s2 := by
  cases c with
  | top =>
    refine ⟨t, sub, ancestorLoop_null step _ t, hctx, hsub, ?_, ?_, rfl, rfl, rfl, rfl, rfl,
      fun _ _ => rfl⟩
    · simp [Ctx.ids]
    · simp [Ctx.leaves]
  | left c j r =>
    obtain ⟨h1, h2, h3, h4, hr, hcc⟩ := hctx
    have hperm : (j :: (sub.ids ++ r.ids) ++ c.ids).Perm (sub.ids ++ (Ctx.left c j r).ids) := by
      refine List.perm_iff_count.2 fun a => ?_
      simp only [Ctx.ids, List.count_append, List.count_cons, List.cons_append]
      omega
    have hf : t.Focus c j sub r :=
      Focus.intro h1 h2 h3 h4 hsub hr hcc ((List.Perm.nodup_iff hperm).2 hnd)
    obtain ⟨t2, s2, hrun, hpost⟩ := ancestorLoop_spec step hstep c t j sub r _ hf hf.walk_fuel
    refine ⟨t2, s2, hrun, hpost.root, hpost.rep, hpost.ids.trans hperm, ?_, hpost.length,
      hpost.freeList, hpost.nodeCount, hpost.path, hpost.insertionCount,
      fun k hk => hpost.frame k (fun hm => hk (hperm.mem_iff.1 hm))⟩
    refine hpost.leaves.trans (List.perm_iff_count.2 fun a => ?_)
    simp only [Ctx.leaves, List.count_append]
    omega
  | right c j l =>
    obtain ⟨h1, h2, h3, h4, hl, hcc⟩ := hctx
    have hperm : (j :: (l.ids ++ sub.ids) ++ c.ids).Perm
        (sub.ids ++ (Ctx.right c j l).ids) := by
      refine List.perm_iff_count.2 fun a => ?_
      simp only [Ctx.ids, List.count_append, List.count_cons, List.cons_append]
      omega
    have hf : t.Focus c j l sub :=
      Focus.intro h1 h2 h3 h4 hl hsub hcc ((List.Perm.nodup_iff hperm).2 hnd)
    obtain ⟨t2, s2, hrun, hpost⟩ := ancestorLoop_spec step hstep c t j l sub _ hf hf.walk_fuel
    refine ⟨t2, s2, hrun, hpost.root, hpost.rep, hpost.ids.trans hperm, ?_, hpost.length,
      hpost.freeList, hpost.nodeCount, hpost.path, hpost.insertionCount,
      fun k hk => hpost.frame k (fun hm => hk (hperm.mem_iff.1 hm))⟩
    refine hpost.leaves.trans (List.perm_iff_count.2 fun a => ?_)
    simp only [Ctx.leaves, List.count_append]
    omega

theorem bind_loop_null (o : Option (b2DynamicTree α)) :
    o = o.bind (fun t2 => ancestorLoop removeStep (t2.m_nodes.length + 1) t2 b2_nullNode) := by
  cases o with
  | none => rfl
  | some t2 => simp only [Option.bind, ancestorLoop_null]

theorem match_eq_bind (o : Option (b2DynamicTree α))
    (g : b2DynamicTree α → Option (b2DynamicTree α)) :
    (match o with
      | none => none
      | some t => g t) = o.bind g := by
  cases o <;> rfl

/-- The splice of `RemoveLeaf`: the sibling takes the place of the parent `p` below the
grandparent `gp` (or becomes the root); what follows is `FreeNode` and the ancestor walk. -/
theorem remove_splice (t : b2DynamicTree α) (p gp sib : Int)
    (hs : t.InRange sib) (hg : gp ≠ b2_nullNode → t.InRange gp) (hsg : sib ≠ gp) :
    ∃ t1 : b2DynamicTree α,
      (if gp ≠ b2_nullNode then t.removeBelow p gp sib else t.removeAtRoot p sib) =
        (t1.FreeNode p).bind (fun t2 => ancestorLoop removeStep (t2.m_nodes.length + 1) t2 gp) ∧
      t1.m_nodes.length = t.m_nodes.length ∧
      t1.m_freeList = t.m_freeList ∧ t1.m_nodeCount = t.m_nodeCount ∧ t1.m_path = t.m_path ∧
      t1.m_insertionCount = t.m_insertionCount ∧
      t1.nd sib = { t.nd sib with parent := gp } ∧
      (gp = b2_nullNode → t1.m_root = sib) ∧
      (gp ≠ b2_nullNode → t1.m_root = t.m_root ∧
        t1.nd gp = if (t.nd gp).child1 = p then { t.nd gp with child1 := sib }
          else { t.nd gp with child2 := sib }) ∧
      (∀ j, j ≠ sib → j ≠ gp → t1.nd j = t.nd j) := by
  by_cases hgn : gp = b2_nullNode
  · subst hgn
    refine ⟨({ t with m_root := sib } : b2DynamicTree α).setParent sib b2_nullNode, ?_, ?_, ?_,
      ?_, ?_, ?_, ?_, ?_, ?_, ?_⟩
    · simp only [ne_eq, not_true_eq_false, if_false, removeAtRoot, hs]
      exact bind_loop_null _
    · simp
    · simp
    · simp
    · simp
    · simp
    · refine node_ext ?_ ?_ ?_ ?_ ?_ ?_ <;> simp [setParent_parent, hs]
    · intro _; simp
    · intro h; exact absurd rfl h
    · intro j h1 _; simp [setParent_nd_ne, h1]
  · have hgr := hg hgn
    by_cases hc : (t.nd gp).child1 = p
    · refine ⟨(t.setChild1 gp sib).setParent sib gp, ?_, ?_, ?_, ?_, ?_, ?_, ?_, ?_, ?_, ?_⟩
      · simp only [ne_eq, hgn, not_false_eq_true, if_true, removeBelow, hgr, hs,
          not_true_eq_false, if_false, hc]
        exact match_eq_bind _ _
      · simp
      · simp
      · simp
      · simp
      · simp
      · refine node_ext ?_ ?_ ?_ ?_ ?_ ?_ <;>
          simp [setParent_parent, setChild1_child1, hs, hsg]
      · intro h; exact absurd h hgn
      · intro _
        refine ⟨by simp, ?_⟩
        rw [if_pos hc]
        refine node_ext ?_ ?_ ?_ ?_ ?_ ?_ <;>
          simp [setParent_parent, setChild1_child1, hgr, hsg, Ne.symm hsg]
      · intro j h1 h2; simp [setParent_nd_ne, setChild1_nd_ne, h1, h2]
    · refine ⟨(t.setChild2 gp sib).setParent sib gp, ?_, ?_, ?_, ?_, ?_, ?_, ?_, ?_, ?_, ?_⟩
      · simp only [ne_eq, hgn, not_false_eq_true, if_true, removeBelow, hgr, hs,
          not_true_eq_false, if_false, hc]
        exact match_eq_bind _ _
      · simp
      · simp
      · simp
      · simp
      · simp
      · refine node_ext ?_ ?_ ?_ ?_ ?_ ?_ <;>
          simp [setParent_parent, setChild2_child2, hs, hsg]
      · intro h; exact absurd h hgn
      · intro _
        refine ⟨by simp, ?_⟩
        rw [if_neg hc]
        refine node_ext ?_ ?_ ?_ ?_ ?_ ?_ <;>
          simp [setParent_parent, setChild2_child2, hgr, hsg, Ne.symm hsg]
      · intro j h1 h2; simp [setParent_nd_ne, setChild2_nd_ne, h1, h2]

/-- `RemoveLeaf` of a leaf `id` whose parent `p` has the stored sibling subtree `sib` and
sits in the stored context `c`: the call returns, the parent is freed, the new tree holds the
leaves of the sibling and of the context; the node `id` itself is not written. -/
theorem RemoveLeaf_core {t : b2DynamicTree α} {c : Ctx α} {sib : Shape α} {id p : Int}
    {A fl : List Int} (hid : t.InRange id) (hidp : (t.nd id).parent = p)
    (hne : id ≠ t.m_root) (hp : t.InRange p)
    (hpp : (t.nd p).parent = c.parentIdx)
    (hsel : (if (t.nd p).child1 = id then (t.nd p).child2 else (t.nd p).child1) = sib.idx)
    (hsib : t.Rep sib p) (hctx : t.RepCtx c p)
    (harena : t.Arena A fl) (hA : A.Perm (id :: p :: (sib.ids ++ c.ids))) :
    ∃ t2 s2, t.RemoveLeaf id = some t2 ∧ t2.RootRep (some s2) ∧
      t2.Arena (id :: s2.ids) (p :: fl) ∧ s2.leaves.Perm (sib.leaves ++ c.leaves) ∧
      t2.nd id = t.nd id ∧ t2.m_nodes.length = t.m_nodes.length ∧ t2.m_path = t.m_path ∧
      t2.m_insertionCount = t.m_insertionCount := by
  have hAnd : (id :: p :: (sib.ids ++ c.ids)).Nodup :=
    (List.Perm.nodup_iff hA).1 (List.nodup_append.1 harena.nodup).1
  have hnd0 := hAnd
  simp only [List.nodup_cons, List.mem_cons, List.mem_append, not_or] at hAnd
  obtain ⟨⟨hidp', hids, hidc⟩, ⟨hps, hpc⟩, hrest⟩ := hAnd
  have hsnd := (List.nodup_append.1 hrest).1
  have hcnd := (List.nodup_append.1 hrest).2.1
  have hdisj := (List.nodup_append.1 hrest).2.2
  have hsm := sib.idx_mem_ids
  have hsr := hsib.idx_inRange
  have hsp : sib.idx ≠ p := fun e => hps (e ▸ hsm)
  have hsg : sib.idx ≠ c.parentIdx := by
    intro e
    by_cases hg : c.parentIdx = b2_nullNode
    · exact inRange_ne_null hsr (e.trans hg)
    · exact hdisj hsm (e ▸ Ctx.parentIdx_mem hg)
  have hgne : ∀ j, t.InRange j → j ∉ c.ids → j ≠ c.parentIdx := by
    intro j hj hjc e
    by_cases hg : c.parentIdx = b2_nullNode
    · exact inRange_ne_null hj (e.trans hg)
    · exact hjc (e ▸ Ctx.parentIdx_mem hg)
  obtain ⟨t1, hrun1, hlen1, hfl1, hnc1, hpa1, hic1, hsib1, hroot1, hpar1, hframe1⟩ :=
    remove_splice t p c.parentIdx sib.idx hsr
      (fun hg => hctx.ctx_inRange _ (Ctx.parentIdx_mem hg)) hsg
  -- the state after the splice
  have hrep1 : t1.Rep sib c.parentIdx := by
    refine Rep.reparent hlen1 hsib1 (fun j hj hjs => hframe1 j hjs ?_) hsnd hsib
    exact hgne j (hsib.ids_inRange j hj) (fun hm => hdisj hj hm)
  have hctx1 : t1.RepCtx c sib.idx := by
    refine RepCtx.relink hctx hlen1 hcnd hpc (fun hg _ => hroot1 hg) hpar1 ?_
    intro j hj hjp
    exact hframe1 j (fun e => hdisj hsm (e ▸ hj)) hjp
  have hflA : ∀ j ∈ fl, j ∉ id :: p :: (sib.ids ++ c.ids) := fun j hj hm =>
    (List.nodup_append.1 harena.nodup).2.2 (hA.mem_iff.2 hm) hj
  have harena1 : t1.Arena A fl := by
    refine Arena.arena_congr harena hlen1 hfl1 hnc1 (List.Perm.refl _) (fun j hj => ?_)
    have hj' := hflA j hj
    simp only [List.mem_cons, List.mem_append, not_or] at hj'
    refine hframe1 j (fun e => hj'.2.2.1 (e ▸ hsm)) ?_
    exact hgne j (harena.chain.free_inRange j hj).1 hj'.2.2.2
  -- the parent is freed
  obtain ⟨t2, hrun2, harena2, hframe2, hlen2, hroot2, hpa2, hic2⟩ :=
    FreeNode_arena harena1 p (hA.mem_iff.2 (by simp))
  have hrep2 : t2.Rep sib c.parentIdx :=
    Rep.rep_congr hlen2 (fun j hj => hframe2 j (fun e => hps (e ▸ hj))) hrep1
  have hctx2 : t2.RepCtx c sib.idx :=
    RepCtx.ctx_congr hlen2 hroot2 (fun j hj => hframe2 j (fun e => hpc (e ▸ hj))) hctx1
  -- the ancestor walk
  obtain ⟨t3, s3, hrun3, hpost⟩ := ancestorLoop_ctx removeStep
    (fun t c i l r h => removeStep_spec h) hrep2 hctx2 hrest
  have hidne : id ≠ sib.idx := fun e => hids (e ▸ hsm)
  have hid3 : t3.nd id = t.nd id := by
    rw [hpost.frame id (by simp only [List.mem_append, not_or]; exact ⟨hids, hidc⟩),
      hframe2 id hidp', hframe1 id hidne (hgne id hid hidc)]
  refine ⟨t3, s3, ?_, ⟨hpost.root, hpost.rep⟩, ?_, hpost.leaves, hid3,
    hpost.length.trans (hlen2.trans hlen1), hpost.path.trans (hpa2.trans hpa1),
    hpost.insertionCount.trans (hic2.trans hic1)⟩
  · unfold RemoveLeaf
    simp only [if_neg hne, hid, not_true_eq_false, if_false, hidp, hp, hpp, hsel]
    rw [hrun1, hrun2]
    exact hrun3
  · refine Arena.arena_congr harena2 hpost.length hpost.freeList hpost.nodeCount ?_ ?_
    · have h1 : (A.erase p).Perm ((id :: p :: (sib.ids ++ c.ids)).erase p) := hA.erase p
      rw [List.erase_cons_tail (by simpa using hidp'), List.erase_cons_head] at h1
      exact (List.Perm.cons _ hpost.ids).trans h1.symm
    · intro j hj
      refine hpost.frame j (fun hm => ?_)
      rcases List.mem_cons.1 hj with e | hjf
      · rw [e] at hm
        rcases List.mem_append.1 hm with h | h
        · exact hps h
        · exact hpc h
      · exact hflA j hjf (List.mem_cons_of_mem _ (List.mem_cons_of_mem _ hm))

/-- `RemoveLeaf` of a leaf of the stored tree: the call returns, the new tree holds the
other leaves, the node of the removed leaf stays allocated and is not written. -/
theorem RemoveLeaf_spec {t : b2DynamicTree α} {c : Ctx α} {id : Int} {b : b2AABB α} {u : Nat}
    {fl : List Int} (hroot : t.m_root = (c.plug (Shape.leaf id b u)).idx)
    (hrep : t.Rep (c.plug (Shape.leaf id b u)) b2_nullNode)
    (harena : t.Arena (c.plug (Shape.leaf id b u)).ids fl) :
    ∃ t2 o2 fl2, t.RemoveLeaf id = some t2 ∧ t2.RootRep o2 ∧ t2.Arena (id :: idsOf o2) fl2 ∧
      (leavesOf o2).Perm c.leaves ∧ t2.nd id = t.nd id ∧
      t2.m_nodes.length = t.m_nodes.length ∧ t2.m_path = t.m_path ∧
      t2.m_insertionCount = t.m_insertionCount ∧ (fl2 ≠ [] ∨ o2 = none) := by
  obtain ⟨hleaf, hctx⟩ := Rep.plug_split c _ hrep hroot
  have hperm := Ctx.plug_ids_perm c (Shape.leaf id b u)
  have hrootpar : (t.nd t.m_root).parent = b2_nullNode := by rw [hroot]; exact hrep.parent_eq
  obtain ⟨hid, hidp, -⟩ := hleaf
  cases c with
  | top =>
    have hr : id = t.m_root := hroot.symm
    refine ⟨{ t with m_root := b2_nullNode }, none, fl, ?_, rfl, ?_, List.Perm.refl _, rfl, rfl,
      rfl, rfl, Or.inr rfl⟩
    · unfold RemoveLeaf; rw [if_pos hr]
    · exact Arena.arena_congr harena rfl rfl rfl (List.Perm.refl _) (fun _ _ => rfl)
  | left c p sib =>
    obtain ⟨hp, h2, h3, h4, hsib, hcc⟩ := hctx
    simp only [Ctx.parentIdx] at hidp
    simp only [Shape.idx] at h2
    have hne : id ≠ t.m_root := by
      intro e
      rw [← e, hidp] at hrootpar
      exact inRange_ne_null hp hrootpar
    obtain ⟨t2, s2, hrun, hrr, har, hlv, hnd, hlen, hpa, hic⟩ :=
      RemoveLeaf_core (c := c) hid hidp hne hp h4 (by rw [if_pos h2, h3]) hsib hcc
        harena (hperm.trans (by simp [Shape.ids, Ctx.ids]))
    exact ⟨t2, some s2, p :: fl, hrun, hrr, har, hlv, hnd, hlen, hpa, hic,
      Or.inl (List.cons_ne_nil _ _)⟩
  | right c p l =>
    obtain ⟨hp, h2, h3, h4, hl, hcc⟩ := hctx
    simp only [Ctx.parentIdx] at hidp
    simp only [Shape.idx] at h3
    have hne : id ≠ t.m_root := by
      intro e
      rw [← e, hidp] at hrootpar
      exact inRange_ne_null hp hrootpar
    have hnodup : (id :: p :: (l.ids ++ c.ids)).Nodup := by
      have := (List.Perm.nodup_iff hperm).1 (List.nodup_append.1 harena.nodup).1
      simpa [Shape.ids, Ctx.ids] using this
    have hidl : ¬ (t.nd p).child1 = id := by
      rw [h2]; intro e
      have := (List.nodup_cons.1 hnodup).1
      exact this (List.mem_cons_of_mem _ (List.mem_append_left _ (e ▸ l.idx_mem_ids)))
    obtain ⟨t2, s2, hrun, hrr, har, hlv, hnd, hlen, hpa, hic⟩ :=
      RemoveLeaf_core (c := c) hid hidp hne hp h4 (by rw [if_neg hidl, h2]) hl hcc
        harena (hperm.trans (by simp [Shape.ids, Ctx.ids]))
    exact ⟨t2, some s2, p :: fl, hrun, hrr, har, hlv, hnd, hlen, hpa, hic,
      Or.inl (List.cons_ne_nil _ _)⟩

/-! ## The public operations on a stored tree -/

theorem Rep.leaf_mem {t : b2DynamicTree α} {s : Shape α} : ∀ {p : Int}, t.Rep s p →
    ∀ x ∈ s.leaves, t.InRange x.1 ∧ (t.nd x.1).child1 = b2_nullNode ∧
      (t.nd x.1).child2 = b2_nullNode ∧ (t.nd x.1).height = 0 ∧ (t.nd x.1).aabb = x.2.1 ∧
      (t.nd x.1).userData = x.2.2 := by
  induction s with
  | leaf i b u =>
    intro p h x hx
    simp only [Shape.leaves, List.mem_singleton] at hx
    subst hx
    exact ⟨h.1, h.2.2.1, h.2.2.2.1, h.2.2.2.2.1, h.2.2.2.2.2.1, h.2.2.2.2.2.2⟩
  | node i l r ihl ihr =>
    intro p h x hx
    simp only [Shape.leaves, List.mem_append] at hx
    rcases hx with hx | hx
    · exact ihl h.2.2.2.2.2.2.1 x hx
    · exact ihr h.2.2.2.2.2.2.2 x hx

theorem RootRep.root_leaf_mem {t : b2DynamicTree α} {o : Option (Shape α)} (h : t.RootRep o) :
    ∀ x ∈ leavesOf o, t.InRange x.1 ∧ (t.nd x.1).child1 = b2_nullNode ∧
      (t.nd x.1).child2 = b2_nullNode ∧ (t.nd x.1).height = 0 ∧ (t.nd x.1).aabb = x.2.1 ∧
      (t.nd x.1).userData = x.2.2 := by
  cases o with
  | none => intro x hx; simp [leavesOf] at hx
  | some s => exact Rep.leaf_mem h.2

theorem RootRep.in_context {t : b2DynamicTree α} {o : Option (Shape α)} (h : t.RootRep o)
    {id : Int} {b : b2AABB α} {u : Nat} (hx : (id, b, u) ∈ leavesOf o) :
    ∃ c : Ctx α, o = some (c.plug (Shape.leaf id b u)) ∧
      t.m_root = (c.plug (Shape.leaf id b u)).idx ∧
      t.Rep (c.plug (Shape.leaf id b u)) b2_nullNode := by
  cases o with
  | none => simp [leavesOf] at hx
  | some s =>
    obtain ⟨c, hc⟩ := leaf_in_context s Ctx.top (id, b, u) hx
    simp only [Ctx.plug] at hc
    exact ⟨c, by rw [hc], by rw [hc]; exact h.1, by rw [hc]; exact h.2⟩

theorem RootRep.root_congr {t t1 : b2DynamicTree α} {o : Option (Shape α)}
    (hlen : t1.m_nodes.length = t.m_nodes.length) (hroot : t1.m_root = t.m_root)
    (hnd : ∀ j ∈ idsOf o, t1.nd j = t.nd j) (h : t.RootRep o) : t1.RootRep o := by
  cases o with
  | none => exact hroot.trans h
  | some s => exact ⟨hroot.trans h.1, Rep.rep_congr hlen hnd h.2⟩

/-- `DestroyProxy` of a leaf of the stored tree: the call returns and the new tree holds the
other leaves. -/
theorem DestroyProxy_spec {t : b2DynamicTree α} {o : Option (Shape α)} {fl : List Int}
    {id : Int} {b : b2AABB α} {u : Nat} (hroot : t.RootRep o) (harena : t.Arena (idsOf o) fl)
    (hx : (id, b, u) ∈ leavesOf o) :
    ∃ t2 o2 fl2, t.DestroyProxy id = some t2 ∧ t2.RootRep o2 ∧ t2.Arena (idsOf o2) fl2 ∧
      (leavesOf o).Perm ((id, b, u) :: leavesOf o2) ∧
      t2.m_nodes.length = t.m_nodes.length ∧ t2.m_path = t.m_path ∧
      t2.m_insertionCount = t.m_insertionCount := by
  obtain ⟨hid, hc1, -⟩ := hroot.root_leaf_mem _ hx
  obtain ⟨c, rfl, hr, hrep⟩ := hroot.in_context hx
  obtain ⟨t1, o1, fl1, hrun1, hroot1, harena1, hlv1, -, hlen1, hpa1, hic1, -⟩ :=
    RemoveLeaf_spec hr hrep harena
  obtain ⟨t2, hrun2, harena2, hframe2, hlen2, hroot2, hpa2, hic2⟩ :=
    FreeNode_arena harena1 id (List.mem_cons_self _ _)
  have hnot : id ∉ idsOf o1 :=
    (List.nodup_cons.1 (List.nodup_append.1 harena1.nodup).1).1
  refine ⟨t2, o1, id :: fl1, ?_, ?_, ?_, ?_, hlen2.trans hlen1, hpa2.trans hpa1,
    hic2.trans hic1⟩
  · unfold DestroyProxy
    simp only [hid, not_true_eq_false, if_false, b2TreeNode.IsLeaf, hc1, beq_self_eq_true,
      hrun1]
    exact hrun2
  · exact RootRep.root_congr hlen2 hroot2 (fun j hj => hframe2 j (fun e => hnot (e ▸ hj)))
      hroot1
  · rw [List.erase_cons_head] at harena2; exact harena2
  · refine (Ctx.plug_leaves_perm c _).trans ?_
    simp only [leavesOf, Shape.leaves, List.singleton_append]
    exact List.Perm.cons _ hlv1.symm

/-- `MoveProxy` of a leaf of the stored tree: the call returns; it returns `false` and
changes nothing when the stored box contains the new one, otherwise it returns `true` and
the new tree holds the same leaves, the moved one with the predicted box. -/
theorem MoveProxy_spec (ext mult : α) {t : b2DynamicTree α} {o : Option (Shape α)}
    {fl : List Int} {id : Int} {b : b2AABB α} {u : Nat} (hroot : t.RootRep o)
    (harena : t.Arena (idsOf o) fl) (hx : (id, b, u) ∈ leavesOf o) (aabb : b2AABB α)
    (d : b2Vec2 α) :
    ∃ t2 moved o2 fl2 rest, MoveProxy ext mult t id aabb d = some (t2, moved) ∧
      t2.RootRep o2 ∧ t2.Arena (idsOf o2) fl2 ∧ (leavesOf o).Perm ((id, b, u) :: rest) ∧
      (leavesOf o2).Perm
        ((id, (if moved then predictAABB ext mult aabb d else b), u) :: rest) ∧
      (moved = false ↔ b.Contains aabb) ∧ (moved = false → t2 = t) ∧
      t2.m_nodes.length = t.m_nodes.length ∧ t2.m_path = t.m_path := by
  obtain ⟨hid, hc1, -, -, hb, -⟩ := hroot.root_leaf_mem _ hx
  simp only at hb
  obtain ⟨c, ho, hr, hrep⟩ := hroot.in_context hx
  have hlvo : (leavesOf o).Perm ((id, b, u) :: c.leaves) := by
    rw [ho]
    refine (Ctx.plug_leaves_perm c _).trans ?_
    simp only [Shape.leaves, List.singleton_append]
    exact List.Perm.refl _
  by_cases hcon : b.Contains aabb
  · refine ⟨t, false, o, fl, c.leaves, ?_, hroot, harena, hlvo, ?_, ?_, fun _ => rfl, rfl, rfl⟩
    · unfold MoveProxy
      simp only [hid, not_true_eq_false, if_false, b2TreeNode.IsLeaf, hc1, beq_self_eq_true,
        hb, hcon, if_true]
    · simpa using hlvo
    · simp [hcon]
  · subst ho
    obtain ⟨t1, o1, fl1, hrun1, hroot1, harena1, hlv1, hnd1, hlen1, hpa1, hic1, hfl1⟩ :=
      RemoveLeaf_spec hr hrep harena
    obtain ⟨-, hl1, hl2, hlh, -, hlu⟩ := Rep.leaf_mem hrep _ hx
    simp only at hl1 hl2 hlh hlu
    have hnot : id ∉ idsOf o1 :=
      (List.nodup_cons.1 (List.nodup_append.1 harena1.nodup).1).1
    have hidfl : id ∉ fl1 := fun hm =>
      (List.nodup_append.1 harena1.nodup).2.2 (List.mem_cons_self _ _) hm
    have hid1 : t1.InRange id := (inRange_of_length hlen1 id).2 hid
    have hroot1' : (t1.setAABB id (predictAABB ext mult aabb d)).RootRep o1 :=
      RootRep.root_congr (by simp) (by simp)
        (fun j hj => setAABB_nd_ne _ _ _ _ (fun e => hnot (e ▸ hj))) hroot1
    have harena1' : (t1.setAABB id (predictAABB ext mult aabb d)).Arena (id :: idsOf o1) fl1 :=
      Arena.arena_congr harena1 (by simp) (by simp) (by simp) (List.Perm.refl _)
        (fun j hj => setAABB_nd_ne _ _ _ _ (fun e => hidfl (e ▸ hj)))
    obtain ⟨t2, s2, fl2, hrun2, h1, h2, h3, h4, -, -, h8, -⟩ :=
      InsertLeaf_spec hroot1' harena1' (by simp [hnd1, hl1]) (by simp [hnd1, hl2])
        (by simp [hnd1, hlh])
    refine ⟨t2, true, some s2, fl2, c.leaves, ?_, h1, h2, hlvo, ?_, ?_, ?_, ?_, ?_⟩
    · unfold MoveProxy
      simp only [hid, not_true_eq_false, if_false, b2TreeNode.IsLeaf, hc1, beq_self_eq_true,
        hb, hcon, hrun1, hrun2, Option.map_some']
    · refine h3.trans ?_
      simp only [setAABB_aabb_self _ _ _ hid1, setAABB_userData, hnd1, hlu, if_true]
      exact List.Perm.cons _ hlv1
    · simp [hcon]
    · intro h; exact absurd h (by simp)
    · rw [h8 hfl1]; simp [hlen1]
    · rw [h4]; simp [hpa1]

/-! ## Shuffle -/

theorem node_in_context (s : Shape α) : ∀ (c0 : Ctx α) (i : Int), i ∈ s.ids →
    ∃ (c : Ctx α) (sub : Shape α), sub.idx = i ∧ c.plug sub = c0.plug s := by
  induction s with
  | leaf i b u =>
    intro c0 j hj
    simp only [Shape.ids, List.mem_singleton] at hj
    exact ⟨c0, Shape.leaf i b u, hj.symm, rfl⟩
  | node i l r ihl ihr =>
    intro c0 j hj
    simp only [Shape.ids, List.mem_cons, List.mem_append] at hj
    rcases hj with hj | hj | hj
    · exact ⟨c0, Shape.node i l r, hj.symm, rfl⟩
    · obtain ⟨c, sub, h1, h2⟩ := ihl (Ctx.left c0 i r) j hj
      exact ⟨c, sub, h1, h2⟩
    · obtain ⟨c, sub, h1, h2⟩ := ihr (Ctx.right c0 i l) j hj
      exact ⟨c, sub, h1, h2⟩

theorem shuffleSwap2_raw (t : b2DynamicTree α) (i1 i2 i11 i12 i21 i22 : Int)
    (h1 : t.InRange i1) (h2 : t.InRange i2) (h12 : t.InRange i12) (h22 : t.InRange i22)
    (d1 : i1 ≠ i2) (d3 : i1 ≠ i12) (d4 : i1 ≠ i21) (d5 : i1 ≠ i22)
    (d7 : i2 ≠ i12) (d9 : i2 ≠ i22)
    (d13 : i12 ≠ i22) :
    ∃ t1, t.shuffleSwap2 i1 i2 i11 i12 i21 i22 = t1 ∧
    t1.m_nodes.length = t.m_nodes.length ∧
    t1.m_root = t.m_root ∧
    t1.m_freeList = t.m_freeList ∧
    t1.m_nodeCount = t.m_nodeCount ∧
    t1.m_path = t.m_path ∧
    t1.m_insertionCount = t.m_insertionCount ∧
    t1.nd i1 =
      ⟨b2AABB.Combine (t.nd i11).aabb (t.nd i22).aabb, (t.nd i1).userData, (t.nd i1).parent,
        (t.nd i1).child1, i22, 1 + max (t.nd i11).height (t.nd i22).height⟩ ∧
    t1.nd i2 =
      ⟨b2AABB.Combine (t.nd i21).aabb (t.nd i12).aabb, (t.nd i2).userData, (t.nd i2).parent,
        (t.nd i2).child1, i12, 1 + max (t.nd i21).height (t.nd i12).height⟩ ∧
    t1.nd i22 = { t.nd i22 with parent := i1 } ∧
    t1.nd i12 = { t.nd i12 with parent := i2 } ∧
    (∀ j, j ≠ i1 → j ≠ i2 → j ≠ i12 → j ≠ i22 →
      t1.nd j = t.nd j) := by
  refine ⟨_, rfl, ?_⟩
  unfold shuffleSwap2
  refine ⟨by simp, by simp, by simp, by simp, by simp, by simp, node_ext ?_ ?_ ?_ ?_ ?_ ?_,
    node_ext ?_ ?_ ?_ ?_ ?_ ?_, node_ext ?_ ?_ ?_ ?_ ?_ ?_, node_ext ?_ ?_ ?_ ?_ ?_ ?_, ?_⟩
  all_goals first
    | (intro j a b c d
       simp [setParent_nd_ne, setChild1_nd_ne, setChild2_nd_ne, setHeight_nd_ne,
         setAABB_nd_ne, a, b, c, d])
    | simp [h1, h2, h12, h22, d1, d3, d4, d5, d7, d9, d13, d1.symm, d3.symm, d4.symm, d5.symm, d7.symm, d9.symm,
        d13.symm, setParent_parent, setChild1_child1, setChild2_child2, setHeight_height,
        setAABB_aabb]

theorem shuffleSwap3_raw (t : b2DynamicTree α) (i1 i2 i11 i12 i21 i22 : Int)
    (h1 : t.InRange i1) (h2 : t.InRange i2) (h12 : t.InRange i12) (h21 : t.InRange i21)
    (d1 : i1 ≠ i2) (d3 : i1 ≠ i12) (d4 : i1 ≠ i21) (d5 : i1 ≠ i22)
    (d7 : i2 ≠ i12) (d8 : i2 ≠ i21)
    (d12 : i12 ≠ i21) :
    ∃ t1, t.shuffleSwap3 i1 i2 i11 i12 i21 i22 = t1 ∧
    t1.m_nodes.length = t.m_nodes.length ∧
    t1.m_root = t.m_root ∧
    t1.m_freeList = t.m_freeList ∧
    t1.m_nodeCount = t.m_nodeCount ∧
    t1.m_path = t.m_path ∧
    t1.m_insertionCount = t.m_insertionCount ∧
    t1.nd i1 =
      ⟨b2AABB.Combine (t.nd i11).aabb (t.nd i21).aabb, (t.nd i1).userData, (t.nd i1).parent,
        (t.nd i1).child1, i21, 1 + max (t.nd i11).height (t.nd i21).height⟩ ∧
    t1.nd i2 =
      ⟨b2AABB.Combine (t.nd i12).aabb (t.nd i22).aabb, (t.nd i2).userData, (t.nd i2).parent,
        i12, (t.nd i2).child2, 1 + max (t.nd i12).height (t.nd i22).height⟩ ∧
    t1.nd i21 = { t.nd i21 with parent := i1 } ∧
    t1.nd i12 = { t.nd i12 with parent := i2 } ∧
    (∀ j, j ≠ i1 → j ≠ i2 → j ≠ i12 → j ≠ i21 →
      t1.nd j = t.nd j) := by
  refine ⟨_, rfl, ?_⟩
  unfold shuffleSwap3
  refine ⟨by simp, by simp, by simp, by simp, by simp, by simp, node_ext ?_ ?_ ?_ ?_ ?_ ?_,
    node_ext ?_ ?_ ?_ ?_ ?_ ?_, node_ext ?_ ?_ ?_ ?_ ?_ ?_, node_ext ?_ ?_ ?_ ?_ ?_ ?_, ?_⟩
  all_goals first
    | (intro j a b c d
       simp [setParent_nd_ne, setChild1_nd_ne, setChild2_nd_ne, setHeight_nd_ne,
         setAABB_nd_ne, a, b, c, d])
    | simp [h1, h2, h12, h21, d1, d3, d4, d5, d7, d8, d12, d1.symm, d3.symm, d4.symm, d5.symm, d7.symm, d8.symm, d12.symm, setParent_parent, setChild1_child1, setChild2_child2, setHeight_height,
        setAABB_aabb]

theorem Combine_regroup2 (a b c d : b2AABB α) :
    b2AABB.Combine (b2AABB.Combine a d) (b2AABB.Combine c b) =
      b2AABB.Combine (b2AABB.Combine a b) (b2AABB.Combine c d) := by
  rw [Combine_assoc, Combine_assoc, ← Combine_assoc d c b, ← Combine_assoc b c d,
    Combine_comm d c, Combine_comm b c, Combine_assoc c d b, Combine_assoc c b d,
    Combine_comm d b]

theorem Combine_regroup3 (a b c d : b2AABB α) :
    b2AABB.Combine (b2AABB.Combine a c) (b2AABB.Combine b d) =
      b2AABB.Combine (b2AABB.Combine a b) (b2AABB.Combine c d) := by
  rw [Combine_assoc, Combine_assoc, ← Combine_assoc c b d, ← Combine_assoc b c d,
    Combine_comm c b]

theorem max_regroup2 (a b c d : Int) :
    1 + max (1 + max a d) (1 + max c b) = 1 + max (1 + max a b) (1 + max c d) := by
  rw [max_add_add_left, max_add_add_left, max_max_max_comm a d c b, max_max_max_comm a b c d,
    max_comm d b]

theorem max_regroup3 (a b c d : Int) :
    1 + max (1 + max a c) (1 + max b d) = 1 + max (1 + max a b) (1 + max c d) := by
  rw [max_add_add_left, max_add_add_left, max_max_max_comm a b c d]

/-- Four stored subtrees regrouped under the nodes `i1`, `i2` below `i`: when the three
nodes hold the links and metrics of the new grouping and the four subtree roots the new
parents, the pool stores the regrouped tree. -/
theorem regroup_rep {t tA : b2DynamicTree α} {i i1 i2 p qa qb qc qd : Int}
    {a b c d : Shape α} (hlen : tA.m_nodes.length = t.m_nodes.length)
    (hi : t.InRange i) (hi1 : t.InRange i1) (hi2 : t.InRange i2)
    (ha : t.Rep a qa) (hb : t.Rep b qb) (hc : t.Rep c qc) (hd : t.Rep d qd)
    (hnd : (i :: i1 :: i2 :: (a.ids ++ (b.ids ++ (c.ids ++ d.ids)))).Nodup)
    (hAi : (tA.nd i).parent = p ∧ (tA.nd i).child1 = i1 ∧ (tA.nd i).child2 = i2 ∧
      (tA.nd i).height = 1 + max (1 + max a.height b.height) (1 + max c.height d.height) ∧
      (tA.nd i).aabb =
        b2AABB.Combine (b2AABB.Combine a.box b.box) (b2AABB.Combine c.box d.box))
    (hA1 : (tA.nd i1).parent = i ∧ (tA.nd i1).child1 = a.idx ∧ (tA.nd i1).child2 = b.idx ∧
      (tA.nd i1).height = 1 + max a.height b.height ∧
      (tA.nd i1).aabb = b2AABB.Combine a.box b.box)
    (hA2 : (tA.nd i2).parent = i ∧ (tA.nd i2).child1 = c.idx ∧ (tA.nd i2).child2 = d.idx ∧
      (tA.nd i2).height = 1 + max c.height d.height ∧
      (tA.nd i2).aabb = b2AABB.Combine c.box d.box)
    (hAa : tA.nd a.idx = { t.nd a.idx with parent := i1 })
    (hAb : tA.nd b.idx = { t.nd b.idx with parent := i1 })
    (hAc : tA.nd c.idx = { t.nd c.idx with parent := i2 })
    (hAd : tA.nd d.idx = { t.nd d.idx with parent := i2 })
    (hframe : ∀ j, j ≠ i → j ≠ i1 → j ≠ i2 → j ≠ a.idx → j ≠ b.idx → j ≠ c.idx → j ≠ d.idx →
      tA.nd j = t.nd j) :
    tA.Rep (Shape.node i (Shape.node i1 a b) (Shape.node i2 c d)) p := by
  have hr := fun j => (inRange_of_length hlen j).2
  simp only [List.nodup_cons, List.mem_cons, List.mem_append, not_or, List.nodup_append] at hnd
  obtain ⟨⟨-, -, hia, hib, hic, hid⟩, ⟨-, h1a, h1b, h1c, h1d⟩, ⟨h2a, h2b, h2c, h2d⟩,
    hand, ⟨hbnd, ⟨hcnd, hdnd, hcd⟩, hbcd⟩, habcd⟩ := hnd
  have key : ∀ (s : Shape α) (q r : Int), t.Rep s q → s.ids.Nodup →
      tA.nd s.idx = { t.nd s.idx with parent := r } →
      (∀ j ∈ s.ids, j ≠ s.idx → tA.nd j = t.nd j) → tA.Rep s r :=
    fun s q r h hn he hf => Rep.reparent hlen he hf hn h
  have hma := a.idx_mem_ids
  have hmb := b.idx_mem_ids
  have hmc := c.idx_mem_ids
  have hmd := d.idx_mem_ids
  refine ⟨hr i hi, ?_, ?_, ?_, ?_, ?_, ⟨hr i1 hi1, ?_, ?_, ?_, ?_, ?_, ?_, ?_⟩,
    ⟨hr i2 hi2, ?_, ?_, ?_, ?_, ?_, ?_, ?_⟩⟩
  · exact hAi.1
  · exact hAi.2.1
  · exact hAi.2.2.1
  · exact hAi.2.2.2.1
  · exact hAi.2.2.2.2
  · exact hA1.1
  · exact hA1.2.1
  · exact hA1.2.2.1
  · exact hA1.2.2.2.1
  · exact hA1.2.2.2.2
  · refine key a qa i1 ha hand hAa (fun j hj hja => hframe j ?_ ?_ ?_ hja ?_ ?_ ?_)
    · exact fun e => hia (e ▸ hj)
    · exact fun e => h1a (e ▸ hj)
    · exact fun e => h2a (e ▸ hj)
    · exact fun e => habcd hj (List.mem_append_left _ (e ▸ hmb))
    · exact fun e => habcd hj (List.mem_append_right _ (List.mem_append_left _ (e ▸ hmc)))
    · exact fun e => habcd hj (List.mem_append_right _ (List.mem_append_right _ (e ▸ hmd)))
  · refine key b qb i1 hb hbnd hAb (fun j hj hjb => hframe j ?_ ?_ ?_ ?_ hjb ?_ ?_)
    · exact fun e => hib (e ▸ hj)
    · exact fun e => h1b (e ▸ hj)
    · exact fun e => h2b (e ▸ hj)
    · exact fun e => habcd (e ▸ hma) (List.mem_append_left _ hj)
    · exact fun e => hbcd hj (List.mem_append_left _ (e ▸ hmc))
    · exact fun e => hbcd hj (List.mem_append_right _ (e ▸ hmd))
  · exact hA2.1
  · exact hA2.2.1
  · exact hA2.2.2.1
  · exact hA2.2.2.2.1
  · exact hA2.2.2.2.2
  · refine key c qc i2 hc hcnd hAc (fun j hj hjc => hframe j ?_ ?_ ?_ ?_ ?_ hjc ?_)
    · exact fun e => hic (e ▸ hj)
    · exact fun e => h1c (e ▸ hj)
    · exact fun e => h2c (e ▸ hj)
    · exact fun e => habcd (e ▸ hma) (List.mem_append_right _ (List.mem_append_left _ hj))
    · exact fun e => hbcd (e ▸ hmb) (List.mem_append_left _ hj)
    · exact fun e => hcd hj (e ▸ hmd)
  · refine key d qd i2 hd hdnd hAd (fun j hj hjd => hframe j ?_ ?_ ?_ ?_ ?_ ?_ hjd)
    · exact fun e => hid (e ▸ hj)
    · exact fun e => h1d (e ▸ hj)
    · exact fun e => h2d (e ▸ hj)
    · exact fun e => habcd (e ▸ hma) (List.mem_append_right _ (List.mem_append_right _ hj))
    · exact fun e => hbcd (e ▸ hmb) (List.mem_append_right _ hj)
    · exact fun e => hcd (e ▸ hmc) hj

theorem shuffleFinish_eq (t : b2DynamicTree α) (i i1 i2 : Int) (hi : t.InRange i) :
    ∃ tA : b2DynamicTree α, t.shuffleFinish i i1 i2 =
        ancestorLoop shuffleStep (tA.m_nodes.length + 1) tA (t.nd i).parent ∧
      tA.m_nodes.length = t.m_nodes.length ∧ tA.m_root = t.m_root ∧
      tA.m_freeList = t.m_freeList ∧ tA.m_nodeCount = t.m_nodeCount ∧ tA.m_path = t.m_path ∧
      tA.m_insertionCount = t.m_insertionCount ∧
      (tA.nd i).aabb = b2AABB.Combine (t.nd i1).aabb (t.nd i2).aabb ∧
      (tA.nd i).height = 1 + max (t.nd i1).height (t.nd i2).height ∧
      (tA.nd i).userData = (t.nd i).userData ∧ (tA.nd i).parent = (t.nd i).parent ∧
      (tA.nd i).child1 = (t.nd i).child1 ∧ (tA.nd i).child2 = (t.nd i).child2 ∧
      (∀ j, j ≠ i → tA.nd j = t.nd j) := by
  refine ⟨(t.setAABB i (b2AABB.Combine (t.nd i1).aabb (t.nd i2).aabb)).setHeight i
    (1 + max ((t.setAABB i (b2AABB.Combine (t.nd i1).aabb (t.nd i2).aabb)).nd i1).height
      ((t.setAABB i (b2AABB.Combine (t.nd i1).aabb (t.nd i2).aabb)).nd i2).height), ?_, ?_, ?_,
    ?_, ?_, ?_, ?_, ?_, ?_, ?_, ?_, ?_, ?_, ?_⟩
  · unfold shuffleFinish
    simp only [setHeight_parent, setAABB_parent]
  · simp
  · simp
  · simp
  · simp
  · simp
  · simp
  · simp [setAABB_aabb, hi]
  · simp [setHeight_height, hi]
  · simp
  · simp
  · simp
  · simp
  · intro j hj; simp [setHeight_nd_ne, setAABB_nd_ne, hj]

theorem shuffle_swap2 {t : b2DynamicTree α} {i i1 i2 p : Int} {s11 s12 s21 s22 : Shape α}
    (hrep : t.Rep (Shape.node i (Shape.node i1 s11 s12) (Shape.node i2 s21 s22)) p)
    (hnd : (Shape.node i (Shape.node i1 s11 s12) (Shape.node i2 s21 s22)).ids.Nodup) :
    ∃ tA : b2DynamicTree α,
      (t.shuffleSwap2 i1 i2 s11.idx s12.idx s21.idx s22.idx).shuffleFinish i i1 i2 =
        ancestorLoop shuffleStep (tA.m_nodes.length + 1) tA p ∧
      tA.Rep (Shape.node i (Shape.node i1 s11 s22) (Shape.node i2 s21 s12)) p ∧
      tA.m_nodes.length = t.m_nodes.length ∧ tA.m_root = t.m_root ∧
      tA.m_freeList = t.m_freeList ∧ tA.m_nodeCount = t.m_nodeCount ∧ tA.m_path = t.m_path ∧
      tA.m_insertionCount = t.m_insertionCount ∧
      (∀ j, j ∉ (Shape.node i (Shape.node i1 s11 s12) (Shape.node i2 s21 s22)).ids →
        tA.nd j = t.nd j) ∧
      (∀ j, j ≠ i1 → j ≠ i2 →
        (tA.nd j).height = (t.nd j).height ∧ (tA.nd j).aabb = (t.nd j).aabb) := by
  obtain ⟨hi, hip, hic1, hic2, hih, hib, ⟨h1, h1p, h1c1, h1c2, -, -, r11, r12⟩,
    ⟨h2, h2p, h2c1, h2c2, -, -, r21, r22⟩⟩ := hrep
  have hnd0 := hnd
  simp only [Shape.ids, List.nodup_cons, List.mem_cons, List.mem_append, not_or,
    List.nodup_append] at hnd
  have m11 := s11.idx_mem_ids
  have m12 := s12.idx_mem_ids
  have m21 := s21.idx_mem_ids
  have m22 := s22.idx_mem_ids
  obtain ⟨⟨⟨hi1, hi11, hi12⟩, hi2, hi21, hi22⟩, ⟨⟨h111, h112⟩, hn11, hn12, hd1⟩,
    ⟨⟨h221, h222⟩, hn21, hn22, hd2⟩, hdd⟩ := hnd
  have d1 : i1 ≠ i2 := fun e => hdd (List.mem_cons_self _ _) (e ▸ List.mem_cons_self _ _)
  have d3 : i1 ≠ s12.idx := fun e => h112 (e ▸ m12)
  have d4 : i1 ≠ s21.idx := fun e =>
    hdd (List.mem_cons_self _ _) (List.mem_cons_of_mem _ (List.mem_append_left _ (e ▸ m21)))
  have d5 : i1 ≠ s22.idx := fun e =>
    hdd (List.mem_cons_self _ _) (List.mem_cons_of_mem _ (List.mem_append_right _ (e ▸ m22)))
  have d7 : i2 ≠ s12.idx := fun e =>
    hdd (List.mem_cons_of_mem _ (List.mem_append_right _ m12)) (e ▸ List.mem_cons_self _ _)
  have d9 : i2 ≠ s22.idx := fun e => h222 (e ▸ m22)
  have d13 : s12.idx ≠ s22.idx := fun e =>
    hdd (List.mem_cons_of_mem _ (List.mem_append_right _ m12))
      (List.mem_cons_of_mem _ (List.mem_append_right _ (e ▸ m22)))
  obtain ⟨t1, ht1, rlen, rroot, rfl1, rnc, rpa, ric, r1, r2, r22', r12', rframe⟩ :=
    shuffleSwap2_raw t i1 i2 s11.idx s12.idx s21.idx s22.idx h1 h2 r12.idx_inRange
      r22.idx_inRange d1 d3 d4 d5 d7 d9 d13
  have hii1 : i ≠ i1 := hi1
  have hii2 : i ≠ i2 := hi2
  have hi12' : i ≠ s12.idx := fun e => hi12 (e ▸ m12)
  have hi22' : i ≠ s22.idx := fun e => hi22 (e ▸ m22)
  have ri := rframe i hii1 hii2 hi12' hi22'
  obtain ⟨tA, hrun, alen, aroot, afl, anc, apa, aic, aib, aih, aiu, aip, aic1, aic2, aframe⟩ :=
    shuffleFinish_eq t1 i i1 i2 ((inRange_of_length rlen i).2 hi)
  rw [ri, hip] at hrun
  rw [ht1]
  have b1 : (t1.nd i1).aabb = b2AABB.Combine s11.box s22.box := by
    rw [r1, ← r11.aabb_eq, ← r22.aabb_eq]
  have b2 : (t1.nd i2).aabb = b2AABB.Combine s21.box s12.box := by
    rw [r2, ← r21.aabb_eq, ← r12.aabb_eq]
  have g1 : (t1.nd i1).height = 1 + max s11.height s22.height := by
    rw [r1, ← r11.height_eq, ← r22.height_eq]
  have g2 : (t1.nd i2).height = 1 + max s21.height s12.height := by
    rw [r2, ← r21.height_eq, ← r12.height_eq]
  have aib' : (tA.nd i).aabb = (t.nd i).aabb := by
    rw [aib, b1, b2, hib]; exact Combine_regroup2 _ _ _ _
  have aih' : (tA.nd i).height = (t.nd i).height := by
    rw [aih, g1, g2, hih]; exact max_regroup2 _ _ _ _
  have ai' : tA.nd i = t.nd i :=
    node_ext aib' (aiu.trans (by rw [ri])) (aip.trans (by rw [ri])) (aic1.trans (by rw [ri]))
      (aic2.trans (by rw [ri])) aih'
  have a1 : tA.nd i1 = t1.nd i1 := aframe i1 hii1.symm
  have a2 : tA.nd i2 = t1.nd i2 := aframe i2 hii2.symm
  refine ⟨tA, hrun, ?_, alen.trans rlen, aroot.trans rroot, afl.trans rfl1, anc.trans rnc,
    apa.trans rpa, aic.trans ric, ?_, ?_⟩
  · refine regroup_rep (alen.trans rlen) hi h1 h2 r11 r22 r21 r12 ?_ ?_ ?_ ?_ ?_ ?_ ?_ ?_ ?_
    · refine (List.Perm.nodup_iff (List.perm_iff_count.2 fun a => ?_)).2 hnd0
      simp only [Shape.ids, List.count_append, List.count_cons, List.cons_append]
      omega
    · rw [ai']
      refine ⟨hip, hic1, hic2, ?_, ?_⟩
      · rw [hih]; exact (max_regroup2 _ _ _ _).symm
      · rw [hib]; exact (Combine_regroup2 _ _ _ _).symm
    · rw [a1]
      exact ⟨by rw [r1]; exact h1p, by rw [r1]; exact h1c1, by rw [r1], g1, b1⟩
    · rw [a2]
      exact ⟨by rw [r2]; exact h2p, by rw [r2]; exact h2c1, by rw [r2], g2, b2⟩
    · rw [aframe _ (fun e => hi11 (e ▸ m11)), rframe _ (fun e => h111 (e ▸ m11))
        (fun e => hdd (List.mem_cons_of_mem _ (List.mem_append_left _ m11))
          (e ▸ List.mem_cons_self _ _))
        (fun e => hd1 m11 (e ▸ m12))
        (fun e => hdd (List.mem_cons_of_mem _ (List.mem_append_left _ m11))
          (List.mem_cons_of_mem _ (List.mem_append_right _ (e ▸ m22))))]
      exact node_ext rfl rfl r11.parent_eq rfl rfl rfl
    · rw [aframe _ hi22'.symm, r22']
    · rw [aframe _ (fun e => hi21 (e ▸ m21)), rframe _ d4.symm (fun e => h221 (e ▸ m21))
        (fun e => hdd (List.mem_cons_of_mem _ (List.mem_append_right _ m12))
          (List.mem_cons_of_mem _ (List.mem_append_left _ (e ▸ m21))))
        (fun e => hd2 m21 (e ▸ m22))]
      exact node_ext rfl rfl r21.parent_eq rfl rfl rfl
    · rw [aframe _ hi12'.symm, r12']
    · intro j hj hj1 hj2 _ hj22 _ hj12
      rw [aframe j hj, rframe j hj1 hj2 hj12 hj22]
  · intro j hj
    simp only [Shape.ids, List.mem_cons, List.mem_append, not_or] at hj
    obtain ⟨hji, ⟨hj1, -, hj12⟩, hj2, -, hj22⟩ := hj
    rw [aframe j hji, rframe j hj1 hj2 (fun e => hj12 (e ▸ m12)) (fun e => hj22 (e ▸ m22))]
  · intro j hj1 hj2
    by_cases hji : j = i
    · rw [hji, ai']; exact ⟨rfl, rfl⟩
    · rw [aframe j hji]
      by_cases hj12 : j = s12.idx
      · rw [hj12, r12']; exact ⟨rfl, rfl⟩
      · by_cases hj22 : j = s22.idx
        · rw [hj22, r22']; exact ⟨rfl, rfl⟩
        · rw [rframe j hj1 hj2 hj12 hj22]; exact ⟨rfl, rfl⟩

theorem shuffle_swap3 {t : b2DynamicTree α} {i i1 i2 p : Int} {s11 s12 s21 s22 : Shape α}
    (hrep : t.Rep (Shape.node i (Shape.node i1 s11 s12) (Shape.node i2 s21 s22)) p)
    (hnd : (Shape.node i (Shape.node i1 s11 s12) (Shape.node i2 s21 s22)).ids.Nodup) :
    ∃ tA : b2DynamicTree α,
      (t.shuffleSwap3 i1 i2 s11.idx s12.idx s21.idx s22.idx).shuffleFinish i i1 i2 =
        ancestorLoop shuffleStep (tA.m_nodes.length + 1) tA p ∧
      tA.Rep (Shape.node i (Shape.node i1 s11 s21) (Shape.node i2 s12 s22)) p ∧
      tA.m_nodes.length = t.m_nodes.length ∧ tA.m_root = t.m_root ∧
      tA.m_freeList = t.m_freeList ∧ tA.m_nodeCount = t.m_nodeCount ∧ tA.m_path = t.m_path ∧
      tA.m_insertionCount = t.m_insertionCount ∧
      (∀ j, j ∉ (Shape.node i (Shape.node i1 s11 s12) (Shape.node i2 s21 s22)).ids →
        tA.nd j = t.nd j) ∧
      (∀ j, j ≠ i1 → j ≠ i2 →
        (tA.nd j).height = (t.nd j).height ∧ (tA.nd j).aabb = (t.nd j).aabb) := by
  obtain ⟨hi, hip, hic1, hic2, hih, hib, ⟨h1, h1p, h1c1, h1c2, -, -, r11, r12⟩,
    ⟨h2, h2p, h2c1, h2c2, -, -, r21, r22⟩⟩ := hrep
  have hnd0 := hnd
  simp only [Shape.ids, List.nodup_cons, List.mem_cons, List.mem_append, not_or,
    List.nodup_append] at hnd
  have m11 := s11.idx_mem_ids
  have m12 := s12.idx_mem_ids
  have m21 := s21.idx_mem_ids
  have m22 := s22.idx_mem_ids
  obtain ⟨⟨⟨hi1, hi11, hi12⟩, hi2, hi21, hi22⟩, ⟨⟨h111, h112⟩, hn11, hn12, hd1⟩,
    ⟨⟨h221, h222⟩, hn21, hn22, hd2⟩, hdd⟩ := hnd
  have d1 : i1 ≠ i2 := fun e => hdd (List.mem_cons_self _ _) (e ▸ List.mem_cons_self _ _)
  have d3 : i1 ≠ s12.idx := fun e => h112 (e ▸ m12)
  have d4 : i1 ≠ s21.idx := fun e =>
    hdd (List.mem_cons_self _ _) (List.mem_cons_of_mem _ (List.mem_append_left _ (e ▸ m21)))
  have d5 : i1 ≠ s22.idx := fun e =>
    hdd (List.mem_cons_self _ _) (List.mem_cons_of_mem _ (List.mem_append_right _ (e ▸ m22)))
  have d7 : i2 ≠ s12.idx := fun e =>
    hdd (List.mem_cons_of_mem _ (List.mem_append_right _ m12)) (e ▸ List.mem_cons_self _ _)
  have d8 : i2 ≠ s21.idx := fun e => h221 (e ▸ m21)
  have d12 : s12.idx ≠ s21.idx := fun e =>
    hdd (List.mem_cons_of_mem _ (List.mem_append_right _ m12))
      (List.mem_cons_of_mem _ (List.mem_append_left _ (e ▸ m21)))
  obtain ⟨t1, ht1, rlen, rroot, rfl1, rnc, rpa, ric, r1, r2, r21', r12', rframe⟩ :=
    shuffleSwap3_raw t i1 i2 s11.idx s12.idx s21.idx s22.idx h1 h2 r12.idx_inRange
      r21.idx_inRange d1 d3 d4 d5 d7 d8 d12
  have hii1 : i ≠ i1 := hi1
  have hii2 : i ≠ i2 := hi2
  have hi12' : i ≠ s12.idx := fun e => hi12 (e ▸ m12)
  have hi21' : i ≠ s21.idx := fun e => hi21 (e ▸ m21)
  have ri := rframe i hii1 hii2 hi12' hi21'
  obtain ⟨tA, hrun, alen, aroot, afl, anc, apa, aic, aib, aih, aiu, aip, aic1, aic2, aframe⟩ :=
    shuffleFinish_eq t1 i i1 i2 ((inRange_of_length rlen i).2 hi)
  rw [ri, hip] at hrun
  rw [ht1]
  have b1 : (t1.nd i1).aabb = b2AABB.Combine s11.box s21.box := by
    rw [r1, ← r11.aabb_eq, ← r21.aabb_eq]
  have b2 : (t1.nd i2).aabb = b2AABB.Combine s12.box s22.box := by
    rw [r2, ← r12.aabb_eq, ← r22.aabb_eq]
  have g1 : (t1.nd i1).height = 1 + max s11.height s21.height := by
    rw [r1, ← r11.height_eq, ← r21.height_eq]
  have g2 : (t1.nd i2).height = 1 + max s12.height s22.height := by
    rw [r2, ← r12.height_eq, ← r22.height_eq]
  have aib' : (tA.nd i).aabb = (t.nd i).aabb := by
    rw [aib, b1, b2, hib]; exact Combine_regroup3 _ _ _ _
  have aih' : (tA.nd i).height = (t.nd i).height := by
    rw [aih, g1, g2, hih]; exact max_regroup3 _ _ _ _
  have ai' : tA.nd i = t.nd i :=
    node_ext aib' (aiu.trans (by rw [ri])) (aip.trans (by rw [ri])) (aic1.trans (by rw [ri]))
      (aic2.trans (by rw [ri])) aih'
  have a1 : tA.nd i1 = t1.nd i1 := aframe i1 hii1.symm
  have a2 : tA.nd i2 = t1.nd i2 := aframe i2 hii2.symm
  refine ⟨tA, hrun, ?_, alen.trans rlen, aroot.trans rroot, afl.trans rfl1, anc.trans rnc,
    apa.trans rpa, aic.trans ric, ?_, ?_⟩
  · refine regroup_rep (alen.trans rlen) hi h1 h2 r11 r21 r12 r22 ?_ ?_ ?_ ?_ ?_ ?_ ?_ ?_ ?_
    · refine (List.Perm.nodup_iff (List.perm_iff_count.2 fun a => ?_)).2 hnd0
      simp only [Shape.ids, List.count_append, List.count_cons, List.cons_append]
      omega
    · rw [ai']
      refine ⟨hip, hic1, hic2, ?_, ?_⟩
      · rw [hih]; exact (max_regroup3 _ _ _ _).symm
      · rw [hib]; exact (Combine_regroup3 _ _ _ _).symm
    · rw [a1]
      exact ⟨by rw [r1]; exact h1p, by rw [r1]; exact h1c1, by rw [r1], g1, b1⟩
    · rw [a2]
      exact ⟨by rw [r2]; exact h2p, by rw [r2], by rw [r2]; exact h2c2, g2, b2⟩
    · rw [aframe _ (fun e => hi11 (e ▸ m11)), rframe _ (fun e => h111 (e ▸ m11))
        (fun e => hdd (List.mem_cons_of_mem _ (List.mem_append_left _ m11))
          (e ▸ List.mem_cons_self _ _))
        (fun e => hd1 m11 (e ▸ m12))
        (fun e => hdd (List.mem_cons_of_mem _ (List.mem_append_left _ m11))
          (List.mem_cons_of_mem _ (List.mem_append_left _ (e ▸ m21))))]
      exact node_ext rfl rfl r11.parent_eq rfl rfl rfl
    · rw [aframe _ hi21'.symm, r21']
    · rw [aframe _ hi12'.symm, r12']
    · rw [aframe _ (fun e => hi22 (e ▸ m22)), rframe _ d5.symm (fun e => h222 (e ▸ m22))
        (fun e => hdd (List.mem_cons_of_mem _ (List.mem_append_right _ m12))
          (List.mem_cons_of_mem _ (List.mem_append_right _ (e ▸ m22))))
        (fun e => hd2 m21 (e ▸ m22))]
      exact node_ext rfl rfl r22.parent_eq rfl rfl rfl
    · intro j hj hj1 hj2 _ hj21 hj12 _
      rw [aframe j hj, rframe j hj1 hj2 hj12 hj21]
  · intro j hj
    simp only [Shape.ids, List.mem_cons, List.mem_append, not_or] at hj
    obtain ⟨hji, ⟨hj1, -, hj12⟩, hj2, hj21, -⟩ := hj
    rw [aframe j hji, rframe j hj1 hj2 (fun e => hj12 (e ▸ m12)) (fun e => hj21 (e ▸ m21))]
  · intro j hj1 hj2
    by_cases hji : j = i
    · rw [hji, ai']; exact ⟨rfl, rfl⟩
    · rw [aframe j hji]
      by_cases hj12 : j = s12.idx
      · rw [hj12, r12']; exact ⟨rfl, rfl⟩
      · by_cases hj21 : j = s21.idx
        · rw [hj21, r21']; exact ⟨rfl, rfl⟩
        · rw [rframe j hj1 hj2 hj12 hj21]; exact ⟨rfl, rfl⟩

theorem shuffleStep_same {t : b2DynamicTree α} {i p : Int} {l r : Shape α}
    (h : t.Rep (Shape.node i l r) p) :
    ∃ t1, shuffleStep t i = some (t1, p) ∧ t1.m_nodes.length = t.m_nodes.length ∧
      t1.m_root = t.m_root ∧ t1.m_freeList = t.m_freeList ∧ t1.m_nodeCount = t.m_nodeCount ∧
      t1.m_path = t.m_path ∧ t1.m_insertionCount = t.m_insertionCount ∧
      ∀ k, t1.nd k = t.nd k := by
  obtain ⟨hi, hp, hc1, hc2, hh, hb, hl, hr⟩ := h
  have hself : ((t.refreshAABB i).refreshHeight i).nd i = t.nd i := by
    rw [refreshAH_nd t i hi]
    refine node_ext ?_ rfl rfl rfl rfl ?_
    · show b2AABB.Combine _ _ = _
      rw [hc1, hc2, hl.aabb_eq, hr.aabb_eq, hb]
    · show 1 + max _ _ = _
      rw [hc1, hc2, hl.height_eq, hr.height_eq, hh]
  refine ⟨(t.refreshAABB i).refreshHeight i, ?_, ?_, ?_, ?_, ?_, ?_, ?_, ?_⟩
  · unfold shuffleStep
    simp only [hi, hc1, hc2, hl.idx_inRange, hr.idx_inRange, not_true_eq_false, if_false]
    rw [hself, hp]
  · simp [refreshAABB, refreshHeight]
  · simp [refreshAABB, refreshHeight]
  · simp [refreshAABB, refreshHeight]
  · simp [refreshAABB, refreshHeight]
  · simp [refreshAABB, refreshHeight]
  · simp [refreshAABB, refreshHeight]
  · intro k
    by_cases hk : k = i
    · rw [hk]; exact hself
    · exact refreshAH_ne t i k hk

/-- The last loop of `Shuffle`, started at the parent of a subtree of a stored tree, runs to
the root and writes back the values every ancestor already holds. -/
theorem shuffleLoop_same (c : Ctx α) : ∀ (s : Shape α) (t : b2DynamicTree α) (fuel : Nat),
    t.Rep (c.plug s) b2_nullNode → t.m_root = (c.plug s).idx → c.depth + 1 ≤ fuel →
    ∃ t2, ancestorLoop shuffleStep fuel t c.parentIdx = some t2 ∧
      t2.m_nodes.length = t.m_nodes.length ∧
      t2.m_root = t.m_root ∧ t2.m_freeList = t.m_freeList ∧ t2.m_nodeCount = t.m_nodeCount ∧
      t2.m_path = t.m_path ∧ t2.m_insertionCount = t.m_insertionCount ∧
      ∀ k, t2.nd k = t.nd k := by
  induction c with
  | top =>
    intro s t fuel _ _ hfuel
    obtain ⟨f, rfl⟩ : ∃ f, fuel = f + 1 := ⟨fuel - 1, by omega⟩
    exact ⟨t, ancestorLoop_null _ f t, rfl, rfl, rfl, rfl, rfl, rfl, fun _ => rfl⟩
  | left c j r ih =>
    intro s t fuel hrep hroot hfuel
    obtain ⟨f, rfl⟩ : ∃ f, fuel = f + 1 := ⟨fuel - 1, by omega⟩
    have hnode := (Rep.plug_split c (Shape.node j s r) hrep hroot).1
    obtain ⟨t1, hrun1, hlen1, hroot1, hfl1, hnc1, hpa1, hic1, hnd1⟩ := shuffleStep_same hnode
    obtain ⟨t2, hrun2, hlen2, hroot2, hfl2, hnc2, hpa2, hic2, hnd2⟩ :=
      ih (Shape.node j s r) t1 f (Rep.rep_congr hlen1 (fun k _ => hnd1 k) hrep)
        (hroot1.trans hroot) (by simp only [Ctx.depth] at hfuel; omega)
    refine ⟨t2, ?_, hlen2.trans hlen1, hroot2.trans hroot1, hfl2.trans hfl1, hnc2.trans hnc1,
      hpa2.trans hpa1, hic2.trans hic1, fun k => (hnd2 k).trans (hnd1 k)⟩
    show ancestorLoop shuffleStep (f + 1) t j = some t2
    rw [ancestorLoop_step shuffleStep f t t1 _ _ (inRange_ne_null hnode.1) hrun1]
    exact hrun2
  | right c j l ih =>
    intro s t fuel hrep hroot hfuel
    obtain ⟨f, rfl⟩ : ∃ f, fuel = f + 1 := ⟨fuel - 1, by omega⟩
    have hnode := (Rep.plug_split c (Shape.node j l s) hrep hroot).1
    obtain ⟨t1, hrun1, hlen1, hroot1, hfl1, hnc1, hpa1, hic1, hnd1⟩ := shuffleStep_same hnode
    obtain ⟨t2, hrun2, hlen2, hroot2, hfl2, hnc2, hpa2, hic2, hnd2⟩ :=
      ih (Shape.node j l s) t1 f (Rep.rep_congr hlen1 (fun k _ => hnd1 k) hrep)
        (hroot1.trans hroot) (by simp only [Ctx.depth] at hfuel; omega)
    refine ⟨t2, ?_, hlen2.trans hlen1, hroot2.trans hroot1, hfl2.trans hfl1, hnc2.trans hnc1,
      hpa2.trans hpa1, hic2.trans hic1, fun k => (hnd2 k).trans (hnd1 k)⟩
    show ancestorLoop shuffleStep (f + 1) t j = some t2
    rw [ancestorLoop_step shuffleStep f t t1 _ _ (inRange_ne_null hnode.1) hrun1]
    exact hrun2

theorem Shuffle_low (t : b2DynamicTree α) (i : Int) (hi : t.InRange i)
    (h : (t.nd i).height < 2) : t.Shuffle i = some t := by
  unfold Shuffle
  simp only [if_neg (inRange_ne_null hi), hi, not_true_eq_false, if_false, h, if_true]

theorem Shuffle_low_child (t : b2DynamicTree α) (i : Int) (hi : t.InRange i)
    (h1 : t.InRange (t.nd i).child1) (h2 : t.InRange (t.nd i).child2)
    (h : (t.nd (t.nd i).child1).height < 1 ∨ (t.nd (t.nd i).child2).height < 1) :
    t.Shuffle i = some t := by
  unfold Shuffle
  by_cases hh : (t.nd i).height < 2
  · simp only [if_neg (inRange_ne_null hi), hi, not_true_eq_false, if_false, hh, if_true]
  · simp only [if_neg (inRange_ne_null hi), hi, not_true_eq_false, if_false, hh, h1, h2, h,
      if_true]

theorem Shuffle_deep (t : b2DynamicTree α) (i i1 i2 i11 i12 i21 i22 : Int) (hi : t.InRange i)
    (hh : ¬ (t.nd i).height < 2) (e1 : (t.nd i).child1 = i1) (e2 : (t.nd i).child2 = i2)
    (h1 : t.InRange i1) (h2 : t.InRange i2)
    (hh1 : ¬ (t.nd i1).height < 1) (hh2 : ¬ (t.nd i2).height < 1)
    (e11 : (t.nd i1).child1 = i11) (e12 : (t.nd i1).child2 = i12)
    (e21 : (t.nd i2).child1 = i21) (e22 : (t.nd i2).child2 = i22)
    (h11 : t.InRange i11) (h12 : t.InRange i12) (h21 : t.InRange i21) (h22 : t.InRange i22) :
    t.Shuffle i =
      if (shuffleMetrics (t.nd i11).aabb (t.nd i12).aabb (t.nd i21).aabb (t.nd i22).aabb).1 ≤
            (shuffleMetrics (t.nd i11).aabb (t.nd i12).aabb (t.nd i21).aabb
              (t.nd i22).aabb).2.1 ∧
          (shuffleMetrics (t.nd i11).aabb (t.nd i12).aabb (t.nd i21).aabb (t.nd i22).aabb).1 ≤
            (shuffleMetrics (t.nd i11).aabb (t.nd i12).aabb (t.nd i21).aabb
              (t.nd i22).aabb).2.2 then some t
      else if (shuffleMetrics (t.nd i11).aabb (t.nd i12).aabb (t.nd i21).aabb
            (t.nd i22).aabb).2.1 ≤
          (shuffleMetrics (t.nd i11).aabb (t.nd i12).aabb (t.nd i21).aabb
            (t.nd i22).aabb).2.2 then
        (t.shuffleSwap2 i1 i2 i11 i12 i21 i22).shuffleFinish i i1 i2
      else (t.shuffleSwap3 i1 i2 i11 i12 i21 i22).shuffleFinish i i1 i2 := by
  unfold Shuffle
  simp only [if_neg (inRange_ne_null hi), hi, not_true_eq_false, if_false, hh, e1, e2, h1, h2,
    hh1, hh2, or_self, e11, e12, e21, e22, h11, h12, h21, h22, and_self]

theorem area_swap2 (i i1 i2 : Int) (s11 s12 s21 s22 : Shape α) :
    (Shape.node i (Shape.node i1 s11 s22) (Shape.node i2 s21 s12)).area +
        ((shuffleMetrics s11.box s12.box s21.box s22.box).1 -
          (shuffleMetrics s11.box s12.box s21.box s22.box).2.1) =
      (Shape.node i (Shape.node i1 s11 s12) (Shape.node i2 s21 s22)).area := by
  simp only [Shape.area, Shape.box, shuffleMetrics]
  rw [Combine_regroup2, Combine_comm s21.box s12.box]
  ring

theorem area_swap3 (i i1 i2 : Int) (s11 s12 s21 s22 : Shape α) :
    (Shape.node i (Shape.node i1 s11 s21) (Shape.node i2 s12 s22)).area +
        ((shuffleMetrics s11.box s12.box s21.box s22.box).1 -
          (shuffleMetrics s11.box s12.box s21.box s22.box).2.2) =
      (Shape.node i (Shape.node i1 s11 s12) (Shape.node i2 s21 s22)).area := by
  simp only [Shape.area, Shape.box, shuffleMetrics]
  rw [Combine_regroup3]
  ring

theorem plug_fuel {t : b2DynamicTree α} {c : Ctx α} {s : Shape α} {p : Int}
    (hrep : t.Rep (c.plug s) p) (hnd : (c.plug s).ids.Nodup) :
    c.depth + 1 ≤ t.m_nodes.length + 1 := by
  have h1 := length_le_of_nodup_inRange hnd hrep.ids_inRange
  have h2 := (Ctx.plug_ids_perm c s).length_eq
  have h3 := ctx_depth_le_ids_length c
  simp only [List.length_append] at h2
  omega

theorem ShufflePost.same {t : b2DynamicTree α} {c : Ctx α} {sub : Shape α}
    (hrep : t.Rep (c.plug sub) b2_nullNode)
    (hm : ∀ (i i1 i2 : Int) (s11 s12 s21 s22 : Shape α),
      sub = Shape.node i (Shape.node i1 s11 s12) (Shape.node i2 s21 s22) →
      (shuffleMetrics s11.box s12.box s21.box s22.box).1 ≤
            (shuffleMetrics s11.box s12.box s21.box s22.box).2.1 ∧
          (shuffleMetrics s11.box s12.box s21.box s22.box).1 ≤
            (shuffleMetrics s11.box s12.box s21.box s22.box).2.2) :
    ShufflePost t c sub t sub :=
  ⟨hrep, rfl, rfl, rfl, List.Perm.refl _, List.Perm.refl _, rfl, rfl, rfl, rfl, rfl, rfl,
    fun _ _ => rfl, fun _ _ _ => ⟨rfl, rfl⟩, le_refl _,
    fun i i1 i2 s11 s12 s21 s22 e hn => absurd (hm i i1 i2 s11 s12 s21 s22 e) hn⟩

/-- After the grandchildren below `sub.idx` were regrouped into `sub2` (state `tA`), the last
loop of `Shuffle` runs to the root and the whole tree is stored again. -/
theorem ShufflePost.swap {t tA : b2DynamicTree α} {c : Ctx α} {sub sub2 : Shape α}
    (hroot : t.m_root = (c.plug sub).idx) (hrep : t.Rep (c.plug sub) b2_nullNode)
    (hnd : (c.plug sub).ids.Nodup)
    (hrun : t.Shuffle sub.idx =
      ancestorLoop shuffleStep (tA.m_nodes.length + 1) tA c.parentIdx)
    (hrA : tA.Rep sub2 c.parentIdx) (e1 : sub2.idx = sub.idx) (e2 : sub2.height = sub.height)
    (e3 : sub2.box = sub.box) (e4 : sub2.ids.Perm sub.ids) (e5 : sub2.leaves.Perm sub.leaves)
    (alen : tA.m_nodes.length = t.m_nodes.length) (aroot : tA.m_root = t.m_root)
    (afl : tA.m_freeList = t.m_freeList) (anc : tA.m_nodeCount = t.m_nodeCount)
    (apa : tA.m_path = t.m_path) (aic : tA.m_insertionCount = t.m_insertionCount)
    (aframe : ∀ j, j ∉ sub.ids → tA.nd j = t.nd j)
    (astored : ∀ j, j ≠ (t.nd sub.idx).child1 → j ≠ (t.nd sub.idx).child2 →
      (tA.nd j).height = (t.nd j).height ∧ (tA.nd j).aabb = (t.nd j).aabb)
    (hle : sub2.area ≤ sub.area)
    (hsw : ∀ (i i1 i2 : Int) (s11 s12 s21 s22 : Shape α),
      sub = Shape.node i (Shape.node i1 s11 s12) (Shape.node i2 s21 s22) →
      ¬ ((shuffleMetrics s11.box s12.box s21.box s22.box).1 ≤
            (shuffleMetrics s11.box s12.box s21.box s22.box).2.1 ∧
          (shuffleMetrics s11.box s12.box s21.box s22.box).1 ≤
            (shuffleMetrics s11.box s12.box s21.box s22.box).2.2) →
      sub2.area + ((shuffleMetrics s11.box s12.box s21.box s22.box).1 -
        min (shuffleMetrics s11.box s12.box s21.box s22.box).2.1
          (shuffleMetrics s11.box s12.box s21.box s22.box).2.2) = sub.area) :
    ∃ t2, t.Shuffle sub.idx = some t2 ∧ ShufflePost t c sub t2 sub2 := by
  obtain ⟨hsub, -⟩ := Rep.plug_split c sub hrep hroot
  have hnd' : (sub.ids ++ c.ids).Nodup := (List.Perm.nodup_iff (Ctx.plug_ids_perm c sub)).1 hnd
  have hdisj := (List.nodup_append.1 hnd').2.2
  have hrepA : tA.Rep (c.plug sub2) b2_nullNode := by
    refine Rep.plug_replace alen c sub sub2 (fun p hp => ?_) e1 e2 e3
      (fun j hj => aframe j (fun hm => hdisj hm hj)) _ hrep
    rw [← hp.parent_eq, hsub.parent_eq]; exact hrA
  have hndA : (c.plug sub2).ids.Nodup := by
    refine (List.Perm.nodup_iff ((Ctx.plug_ids_perm c sub2).trans ?_)).2 hnd'
    exact List.Perm.append_right _ e4
  obtain ⟨t2, hrun2, hlen2, hroot2, hfl2, hnc2, hpa2, hic2, hnd2⟩ :=
    shuffleLoop_same c sub2 tA (tA.m_nodes.length + 1) hrepA
      (aroot.trans (hroot.trans (Ctx.plug_idx c sub2 sub e1.symm))) (plug_fuel hrepA hndA)
  refine ⟨t2, hrun.trans hrun2, Rep.rep_congr hlen2 (fun k _ => hnd2 k) hrepA, e1, e2, e3,
    e4, e5, hlen2.trans alen, hroot2.trans aroot, hfl2.trans afl, hnc2.trans anc,
    hpa2.trans apa, hic2.trans aic, fun j hj => (hnd2 j).trans (aframe j hj), ?_, hle, hsw⟩
  intro j h1 h2
  rw [hnd2 j]
  exact astored j h1 h2

/-- The function `Shuffle` at the root `sub.idx` of a subtree `sub` of a stored tree
returns, and the state satisfies `ShufflePost`. -/
theorem Shuffle_at {t : b2DynamicTree α} {c : Ctx α} {sub : Shape α}
    (hroot : t.m_root = (c.plug sub).idx) (hrep : t.Rep (c.plug sub) b2_nullNode)
    (hnd : (c.plug sub).ids.Nodup) :
    ∃ t2 sub2, t.Shuffle sub.idx = some t2 ∧ ShufflePost t c sub t2 sub2 := by
  obtain ⟨hsub, -⟩ := Rep.plug_split c sub hrep hroot
  have hnd' : (sub.ids ++ c.ids).Nodup := (List.Perm.nodup_iff (Ctx.plug_ids_perm c sub)).1 hnd
  have hsnd := (List.nodup_append.1 hnd').1
  have hi := hsub.idx_inRange
  cases sub with
  | leaf i b u =>
    refine ⟨t, _, Shuffle_low t i hi ?_, ShufflePost.same hrep (fun _ _ _ _ _ _ _ e => by cases e)⟩
    rw [hsub.2.2.2.2.1]; decide
  | node i l r =>
    obtain ⟨-, -, hc1, hc2, hh, -, hl, hr⟩ := hsub
    simp only [Shape.idx] at hi
    cases l with
    | leaf i1 b1 u1 =>
      refine ⟨t, _, Shuffle_low_child t i hi (hc1 ▸ hl.idx_inRange) (hc2 ▸ hr.idx_inRange)
        (Or.inl ?_), ShufflePost.same hrep (fun _ _ _ _ _ _ _ e => by cases e)⟩
      rw [hc1]; simp only [Shape.idx]; rw [hl.2.2.2.2.1]; decide
    | node i1 s11 s12 =>
      cases r with
      | leaf i2 b2 u2 =>
        refine ⟨t, _, Shuffle_low_child t i hi (hc1 ▸ hl.idx_inRange) (hc2 ▸ hr.idx_inRange)
          (Or.inr ?_), ShufflePost.same hrep (fun _ _ _ _ _ _ _ e => by cases e)⟩
        rw [hc2]; simp only [Shape.idx]; rw [hr.2.2.2.2.1]; decide
      | node i2 s21 s22 =>
        simp only [Shape.idx] at hc1 hc2
        have hsub : t.Rep (Shape.node i (Shape.node i1 s11 s12) (Shape.node i2 s21 s22))
            c.parentIdx := (Rep.plug_split c _ hrep hroot).1
        obtain ⟨h1, -, h1c1, h1c2, h1h, -, r11, r12⟩ := hl
        obtain ⟨h2, -, h2c1, h2c2, h2h, -, r21, r22⟩ := hr
        have g11 := s11.height_nonneg
        have g21 := s21.height_nonneg
        have k1 := le_max_left s11.height s12.height
        have k2 := le_max_left s21.height s22.height
        have k3 := le_max_left (1 + max s11.height s12.height) (1 + max s21.height s22.height)
        have hev := Shuffle_deep t i i1 i2 s11.idx s12.idx s21.idx s22.idx hi
          (by rw [hh]; simp only [Shape.height]; omega) hc1 hc2 h1 h2
          (by rw [h1h]; omega) (by rw [h2h]; omega)
          h1c1 h1c2 h2c1 h2c2 r11.idx_inRange r12.idx_inRange r21.idx_inRange r22.idx_inRange
        rw [r11.aabb_eq, r12.aabb_eq, r21.aabb_eq, r22.aabb_eq] at hev
        by_cases hm : (shuffleMetrics s11.box s12.box s21.box s22.box).1 ≤
              (shuffleMetrics s11.box s12.box s21.box s22.box).2.1 ∧
            (shuffleMetrics s11.box s12.box s21.box s22.box).1 ≤
              (shuffleMetrics s11.box s12.box s21.box s22.box).2.2
        · rw [if_pos hm] at hev
          refine ⟨t, _, hev, ShufflePost.same hrep (fun _ _ _ _ _ _ _ e => ?_)⟩
          cases e; exact hm
        · rw [if_neg hm] at hev
          by_cases hm2 : (shuffleMetrics s11.box s12.box s21.box s22.box).2.1 ≤
              (shuffleMetrics s11.box s12.box s21.box s22.box).2.2
          · rw [if_pos hm2] at hev
            obtain ⟨tA, hrunA, hrA, alen, aroot, afl, anc, apa, aic, aframe, astored⟩ :=
              shuffle_swap2 hsub hsnd
            have harea := area_swap2 i i1 i2 s11 s12 s21 s22
            have hlt : (shuffleMetrics s11.box s12.box s21.box s22.box).2.1 <
                (shuffleMetrics s11.box s12.box s21.box s22.box).1 := by
              by_contra hcon
              exact hm ⟨not_lt.1 hcon, (not_lt.1 hcon).trans hm2⟩
            obtain ⟨t2, q1, q2⟩ := ShufflePost.swap hroot hrep hnd (hev.trans hrunA) hrA rfl
              (by simp only [Shape.height]; exact max_regroup2 _ _ _ _)
              (by simp only [Shape.box]; exact Combine_regroup2 _ _ _ _)
              (List.perm_iff_count.2 fun a => by
                simp only [Shape.ids, List.count_append, List.count_cons, List.cons_append]
                omega)
              (List.perm_iff_count.2 fun a => by
                simp only [Shape.leaves, List.count_append]
                omega)
              alen aroot afl anc apa aic aframe (by simp only [Shape.idx]; rw [hc1, hc2]; exact astored)
              (by rw [← harea]; exact le_add_of_nonneg_right (sub_nonneg.2 hlt.le))
              (by intro _ _ _ _ _ _ _ e _
                  cases e
                  rw [min_eq_left hm2]; exact harea)
            exact ⟨t2, _, q1, q2⟩
          · rw [if_neg hm2] at hev
            obtain ⟨tA, hrunA, hrA, alen, aroot, afl, anc, apa, aic, aframe, astored⟩ :=
              shuffle_swap3 hsub hsnd
            have harea := area_swap3 i i1 i2 s11 s12 s21 s22
            have hlt3 : (shuffleMetrics s11.box s12.box s21.box s22.box).2.2 <
                (shuffleMetrics s11.box s12.box s21.box s22.box).2.1 := not_le.1 hm2
            have hlt : (shuffleMetrics s11.box s12.box s21.box s22.box).2.2 <
                (shuffleMetrics s11.box s12.box s21.box s22.box).1 := by
              by_contra hcon
              exact hm ⟨(not_lt.1 hcon).trans hlt3.le, not_lt.1 hcon⟩
            obtain ⟨t2, q1, q2⟩ := ShufflePost.swap hroot hrep hnd (hev.trans hrunA) hrA rfl
              (by simp only [Shape.height]; exact max_regroup3 _ _ _ _)
              (by simp only [Shape.box]; exact Combine_regroup3 _ _ _ _)
              (List.perm_iff_count.2 fun a => by
                simp only [Shape.ids, List.count_append, List.count_cons, List.cons_append]
                omega)
              (List.perm_iff_count.2 fun a => by
                simp only [Shape.leaves, List.count_append]
                omega)
              alen aroot afl anc apa aic aframe (by simp only [Shape.idx]; rw [hc1, hc2]; exact astored)
              (by rw [← harea]; exact le_add_of_nonneg_right (sub_nonneg.2 hlt.le))
              (by intro _ _ _ _ _ _ _ e _
                  cases e
                  rw [min_eq_right hlt3.le]; exact harea)
            exact ⟨t2, _, q1, q2⟩

/-! ## Shuffle and Rebalance on a whole stored tree -/

theorem plug_height (c : Ctx α) : ∀ (s s1 : Shape α), s1.height = s.height →
    (c.plug s1).height = (c.plug s).height := by
  induction c with
  | top => intro s s1 h; exact h
  | left c j r ih => intro s s1 h; exact ih _ _ (by simp only [Shape.height, h])
  | right c j l ih => intro s s1 h; exact ih _ _ (by simp only [Shape.height, h])

theorem plug_box (c : Ctx α) : ∀ (s s1 : Shape α), s1.box = s.box →
    (c.plug s1).box = (c.plug s).box := by
  induction c with
  | top => intro s s1 h; exact h
  | left c j r ih => intro s s1 h; exact ih _ _ (by simp only [Shape.box, h])
  | right c j l ih => intro s s1 h; exact ih _ _ (by simp only [Shape.box, h])

theorem plug_area (c : Ctx α) : ∀ (s s1 : Shape α), s1.box = s.box →
    (c.plug s1).area + s.area = (c.plug s).area + s1.area := by
  induction c with
  | top => intro s s1 _; exact add_comm _ _
  | left c j r ih =>
    intro s s1 h
    have := ih (Shape.node j s r) (Shape.node j s1 r) (by simp only [Shape.box, h])
    simp only [Ctx.plug]
    simp only [Shape.area, h] at this
    linear_combination this
  | right c j l ih =>
    intro s s1 h
    have := ih (Shape.node j l s) (Shape.node j l s1) (by simp only [Shape.box, h])
    simp only [Ctx.plug]
    simp only [Shape.area, h] at this
    linear_combination this

theorem Rep.totalArea {t : b2DynamicTree α} {s : Shape α} : ∀ {p : Int} (fuel : Nat),
    t.Rep s p → s.depth + 2 ≤ fuel → t.GetTotalArea fuel s.idx = some s.area := by
  induction s with
  | leaf i b u =>
    intro p fuel h hf
    obtain ⟨f, rfl⟩ : ∃ f, fuel = f + 1 + 1 := ⟨fuel - 2, by omega⟩
    obtain ⟨h1, -, h3, h4, -, h6, -⟩ := h
    simp [GetTotalArea, idx_leaf, inRange_ne_null h1, h1, h3, h4, h6, Shape.area]
  | node i l r ihl ihr =>
    intro p fuel h hf
    obtain ⟨f, rfl⟩ : ∃ f, fuel = f + 1 := ⟨fuel - 1, by omega⟩
    obtain ⟨h1, -, h3, h4, -, h6, hl, hr⟩ := h
    simp only [Shape.depth] at hf
    have e1 := ihl f hl (by omega)
    have e2 := ihr f hr (by omega)
    simp only [GetTotalArea, idx_node, if_neg (inRange_ne_null h1), h1, not_true_eq_false,
      if_false, h3, h4, e1, e2, h6, Shape.area]

theorem TreePost.refl {t : b2DynamicTree α} {s : Shape α} (hroot : t.m_root = s.idx)
    (hrep : t.Rep s b2_nullNode) : TreePost t s t s :=
  ⟨hroot, hrep, rfl, rfl, rfl, le_refl _, List.Perm.refl _, List.Perm.refl _, rfl, rfl, rfl,
    rfl, fun _ _ => rfl⟩

theorem TreePost.trans {t t1 t2 : b2DynamicTree α} {s s1 s2 : Shape α}
    (h1 : TreePost t s t1 s1) (h2 : TreePost t1 s1 t2 s2) : TreePost t s t2 s2 :=
  ⟨h2.root, h2.rep, h2.rootIdx.trans h1.rootIdx, h2.height.trans h1.height,
    h2.box.trans h1.box, h2.area_le.trans h1.area_le, h2.ids.trans h1.ids,
    h2.leaves.trans h1.leaves, h2.length.trans h1.length, h2.freeList.trans h1.freeList,
    h2.nodeCount.trans h1.nodeCount, h2.insertionCount.trans h1.insertionCount,
    fun j hj => (h2.frame j (fun hm => hj (h1.ids.mem_iff.1 hm))).trans (h1.frame j hj)⟩

theorem TreePost.path_congr {t t1 t2 : b2DynamicTree α} {s s1 : Shape α}
    (h : TreePost t s t1 s1) (hn : t2.m_nodes = t1.m_nodes) (hr : t2.m_root = t1.m_root)
    (hf : t2.m_freeList = t1.m_freeList) (hc : t2.m_nodeCount = t1.m_nodeCount)
    (hi : t2.m_insertionCount = t1.m_insertionCount) : TreePost t s t2 s1 :=
  ⟨hr.trans h.root, Rep.rep_congr (by rw [hn]) (fun j _ => nd_congr hn j) h.rep, h.rootIdx,
    h.height, h.box, h.area_le, h.ids, h.leaves, (by rw [hn]; exact h.length),
    hf.trans h.freeList, hc.trans h.nodeCount, hi.trans h.insertionCount,
    fun j hj => (nd_congr hn j).trans (h.frame j hj)⟩

/-- The function `Shuffle` at a node `i` of the stored tree `s`: the call returns, the tree
keeps its root, height, box, nodes and leaves; only the two children of `i` may hold a new
height or box; when the grandchildren are regrouped the perimeter sum drops by
`m1 - min m2 m3`. -/
theorem Shuffle_tree {t : b2DynamicTree α} {s : Shape α} (hroot : t.m_root = s.idx)
    (hrep : t.Rep s b2_nullNode) (hnd : s.ids.Nodup) {i : Int} (hi : i ∈ s.ids) :
    ∃ t2 s2, t.Shuffle i = some t2 ∧ TreePost t s t2 s2 ∧ t2.m_path = t.m_path ∧
      (t2.nd i).height = (t.nd i).height ∧ (t2.nd i).aabb = (t.nd i).aabb ∧
      (∀ j, j ≠ (t.nd i).child1 → j ≠ (t.nd i).child2 →
        (t2.nd j).height = (t.nd j).height ∧ (t2.nd j).aabb = (t.nd j).aabb) ∧
      (¬ (t.nd i).height < 2 →
        ¬ ((t.nd (t.nd i).child1).height < 1 ∨ (t.nd (t.nd i).child2).height < 1) →
        ¬ ((shuffleMetrics (t.nd (t.nd (t.nd i).child1).child1).aabb
                (t.nd (t.nd (t.nd i).child1).child2).aabb
                (t.nd (t.nd (t.nd i).child2).child1).aabb
                (t.nd (t.nd (t.nd i).child2).child2).aabb).1 ≤
              (shuffleMetrics (t.nd (t.nd (t.nd i).child1).child1).aabb
                (t.nd (t.nd (t.nd i).child1).child2).aabb
                (t.nd (t.nd (t.nd i).child2).child1).aabb
                (t.nd (t.nd (t.nd i).child2).child2).aabb).2.1 ∧
            (shuffleMetrics (t.nd (t.nd (t.nd i).child1).child1).aabb
                (t.nd (t.nd (t.nd i).child1).child2).aabb
                (t.nd (t.nd (t.nd i).child2).child1).aabb
                (t.nd (t.nd (t.nd i).child2).child2).aabb).1 ≤
              (shuffleMetrics (t.nd (t.nd (t.nd i).child1).child1).aabb
                (t.nd (t.nd (t.nd i).child1).child2).aabb
                (t.nd (t.nd (t.nd i).child2).child1).aabb
                (t.nd (t.nd (t.nd i).child2).child2).aabb).2.2) →
        s2.area + ((shuffleMetrics (t.nd (t.nd (t.nd i).child1).child1).aabb
                (t.nd (t.nd (t.nd i).child1).child2).aabb
                (t.nd (t.nd (t.nd i).child2).child1).aabb
                (t.nd (t.nd (t.nd i).child2).child2).aabb).1 -
            min (shuffleMetrics (t.nd (t.nd (t.nd i).child1).child1).aabb
                (t.nd (t.nd (t.nd i).child1).child2).aabb
                (t.nd (t.nd (t.nd i).child2).child1).aabb
                (t.nd (t.nd (t.nd i).child2).child2).aabb).2.1
              (shuffleMetrics (t.nd (t.nd (t.nd i).child1).child1).aabb
                (t.nd (t.nd (t.nd i).child1).child2).aabb
                (t.nd (t.nd (t.nd i).child2).child1).aabb
                (t.nd (t.nd (t.nd i).child2).child2).aabb).2.2) = s.area) := by
  obtain ⟨c, sub, rfl, hplug⟩ := node_in_context s Ctx.top i hi
  simp only [Ctx.plug] at hplug
  subst hplug
  obtain ⟨t2, sub2, hrun, hp⟩ := Shuffle_at hroot hrep hnd
  obtain ⟨hsub, -⟩ := Rep.plug_split c sub hrep hroot
  have harea := plug_area c sub sub2 hp.box
  have hroot2 : t2.m_root = (c.plug sub2).idx := by
    rw [hp.root, hroot]; exact (Ctx.plug_idx c sub sub2 hp.idx).symm
  have hsub2 := (Rep.plug_split c sub2 hp.rep hroot2).1
  refine ⟨t2, c.plug sub2, hrun, ⟨hroot2, hp.rep, Ctx.plug_idx c sub sub2 hp.idx,
    plug_height c sub sub2 hp.height, plug_box c sub sub2 hp.box, ?_, ?_, ?_, hp.length,
    hp.freeList, hp.nodeCount, hp.insertionCount, ?_⟩, hp.path, ?_, ?_, hp.stored, ?_⟩
  · have := hp.area_le
    have h2 : (c.plug sub2).area + sub.area ≤ (c.plug sub).area + sub.area := by
      rw [harea]; exact add_le_add_left this _
    exact le_of_add_le_add_right h2
  · exact (Ctx.plug_ids_perm c sub2).trans
      ((List.Perm.append_right _ hp.ids).trans (Ctx.plug_ids_perm c sub).symm)
  · exact (Ctx.plug_leaves_perm c sub2).trans
      ((List.Perm.append_right _ hp.leaves).trans (Ctx.plug_leaves_perm c sub).symm)
  · intro j hj
    exact hp.frame j (fun hm => hj ((Ctx.plug_ids_perm c sub).mem_iff.2
      (List.mem_append_left _ hm)))
  · rw [← hp.idx, hsub2.height_eq, hp.height, hp.idx, hsub.height_eq]
  · rw [← hp.idx, hsub2.aabb_eq, hp.box, hp.idx, hsub.aabb_eq]
  · intro g0 g1 gm
    cases sub with
    | leaf i b u =>
      exfalso; apply g0; simp only [Shape.idx]; rw [hsub.2.2.2.2.1]; decide
    | node i l r =>
      obtain ⟨-, -, hc1, hc2, -, -, hl, hr⟩ := hsub
      simp only [Shape.idx] at g0 g1 gm ⊢
      rw [hc1, hc2] at g1 gm ⊢
      cases l with
      | leaf i1 b1 u1 =>
        exfalso; apply g1; left; simp only [Shape.idx]; rw [hl.2.2.2.2.1]; decide
      | node i1 s11 s12 =>
        cases r with
        | leaf i2 b2 u2 =>
          exfalso; apply g1; right; simp only [Shape.idx]; rw [hr.2.2.2.2.1]; decide
        | node i2 s21 s22 =>
          obtain ⟨-, -, h1c1, h1c2, -, -, r11, r12⟩ := hl
          obtain ⟨-, -, h2c1, h2c2, -, -, r21, r22⟩ := hr
          simp only [Shape.idx] at gm ⊢
          rw [h1c1, h1c2, h2c1, h2c2, r11.aabb_eq, r12.aabb_eq, r21.aabb_eq, r22.aabb_eq]
            at gm ⊢
          have := hp.area_swap i i1 i2 s11 s12 s21 s22 rfl gm
          linear_combination this + harea

theorem advancePath_nodes (t : b2DynamicTree α) : t.advancePath.m_nodes = t.m_nodes := by
  unfold advancePath; split <;> rfl

theorem advancePath_root (t : b2DynamicTree α) : t.advancePath.m_root = t.m_root := by
  unfold advancePath; split <;> rfl

theorem advancePath_freeList (t : b2DynamicTree α) :
    t.advancePath.m_freeList = t.m_freeList := by
  unfold advancePath; split <;> rfl

theorem advancePath_nodeCount (t : b2DynamicTree α) :
    t.advancePath.m_nodeCount = t.m_nodeCount := by
  unfold advancePath; split <;> rfl

theorem advancePath_insertionCount (t : b2DynamicTree α) :
    t.advancePath.m_insertionCount = t.m_insertionCount := by
  unfold advancePath; split <;> rfl

theorem advancePath_path (t : b2DynamicTree α) :
    t.advancePath.m_path = if t.m_path + 1 = t.m_nodeCapacity then 0 else t.m_path + 1 := by
  unfold advancePath; split <;> rfl

theorem advancePath_inRange (t : b2DynamicTree α) (h : t.InRange t.m_path) :
    t.advancePath.InRange t.advancePath.m_path := by
  have hn := advancePath_nodes t
  unfold InRange m_nodeCapacity at h ⊢
  rw [hn, advancePath_path]
  unfold m_nodeCapacity
  split <;> omega

/-- The inner loop of `Rebalance` ends within `n` steps at a slot that is not free, when an
allocated slot `a` lies `n` steps ahead of the cursor (cyclically). -/
theorem skipFree_spec {a : Int} : ∀ (n : Nat) (t : b2DynamicTree α) (fuel : Nat),
    t.InRange t.m_path → t.InRange a → (t.nd a).height ≠ -1 →
    ((t.m_path ≤ a ∧ (n : Int) = a - t.m_path) ∨
      (a < t.m_path ∧ (n : Int) = t.m_nodeCapacity - t.m_path + a)) →
    n + 1 ≤ fuel →
    ∃ t1 k, skipFree fuel t = some (t1, k) ∧ k ≤ n ∧ t1.m_nodes = t.m_nodes ∧
      t1.m_root = t.m_root ∧ t1.m_freeList = t.m_freeList ∧ t1.m_nodeCount = t.m_nodeCount ∧
      t1.m_insertionCount = t.m_insertionCount ∧ t1.InRange t1.m_path ∧
      (t1.nd t1.m_path).height ≠ -1 := by
  intro n
  induction n with
  | zero =>
    intro t fuel hp ha hh hn hf
    obtain ⟨f, rfl⟩ : ∃ f, fuel = f + 1 := ⟨fuel - 1, by omega⟩
    have hpa : t.m_path = a := by
      unfold InRange at hp ha
      rcases hn with ⟨h1, h2⟩ | ⟨h1, h2⟩ <;> push_cast at h2 <;> omega
    have hh' : (t.nd t.m_path).height ≠ -1 := by rw [hpa]; exact hh
    refine ⟨t, 0, ?_, le_refl _, rfl, rfl, rfl, rfl, rfl, hp, hh'⟩
    simp only [skipFree, hp, not_true_eq_false, if_false, hh']
  | succ n ih =>
    intro t fuel hp ha hh hn hf
    obtain ⟨f, rfl⟩ : ∃ f, fuel = f + 1 := ⟨fuel - 1, by omega⟩
    by_cases hfree : (t.nd t.m_path).height = -1
    · have hne : t.m_path ≠ a := fun e => hh (e ▸ hfree)
      have hnodes := advancePath_nodes t
      obtain ⟨t1, k, hrun, hk, h1, h2, h3, h4, h5, h6, h7⟩ :=
        ih t.advancePath f (advancePath_inRange t hp) ((inRange_congr hnodes a).2 ha)
          (by rw [nd_congr hnodes]; exact hh)
          (by
            have hcap : t.advancePath.m_nodeCapacity = t.m_nodeCapacity := by
              unfold m_nodeCapacity; rw [hnodes]
            rw [advancePath_path, hcap]
            unfold InRange at hp ha
            push_cast at hn
            split <;> omega)
          (by omega)
      refine ⟨t1, k + 1, ?_, by omega, h1.trans hnodes, h2.trans (advancePath_root t),
        h3.trans (advancePath_freeList t), h4.trans (advancePath_nodeCount t),
        h5.trans (advancePath_insertionCount t), h6, h7⟩
      simp only [skipFree, hp, not_true_eq_false, if_false, hfree, if_true, hrun,
        Option.map_some']
    · refine ⟨t, 0, ?_, Nat.zero_le _, rfl, rfl, rfl, rfl, rfl, hp, hfree⟩
      simp only [skipFree, hp, not_true_eq_false, if_false, hfree]

/-- From a cursor in range the inner loop of `Rebalance` finds the allocated slot `a` (or an
earlier one) in fewer than `m_nodeCapacity` steps. -/
theorem skipFree_total {t : b2DynamicTree α} {a : Int} (hp : t.InRange t.m_path)
    (ha : t.InRange a) (hh : (t.nd a).height ≠ -1) :
    ∃ t1 k, skipFree t.m_nodes.length t = some (t1, k) ∧ k < t.m_nodes.length ∧
      t1.m_nodes = t.m_nodes ∧
      t1.m_root = t.m_root ∧ t1.m_freeList = t.m_freeList ∧ t1.m_nodeCount = t.m_nodeCount ∧
      t1.m_insertionCount = t.m_insertionCount ∧ t1.InRange t1.m_path ∧
      (t1.nd t1.m_path).height ≠ -1 := by
  have hp' := hp
  have ha' := ha
  unfold InRange m_nodeCapacity at hp' ha'
  by_cases hle : t.m_path ≤ a
  · obtain ⟨t1, k, h, hk, rest⟩ := skipFree_spec (a := a) (a - t.m_path).toNat t
      t.m_nodes.length hp ha hh (Or.inl ⟨hle, by omega⟩) (by omega)
    exact ⟨t1, k, h, by omega, rest⟩
  · obtain ⟨t1, k, h, hk, rest⟩ := skipFree_spec (a := a)
      (t.m_nodeCapacity - t.m_path + a).toNat t t.m_nodes.length hp ha hh
      (Or.inr ⟨by omega, by unfold m_nodeCapacity; omega⟩) (by unfold m_nodeCapacity; omega)
    refine ⟨t1, k, h, ?_, rest⟩
    unfold m_nodeCapacity at hk
    omega

theorem TreePost.post_others {t t2 : b2DynamicTree α} {s s2 : Shape α} (h : TreePost t s t2 s2)
    (hoth : ∀ j, t.InRange j → j ∈ s.ids ∨ (t.nd j).height = -1) :
    ∀ j, t2.InRange j → j ∈ s2.ids ∨ (t2.nd j).height = -1 := by
  intro j hj
  by_cases hm : j ∈ s.ids
  · exact Or.inl (h.ids.mem_iff.2 hm)
  · rw [h.frame j hm]
    exact Or.inr ((hoth j ((inRange_of_length h.length j).1 hj)).resolve_left hm)

theorem TreePost.post_nodup {t t2 : b2DynamicTree α} {s s2 : Shape α} (h : TreePost t s t2 s2)
    (hnd : s.ids.Nodup) : s2.ids.Nodup := (List.Perm.nodup_iff h.ids).2 hnd

/-- One pass of the loop of `Rebalance` on a non-empty stored tree: the inner loop ends, the
call of `Shuffle` returns, and the cursor stays in range. -/
theorem rebalanceStep_spec {t : b2DynamicTree α} {s : Shape α} (hroot : t.m_root = s.idx)
    (hrep : t.Rep s b2_nullNode) (hnd : s.ids.Nodup)
    (hoth : ∀ j, t.InRange j → j ∈ s.ids ∨ (t.nd j).height = -1)
    (hpath : t.InRange t.m_path) :
    ∃ t2 s2, rebalanceStep t.m_nodes.length t = some t2 ∧ TreePost t s t2 s2 ∧
      t2.InRange t2.m_path := by
  have hh : (t.nd s.idx).height ≠ -1 := by
    rw [hrep.height_eq]; have := s.height_nonneg; omega
  obtain ⟨t1, k, hrun1, -, hn1, hr1, hf1, hc1, hi1, hp1, hh1⟩ :=
    skipFree_total hpath hrep.idx_inRange hh
  have hpost1 : TreePost t s t1 s :=
    (TreePost.refl hroot hrep).path_congr hn1 hr1 hf1 hc1 hi1
  have hmem : t1.m_path ∈ s.ids := by
    have := hoth t1.m_path ((inRange_congr hn1 _).1 hp1)
    rw [← nd_congr hn1] at this
    exact this.resolve_right hh1
  obtain ⟨t2, s2, hrun2, hpost2, hpa2, -, -, -, -⟩ :=
    Shuffle_tree hpost1.root hpost1.rep hnd hmem
  have hp2 : t2.InRange t2.m_path := by
    rw [hpa2]; exact (inRange_of_length hpost2.length _).2 hp1
  refine ⟨t2.advancePath, s2, ?_, (hpost1.trans hpost2).path_congr (advancePath_nodes t2)
    (advancePath_root t2) (advancePath_freeList t2) (advancePath_nodeCount t2)
    (advancePath_insertionCount t2), advancePath_inRange t2 hp2⟩
  unfold rebalanceStep
  simp only [hrun1, hrun2]

theorem rebalanceLoop_spec : ∀ (n : Nat) (t : b2DynamicTree α) (s : Shape α) (fuel : Nat),
    fuel = t.m_nodes.length → t.m_root = s.idx → t.Rep s b2_nullNode → s.ids.Nodup →
    (∀ j, t.InRange j → j ∈ s.ids ∨ (t.nd j).height = -1) → t.InRange t.m_path →
    ∃ t2 s2, rebalanceLoop fuel n t = some t2 ∧ TreePost t s t2 s2 ∧
      t2.InRange t2.m_path := by
  intro n
  induction n with
  | zero =>
    intro t s fuel _ hroot hrep _ _ hpath
    exact ⟨t, s, rfl, TreePost.refl hroot hrep, hpath⟩
  | succ n ih =>
    intro t s fuel hfuel hroot hrep hnd hoth hpath
    obtain ⟨t1, s1, hrun1, hpost1, hp1⟩ := rebalanceStep_spec hroot hrep hnd hoth hpath
    obtain ⟨t2, s2, hrun2, hpost2, hp2⟩ := ih t1 s1 fuel (hfuel.trans hpost1.length.symm)
      hpost1.root hpost1.rep (hpost1.post_nodup hnd) (hpost1.post_others hoth) hp1
    refine ⟨t2, s2, ?_, hpost1.trans hpost2, hp2⟩
    rw [hfuel]
    simp only [rebalanceLoop, hrun1]
    rw [← hfuel]; exact hrun2

/-- The function `Rebalance` on a non-empty stored tree returns; the tree keeps its root,
height, box, nodes and leaves, and the cursor stays in range. -/
theorem Rebalance_tree {t : b2DynamicTree α} {s : Shape α} (hroot : t.m_root = s.idx)
    (hrep : t.Rep s b2_nullNode) (hnd : s.ids.Nodup)
    (hoth : ∀ j, t.InRange j → j ∈ s.ids ∨ (t.nd j).height = -1)
    (hpath : t.InRange t.m_path) (iterations : Int) :
    ∃ t2 s2, t.Rebalance iterations = some t2 ∧ TreePost t s t2 s2 ∧
      t2.InRange t2.m_path := by
  have hrn : t.m_root ≠ b2_nullNode := by rw [hroot]; exact inRange_ne_null hrep.idx_inRange
  obtain ⟨t2, s2, hrun, hpost, hp⟩ :=
    rebalanceLoop_spec iterations.toNat t s _ rfl hroot hrep hnd hoth hpath
  exact ⟨t2, s2, by unfold Rebalance; rw [if_neg hrn]; exact hrun, hpost, hp⟩

/-! ## The invariant of the reachable states -/

theorem Fatten_contains {ext : α} (hext : 0 ≤ ext) (a : b2AABB α) :
    (b2AABB.Fatten ext a).Contains a := by
  unfold b2AABB.Contains b2AABB.Fatten
  refine ⟨?_, ?_, ?_, ?_⟩ <;> simp only <;> linarith

theorem predictAABB_contains {ext : α} (hext : 0 ≤ ext) (mult : α) (a : b2AABB α)
    (d : b2Vec2 α) : (predictAABB ext mult a d).Contains a := by
  unfold b2AABB.Contains predictAABB b2AABB.Fatten
  simp only
  split_ifs <;> refine ⟨?_, ?_, ?_, ?_⟩ <;> simp only <;> linarith

theorem Inv.others {t : b2DynamicTree α} {o : Option (Shape α)} {fl : List Int}
    (h : t.Inv o fl) : ∀ j, t.InRange j → j ∈ idsOf o ∨ (t.nd j).height = -1 := by
  intro j hj
  rcases h.arena.cover j hj with h1 | h1
  · exact Or.inl h1
  · exact Or.inr (h.arena.chain.free_inRange j h1).2

theorem Inv.ids_nodup {t : b2DynamicTree α} {o : Option (Shape α)} {fl : List Int}
    (h : t.Inv o fl) : (idsOf o).Nodup := (List.nodup_append.1 h.arena.nodup).1

theorem Inv.new_inv : (new : b2DynamicTree α).Inv none
    ((List.range' 0 16).map fun x : Nat => (x : Int)) := by
  have hn : (new : b2DynamicTree α).m_nodes = [] ++ freeChain ([] : List (b2TreeNode α)).length
      16 := rfl
  have hlen : (new : b2DynamicTree α).m_nodes.length = 16 := by
    rw [hn, List.length_append, freeChain_length]; rfl
  refine ⟨rfl, ⟨?_, ?_, ?_, ?_, rfl, ?_⟩, ?_, ?_⟩
  · have := freeChain_chain (t := (new : b2DynamicTree α)) hn (Nat.zero_le _) 16 0 rfl
      (Nat.le_refl _)
    simpa using this
  · simp only [idsOf, List.nil_append]
    exact (List.nodup_range' 0 16).map (fun a b h => by exact_mod_cast h)
  · intro i hi; simp [idsOf] at hi
  · intro i hi
    right
    unfold InRange m_nodeCapacity at hi
    rw [hlen] at hi
    refine List.mem_map.2 ⟨i.toNat, ?_, ?_⟩
    · rw [List.mem_range']
      exact ⟨i.toNat, by omega, by omega⟩
    · omega
  · unfold m_nodeCapacity; rw [hlen]; simp [idsOf]
  · unfold InRange m_nodeCapacity; rw [hlen]; exact ⟨le_refl _, by show (0 : Int) < ((16 : Nat) : Int); decide⟩
  · rw [hlen]

/-- `CreateProxy` keeps the invariant: the call returns a fresh id, the new tree holds the
old leaves and the new one. -/
theorem Inv.create {t : b2DynamicTree α} {o : Option (Shape α)} {fl : List Int}
    (h : t.Inv o fl) (ext : α) (aabb : b2AABB α) (u : Nat) :
    ∃ t1 id s1 fl1, CreateProxy ext t aabb u = some (t1, id) ∧ t1.Inv (some s1) fl1 ∧
      s1.leaves.Perm ((id, b2AABB.Fatten ext aabb, u) :: leavesOf o) ∧ id ∉ idsOf o ∧
      (t1.m_nodes.length = t.m_nodes.length ∨ t1.m_nodes.length = 2 * t.m_nodes.length) := by
  obtain ⟨t1, id, s1, fl1, hrun, hroot, harena, hlv, hid, hpa, -, hlen, hir⟩ :=
    CreateProxy_spec ext h.root h.arena (by have := h.capacity; omega) aabb u
  refine ⟨t1, id, s1, fl1, hrun, ⟨hroot, harena, ?_, ?_⟩, hlv, hid, hlen⟩
  · rw [hpa]; exact hir _ h.path
  · have := h.capacity
    rcases hlen with e | e <;> omega

/-- `DestroyProxy` of a leaf keeps the invariant: the call returns and the new tree holds
the other leaves. -/
theorem Inv.destroy {t : b2DynamicTree α} {o : Option (Shape α)} {fl : List Int}
    (h : t.Inv o fl) {id : Int} {b : b2AABB α} {u : Nat} (hx : (id, b, u) ∈ leavesOf o) :
    ∃ t1 o1 fl1, t.DestroyProxy id = some t1 ∧ t1.Inv o1 fl1 ∧
      (leavesOf o).Perm ((id, b, u) :: leavesOf o1) ∧
      t1.m_nodes.length = t.m_nodes.length := by
  obtain ⟨t1, o1, fl1, hrun, hroot, harena, hlv, hlen, hpa, -⟩ :=
    DestroyProxy_spec h.root h.arena hx
  refine ⟨t1, o1, fl1, hrun, ⟨hroot, harena, ?_, ?_⟩, hlv, hlen⟩
  · rw [hpa]; exact (inRange_of_length hlen _).2 h.path
  · rw [hlen]; exact h.capacity

/-- `MoveProxy` of a leaf keeps the invariant: the call returns, with `false` and the same
state when the stored box contains the new one, otherwise with `true` and a tree that holds
the same leaves, the moved one with the predicted box. -/
theorem Inv.move {t : b2DynamicTree α} {o : Option (Shape α)} {fl : List Int}
    (h : t.Inv o fl) (ext mult : α) {id : Int} {b : b2AABB α} {u : Nat}
    (hx : (id, b, u) ∈ leavesOf o) (aabb : b2AABB α) (d : b2Vec2 α) :
    ∃ t1 moved o1 fl1 rest, MoveProxy ext mult t id aabb d = some (t1, moved) ∧
      t1.Inv o1 fl1 ∧ (leavesOf o).Perm ((id, b, u) :: rest) ∧
      (leavesOf o1).Perm
        ((id, (if moved then predictAABB ext mult aabb d else b), u) :: rest) ∧
      (moved = false ↔ b.Contains aabb) ∧ (moved = false → t1 = t) ∧
      t1.m_nodes.length = t.m_nodes.length := by
  obtain ⟨t1, moved, o1, fl1, rest, hrun, hroot, harena, hlv, hlv1, hm, hsame, hlen, hpa⟩ :=
    MoveProxy_spec ext mult h.root h.arena hx aabb d
  refine ⟨t1, moved, o1, fl1, rest, hrun, ⟨hroot, harena, ?_, ?_⟩, hlv, hlv1, hm, hsame, hlen⟩
  · rw [hpa]; exact (inRange_of_length hlen _).2 h.path
  · rw [hlen]; exact h.capacity

/-- `Rebalance` keeps the invariant: the call returns, the tree keeps its leaves, and the
empty tree is not touched. -/
theorem Inv.rebalance {t : b2DynamicTree α} {o : Option (Shape α)} {fl : List Int}
    (h : t.Inv o fl) (iterations : Int) :
    ∃ t1 o1, t.Rebalance iterations = some t1 ∧ t1.Inv o1 fl ∧
      (leavesOf o1).Perm (leavesOf o) ∧ (idsOf o1).Perm (idsOf o) ∧
      t1.m_nodes.length = t.m_nodes.length ∧ t1.m_root = t.m_root ∧
      t1.m_nodeCount = t.m_nodeCount ∧ (t.m_root = b2_nullNode → t1 = t) := by
  cases o with
  | none =>
    have hr : t.m_root = b2_nullNode := h.root
    exact ⟨t, none, by unfold Rebalance; rw [if_pos hr], h, List.Perm.refl _,
      List.Perm.refl _, rfl, rfl, rfl, fun _ => rfl⟩
  | some s =>
    obtain ⟨hroot, hrep⟩ := h.root
    obtain ⟨t1, s1, hrun, hpost, hp⟩ :=
      Rebalance_tree hroot hrep h.ids_nodup h.others h.path iterations
    refine ⟨t1, some s1, hrun, ⟨⟨hpost.root, hpost.rep⟩, ?_, hp, ?_⟩, hpost.leaves, hpost.ids,
      hpost.length, ?_, hpost.nodeCount, ?_⟩
    · refine Arena.arena_congr h.arena hpost.length hpost.freeList hpost.nodeCount hpost.ids
        (fun j hj => hpost.frame j (fun hm => ?_))
      exact (List.nodup_append.1 h.arena.nodup).2.2 hm hj
    · rw [hpost.length]; exact h.capacity
    · rw [hpost.root, hpost.rootIdx, hroot]
    · intro hn
      rw [hroot] at hn
      exact absurd hn (inRange_ne_null hrep.idx_inRange)

theorem leafIds_nodup (s : Shape α) (h : s.ids.Nodup) : s.leafIds.Nodup := by
  induction s with
  | leaf i b u => simp [Shape.leafIds, Shape.leaves]
  | node i l r ihl ihr =>
    simp only [Shape.ids, List.nodup_cons, List.nodup_append] at h
    obtain ⟨-, hl, hr, hd⟩ := h
    simp only [Shape.leafIds, Shape.leaves, List.map_append]
    refine List.nodup_append.2 ⟨ihl hl, ihr hr, ?_⟩
    intro a ha hb
    exact hd (l.leafIds_subset a ha) (r.leafIds_subset a hb)

theorem leavesOf_nodup {o : Option (Shape α)} (h : (idsOf o).Nodup) :
    ((leavesOf o).map Prod.fst).Nodup := by
  cases o with
  | none => simp [leavesOf]
  | some s => exact leafIds_nodup s h

theorem filter_ne_perm {L R : List Int} {id : Int} (hp : L.Perm (id :: R)) (hnd : L.Nodup) :
    (L.filter fun x => decide (x ≠ id)).Perm R := by
  have hnd2 : (id :: R).Nodup := (List.Perm.nodup_iff hp).1 hnd
  have hid : id ∉ R := (List.nodup_cons.1 hnd2).1
  refine (hp.filter _).trans ?_
  rw [List.filter_cons_of_neg (by simp)]
  rw [List.filter_eq_self.2]
  intro a ha
  have hne : a ≠ id := fun e => hid (e ▸ ha)
  simpa using hne

theorem map_fst_filter (live : List (Int × b2AABB α)) (id : Int) :
    (live.filter fun x => decide (x.1 ≠ id)).map Prod.fst =
      (live.map Prod.fst).filter fun x => decide (x ≠ id) := by
  rw [List.filter_map]; rfl

theorem mem_leaves_of_id {L : List (Int × b2AABB α × Nat)} {id : Int}
    (h : id ∈ L.map Prod.fst) : ∃ b u, (id, b, u) ∈ L := by
  obtain ⟨⟨i, b, u⟩, hx, rfl⟩ := List.mem_map.1 h
  exact ⟨b, u, hx⟩

/-- Every reachable state satisfies the invariant `Inv`; the live proxies are the leaves of
its tree, and (for a non-negative margin) every leaf box contains the box last passed for
its proxy. -/
theorem Reach.invariant {ext mult : α} {t : b2DynamicTree α} {live : List (Int × b2AABB α)}
    (h : Reach ext mult t live) :
    ∃ o fl, t.Inv o fl ∧ (live.map Prod.fst).Perm ((leavesOf o).map Prod.fst) ∧
      (0 ≤ ext → ∀ x ∈ live, ∃ b u, (x.1, b, u) ∈ leavesOf o ∧ b.Contains x.2) := by
  induction h with
  | init => exact ⟨none, _, Inv.new_inv, List.Perm.refl _, fun _ x hx => by simp at hx⟩
  | @create t t1 live id aabb u _ hc ih =>
    obtain ⟨o, fl, hinv, hperm, hbox⟩ := ih
    obtain ⟨t1', id', s1, fl1, hrun, hinv1, hlv, -, -⟩ := hinv.create ext aabb u
    rw [hc] at hrun
    obtain ⟨rfl, rfl⟩ := Prod.mk.inj (Option.some.inj hrun)
    refine ⟨some s1, fl1, hinv1, ?_, ?_⟩
    · have := (hlv.map Prod.fst).symm
      simp only [List.map_cons] at this ⊢
      exact (List.Perm.cons _ hperm).trans this
    · intro hext x hx
      rcases List.mem_cons.1 hx with rfl | hx
      · exact ⟨_, u, hlv.mem_iff.2 (List.mem_cons_self _ _), Fatten_contains hext _⟩
      · obtain ⟨b, u', hm, hcon⟩ := hbox hext x hx
        exact ⟨b, u', hlv.mem_iff.2 (List.mem_cons_of_mem _ hm), hcon⟩
  | @destroy t t1 live id _ hid hd ih =>
    obtain ⟨o, fl, hinv, hperm, hbox⟩ := ih
    obtain ⟨b, u, hx⟩ := mem_leaves_of_id (hperm.mem_iff.1 hid)
    obtain ⟨t1', o1, fl1, hrun, hinv1, hlv, -⟩ := hinv.destroy hx
    rw [hd] at hrun
    obtain rfl := Option.some.inj hrun
    have hndl : (live.map Prod.fst).Nodup :=
      (List.Perm.nodup_iff hperm).2 (leavesOf_nodup hinv.ids_nodup)
    refine ⟨o1, fl1, hinv1, ?_, ?_⟩
    · rw [map_fst_filter]
      refine filter_ne_perm (hperm.trans ?_) hndl
      simpa using hlv.map Prod.fst
    · intro hext x hx
      obtain ⟨hxl, hne⟩ := List.mem_filter.1 hx
      obtain ⟨b', u', hm, hcon⟩ := hbox hext x hxl
      refine ⟨b', u', ?_, hcon⟩
      rcases List.mem_cons.1 (hlv.mem_iff.1 hm) with e | hm'
      · exact absurd (congrArg Prod.fst e) (by simpa using hne)
      · exact hm'
  | @move t t1 live moved id aabb d _ hid hm ih =>
    obtain ⟨o, fl, hinv, hperm, hbox⟩ := ih
    obtain ⟨b, u, hx⟩ := mem_leaves_of_id (hperm.mem_iff.1 hid)
    obtain ⟨t1', moved', o1, fl1, rest, hrun, hinv1, hlv, hlv1, hmv, -, -⟩ :=
      hinv.move ext mult hx aabb d
    rw [hm] at hrun
    obtain ⟨rfl, rfl⟩ := Prod.mk.inj (Option.some.inj hrun)
    have hndl : (live.map Prod.fst).Nodup :=
      (List.Perm.nodup_iff hperm).2 (leavesOf_nodup hinv.ids_nodup)
    refine ⟨o1, fl1, hinv1, ?_, ?_⟩
    · simp only [List.map_cons]
      rw [map_fst_filter]
      have h1 : ((live.map Prod.fst).filter fun x => decide (x ≠ id)).Perm
          (rest.map Prod.fst) := by
        refine filter_ne_perm (hperm.trans ?_) hndl
        simpa using hlv.map Prod.fst
      refine (List.Perm.cons _ h1).trans ?_
      simpa using (hlv1.map Prod.fst).symm
    · intro hext x hx
      rcases List.mem_cons.1 hx with rfl | hx
      · refine ⟨_, u, hlv1.mem_iff.2 (List.mem_cons_self _ _), ?_⟩
        cases moved with
        | true => exact predictAABB_contains hext mult aabb d
        | false => simpa using hmv.1 rfl
      · obtain ⟨hxl, hne⟩ := List.mem_filter.1 hx
        obtain ⟨b', u', hm', hcon⟩ := hbox hext x hxl
        refine ⟨b', u', ?_, hcon⟩
        rcases List.mem_cons.1 (hlv.mem_iff.1 hm') with e | hm''
        · exact absurd (congrArg Prod.fst e) (by simpa using hne)
        · exact hlv1.mem_iff.2 (List.mem_cons_of_mem _ hm'')
  | @rebalance t t1 live k _ hr ih =>
    obtain ⟨o, fl, hinv, hperm, hbox⟩ := ih
    obtain ⟨t1', o1, hrun, hinv1, hlv, -⟩ := hinv.rebalance k
    rw [hr] at hrun
    obtain rfl := Option.some.inj hrun
    refine ⟨o1, fl, hinv1, hperm.trans (hlv.map Prod.fst).symm, ?_⟩
    intro hext x hx
    obtain ⟨b, u, hm, hcon⟩ := hbox hext x hx
    exact ⟨b, u, hlv.mem_iff.2 hm, hcon⟩

/-! ## The validators on a stored tree -/

theorem Rep.validateStructure {t : b2DynamicTree α} {s : Shape α}
    (hrp : (t.nd t.m_root).parent = b2_nullNode) : ∀ {p : Int} (fuel : Nat),
    t.Rep s p → (p = b2_nullNode ∨ t.InRange p) → s.depth + 1 ≤ fuel →
    t.ValidateStructure fuel s.idx = some () := by
  induction s with
  | leaf i b u =>
    intro p fuel h hp hf
    obtain ⟨f, rfl⟩ : ∃ f, fuel = f + 1 := ⟨fuel - 1, by omega⟩
    obtain ⟨h1, h2, h3, h4, h5, -⟩ := h
    have hnr : ¬ (i = t.m_root ∧ (t.nd i).parent ≠ b2_nullNode) := by
      rintro ⟨e, hne⟩; rw [e] at hne; exact hne hrp
    simp only [ValidateStructure, idx_leaf, if_neg (inRange_ne_null h1), h1, not_true_eq_false,
      if_false, hnr, b2TreeNode.IsLeaf, h3, h4, h5, beq_self_eq_true, and_self, if_true]
  | node i l r ihl ihr =>
    intro p fuel h hp hf
    obtain ⟨f, rfl⟩ : ∃ f, fuel = f + 1 := ⟨fuel - 1, by omega⟩
    have hleaf := h.isLeaf_node
    obtain ⟨h1, h2, h3, h4, -, -, hl, hr⟩ := h
    have hnr : ¬ (i = t.m_root ∧ (t.nd i).parent ≠ b2_nullNode) := by
      rintro ⟨e, hne⟩; rw [e] at hne; exact hne hrp
    simp only [Shape.depth] at hf
    have e1 := ihl f hl (Or.inr h1) (by omega)
    have e2 := ihr f hr (Or.inr h1) (by omega)
    simp only [ValidateStructure, idx_node, if_neg (inRange_ne_null h1), h1, not_true_eq_false,
      if_false, hnr, hleaf, Bool.false_eq_true, h3, h4, hl.idx_inRange, hr.idx_inRange, and_self,
      hl.parent_eq, hr.parent_eq, ne_eq, e1, e2]

theorem Rep.validateMetrics {t : b2DynamicTree α} {s : Shape α} : ∀ {p : Int} (fuel : Nat),
    t.Rep s p → s.depth + 1 ≤ fuel → t.ValidateMetrics fuel s.idx = some () := by
  induction s with
  | leaf i b u =>
    intro p fuel h hf
    obtain ⟨f, rfl⟩ : ∃ f, fuel = f + 1 := ⟨fuel - 1, by omega⟩
    obtain ⟨h1, h2, h3, h4, h5, -⟩ := h
    simp only [ValidateMetrics, idx_leaf, if_neg (inRange_ne_null h1), h1, not_true_eq_false,
      if_false, b2TreeNode.IsLeaf, h3, h4, h5, beq_self_eq_true, and_self, if_true]
  | node i l r ihl ihr =>
    intro p fuel h hf
    obtain ⟨f, rfl⟩ : ∃ f, fuel = f + 1 := ⟨fuel - 1, by omega⟩
    have hleaf := h.isLeaf_node
    obtain ⟨h1, h2, h3, h4, h5, h6, hl, hr⟩ := h
    simp only [Shape.depth] at hf
    have e1 := ihl f hl (by omega)
    have e2 := ihr f hr (by omega)
    simp only [ValidateMetrics, idx_node, if_neg (inRange_ne_null h1), h1, not_true_eq_false,
      if_false, hleaf, Bool.false_eq_true, h3, h4, hl.idx_inRange, hr.idx_inRange, and_self,
      h5, hl.height_eq, hr.height_eq, h6, hl.aabb_eq, hr.aabb_eq, ne_eq, e1, e2]

theorem FreeChain.countFree_eq {t : b2DynamicTree α} : ∀ (fl : List Int) (i : Int) (fuel : Nat),
    t.FreeChain i fl → fl.length + 1 ≤ fuel → t.countFree fuel i = some (fl.length : Int) := by
  intro fl
  induction fl with
  | nil =>
    intro i fuel h hf
    obtain ⟨f, rfl⟩ : ∃ f, fuel = f + 1 := ⟨fuel - 1, by omega⟩
    have hi : i = b2_nullNode := h
    simp [countFree, hi]
  | cons a fl ih =>
    intro i fuel h hf
    obtain ⟨f, rfl⟩ : ∃ f, fuel = f + 1 := ⟨fuel - 1, by omega⟩
    obtain ⟨rfl, h2, -, h4⟩ := h
    have := ih _ f h4 (by simp only [List.length_cons] at hf; omega)
    simp only [countFree, if_neg (inRange_ne_null h2), h2, not_true_eq_false, if_false, this,
      Option.map_some', List.length_cons]
    push_cast; rfl

theorem Reach.createAll_reach {ext mult : α} : ∀ (bs : List (b2AABB α)) {t t1 : b2DynamicTree α}
    {live : List (Int × b2AABB α)} {ids : List Int}, Reach ext mult t live →
    createAll ext bs t = some (t1, ids) →
    ∃ live1, Reach ext mult t1 live1 ∧ live1.map Prod.fst = ids ++ live.map Prod.fst := by
  intro bs
  induction bs with
  | nil =>
    intro t t1 live ids h hc
    simp only [createAll, Option.some.injEq, Prod.mk.injEq] at hc
    obtain ⟨rfl, rfl⟩ := hc
    exact ⟨live, h, rfl⟩
  | cons b bs ih =>
    intro t t1 live ids h hc
    simp only [createAll] at hc
    cases hcp : CreateProxy ext t b 0 with
    | none => rw [hcp] at hc; simp at hc
    | some r =>
      obtain ⟨t0, id⟩ := r
      rw [hcp] at hc
      simp only at hc
      cases hrest : createAll ext bs t0 with
      | none => rw [hrest] at hc; simp at hc
      | some r2 =>
        obtain ⟨t2, ids2⟩ := r2
        rw [hrest] at hc
        simp only [Option.map_some', Option.some.injEq, Prod.mk.injEq] at hc
        obtain ⟨rfl, rfl⟩ := hc
        obtain ⟨live1, hr, hl⟩ := ih (Reach.create b 0 h hcp) hrest
        exact ⟨live1, hr, by rw [hl]; simp⟩

/-! ## Concrete reachable states -/

set_option maxRecDepth 100000 in
theorem createAll_twoProxies :
    createAll 1 [boxAt 0 0, boxAt 10 10] new = some (twoProxies, [1, 0]) := by decide

theorem reach_twoProxies :
    ∃ live, Reach (1 : ℤ) 2 twoProxies live ∧ live.map Prod.fst = [1, 0] := by
  obtain ⟨live, h, hl⟩ := Reach.createAll_reach _ (Reach.init : Reach (1 : ℤ) 2 new [])
    createAll_twoProxies
  exact ⟨live, h, by simpa using hl⟩

/-! ## C1, C2: the structure and metrics validators pass in every reachable state -/

/-- C1. In every state reachable from the constructor by `CreateProxy`, `DestroyProxy`,
`MoveProxy` and `Rebalance` calls, the nodes below `m_root` form a stored tree (`RootRep`:
null parent at the root, two in-range children with matching parent fields at every internal
node, null children and height 0 at every leaf: I1, I2, I5), and `ValidateStructure(m_root)`
returns with no assertion failing, for every recursion bound above the pool size. -/
theorem Reach_ValidateStructure {ext mult : α} {t : b2DynamicTree α}
    {live : List (Int × b2AABB α)} (h : Reach ext mult t live) :
    ∃ o, t.RootRep o ∧ ∀ fuel, t.m_nodes.length + 1 ≤ fuel →
      t.ValidateStructure fuel t.m_root = some () := by
  obtain ⟨o, fl, hinv, -⟩ := h.invariant
  refine ⟨o, hinv.root, fun fuel hf => ?_⟩
  cases o with
  | none =>
    obtain ⟨f, rfl⟩ : ∃ f, fuel = f + 1 := ⟨fuel - 1, by omega⟩
    have hr : t.m_root = b2_nullNode := hinv.root
    simp [ValidateStructure, hr]
  | some s =>
    obtain ⟨hr, hrep⟩ := hinv.root
    have hrp : (t.nd t.m_root).parent = b2_nullNode := by rw [hr]; exact hrep.parent_eq
    rw [hr]
    have := hrep.descent_fuel hinv.ids_nodup
    exact Rep.validateStructure hrp fuel hrep (Or.inl rfl) (by omega)

theorem Reach_ValidateStructure_witness :
    ∃ live, Reach (1 : ℤ) 2 twoProxies live ∧
      ∃ o, twoProxies.RootRep o ∧ ∀ fuel, twoProxies.m_nodes.length + 1 ≤ fuel →
        twoProxies.ValidateStructure fuel twoProxies.m_root = some () :=
  reach_twoProxies.elim fun live h => ⟨live, h.1, Reach_ValidateStructure h.1⟩

/-- C2. In every state reachable from the constructor by `CreateProxy`, `DestroyProxy`,
`MoveProxy` and `Rebalance` calls, the nodes below `m_root` form a stored tree whose internal
nodes hold `height = 1 + max` of the child heights and `aabb = Combine` of the child boxes
(`RootRep`: I3, I4), and `ValidateMetrics(m_root)` returns with no assertion failing, for
every recursion bound above the pool size. -/
theorem Reach_ValidateMetrics {ext mult : α} {t : b2DynamicTree α}
    {live : List (Int × b2AABB α)} (h : Reach ext mult t live) :
    ∃ o, t.RootRep o ∧ ∀ fuel, t.m_nodes.length + 1 ≤ fuel →
      t.ValidateMetrics fuel t.m_root = some () := by
  obtain ⟨o, fl, hinv, -⟩ := h.invariant
  refine ⟨o, hinv.root, fun fuel hf => ?_⟩
  cases o with
  | none =>
    obtain ⟨f, rfl⟩ : ∃ f, fuel = f + 1 := ⟨fuel - 1, by omega⟩
    have hr : t.m_root = b2_nullNode := hinv.root
    simp [ValidateMetrics, hr]
  | some s =>
    obtain ⟨hr, hrep⟩ := hinv.root
    rw [hr]
    have := hrep.descent_fuel hinv.ids_nodup
    exact Rep.validateMetrics fuel hrep (by omega)

theorem Reach_ValidateMetrics_witness :
    ∃ live, Reach (1 : ℤ) 2 twoProxies live ∧
      ∃ o, twoProxies.RootRep o ∧ ∀ fuel, twoProxies.m_nodes.length + 1 ≤ fuel →
        twoProxies.ValidateMetrics fuel twoProxies.m_root = some () :=
  reach_twoProxies.elim fun live h => ⟨live, h.1, Reach_ValidateMetrics h.1⟩

/-! ## C4: the free list -/

/-- C4. In every reachable state (growth of the pool included) the chain from `m_freeList`
along `next` is finite and ends at `b2_nullNode` (`FreeChain`, and the counting loop of
`Validate` returns its length); it visits pairwise distinct indices in
`[0, m_nodeCapacity)`, only nodes of height `-1` that are not in the tree below `m_root`, and
its length plus `m_nodeCount` is `m_nodeCapacity` (I7, I8). -/
theorem Reach_freeList {ext mult : α} {t : b2DynamicTree α}
    {live : List (Int × b2AABB α)} (h : Reach ext mult t live) :
    ∃ o fl, t.RootRep o ∧ t.FreeChain t.m_freeList fl ∧ fl.Nodup ∧
      (∀ i ∈ fl, t.InRange i ∧ (t.nd i).height = -1 ∧ i ∉ idsOf o) ∧
      (fl.length : Int) + t.m_nodeCount = t.m_nodeCapacity ∧
      t.countFree (t.m_nodes.length + 1) t.m_freeList = some (fl.length : Int) := by
  obtain ⟨o, fl, hinv, -⟩ := h.invariant
  have hnd := List.nodup_append.1 hinv.arena.nodup
  have hfr := hinv.arena.chain.free_inRange
  refine ⟨o, fl, hinv.root, hinv.arena.chain, hnd.2.1, ?_, ?_, ?_⟩
  · intro i hi
    exact ⟨(hfr i hi).1, (hfr i hi).2, fun hm => hnd.2.2 hm hi⟩
  · have h1 := hinv.arena.total
    have h2 := hinv.arena.count
    omega
  · refine FreeChain.countFree_eq fl _ _ hinv.arena.chain ?_
    have := length_le_of_nodup_inRange hnd.2.1 (fun j hj => (hfr j hj).1)
    omega

theorem Reach_freeList_witness :
    ∃ live, Reach (1 : ℤ) 2 twoProxies live ∧
      ∃ o fl, twoProxies.RootRep o ∧ twoProxies.FreeChain twoProxies.m_freeList fl ∧
        fl.Nodup ∧
        (∀ i ∈ fl, twoProxies.InRange i ∧ (twoProxies.nd i).height = -1 ∧ i ∉ idsOf o) ∧
        (fl.length : Int) + twoProxies.m_nodeCount = twoProxies.m_nodeCapacity ∧
        twoProxies.countFree (twoProxies.m_nodes.length + 1) twoProxies.m_freeList =
          some (fl.length : Int) :=
  reach_twoProxies.elim fun live h => ⟨live, h.1, Reach_freeList h.1⟩

/-! ## C3: the balance bound I6 is not an invariant -/

set_option maxRecDepth 1000000 in
/-- C3 (counterexample). Seven `CreateProxy` calls on a fresh tree, with the margin 0.1 and
unit boxes at x = 0, 10, 1, 11, 2, 12 and then far away at (1000, 1000), all in tenths, reach
a state in which `GetMaxBalance()` returns 2: the last leaf is paired with the old root of
height 3, `Balance` rotates the old root up once, and the new internal node keeps a subtree
of height 2 beside the new leaf. -/
theorem GetMaxBalance_two_reachable :
    ∃ t live, Reach (1 : ℤ) 2 t live ∧ live.map Prod.fst = [11, 9, 7, 5, 3, 1, 0] ∧
      t.GetMaxBalance 16 = some 2 := by
  have hev : (createAll 1 skewedBoxes new).map (fun r => (r.1.GetMaxBalance 16, r.2)) =
      some (some 2, [11, 9, 7, 5, 3, 1, 0]) := by decide
  cases hc : createAll 1 skewedBoxes new with
  | none => rw [hc] at hev; simp at hev
  | some r =>
    obtain ⟨t, ids⟩ := r
    rw [hc] at hev
    simp only [Option.map_some', Option.some.injEq, Prod.mk.injEq] at hev
    obtain ⟨live, hr, hl⟩ := Reach.createAll_reach _ (Reach.init : Reach (1 : ℤ) 2 new []) hc
    exact ⟨t, live, hr, by rw [hl, hev.2]; rfl, hev.1⟩

set_option maxRecDepth 1000000 in
/-- C3 (amended). `GetMaxBalance() ≤ 1` is not an invariant of the reachable states, but it
holds in scenario 6: after `CreateProxy` of the eight unit boxes `[i,0]-[i+1,1]`, `i = 0..7`,
in sorted order on a fresh tree (margin 0.1, in tenths), `GetMaxBalance()` returns 0 and
`ComputeHeight()` equals `GetHeight()`, which is 3. -/
theorem sorted_inserts_balanced :
    (createAll 1 sortedBoxes new).map
      (fun r => (r.1.GetMaxBalance 16, r.1.GetHeight, r.1.ComputeHeight 16)) =
      some (some 0, some 3, some 3) := by
  decide

/-! ## C5, C6, C7: the leaves of the reachable states -/

theorem RootRep.stored_eq {t t1 : b2DynamicTree α} {o o1 : Option (Shape α)}
    (hr : t.RootRep o) (hr1 : t1.RootRep o1) {x : Int × b2AABB α × Nat}
    (h : x ∈ leavesOf o) (h1 : x ∈ leavesOf o1) :
    t1.InRange x.1 ∧ (t1.nd x.1).IsLeaf = true ∧ (t1.nd x.1).aabb = (t.nd x.1).aabb ∧
      (t1.nd x.1).userData = (t.nd x.1).userData := by
  obtain ⟨-, -, -, -, e5, e6⟩ := hr.root_leaf_mem x h
  obtain ⟨f1, f2, -, -, f5, f6⟩ := hr1.root_leaf_mem x h1
  exact ⟨f1, by simp [b2TreeNode.IsLeaf, f2], f5.trans e5.symm, f6.trans e6.symm⟩

theorem mem_cons_of_fst_ne {L : List (Int × b2AABB α × Nat)} {x y : Int × b2AABB α × Nat}
    (h : x ∈ y :: L) (hne : y.1 ≠ x.1) : x ∈ L := by
  rcases List.mem_cons.1 h with e | h
  · exact absurd (congrArg Prod.fst e).symm hne
  · exact h

/-- C5. With a margin `ext ≥ 0`, in every reachable state every live proxy is a leaf whose
stored box contains the box last passed for it to `CreateProxy` or `MoveProxy` (I9); and a
`CreateProxy` call, a `DestroyProxy` or `MoveProxy` call on another proxy, and a `Rebalance`
call leave the stored box of a live proxy unchanged. -/
theorem Reach_leaf_contains {ext mult : α} (hext : 0 ≤ ext) {t : b2DynamicTree α}
    {live : List (Int × b2AABB α)} (h : Reach ext mult t live) :
    ∀ x ∈ live, t.InRange x.1 ∧ (t.nd x.1).IsLeaf = true ∧ (t.nd x.1).aabb.Contains x.2 ∧
      (∀ aabb u t1 id, CreateProxy ext t aabb u = some (t1, id) →
        (t1.nd x.1).aabb = (t.nd x.1).aabb) ∧
      (∀ id t1, id ∈ live.map Prod.fst → id ≠ x.1 → t.DestroyProxy id = some t1 →
        (t1.nd x.1).aabb = (t.nd x.1).aabb) ∧
      (∀ id aabb d t1 moved, id ∈ live.map Prod.fst → id ≠ x.1 →
        MoveProxy ext mult t id aabb d = some (t1, moved) →
        (t1.nd x.1).aabb = (t.nd x.1).aabb) ∧
      (∀ iterations t1, t.Rebalance iterations = some t1 →
        (t1.nd x.1).aabb = (t.nd x.1).aabb) := by
  obtain ⟨o, fl, hinv, hperm, hbox⟩ := h.invariant
  intro x hx
  obtain ⟨b, u, hm, hcon⟩ := hbox hext x hx
  obtain ⟨e1, e2, -, -, e5, -⟩ := hinv.root.root_leaf_mem _ hm
  simp only at e1 e2 e5
  refine ⟨e1, by simp [b2TreeNode.IsLeaf, e2], by rw [e5]; exact hcon, ?_, ?_, ?_, ?_⟩
  · intro aabb u' t1 id hc
    obtain ⟨t1', id', s1, fl1, hrun, hinv1, hlv, -, -⟩ := hinv.create ext aabb u'
    rw [hc] at hrun
    obtain ⟨rfl, rfl⟩ := Prod.mk.inj (Option.some.inj hrun)
    exact (RootRep.stored_eq hinv.root hinv1.root hm
      (hlv.mem_iff.2 (List.mem_cons_of_mem _ hm))).2.2.1
  · intro id t1 hid hne hd
    obtain ⟨b', u', hx'⟩ := mem_leaves_of_id (hperm.mem_iff.1 hid)
    obtain ⟨t1', o1, fl1, hrun, hinv1, hlv, -⟩ := hinv.destroy hx'
    rw [hd] at hrun
    obtain rfl := Option.some.inj hrun
    exact (RootRep.stored_eq hinv.root hinv1.root hm
      (mem_cons_of_fst_ne (hlv.mem_iff.1 hm) hne)).2.2.1
  · intro id aabb d t1 moved hid hne hmv
    obtain ⟨b', u', hx'⟩ := mem_leaves_of_id (hperm.mem_iff.1 hid)
    obtain ⟨t1', moved', o1, fl1, rest, hrun, hinv1, hlv, hlv1, -, -, -⟩ :=
      hinv.move ext mult hx' aabb d
    rw [hmv] at hrun
    obtain ⟨rfl, rfl⟩ := Prod.mk.inj (Option.some.inj hrun)
    exact (RootRep.stored_eq hinv.root hinv1.root hm
      (hlv1.mem_iff.2 (List.mem_cons_of_mem _
        (mem_cons_of_fst_ne (hlv.mem_iff.1 hm) hne)))).2.2.1
  · intro k t1 hr
    obtain ⟨t1', o1, hrun, hinv1, hlv, -⟩ := hinv.rebalance k
    rw [hr] at hrun
    obtain rfl := Option.some.inj hrun
    exact (RootRep.stored_eq hinv.root hinv1.root hm (hlv.mem_iff.2 hm)).2.2.1

theorem Reach_leaf_contains_witness :
    (0 : ℤ) ≤ 1 ∧ ∃ live, Reach (1 : ℤ) 2 twoProxies live ∧ live.map Prod.fst = [1, 0] ∧
      ∀ x ∈ live, twoProxies.InRange x.1 ∧ (twoProxies.nd x.1).IsLeaf = true ∧
        (twoProxies.nd x.1).aabb.Contains x.2 ∧
        (∀ aabb u t1 id, CreateProxy 1 twoProxies aabb u = some (t1, id) →
          (t1.nd x.1).aabb = (twoProxies.nd x.1).aabb) ∧
        (∀ id t1, id ∈ live.map Prod.fst → id ≠ x.1 → twoProxies.DestroyProxy id = some t1 →
          (t1.nd x.1).aabb = (twoProxies.nd x.1).aabb) ∧
        (∀ id aabb d t1 moved, id ∈ live.map Prod.fst → id ≠ x.1 →
          MoveProxy 1 2 twoProxies id aabb d = some (t1, moved) →
          (t1.nd x.1).aabb = (twoProxies.nd x.1).aabb) ∧
        (∀ iterations t1, twoProxies.Rebalance iterations = some t1 →
          (t1.nd x.1).aabb = (twoProxies.nd x.1).aabb) :=
  ⟨by decide, reach_twoProxies.elim fun live h =>
    ⟨live, h.1, h.2, Reach_leaf_contains (by decide) h.1⟩⟩

/-- C6. In every reachable state the live proxies are exactly the leaves of the tree below
`m_root`, each once.  `CreateProxy` returns, with an id that is not a leaf, and afterwards
the leaves are the old ones and the new id; `DestroyProxy` of a leaf returns and leaves the
other leaves; `MoveProxy` of a leaf returns and leaves the same leaves. -/
theorem Reach_leaf_set {ext mult : α} {t : b2DynamicTree α}
    {live : List (Int × b2AABB α)} (h : Reach ext mult t live) :
    ∃ o, t.RootRep o ∧ ((leavesOf o).map Prod.fst).Perm (live.map Prod.fst) ∧
      ((leavesOf o).map Prod.fst).Nodup ∧
      (∀ aabb u, ∃ t1 id o1, CreateProxy ext t aabb u = some (t1, id) ∧ t1.RootRep o1 ∧
        id ∉ (leavesOf o).map Prod.fst ∧
        ((leavesOf o1).map Prod.fst).Perm (id :: (leavesOf o).map Prod.fst)) ∧
      (∀ id ∈ (leavesOf o).map Prod.fst, ∃ t1 o1, t.DestroyProxy id = some t1 ∧
        t1.RootRep o1 ∧ id ∉ (leavesOf o1).map Prod.fst ∧
        ((leavesOf o).map Prod.fst).Perm (id :: (leavesOf o1).map Prod.fst)) ∧
      (∀ id ∈ (leavesOf o).map Prod.fst, ∀ aabb d, ∃ t1 moved o1,
        MoveProxy ext mult t id aabb d = some (t1, moved) ∧ t1.RootRep o1 ∧
        ((leavesOf o1).map Prod.fst).Perm ((leavesOf o).map Prod.fst)) := by
  obtain ⟨o, fl, hinv, hperm, -⟩ := h.invariant
  have hnd := leavesOf_nodup hinv.ids_nodup
  refine ⟨o, hinv.root, hperm.symm, hnd, ?_, ?_, ?_⟩
  · intro aabb u
    obtain ⟨t1, id, s1, fl1, hrun, hinv1, hlv, hid, -⟩ := hinv.create ext aabb u
    refine ⟨t1, id, some s1, hrun, hinv1.root, fun hm => hid ?_, by simpa using hlv.map Prod.fst⟩
    cases o with
    | none => simp [leavesOf] at hm
    | some s => exact s.leafIds_subset id hm
  · intro id hid
    obtain ⟨b, u, hx⟩ := mem_leaves_of_id hid
    obtain ⟨t1, o1, fl1, hrun, hinv1, hlv, -⟩ := hinv.destroy hx
    have hp : ((leavesOf o).map Prod.fst).Perm (id :: (leavesOf o1).map Prod.fst) := by
      simpa using hlv.map Prod.fst
    exact ⟨t1, o1, hrun, hinv1.root,
      (List.nodup_cons.1 ((List.Perm.nodup_iff hp).1 hnd)).1, hp⟩
  · intro id hid aabb d
    obtain ⟨b, u, hx⟩ := mem_leaves_of_id hid
    obtain ⟨t1, moved, o1, fl1, rest, hrun, hinv1, hlv, hlv1, -, -, -⟩ :=
      hinv.move ext mult hx aabb d
    refine ⟨t1, moved, o1, hrun, hinv1.root, ?_⟩
    have h1 := hlv.map Prod.fst
    have h2 := hlv1.map Prod.fst
    simp only [List.map_cons] at h1 h2
    exact h2.trans h1.symm

theorem Reach_leaf_set_witness :
    ∃ live, Reach (1 : ℤ) 2 twoProxies live ∧ live.map Prod.fst = [1, 0] ∧
      ∃ o, twoProxies.RootRep o ∧ ((leavesOf o).map Prod.fst).Perm (live.map Prod.fst) ∧
      ((leavesOf o).map Prod.fst).Nodup ∧
      (∀ aabb u, ∃ t1 id o1, CreateProxy 1 twoProxies aabb u = some (t1, id) ∧
        t1.RootRep o1 ∧ id ∉ (leavesOf o).map Prod.fst ∧
        ((leavesOf o1).map Prod.fst).Perm (id :: (leavesOf o).map Prod.fst)) ∧
      (∀ id ∈ (leavesOf o).map Prod.fst, ∃ t1 o1, twoProxies.DestroyProxy id = some t1 ∧
        t1.RootRep o1 ∧ id ∉ (leavesOf o1).map Prod.fst ∧
        ((leavesOf o).map Prod.fst).Perm (id :: (leavesOf o1).map Prod.fst)) ∧
      (∀ id ∈ (leavesOf o).map Prod.fst, ∀ aabb d, ∃ t1 moved o1,
        MoveProxy 1 2 twoProxies id aabb d = some (t1, moved) ∧ t1.RootRep o1 ∧
        ((leavesOf o1).map Prod.fst).Perm ((leavesOf o).map Prod.fst)) :=
  reach_twoProxies.elim fun live h => ⟨live, h.1, h.2, Reach_leaf_set h.1⟩

set_option maxRecDepth 1000000 in
/-- C7. In every reachable state every `CreateProxy` call returns, also when `AllocateNode`
finds the free list empty and doubles the pool: every proxy that was live before is still a
leaf with the same user data and the same stored box, the returned id differs from all of
them, and the capacity afterwards is the old one or exactly twice the old one.  Seventeen
`CreateProxy` calls on a fresh tree return the 17 distinct ids 0, 1, 3, ..., 31, grow the pool
from 16 to 64 slots, and afterwards every id is a leaf that holds its own fattened box. -/
theorem CreateProxy_keeps_proxies {ext mult : α} {t : b2DynamicTree α}
    {live : List (Int × b2AABB α)} (h : Reach ext mult t live) (aabb : b2AABB α) (u : Nat) :
    (∃ t1 id, CreateProxy ext t aabb u = some (t1, id) ∧
      (∀ x ∈ live, x.1 ≠ id ∧ t1.InRange x.1 ∧ (t1.nd x.1).IsLeaf = true ∧
        (t1.nd x.1).userData = (t.nd x.1).userData ∧ (t1.nd x.1).aabb = (t.nd x.1).aabb) ∧
      (t1.m_nodeCapacity = t.m_nodeCapacity ∨ t1.m_nodeCapacity = 2 * t.m_nodeCapacity)) ∧
    (createAll 1 ((List.range 17).map fun i => boxAt i 0) new).map
      (fun r => (r.2, r.1.m_nodes.length,
        r.2.map fun id => ((r.1.nd id).aabb, (r.1.nd id).IsLeaf))) =
      some ([31, 29, 27, 25, 23, 21, 19, 17, 15, 13, 11, 9, 7, 5, 3, 1, 0], 64,
        ((List.range 17).map fun i => (b2AABB.Fatten 1 (boxAt i 0), true)).reverse) := by
  refine ⟨?_, by decide⟩
  obtain ⟨o, fl, hinv, hperm, -⟩ := h.invariant
  obtain ⟨t1, id, s1, fl1, hrun, hinv1, hlv, hid, hlen⟩ := hinv.create ext aabb u
  refine ⟨t1, id, hrun, ?_, ?_⟩
  · intro x hx
    obtain ⟨b, u', hm⟩ := mem_leaves_of_id (hperm.mem_iff.1 (List.mem_map_of_mem _ hx))
    have hst := RootRep.stored_eq hinv.root hinv1.root hm
      (hlv.mem_iff.2 (List.mem_cons_of_mem _ hm))
    refine ⟨fun e => hid ?_, hst.1, hst.2.1, hst.2.2.2, hst.2.2.1⟩
    cases o with
    | none => simp [leavesOf] at hm
    | some s =>
      rw [← e]
      exact s.leafIds_subset _ (List.mem_map_of_mem Prod.fst hm)
  · unfold m_nodeCapacity
    rcases hlen with e | e
    · exact Or.inl (by rw [e])
    · exact Or.inr (by rw [e]; push_cast; rfl)

theorem CreateProxy_keeps_proxies_witness :
    ∃ live, Reach (1 : ℤ) 2 twoProxies live ∧ live.map Prod.fst = [1, 0] ∧
      ∃ t1 id, CreateProxy 1 twoProxies (boxAt 5 5) 7 = some (t1, id) ∧
        (∀ x ∈ live, x.1 ≠ id ∧ t1.InRange x.1 ∧ (t1.nd x.1).IsLeaf = true ∧
          (t1.nd x.1).userData = (twoProxies.nd x.1).userData ∧
          (t1.nd x.1).aabb = (twoProxies.nd x.1).aabb) ∧
        (t1.m_nodeCapacity = twoProxies.m_nodeCapacity ∨
          t1.m_nodeCapacity = 2 * twoProxies.m_nodeCapacity) :=
  reach_twoProxies.elim fun live h =>
    ⟨live, h.1, h.2, (CreateProxy_keeps_proxies h.1 (boxAt 5 5) 7).1⟩

/-! ## C8, C9, C10: the box that `CreateProxy` and `MoveProxy` store -/

theorem predictAABB_eq (ext mult : α) (a : b2AABB α) (d : b2Vec2 α) :
    predictAABB ext mult a d =
      ⟨⟨a.lowerBound.x - ext + min 0 (mult * d.x), a.lowerBound.y - ext + min 0 (mult * d.y)⟩,
        ⟨a.upperBound.x + ext + max 0 (mult * d.x),
          a.upperBound.y + ext + max 0 (mult * d.y)⟩⟩ := by
  unfold predictAABB b2AABB.Fatten
  simp only
  by_cases hx : mult * d.x < 0 <;> by_cases hy : mult * d.y < 0
  · simp [hx, hy, min_eq_right hx.le, max_eq_left hx.le, min_eq_right hy.le, max_eq_left hy.le]
  · simp [hx, hy, min_eq_right hx.le, max_eq_left hx.le, min_eq_left (not_lt.1 hy),
      max_eq_right (not_lt.1 hy)]
  · simp [hx, hy, min_eq_left (not_lt.1 hx), max_eq_right (not_lt.1 hx), min_eq_right hy.le,
      max_eq_left hy.le]
  · simp [hx, hy, min_eq_left (not_lt.1 hx), max_eq_right (not_lt.1 hx),
      min_eq_left (not_lt.1 hy), max_eq_right (not_lt.1 hy)]

/-- C8. In every reachable state, in exact arithmetic: `CreateProxy(a, u)` returns an id
whose stored box is `[a.lower - (e,e), a.upper + (e,e)]` with `e = aabbExtension`; and
`MoveProxy(id, a, d)` on a live proxy returns, and when it returns `true` the stored box of
`id` is `lower = a.lower - (e,e) + min(0, m·d)`, `upper = a.upper + (e,e) + max(0, m·d)`
componentwise, with `m = aabbMultiplier`. -/
theorem stored_box_exact {ext mult : α} {t : b2DynamicTree α}
    {live : List (Int × b2AABB α)} (h : Reach ext mult t live) :
    (∀ (a : b2AABB α) (u : Nat), ∃ t1 id, CreateProxy ext t a u = some (t1, id) ∧
      (t1.nd id).aabb = ⟨⟨a.lowerBound.x - ext, a.lowerBound.y - ext⟩,
        ⟨a.upperBound.x + ext, a.upperBound.y + ext⟩⟩) ∧
    (∀ id ∈ live.map Prod.fst, ∀ (a : b2AABB α) (d : b2Vec2 α), ∃ t1 moved,
      MoveProxy ext mult t id a d = some (t1, moved) ∧
      (moved = true → (t1.nd id).aabb =
        ⟨⟨a.lowerBound.x - ext + min 0 (mult * d.x),
            a.lowerBound.y - ext + min 0 (mult * d.y)⟩,
          ⟨a.upperBound.x + ext + max 0 (mult * d.x),
            a.upperBound.y + ext + max 0 (mult * d.y)⟩⟩)) := by
  obtain ⟨o, fl, hinv, hperm, -⟩ := h.invariant
  refine ⟨?_, ?_⟩
  · intro a u
    obtain ⟨t1, id, s1, fl1, hrun, hinv1, hlv, -, -⟩ := hinv.create ext a u
    refine ⟨t1, id, hrun, ?_⟩
    have := (hinv1.root.root_leaf_mem _ (hlv.mem_iff.2 (List.mem_cons_self _ _))).2.2.2.2.1
    exact this
  · intro id hid a d
    obtain ⟨b, u, hx⟩ := mem_leaves_of_id (hperm.mem_iff.1 hid)
    obtain ⟨t1, moved, o1, fl1, rest, hrun, hinv1, -, hlv1, -, -, -⟩ :=
      hinv.move ext mult hx a d
    refine ⟨t1, moved, hrun, fun hm => ?_⟩
    have := (hinv1.root.root_leaf_mem _ (hlv1.mem_iff.2 (List.mem_cons_self _ _))).2.2.2.2.1
    simp only [hm, if_true] at this
    rw [this]
    exact predictAABB_eq ext mult a d

set_option maxRecDepth 1000000 in
theorem stored_box_exact_witness :
    ∃ live, Reach (1 : ℤ) 2 twoProxies live ∧ live.map Prod.fst = [1, 0] ∧
      ((∀ (a : b2AABB ℤ) (u : Nat), ∃ t1 id, CreateProxy 1 twoProxies a u = some (t1, id) ∧
        (t1.nd id).aabb = ⟨⟨a.lowerBound.x - 1, a.lowerBound.y - 1⟩,
          ⟨a.upperBound.x + 1, a.upperBound.y + 1⟩⟩) ∧
      (∀ id ∈ live.map Prod.fst, ∀ (a : b2AABB ℤ) (d : b2Vec2 ℤ), ∃ t1 moved,
        MoveProxy 1 2 twoProxies id a d = some (t1, moved) ∧
        (moved = true → (t1.nd id).aabb =
          ⟨⟨a.lowerBound.x - 1 + min 0 (2 * d.x), a.lowerBound.y - 1 + min 0 (2 * d.y)⟩,
            ⟨a.upperBound.x + 1 + max 0 (2 * d.x),
              a.upperBound.y + 1 + max 0 (2 * d.y)⟩⟩))) ∧
      (MoveProxy 1 2 twoProxies 0 (boxAt 5 5) ⟨0, 0⟩).map
        (fun r => (r.2, (r.1.nd 0).aabb)) = some (true, ⟨⟨49, 49⟩, ⟨61, 61⟩⟩) :=
  reach_twoProxies.elim fun live h => ⟨live, h.1, h.2, stored_box_exact h.1, by decide⟩

/-- C9. With a margin `ext ≥ 0`, in every reachable state `MoveProxy(id, a, d)` on a live
proxy returns; it returns `false` exactly when the stored box of the leaf already contains
`a`, and then the whole state is unchanged; it returns `true` exactly when the stored box of
the leaf after the call differs from the one before. -/
theorem MoveProxy_false_iff {ext mult : α} (hext : 0 ≤ ext) {t : b2DynamicTree α}
    {live : List (Int × b2AABB α)} (h : Reach ext mult t live) {id : Int}
    (hid : id ∈ live.map Prod.fst) (a : b2AABB α) (d : b2Vec2 α) :
    ∃ t1 moved, MoveProxy ext mult t id a d = some (t1, moved) ∧
      (moved = false ↔ (t.nd id).aabb.Contains a) ∧ (moved = false → t1 = t) ∧
      (moved = true ↔ (t1.nd id).aabb ≠ (t.nd id).aabb) := by
  obtain ⟨o, fl, hinv, hperm, -⟩ := h.invariant
  obtain ⟨b, u, hx⟩ := mem_leaves_of_id (hperm.mem_iff.1 hid)
  obtain ⟨t1, moved, o1, fl1, rest, hrun, hinv1, -, hlv1, hmv, hsame, -⟩ :=
    hinv.move ext mult hx a d
  have hb : (t.nd id).aabb = b := (hinv.root.root_leaf_mem _ hx).2.2.2.2.1
  have hb1 := (hinv1.root.root_leaf_mem _ (hlv1.mem_iff.2 (List.mem_cons_self _ _))).2.2.2.2.1
  simp only at hb1
  refine ⟨t1, moved, hrun, by rw [hb]; exact hmv, hsame, ?_⟩
  cases moved with
  | false =>
    have := hsame rfl
    subst this
    simp
  | true =>
    simp only [if_true] at hb1
    refine ⟨fun _ e => ?_, fun _ => rfl⟩
    have hc : b.Contains a := by
      rw [← hb, ← e, hb1]; exact predictAABB_contains hext mult a d
    exact absurd (hmv.2 hc) (by simp)

theorem MoveProxy_false_iff_witness :
    (0 : ℤ) ≤ 1 ∧ ∃ live, Reach (1 : ℤ) 2 twoProxies live ∧
      (0 : Int) ∈ live.map Prod.fst ∧
      ∃ t1 moved, MoveProxy 1 2 twoProxies 0 (boxAt 5 5) ⟨0, 0⟩ = some (t1, moved) ∧
        (moved = false ↔ (twoProxies.nd 0).aabb.Contains (boxAt 5 5)) ∧
        (moved = false → t1 = twoProxies) ∧
        (moved = true ↔ (t1.nd 0).aabb ≠ (twoProxies.nd 0).aabb) :=
  ⟨by decide, reach_twoProxies.elim fun live h =>
    ⟨live, h.1, by rw [h.2]; decide,
      MoveProxy_false_iff (by decide) h.1 (by rw [h.2]; decide) (boxAt 5 5) ⟨0, 0⟩⟩⟩

/-- C10. With a margin `ext ≥ 0`, in every reachable state and for every live proxy `id` and
box `a`: `MoveProxy(id, a, 0)` returns, and a second `MoveProxy(id, a, 0)` right after it
returns `false` and leaves the state as it was after the first call, whatever the first call
returned. -/
theorem MoveProxy_twice {ext mult : α} (hext : 0 ≤ ext) {t : b2DynamicTree α}
    {live : List (Int × b2AABB α)} (h : Reach ext mult t live) {id : Int}
    (hid : id ∈ live.map Prod.fst) (a : b2AABB α) :
    ∃ t1 moved, MoveProxy ext mult t id a ⟨0, 0⟩ = some (t1, moved) ∧
      MoveProxy ext mult t1 id a ⟨0, 0⟩ = some (t1, false) := by
  obtain ⟨o, fl, hinv, hperm, -⟩ := h.invariant
  obtain ⟨b, u, hx⟩ := mem_leaves_of_id (hperm.mem_iff.1 hid)
  obtain ⟨t1, moved, o1, fl1, rest, hrun, hinv1, -, hlv1, hmv, -, -⟩ :=
    hinv.move ext mult hx a ⟨0, 0⟩
  have hx1 := hlv1.mem_iff.2 (List.mem_cons_self _ _)
  have hcon : (if moved = true then predictAABB ext mult a ⟨0, 0⟩ else b).Contains a := by
    cases moved with
    | false => simpa using hmv.1 rfl
    | true => simpa using predictAABB_contains hext mult a ⟨0, 0⟩
  obtain ⟨t2, moved2, o2, fl2, rest2, hrun2, -, -, -, hmv2, hsame2, -⟩ :=
    hinv1.move ext mult hx1 a ⟨0, 0⟩
  have hm2 : moved2 = false := hmv2.2 hcon
  subst hm2
  have := hsame2 rfl
  subst this
  exact ⟨t2, moved, hrun, hrun2⟩

theorem MoveProxy_twice_witness :
    (0 : ℤ) ≤ 1 ∧ ∃ live, Reach (1 : ℤ) 2 twoProxies live ∧
      (0 : Int) ∈ live.map Prod.fst ∧
      ∃ t1 moved, MoveProxy 1 2 twoProxies 0 (boxAt 5 5) ⟨0, 0⟩ = some (t1, moved) ∧
        MoveProxy 1 2 t1 0 (boxAt 5 5) ⟨0, 0⟩ = some (t1, false) :=
  ⟨by decide, reach_twoProxies.elim fun live h =>
    ⟨live, h.1, by rw [h.2]; decide,
      MoveProxy_twice (by decide) h.1 (by rw [h.2]; decide) (boxAt 5 5)⟩⟩

/-! ## C18, C19, C20: termination, node counts, assertions -/

theorem Inv.nodeCount_eq {t : b2DynamicTree α} {o : Option (Shape α)} {fl : List Int}
    (h : t.Inv o fl) :
    (leavesOf o = [] → t.m_nodeCount = 0 ∧ t.m_root = b2_nullNode) ∧
      (leavesOf o ≠ [] → t.m_nodeCount = 2 * ((leavesOf o).length : Int) - 1) := by
  have hc := h.arena.count
  cases o with
  | none =>
    refine ⟨fun _ => ⟨by simpa [idsOf] using hc, h.root⟩, fun hne => absurd rfl hne⟩
  | some s =>
    have hp := s.leaves_length_pos
    refine ⟨fun he => ?_, fun _ => ?_⟩
    · simp only [leavesOf] at he
      rw [he] at hp; simp at hp
    · rw [hc]; exact s.ids_length

/-- C19. In every reachable state with no live proxy `m_nodeCount = 0` and `m_root` is null;
with `n ≥ 1` live proxies `m_nodeCount = 2·n - 1`.  `DestroyProxy` of the only live proxy
returns a state with a null root, `GetHeight() = 0` and a free list of `m_nodeCapacity`
nodes; `MoveProxy` of a live proxy returns and changes neither `m_nodeCount` nor
`m_nodeCapacity`. -/
theorem Reach_nodeCount {ext mult : α} {t : b2DynamicTree α}
    {live : List (Int × b2AABB α)} (h : Reach ext mult t live) :
    (live = [] → t.m_nodeCount = 0 ∧ t.m_root = b2_nullNode) ∧
    (live ≠ [] → t.m_nodeCount = 2 * (live.length : Int) - 1) ∧
    (live.length = 1 → ∀ id ∈ live.map Prod.fst, ∃ t1, t.DestroyProxy id = some t1 ∧
      t1.m_root = b2_nullNode ∧ t1.GetHeight = some 0 ∧
      t1.countFree (t1.m_nodes.length + 1) t1.m_freeList = some t1.m_nodeCapacity) ∧
    (∀ id ∈ live.map Prod.fst, ∀ (a : b2AABB α) (d : b2Vec2 α), ∃ t1 moved,
      MoveProxy ext mult t id a d = some (t1, moved) ∧ t1.m_nodeCount = t.m_nodeCount ∧
      t1.m_nodeCapacity = t.m_nodeCapacity) := by
  obtain ⟨o, fl, hinv, hperm, -⟩ := h.invariant
  have hlen : (leavesOf o).length = live.length := by
    have := hperm.length_eq
    simpa using this.symm
  have hnc := hinv.nodeCount_eq
  refine ⟨fun he => hnc.1 ?_, fun hne => ?_, ?_, ?_⟩
  · rw [he] at hlen; exact List.length_eq_zero.1 hlen
  · rw [← hlen]
    refine hnc.2 (fun he => hne ?_)
    rw [he] at hlen; exact List.length_eq_zero.1 hlen.symm
  · intro h1 id hid
    obtain ⟨b, u, hx⟩ := mem_leaves_of_id (hperm.mem_iff.1 hid)
    obtain ⟨t1, o1, fl1, hrun, hinv1, hlv, -⟩ := hinv.destroy hx
    have hl1 : leavesOf o1 = [] := by
      have := hlv.length_eq
      rw [hlen, h1] at this
      simp only [List.length_cons] at this
      exact List.length_eq_zero.1 (by omega)
    have ho1 : o1 = none := by
      cases o1 with
      | none => rfl
      | some s =>
        have := s.leaves_length_pos
        simp only [leavesOf] at hl1
        rw [hl1] at this; simp at this
    subst ho1
    have hroot1 : t1.m_root = b2_nullNode := hinv1.root
    have htot := hinv1.arena.total
    simp only [idsOf, List.length_nil, Nat.cast_zero, zero_add] at htot
    have hfr := hinv1.arena.chain.free_inRange
    have hnd := (List.nodup_append.1 hinv1.arena.nodup).2.1
    have hle := length_le_of_nodup_inRange hnd (fun j hj => (hfr j hj).1)
    refine ⟨t1, hrun, hroot1, by simp [GetHeight, hroot1], ?_⟩
    rw [← htot]
    exact FreeChain.countFree_eq fl1 _ _ hinv1.arena.chain (by omega)
  · intro id hid a d
    obtain ⟨b, u, hx⟩ := mem_leaves_of_id (hperm.mem_iff.1 hid)
    obtain ⟨t1, moved, o1, fl1, rest, hrun, hinv1, hlv, hlv1, -, -, hlen1⟩ :=
      hinv.move ext mult hx a d
    refine ⟨t1, moved, hrun, ?_, by unfold m_nodeCapacity; rw [hlen1]⟩
    have e1 := hlv.length_eq
    have e2 := hlv1.length_eq
    simp only [List.length_cons] at e1 e2
    have n1 : leavesOf o ≠ [] := fun he => by rw [he] at e1; simp at e1
    have n2 : leavesOf o1 ≠ [] := fun he => by rw [he] at e2; simp at e2
    rw [hinv1.nodeCount_eq.2 n2, hinv.nodeCount_eq.2 n1, e1, e2]

theorem Reach_nodeCount_witness :
    ∃ live, Reach (1 : ℤ) 2 twoProxies live ∧ live.map Prod.fst = [1, 0] ∧
      twoProxies.m_nodeCount = 3 ∧
      ((live = [] → twoProxies.m_nodeCount = 0 ∧ twoProxies.m_root = b2_nullNode) ∧
      (live ≠ [] → twoProxies.m_nodeCount = 2 * (live.length : Int) - 1) ∧
      (live.length = 1 → ∀ id ∈ live.map Prod.fst, ∃ t1,
        twoProxies.DestroyProxy id = some t1 ∧ t1.m_root = b2_nullNode ∧
        t1.GetHeight = some 0 ∧
        t1.countFree (t1.m_nodes.length + 1) t1.m_freeList = some t1.m_nodeCapacity) ∧
      (∀ id ∈ live.map Prod.fst, ∀ (a : b2AABB ℤ) (d : b2Vec2 ℤ), ∃ t1 moved,
        MoveProxy 1 2 twoProxies id a d = some (t1, moved) ∧
        t1.m_nodeCount = twoProxies.m_nodeCount ∧
        t1.m_nodeCapacity = twoProxies.m_nodeCapacity)) :=
  reach_twoProxies.elim fun live h => ⟨live, h.1, h.2, by decide, Reach_nodeCount h.1⟩

/-- C20. In every reachable state `CreateProxy`, `DestroyProxy` of a live proxy and
`MoveProxy` of a live proxy return.  In the model a failing `b2Assert` (and an index outside
`[0, m_nodeCapacity)`) makes the call fail, so every assertion executed inside `Balance` and
inside the ancestor walks of `InsertLeaf` and `RemoveLeaf` holds during these calls. -/
theorem public_calls_return {ext mult : α} {t : b2DynamicTree α}
    {live : List (Int × b2AABB α)} (h : Reach ext mult t live) :
    (∀ (a : b2AABB α) (u : Nat), ∃ r, CreateProxy ext t a u = some r) ∧
    (∀ id ∈ live.map Prod.fst, ∃ t1, t.DestroyProxy id = some t1) ∧
    (∀ id ∈ live.map Prod.fst, ∀ (a : b2AABB α) (d : b2Vec2 α),
      ∃ r, MoveProxy ext mult t id a d = some r) := by
  obtain ⟨o, fl, hinv, hperm, -⟩ := h.invariant
  refine ⟨?_, ?_, ?_⟩
  · intro a u
    obtain ⟨t1, id, s1, fl1, hrun, -⟩ := hinv.create ext a u
    exact ⟨_, hrun⟩
  · intro id hid
    obtain ⟨b, u, hx⟩ := mem_leaves_of_id (hperm.mem_iff.1 hid)
    obtain ⟨t1, o1, fl1, hrun, -⟩ := hinv.destroy hx
    exact ⟨_, hrun⟩
  · intro id hid a d
    obtain ⟨b, u, hx⟩ := mem_leaves_of_id (hperm.mem_iff.1 hid)
    obtain ⟨t1, moved, o1, fl1, rest, hrun, -⟩ := hinv.move ext mult hx a d
    exact ⟨_, hrun⟩

theorem public_calls_return_witness :
    ∃ live, Reach (1 : ℤ) 2 twoProxies live ∧ live.map Prod.fst = [1, 0] ∧
      ((∀ (a : b2AABB ℤ) (u : Nat), ∃ r, CreateProxy 1 twoProxies a u = some r) ∧
      (∀ id ∈ live.map Prod.fst, ∃ t1, twoProxies.DestroyProxy id = some t1) ∧
      (∀ id ∈ live.map Prod.fst, ∀ (a : b2AABB ℤ) (d : b2Vec2 ℤ),
        ∃ r, MoveProxy 1 2 twoProxies id a d = some r)) :=
  reach_twoProxies.elim fun live h => ⟨live, h.1, h.2, public_calls_return h.1⟩

/-- C18. In every reachable state `Rebalance(iterations)` returns for every `iterations`,
with the cursor `0 ≤ m_path < m_nodeCapacity`; on an empty tree it returns the state
unchanged; on a non-empty tree the inner loop that skips the slots of height `-1` ends after
fewer than `m_nodeCapacity` steps, at a slot in range that is not free. -/
theorem Rebalance_terminates {ext mult : α} {t : b2DynamicTree α}
    {live : List (Int × b2AABB α)} (h : Reach ext mult t live) (iterations : Int) :
    (∃ t1, t.Rebalance iterations = some t1 ∧ t1.InRange t1.m_path ∧
      (t.m_root = b2_nullNode → t1 = t)) ∧
    (t.m_root ≠ b2_nullNode → ∃ t1 steps, skipFree t.m_nodes.length t = some (t1, steps) ∧
      steps < t.m_nodes.length ∧ t1.InRange t1.m_path ∧ (t1.nd t1.m_path).height ≠ -1) := by
  obtain ⟨o, fl, hinv, -, -⟩ := h.invariant
  refine ⟨?_, fun hne => ?_⟩
  · obtain ⟨t1, o1, hrun, hinv1, -, -, -, -, -, hsame⟩ := hinv.rebalance iterations
    exact ⟨t1, hrun, hinv1.path, hsame⟩
  · cases o with
    | none => exact absurd hinv.root hne
    | some s =>
      obtain ⟨hr, hrep⟩ := hinv.root
      have hh : (t.nd s.idx).height ≠ -1 := by
        rw [hrep.height_eq]; have := s.height_nonneg; omega
      obtain ⟨t1, k, hrun, hk, -, -, -, -, -, hp, hh1⟩ :=
        skipFree_total hinv.path hrep.idx_inRange hh
      exact ⟨t1, k, hrun, hk, hp, hh1⟩

theorem Rebalance_terminates_witness :
    ∃ live, Reach (1 : ℤ) 2 twoProxies live ∧ twoProxies.m_root ≠ b2_nullNode ∧
      ((∃ t1, twoProxies.Rebalance 5 = some t1 ∧ t1.InRange t1.m_path ∧
        (twoProxies.m_root = b2_nullNode → t1 = twoProxies)) ∧
      (twoProxies.m_root ≠ b2_nullNode → ∃ t1 steps,
        skipFree twoProxies.m_nodes.length twoProxies = some (t1, steps) ∧
        steps < twoProxies.m_nodes.length ∧ t1.InRange t1.m_path ∧
        (t1.nd t1.m_path).height ≠ -1)) :=
  reach_twoProxies.elim fun live h =>
    ⟨live, h.1, by decide, Rebalance_terminates h.1 5⟩

/-! ## C11, C17: `Shuffle` and `Rebalance` keep heights, boxes and leaves -/

theorem others_int {t : b2DynamicTree α} {o : Option (Shape α)}
    (h : ∀ k : Nat, k < t.m_nodes.length → (k : Int) ∈ idsOf o ∨ (t.nd k).height = -1) :
    ∀ j, t.InRange j → j ∈ idsOf o ∨ (t.nd j).height = -1 := by
  intro j hj
  unfold InRange m_nodeCapacity at hj
  have := h j.toNat (by omega)
  rwa [Int.toNat_of_nonneg hj.1] at this

theorem GetHeight_rep {t : b2DynamicTree α} {s : Shape α} (hroot : t.m_root = s.idx)
    (hrep : t.Rep s b2_nullNode) : t.GetHeight = some s.height := by
  unfold GetHeight
  rw [hroot, if_neg (inRange_ne_null hrep.idx_inRange), if_neg (not_not.2 hrep.idx_inRange),
    hrep.height_eq]

theorem GetTotalArea_rep {t : b2DynamicTree α} {s : Shape α} (hroot : t.m_root = s.idx)
    (hrep : t.Rep s b2_nullNode) (hnd : s.ids.Nodup) :
    t.GetTotalArea (t.m_nodes.length + 1) t.m_root = some s.area := by
  rw [hroot]
  refine Rep.totalArea _ hrep ?_
  have h1 := length_le_of_nodup_inRange hnd hrep.ids_inRange
  have h2 := depth_lt_ids_length s
  omega

theorem TreePost.getHeight {t t2 : b2DynamicTree α} {s s2 : Shape α} (h : TreePost t s t2 s2)
    (hroot : t.m_root = s.idx) (hrep : t.Rep s b2_nullNode) : t2.GetHeight = t.GetHeight := by
  rw [GetHeight_rep h.root h.rep, GetHeight_rep hroot hrep, h.height]

/-- A pool stores at most one shape at an index. -/
theorem Rep.shape_unique {t : b2DynamicTree α} : ∀ (s s1 : Shape α) {p p1 : Int},
    t.Rep s p → t.Rep s1 p1 → s.idx = s1.idx → s = s1 := by
  intro s
  induction s with
  | leaf i b u =>
    intro s1 p p1 h h1 he
    cases s1 with
    | leaf i1 b1 u1 =>
      obtain ⟨-, -, -, -, -, h6, h7⟩ := h
      obtain ⟨-, -, -, -, -, k6, k7⟩ := h1
      simp only [Shape.idx] at he
      subst he
      rw [← h6, ← h7, k6, k7]
    | node i1 l1 r1 =>
      obtain ⟨-, -, h3, -⟩ := h
      obtain ⟨-, -, k3, -, -, -, kl, -⟩ := h1
      simp only [Shape.idx] at he
      subst he
      exact absurd (k3.symm.trans h3) (inRange_ne_null kl.idx_inRange)
  | node i l r ihl ihr =>
    intro s1 p p1 h h1 he
    cases s1 with
    | leaf i1 b1 u1 =>
      obtain ⟨-, -, h3, -, -, -, hl, -⟩ := h
      obtain ⟨-, -, k3, -⟩ := h1
      simp only [Shape.idx] at he
      subst he
      exact absurd (h3.symm.trans k3) (inRange_ne_null hl.idx_inRange)
    | node i1 l1 r1 =>
      obtain ⟨-, -, h3, h4, -, -, hl, hr⟩ := h
      obtain ⟨-, -, k3, k4, -, -, kl, kr⟩ := h1
      simp only [Shape.idx] at he
      subst he
      rw [ihl l1 hl kl (h3.symm.trans k3), ihr r1 hr kr (h4.symm.trans k4)]

/-- The tree below `m_root` has at most one shape. -/
theorem RootRep.shape_eq {t : b2DynamicTree α} {o o1 : Option (Shape α)} (h : t.RootRep o)
    (h1 : t.RootRep o1) : o = o1 := by
  cases o with
  | none =>
    cases o1 with
    | none => rfl
    | some s1 =>
      have hr : t.m_root = b2_nullNode := h
      exact absurd (h1.1.symm.trans hr) (inRange_ne_null h1.2.idx_inRange)
  | some s =>
    cases o1 with
    | none =>
      have hr : t.m_root = b2_nullNode := h1
      exact absurd (h.1.symm.trans hr) (inRange_ne_null h.2.idx_inRange)
    | some s1 => rw [Rep.shape_unique s s1 h.2 h1.2 (h.1.symm.trans h1.1)]

/-- C11 (amended). Let the nodes below `m_root` form a tree with pairwise distinct indices
that satisfies I1–I5 (`RootRep`), and let `i` be a slot index that is a node of this tree or a
slot of height `-1` (a free slot as `FreeNode` and the constructor leave it).  Then
`Shuffle(i)` returns and keeps I1–I5 with the same nodes; it writes no slot outside the tree;
`GetHeight()`, the root, the stored height of `i` and of every node other than the two
children of `i` (so of every ancestor of `i`) are the same before and after, and the tree has
the same leaves with the same boxes and user data.  When every slot outside the tree has
height `-1` and the cursor `m_path` is in range, the same holds for `Rebalance(k)`, for every
`k`. -/
theorem Shuffle_keeps_height {t : b2DynamicTree α} {o : Option (Shape α)}
    (hroot : t.RootRep o) (hnd : (idsOf o).Nodup) {i : Int} (hi : t.InRange i)
    (hfree : i ∈ idsOf o ∨ (t.nd i).height = -1) :
    (∃ t1 o1, t.Shuffle i = some t1 ∧ t1.RootRep o1 ∧ (idsOf o1).Perm (idsOf o) ∧
      (∀ j, j ∉ idsOf o → t1.nd j = t.nd j) ∧
      t1.GetHeight = t.GetHeight ∧ t1.m_root = t.m_root ∧
      (t1.nd i).height = (t.nd i).height ∧
      (∀ j, j ≠ (t.nd i).child1 → j ≠ (t.nd i).child2 →
        (t1.nd j).height = (t.nd j).height) ∧
      (leavesOf o1).Perm (leavesOf o)) ∧
    ((∀ k : Nat, k < t.m_nodes.length → (k : Int) ∈ idsOf o ∨ (t.nd k).height = -1) →
      t.InRange t.m_path → ∀ iterations : Int, ∃ t2 o2, t.Rebalance iterations = some t2 ∧
        t2.RootRep o2 ∧ (idsOf o2).Perm (idsOf o) ∧ (∀ j, j ∉ idsOf o → t2.nd j = t.nd j) ∧
        t2.InRange t2.m_path ∧ t2.GetHeight = t.GetHeight ∧
        (leavesOf o2).Perm (leavesOf o)) := by
  have hlow : (t.nd i).height = -1 → ∃ t1 o1, t.Shuffle i = some t1 ∧ t1.RootRep o1 ∧
      (idsOf o1).Perm (idsOf o) ∧ (∀ j, j ∉ idsOf o → t1.nd j = t.nd j) ∧
      t1.GetHeight = t.GetHeight ∧ t1.m_root = t.m_root ∧
      (t1.nd i).height = (t.nd i).height ∧
      (∀ j, j ≠ (t.nd i).child1 → j ≠ (t.nd i).child2 →
        (t1.nd j).height = (t.nd j).height) ∧ (leavesOf o1).Perm (leavesOf o) := by
    intro hh
    exact ⟨t, o, Shuffle_low t i hi (by rw [hh]; decide), hroot, List.Perm.refl _,
      fun _ _ => rfl, rfl, rfl, rfl, fun _ _ _ => rfl, List.Perm.refl _⟩
  cases o with
  | none =>
    refine ⟨hlow (hfree.resolve_left (by simp [idsOf])), fun _ hp k => ?_⟩
    have hr : t.m_root = b2_nullNode := hroot
    exact ⟨t, none, by unfold Rebalance; rw [if_pos hr], hroot, List.Perm.refl _,
      fun _ _ => rfl, hp, rfl, List.Perm.refl _⟩
  | some s =>
    obtain ⟨hr, hrep⟩ := hroot
    refine ⟨?_, fun hoth hp k => ?_⟩
    · by_cases hm : i ∈ s.ids
      · obtain ⟨t1, s1, hrun, hpost, -, hih, -, hst, -⟩ := Shuffle_tree hr hrep hnd hm
        exact ⟨t1, some s1, hrun, ⟨hpost.root, hpost.rep⟩, hpost.ids, hpost.frame,
          hpost.getHeight hr hrep, by rw [hpost.root, hpost.rootIdx, hr], hih,
          fun j h1 h2 => (hst j h1 h2).1, hpost.leaves⟩
      · exact hlow (hfree.resolve_left hm)
    · obtain ⟨t2, s2, hrun, hpost, hp2⟩ := Rebalance_tree hr hrep hnd (others_int hoth) hp k
      exact ⟨t2, some s2, hrun, ⟨hpost.root, hpost.rep⟩, hpost.ids, hpost.frame, hp2,
        hpost.getHeight hr hrep, hpost.leaves⟩

/-- C17 (amended). In exact arithmetic (any ordered commutative ring, so the rationals), let
the nodes below `m_root` form a tree with pairwise distinct indices that satisfies I1–I5
(`RootRep`), and let `i` be a slot index that is a node of this tree or a slot of height
`-1`.  Then `Shuffle(i)` returns; the stored box of `i` and of every node other than the two
children of `i` (so of every ancestor and of the root) is unchanged, and
`GetTotalArea(m_root)` does not grow; when `Shuffle` regroups the grandchildren (`i` has height
at least 2, both children are internal and `m1` is not the least of `m1`, `m2`, `m3`) it
strictly decreases, by exactly `m1 - min(m2, m3)`.  When every slot outside the tree has
height `-1` and the cursor `m_path` is in range, `Rebalance(k)` does not increase
`GetTotalArea(m_root)` either. -/
theorem Shuffle_total_area {t : b2DynamicTree α} {o : Option (Shape α)}
    (hroot : t.RootRep o) (hnd : (idsOf o).Nodup) {i : Int} (hi : t.InRange i)
    (hfree : i ∈ idsOf o ∨ (t.nd i).height = -1) :
    ∃ A : α, t.GetTotalArea (t.m_nodes.length + 1) t.m_root = some A ∧
    (∃ t1 A1, t.Shuffle i = some t1 ∧
      t1.GetTotalArea (t1.m_nodes.length + 1) t1.m_root = some A1 ∧ A1 ≤ A ∧
      (t1.nd i).aabb = (t.nd i).aabb ∧
      (∀ j, j ≠ (t.nd i).child1 → j ≠ (t.nd i).child2 → (t1.nd j).aabb = (t.nd j).aabb) ∧
      (¬ (t.nd i).height < 2 →
        ¬ ((t.nd (t.nd i).child1).height < 1 ∨ (t.nd (t.nd i).child2).height < 1) →
        ¬ ((shuffleMetrics (t.nd (t.nd (t.nd i).child1).child1).aabb
                (t.nd (t.nd (t.nd i).child1).child2).aabb
                (t.nd (t.nd (t.nd i).child2).child1).aabb
                (t.nd (t.nd (t.nd i).child2).child2).aabb).1 ≤
              (shuffleMetrics (t.nd (t.nd (t.nd i).child1).child1).aabb
                (t.nd (t.nd (t.nd i).child1).child2).aabb
                (t.nd (t.nd (t.nd i).child2).child1).aabb
                (t.nd (t.nd (t.nd i).child2).child2).aabb).2.1 ∧
            (shuffleMetrics (t.nd (t.nd (t.nd i).child1).child1).aabb
                (t.nd (t.nd (t.nd i).child1).child2).aabb
                (t.nd (t.nd (t.nd i).child2).child1).aabb
                (t.nd (t.nd (t.nd i).child2).child2).aabb).1 ≤
              (shuffleMetrics (t.nd (t.nd (t.nd i).child1).child1).aabb
                (t.nd (t.nd (t.nd i).child1).child2).aabb
                (t.nd (t.nd (t.nd i).child2).child1).aabb
                (t.nd (t.nd (t.nd i).child2).child2).aabb).2.2) →
        A1 < A ∧ A1 = A - ((shuffleMetrics (t.nd (t.nd (t.nd i).child1).child1).aabb
                (t.nd (t.nd (t.nd i).child1).child2).aabb
                (t.nd (t.nd (t.nd i).child2).child1).aabb
                (t.nd (t.nd (t.nd i).child2).child2).aabb).1 -
            min (shuffleMetrics (t.nd (t.nd (t.nd i).child1).child1).aabb
                (t.nd (t.nd (t.nd i).child1).child2).aabb
                (t.nd (t.nd (t.nd i).child2).child1).aabb
                (t.nd (t.nd (t.nd i).child2).child2).aabb).2.1
              (shuffleMetrics (t.nd (t.nd (t.nd i).child1).child1).aabb
                (t.nd (t.nd (t.nd i).child1).child2).aabb
                (t.nd (t.nd (t.nd i).child2).child1).aabb
                (t.nd (t.nd (t.nd i).child2).child2).aabb).2.2))) ∧
    ((∀ k : Nat, k < t.m_nodes.length → (k : Int) ∈ idsOf o ∨ (t.nd k).height = -1) →
      t.InRange t.m_path → ∀ iterations : Int, ∃ t2 A2, t.Rebalance iterations = some t2 ∧
        t2.GetTotalArea (t2.m_nodes.length + 1) t2.m_root = some A2 ∧ A2 ≤ A) := by
  cases o with
  | none =>
    have hr : t.m_root = b2_nullNode := hroot
    have hh := hfree.resolve_left (by simp [idsOf])
    have hA : t.GetTotalArea (t.m_nodes.length + 1) t.m_root = some 0 := by
      simp [GetTotalArea, hr]
    refine ⟨0, hA, ⟨t, 0, Shuffle_low t i hi (by rw [hh]; decide), hA, le_refl _, rfl,
      fun _ _ _ => rfl, fun g0 => absurd (by rw [hh]; decide) g0⟩, fun _ _ k => ?_⟩
    exact ⟨t, 0, by unfold Rebalance; rw [if_pos hr], hA, le_refl _⟩
  | some s =>
    obtain ⟨hr, hrep⟩ := hroot
    have hA := GetTotalArea_rep hr hrep hnd
    refine ⟨s.area, hA, ?_, fun hoth hp k => ?_⟩
    · by_cases hm : i ∈ s.ids
      · obtain ⟨t1, s1, hrun, hpost, -, -, hib, hst, hsw⟩ := Shuffle_tree hr hrep hnd hm
        refine ⟨t1, s1.area, hrun, GetTotalArea_rep hpost.root hpost.rep
          (hpost.post_nodup hnd), hpost.area_le, hib, fun j h1 h2 => (hst j h1 h2).2,
          fun g0 g1 gm => ?_⟩
        have := hsw g0 g1 gm
        have hlt := lt_of_not_le (fun hle => gm (le_min_iff.1 hle))
        exact ⟨by linarith, eq_sub_of_add_eq this⟩
      · have hh := hfree.resolve_left hm
        exact ⟨t, s.area, Shuffle_low t i hi (by rw [hh]; decide), hA, le_refl _, rfl,
          fun _ _ _ => rfl, fun g0 => absurd (by rw [hh]; decide) g0⟩
    · obtain ⟨t2, s2, hrun, hpost, -⟩ := Rebalance_tree hr hrep hnd (others_int hoth) hp k
      exact ⟨t2, s2.area, hrun, GetTotalArea_rep hpost.root hpost.rep
        (hpost.post_nodup hnd), hpost.area_le⟩

theorem createAll_fourProxies :
    createAll 1 regroupBoxes new = some (fourProxies, [5, 3, 1, 0]) := by decide

theorem rootRep_fourProxies : fourProxies.RootRep (some fourShape) := ⟨by decide, by decide⟩

theorem rootRep_staleShuffleTree : staleShuffleTree.RootRep (some staleShuffleShape) :=
  ⟨by decide, by decide⟩

theorem rootRep_staleShuffled : staleShuffled.RootRep (some staleShuffledShape) :=
  ⟨by decide, by decide⟩

theorem Shuffle_keeps_height_witness :
    fourProxies.RootRep (some fourShape) ∧ (idsOf (some fourShape)).Nodup ∧
      fourProxies.InRange 4 ∧
      ((4 : Int) ∈ idsOf (some fourShape) ∨ (fourProxies.nd 4).height = -1) ∧
      (fourProxies.Shuffle 4).map (fun t1 => ((t1.nd 2).child1, (t1.nd 2).child2,
        (t1.nd 6).child1, (t1.nd 6).child2)) = some (3, 0, 1, 5) ∧
      (∃ t1 o1, fourProxies.Shuffle 4 = some t1 ∧ t1.RootRep o1 ∧
        (idsOf o1).Perm (idsOf (some fourShape)) ∧
        (∀ j, j ∉ idsOf (some fourShape) → t1.nd j = fourProxies.nd j) ∧
        t1.GetHeight = fourProxies.GetHeight ∧ t1.m_root = fourProxies.m_root ∧
        (t1.nd 4).height = (fourProxies.nd 4).height ∧
        (∀ j, j ≠ (fourProxies.nd 4).child1 → j ≠ (fourProxies.nd 4).child2 →
          (t1.nd j).height = (fourProxies.nd j).height) ∧
        (leavesOf o1).Perm (leavesOf (some fourShape))) ∧
      (∀ iterations : Int, ∃ t2 o2, fourProxies.Rebalance iterations = some t2 ∧
        t2.RootRep o2 ∧ (idsOf o2).Perm (idsOf (some fourShape)) ∧
        (∀ j, j ∉ idsOf (some fourShape) → t2.nd j = fourProxies.nd j) ∧
        t2.InRange t2.m_path ∧ t2.GetHeight = fourProxies.GetHeight ∧
        (leavesOf o2).Perm (leavesOf (some fourShape))) ∧
      (staleShuffleTree.RootRep (some staleShuffleShape) ∧
        (idsOf (some staleShuffleShape)).Nodup ∧ staleShuffleTree.InRange 0 ∧
        ∃ t1 o1, staleShuffleTree.Shuffle 0 = some t1 ∧ t1.RootRep o1 ∧
          (leavesOf o1).Perm (leavesOf (some staleShuffleShape))) :=
  ⟨rootRep_fourProxies, by decide, by decide, Or.inl (by decide), by decide,
    (Shuffle_keeps_height rootRep_fourProxies (by decide) (i := 4) (by decide)
      (Or.inl (by decide))).1,
    (Shuffle_keeps_height rootRep_fourProxies (by decide) (i := 4) (by decide)
      (Or.inl (by decide))).2 (by decide) (by decide),
    rootRep_staleShuffleTree, by decide, by decide,
    (Shuffle_keeps_height rootRep_staleShuffleTree (by decide) (i := 0) (by decide)
      (Or.inl (by decide))).1.elim fun t1 h => h.elim fun o1 h =>
        ⟨t1, o1, h.1, h.2.1, h.2.2.2.2.2.2.2.2⟩⟩

/-- C11 (counterexample). `staleShuffleTree` passes `Validate()` and stores below its root a
tree with distinct nodes that satisfies I1–I5, with the leaves 3, 4, 5, 6; its free slots 7
and 8 have the stale heights 2 and 1.  `Shuffle(7)` takes the node 1 and the free slot 8 for
the children of 7 and swaps the leaf 4 with the free slot 10 (`m2 = 40 < m1 = 48`):
afterwards the tree below the root still satisfies I1–I5, but its leaves are 3, 10, 5, 6, and
the leaf 4 hangs below the free slot 8.  `Rebalance(1)`, with the cursor at 7, does the
same. -/
theorem Shuffle_stale_slot_changes_leaves :
    staleShuffleTree.Validate 12 = some () ∧
      staleShuffleTree.RootRep (some staleShuffleShape) ∧ staleShuffleShape.ids.Nodup ∧
      staleShuffleShape.leafIds = [3, 4, 5, 6] ∧
      staleShuffleTree.InRange 7 ∧ staleShuffleTree.m_path = 7 ∧
      ((staleShuffleTree.nd 7).height, (staleShuffleTree.nd 8).height) = (2, 1) ∧
      staleShuffleTree.Shuffle 7 = some staleShuffled ∧
      staleShuffleTree.Rebalance 1 = some staleShuffled.advancePath ∧
      staleShuffled.RootRep (some staleShuffledShape) ∧
      staleShuffled.advancePath.RootRep (some staleShuffledShape) ∧
      staleShuffledShape.leafIds = [3, 10, 5, 6] ∧
      ((staleShuffled.nd 1).child2, (staleShuffled.nd 4).parent) = (10, 8) ∧
      (∀ o1, staleShuffled.RootRep o1 ∨ staleShuffled.advancePath.RootRep o1 →
        ¬ ((leavesOf o1).map Prod.fst).Perm
          ((leavesOf (some staleShuffleShape)).map Prod.fst)) := by
  have hadv : staleShuffled.advancePath.RootRep (some staleShuffledShape) :=
    ⟨by decide, by decide⟩
  refine ⟨by decide, rootRep_staleShuffleTree, by decide, by decide, by decide, by decide,
    by decide, by decide, by decide, rootRep_staleShuffled, hadv, by decide, by decide, ?_⟩
  intro o1 h1 hperm
  have ho : o1 = some staleShuffledShape := by
    rcases h1 with h1 | h1
    · exact RootRep.shape_eq h1 rootRep_staleShuffled
    · exact RootRep.shape_eq h1 hadv
  subst ho
  have hm : (4 : Int) ∈ (leavesOf (some staleShuffledShape)).map Prod.fst :=
    hperm.mem_iff.2 (by decide)
  exact absurd hm (by decide)

/-- C17 (counterexample). On `staleShuffleTree`, which passes `Validate()` and stores a tree
that satisfies I1–I5, `GetTotalArea(m_root)` is 104.  `Shuffle(7)` at the stale free slot 7
regroups the leaves 3, 4 of the node 1 with the free slots 9, 10 (`(m1, m2, m3) = (48, 40,
48)`): the box of the node 1 grows from `[0,0]-[2,2]` to `[1,1]-[10,10]`, the box of the slot
7 itself changes, and `GetTotalArea(m_root)` rises to 132.  `Rebalance(1)`, with the cursor at
7, does the same. -/
theorem Shuffle_stale_slot_raises_area :
    staleShuffleTree.Validate 12 = some () ∧
      staleShuffleTree.RootRep (some staleShuffleShape) ∧ staleShuffleShape.ids.Nodup ∧
      staleShuffleTree.InRange 7 ∧ staleShuffleTree.m_path = 7 ∧
      shuffleMetrics (staleShuffleTree.nd 3).aabb (staleShuffleTree.nd 4).aabb
        (staleShuffleTree.nd 9).aabb (staleShuffleTree.nd 10).aabb = (48, 40, 48) ∧
      staleShuffleTree.GetTotalArea 12 staleShuffleTree.m_root = some 104 ∧
      (staleShuffleTree.Shuffle 7).bind (fun t1 => t1.GetTotalArea 12 t1.m_root) = some 132 ∧
      (staleShuffleTree.Rebalance 1).bind (fun t1 => t1.GetTotalArea 12 t1.m_root) =
        some 132 ∧
      ((staleShuffleTree.nd 7).aabb, (staleShuffleTree.nd 1).aabb) =
        (⟨⟨0, 0⟩, ⟨0, 0⟩⟩, ⟨⟨0, 0⟩, ⟨2, 2⟩⟩) ∧
      (staleShuffleTree.Shuffle 7).map (fun t1 => ((t1.nd 7).aabb, (t1.nd 1).aabb)) =
        some (⟨⟨0, 0⟩, ⟨10, 10⟩⟩, ⟨⟨1, 1⟩, ⟨10, 10⟩⟩) :=
  ⟨by decide, rootRep_staleShuffleTree, by decide, by decide, by decide, by decide, by decide,
    by decide, by decide, by decide, by decide⟩

theorem Shuffle_total_area_witness :
    fourProxies.RootRep (some fourShape) ∧ (idsOf (some fourShape)).Nodup ∧
      fourProxies.InRange 4 ∧
      ((4 : Int) ∈ idsOf (some fourShape) ∨ (fourProxies.nd 4).height = -1) ∧
      fourProxies.GetTotalArea 17 fourProxies.m_root = some 1296 ∧
      (fourProxies.Shuffle 4).bind (fun t1 => t1.GetTotalArea 17 t1.m_root) = some 1096 ∧
      shuffleMetrics (fourProxies.nd 3).aabb (fourProxies.nd 1).aabb (fourProxies.nd 0).aabb
        (fourProxies.nd 5).aabb = (616, 616, 416) ∧
      ∃ A : ℤ, fourProxies.GetTotalArea (fourProxies.m_nodes.length + 1) fourProxies.m_root
        = some A ∧
      (∃ t1 A1, fourProxies.Shuffle 4 = some t1 ∧
        t1.GetTotalArea (t1.m_nodes.length + 1) t1.m_root = some A1 ∧ A1 ≤ A ∧
        (t1.nd 4).aabb = (fourProxies.nd 4).aabb ∧
        (∀ j, j ≠ (fourProxies.nd 4).child1 → j ≠ (fourProxies.nd 4).child2 →
          (t1.nd j).aabb = (fourProxies.nd j).aabb) ∧
        (¬ (fourProxies.nd 4).height < 2 →
          ¬ ((fourProxies.nd (fourProxies.nd 4).child1).height < 1 ∨
            (fourProxies.nd (fourProxies.nd 4).child2).height < 1) →
          ¬ ((shuffleMetrics
                  (fourProxies.nd (fourProxies.nd (fourProxies.nd 4).child1).child1).aabb
                  (fourProxies.nd (fourProxies.nd (fourProxies.nd 4).child1).child2).aabb
                  (fourProxies.nd (fourProxies.nd (fourProxies.nd 4).child2).child1).aabb
                  (fourProxies.nd (fourProxies.nd (fourProxies.nd 4).child2).child2).aabb).1 ≤
                (shuffleMetrics
                  (fourProxies.nd (fourProxies.nd (fourProxies.nd 4).child1).child1).aabb
                  (fourProxies.nd (fourProxies.nd (fourProxies.nd 4).child1).child2).aabb
                  (fourProxies.nd (fourProxies.nd (fourProxies.nd 4).child2).child1).aabb
                  (fourProxies.nd (fourProxies.nd (fourProxies.nd 4).child2).child2).aabb).2.1 ∧
              (shuffleMetrics
                  (fourProxies.nd (fourProxies.nd (fourProxies.nd 4).child1).child1).aabb
                  (fourProxies.nd (fourProxies.nd (fourProxies.nd 4).child1).child2).aabb
                  (fourProxies.nd (fourProxies.nd (fourProxies.nd 4).child2).child1).aabb
                  (fourProxies.nd (fourProxies.nd (fourProxies.nd 4).child2).child2).aabb).1 ≤
                (shuffleMetrics
                  (fourProxies.nd (fourProxies.nd (fourProxies.nd 4).child1).child1).aabb
                  (fourProxies.nd (fourProxies.nd (fourProxies.nd 4).child1).child2).aabb
                  (fourProxies.nd (fourProxies.nd (fourProxies.nd 4).child2).child1).aabb
                  (fourProxies.nd (fourProxies.nd (fourProxies.nd 4).child2).child2).aabb).2.2) →
          A1 < A ∧ A1 = A - ((shuffleMetrics
                  (fourProxies.nd (fourProxies.nd (fourProxies.nd 4).child1).child1).aabb
                  (fourProxies.nd (fourProxies.nd (fourProxies.nd 4).child1).child2).aabb
                  (fourProxies.nd (fourProxies.nd (fourProxies.nd 4).child2).child1).aabb
                  (fourProxies.nd (fourProxies.nd (fourProxies.nd 4).child2).child2).aabb).1 -
              min (shuffleMetrics
                  (fourProxies.nd (fourProxies.nd (fourProxies.nd 4).child1).child1).aabb
                  (fourProxies.nd (fourProxies.nd (fourProxies.nd 4).child1).child2).aabb
                  (fourProxies.nd (fourProxies.nd (fourProxies.nd 4).child2).child1).aabb
                  (fourProxies.nd (fourProxies.nd (fourProxies.nd 4).child2).child2).aabb).2.1
                (shuffleMetrics
                  (fourProxies.nd (fourProxies.nd (fourProxies.nd 4).child1).child1).aabb
                  (fourProxies.nd (fourProxies.nd (fourProxies.nd 4).child1).child2).aabb
                  (fourProxies.nd (fourProxies.nd (fourProxies.nd 4).child2).child1).aabb
                  (fourProxies.nd (fourProxies.nd (fourProxies.nd 4).child2).child2).aabb).2.2))) ∧
      (∀ iterations : Int, ∃ t2 A2, fourProxies.Rebalance iterations = some t2 ∧
        t2.GetTotalArea (t2.m_nodes.length + 1) t2.m_root = some A2 ∧ A2 ≤ A) :=
  ⟨rootRep_fourProxies, by decide, by decide, Or.inl (by decide), by decide, by decide,
    by decide,
    (Shuffle_total_area rootRep_fourProxies (by decide) (i := 4) (by decide)
      (Or.inl (by decide))).elim fun A h =>
        ⟨A, h.1, h.2.1, h.2.2 (by decide) (by decide)⟩⟩

end b2DynamicTree

end Model

end b2
